import Mathlib

/-!
# Cryptcat: crypto engine, network layer, file transfer, command line and utilities

A shallow embedding of `src/core/crypto_engine.c` (session creation and
disposal, random bytes, record encryption, record verification and
decryption), of `platform_random_bytes` from `src/platform/unix_network.c`, of
the connection set-up and `send_data` in `src/core/network_layer.c`, of the
sending and receiving side of `src/core/file_transfer.c`, of `parse_arguments`
in `src/core/main.c`, of the hexadecimal, Base64, CRC-32 and string helpers in
`src/utils/hex_utils.c` and `src/utils/string_utils.c`, of
`error_handler_is_fatal` in `src/utils/error_handler.c`, of `secure_memcmp` and
the memory pool in `src/utils/memory_utils.c`, and of the configuration store
in `src/utils/config_parser.c`.

Conventions of the embedding:

* a byte buffer is a `List Nat` (every element stands for one `unsigned char`);
* a C pointer argument is an `Option`: `none` is `NULL`;
* a buffer that the C function writes through a pointer is passed in with its
  previous contents and handed back in the result;
* `uint64_t` and `uint32_t` counters are `Nat` with an explicit `% 2^64` or
  `% 2^32` at every increment;
* `time(NULL)`, the outcome of `calloc`, and the bytes delivered by the
  operating system are explicit inputs;
* the OpenSSL functions are not part of the repository; they are the fields of
  `OpenSSL`, one field per library call, and the code is embedded over an
  arbitrary value of that structure; the file transfer takes SHA-256 as a
  function `sha256` from the bytes of a file to its digest;
* the working directory is a function from path to content (`fs_t`), passed in
  and handed back by every function that creates, writes, renames or removes a
  file;
* `send_message` and `send_file_chunk` belong to `protocol.c`, which the
  repository does not contain: their return value is an input, and the calls
  made are recorded in order as a list of `sent_t`;
* a C string argument is the list of bytes that the pointer points to, and
  `cstr` gives its characters, those in front of the first NUL;
* where a function computes the index of a store into a block it allocated, the
  block is a list of fixed length and a store outside it gives `none`: the C
  program has no defined behaviour from there on;
* `getopt_long` is library code: its successive returns and the positional
  arguments left at the end are the inputs of `parse_arguments`;
* a loop that the code may fail to leave takes a bound on its passes, and
  `none` says that it has not ended within the bound;
* a linked list is the list of its nodes, and the memory behind the blocks of
  the pool is a function from block address to bytes.
-/

set_option autoImplicit false

namespace Cryptcat

/-- One buffer of `unsigned char`. -/
abbrev Bytes := List Nat

/-! ## Constants of `crypto_engine.c` -/

def KEY_SIZE : Nat := 32
def IV_SIZE : Nat := 16
def SALT_SIZE : Nat := 32
def HMAC_SIZE : Nat := 32
def PBKDF2_ITERATIONS : Nat := 200000
def MAX_PASSWORD_LEN : Nat := 1024
def BUFFER_SIZE : Nat := 65536

def CRYPTO_SUCCESS : Int := 0
def CRYPTO_ERROR_INVALID_PARAM : Int := -1
def CRYPTO_ERROR_MEMORY : Int := -2
def CRYPTO_ERROR_RANDOM : Int := -3
def CRYPTO_ERROR_ENCRYPT : Int := -4
def CRYPTO_ERROR_DECRYPT : Int := -5
def CRYPTO_ERROR_AUTH : Int := -6
def CRYPTO_ERROR_KEY : Int := -7
def CRYPTO_ERROR_INIT : Int := -8
def CRYPTO_ERROR_VERSION : Int := -9

/-! ## Constants of `platform.h` -/

def PLATFORM_SUCCESS : Int := 0
def PLATFORM_ERROR_IO : Int := -3

/-! ## The OpenSSL interface used by the engine -/

/-- The OpenSSL calls made by `crypto_engine.c`. `Ctx` is the state behind an
`EVP_CIPHER_CTX *`. A call that reports failure (a return value other than 1,
or `NULL` for `HMAC` and `EVP_CIPHER_CTX_new`) is `none`. The update and final
calls give back the advanced context and the bytes they wrote. -/
structure OpenSSL (Ctx : Type) where
  /-- Call `PKCS5_PBKDF2_HMAC_SHA256(password, salt, iterations, keylen)`. -/
  PKCS5_PBKDF2_HMAC_SHA256 : Bytes → Bytes → Nat → Nat → Option Bytes
  /-- Call `EVP_CIPHER_CTX_new()`. -/
  EVP_CIPHER_CTX_new : Option Ctx
  /-- Call `EVP_EncryptInit_ex(ctx, EVP_twofish_cfb128(), NULL, key, iv)`. -/
  EVP_EncryptInit_ex : Ctx → Bytes → Bytes → Option Ctx
  /-- Call `EVP_DecryptInit_ex(ctx, EVP_twofish_cfb128(), NULL, key, iv)`. -/
  EVP_DecryptInit_ex : Ctx → Bytes → Bytes → Option Ctx
  /-- Call `EVP_EncryptUpdate(ctx, out, &outl, in, inl)`. -/
  EVP_EncryptUpdate : Ctx → Bytes → Option (Ctx × Bytes)
  /-- Call `EVP_EncryptFinal_ex(ctx, out, &outl)`. -/
  EVP_EncryptFinal_ex : Ctx → Option (Ctx × Bytes)
  /-- Call `EVP_DecryptUpdate(ctx, out, &outl, in, inl)`. -/
  EVP_DecryptUpdate : Ctx → Bytes → Option (Ctx × Bytes)
  /-- Call `EVP_DecryptFinal_ex(ctx, out, &outl)`. -/
  EVP_DecryptFinal_ex : Ctx → Option (Ctx × Bytes)
  /-- Call `HMAC(EVP_sha256(), key, KEY_SIZE, data, data_len, md, &md_len)`. -/
  HMAC : Bytes → Bytes → Option Bytes

/-! ## Memory helpers -/

/-- Library call `memcpy(dst + off, src, n)`: the buffer `dst` afterwards.
Writing past the end of `dst` is undefined in C; here the list grows instead. -/
def memcpy (dst : Bytes) (off : Nat) (src : Bytes) (n : Nat) : Bytes :=
  dst.take off ++ src.take n ++ dst.drop (off + n)

/-- Library call `CRYPTO_memcmp(a, b, n)` of OpenSSL: 0 when the first `n`
bytes agree, non-zero otherwise. -/
def CRYPTO_memcmp (a b : Bytes) (n : Nat) : Int :=
  if a.take n = b.take n then 0 else 1

/-- Models `htobe64(x)` followed by `memcpy(dst, &seq_be, 8)`: the eight bytes
of the 64-bit value, most significant first. -/
def htobe64 (x : Nat) : Bytes :=
  [x / 2^56 % 256, x / 2^48 % 256, x / 2^40 % 256, x / 2^32 % 256,
   x / 2^24 % 256, x / 2^16 % 256, x / 2^8 % 256, x % 256]

/-- Models `memcpy(&seq_be, src, 8)` followed by `be64toh(seq_be)`: the 64-bit
value whose big-endian bytes are the first eight bytes of `src`. -/
def be64toh (src : Bytes) : Nat :=
  (src.take 8).foldl (fun acc b => acc * 256 + b) 0

/-! ## The session structure -/

/-- Source type `crypto_session_t`. -/
structure crypto_session_t (Ctx : Type) where
  enc_key : Bytes
  hmac_key : Bytes
  iv : Bytes
  encrypt_ctx : Option Ctx
  decrypt_ctx : Option Ctx
  seq_num_send : Nat
  seq_num_recv : Nat
  created_at : Int
  last_activity : Int
  bytes_sent : Nat
  bytes_received : Nat
  is_authenticated : Int
  is_initialized : Int

/-! ## Platform random source (`unix_network.c`) -/

/-- What the operating system does on one `platform_random_bytes` call:
whether `open("/dev/urandom")` gives a descriptor, and what `read` returns
(`none` for -1, otherwise the bytes delivered). -/
structure urandom_t where
  open_ok : Bool
  read_result : Option Bytes

/-- Source function `platform_random_bytes(buffer, length)`: return code and the buffer
afterwards. -/
def platform_random_bytes (os : urandom_t) (buffer : Bytes) (length : Nat) :
    Int × Bytes :=
  if !os.open_ok then ( PLATFORM_ERROR_IO, buffer)
  else
    match os.read_result with
    | none => ( PLATFORM_ERROR_IO, buffer)
    | some data =>
      let got := data.take length
      let buffer' := memcpy buffer 0 got got.length
      (if got.length = length then PLATFORM_SUCCESS else PLATFORM_ERROR_IO, buffer')

/-- Source function `generate_random_bytes`: forwards to the platform. -/
def generate_random_bytes (os : urandom_t) (buffer : Bytes) (length : Nat) :
    Int × Bytes :=
  platform_random_bytes os buffer length

/-! ## Internal helpers of the engine -/

variable {Ctx : Type}

/-- Source function `derive_keys(password, salt, enc_key, hmac_key)`: return code and the two
key buffers afterwards. -/
def derive_keys (O : OpenSSL Ctx) (password : Option Bytes) (salt : Option Bytes)
    (enc_key hmac_key : Bytes) : Int × Bytes × Bytes :=
  match password, salt with
  | some pw, some st =>
    match O.PKCS5_PBKDF2_HMAC_SHA256 pw (st.take SALT_SIZE) PBKDF2_ITERATIONS (KEY_SIZE * 2) with
    | none => (CRYPTO_ERROR_KEY, enc_key, hmac_key)
    | some derived =>
      (CRYPTO_SUCCESS, memcpy enc_key 0 derived KEY_SIZE,
        memcpy hmac_key 0 (derived.drop KEY_SIZE) KEY_SIZE)
  | _, _ => (CRYPTO_ERROR_INVALID_PARAM, enc_key, hmac_key)

/-- Source function `calculate_hmac(data, data_len, hmac_key, hmac)`: return code and the
`hmac` buffer afterwards. `data` is the `data_len` bytes read. -/
def calculate_hmac (O : OpenSSL Ctx) (data : Option Bytes) (hmac_key : Option Bytes)
    (hmac : Option Bytes) : Int × Option Bytes :=
  match data, hmac_key, hmac with
  | some d, some k, some h =>
    match O.HMAC (k.take KEY_SIZE) d with
    | none => (CRYPTO_ERROR_AUTH, some h)
    | some md => (CRYPTO_SUCCESS, some (memcpy h 0 md md.length))
  | _, _, h => (CRYPTO_ERROR_INVALID_PARAM, h)

/-! ## Session creation -/

/-- What the environment does during one `crypto_session_create` call. -/
structure create_env_t where
  /-- whether `calloc` returns a block -/
  calloc_ok : Bool
  /-- contents of the local array `salt` on entry (unspecified in C) -/
  salt_stack : Bytes
  /-- the random source during the call that fills `salt` -/
  os_salt : urandom_t
  /-- the random source during the call that fills `session->iv` -/
  os_iv : urandom_t
  /-- Value of `time(NULL)` -/
  now : Int

/-- The block returned by `calloc(1, sizeof(crypto_session_t))`. -/
def calloc_session : crypto_session_t Ctx :=
  { enc_key := List.replicate KEY_SIZE 0
    hmac_key := List.replicate KEY_SIZE 0
    iv := List.replicate IV_SIZE 0
    encrypt_ctx := none
    decrypt_ctx := none
    seq_num_send := 0
    seq_num_recv := 0
    created_at := 0
    last_activity := 0
    bytes_sent := 0
    bytes_received := 0
    is_authenticated := 0
    is_initialized := 0 }

/-- Source function `crypto_session_create(password)`; `none` is the `NULL` return. The test
`!generate_random_bytes(...)` of the source is true exactly when the call
returned 0. -/
def crypto_session_create (O : OpenSSL Ctx) (env : create_env_t)
    (password : Option Bytes) : Option (crypto_session_t Ctx) :=
  match password with
  | none => none
  | some pw =>
    if pw.length = 0 then none
    else if pw.length > MAX_PASSWORD_LEN then none
    else if !env.calloc_ok then none
    else
      let session : crypto_session_t Ctx := calloc_session
      let r_salt := generate_random_bytes env.os_salt env.salt_stack SALT_SIZE
      if r_salt.1 = 0 then none
      else
        let r_iv := generate_random_bytes env.os_iv session.iv IV_SIZE
        if r_iv.1 = 0 then none
        else
          let session := { session with iv := r_iv.2 }
          match derive_keys O (some pw) (some r_salt.2) session.enc_key session.hmac_key with
          | (rc, enc_key, hmac_key) =>
            if rc ≠ CRYPTO_SUCCESS then none
            else
              let session := { session with enc_key := enc_key, hmac_key := hmac_key }
              match O.EVP_CIPHER_CTX_new with
              | none => none
              | some e0 =>
                match O.EVP_EncryptInit_ex e0 session.enc_key session.iv with
                | none => none
                | some e1 =>
                  match O.EVP_CIPHER_CTX_new with
                  | none => none
                  | some d0 =>
                    match O.EVP_DecryptInit_ex d0 session.enc_key session.iv with
                    | none => none
                    | some d1 =>
                      some { session with
                        encrypt_ctx := some e1
                        decrypt_ctx := some d1
                        seq_num_send := 0
                        seq_num_recv := 0
                        created_at := env.now
                        last_activity := env.now
                        is_authenticated := 1
                        is_initialized := 1 }

/-! ## Encryption -/

/-- What `crypto_encrypt` leaves behind: the return code, the session, the
output buffer `ciphertext` and the cell `*ciphertext_len`. -/
structure encrypt_result_t (Ctx : Type) where
  code : Int
  session : Option (crypto_session_t Ctx)
  ciphertext : Option Bytes
  ciphertext_len : Option Nat

/-- Source function `crypto_encrypt(session, plaintext, plaintext_len, ciphertext,
ciphertext_len)`. `plaintext` holds the `plaintext_len` bytes to encrypt;
`ciphertext` and `ciphertext_len` carry what the output buffer and the length
cell held before the call; `now` is `time(NULL)`. A `NULL` cipher context makes
the update call fail. -/
def crypto_encrypt (O : OpenSSL Ctx) (now : Int)
    (session : Option (crypto_session_t Ctx)) (plaintext : Option Bytes)
    (ciphertext : Option Bytes) (ciphertext_len : Option Nat) :
    encrypt_result_t Ctx :=
  match session with
  | none => ⟨CRYPTO_ERROR_INVALID_PARAM, session, ciphertext, ciphertext_len⟩
  | some s =>
    if s.is_initialized = 0 ∨ s.is_authenticated = 0 then
      ⟨CRYPTO_ERROR_INVALID_PARAM, session, ciphertext, ciphertext_len⟩
    else
      match plaintext, ciphertext, ciphertext_len with
      | some pt, some buf, some len0 =>
        if pt.length = 0 then
          ⟨CRYPTO_ERROR_INVALID_PARAM, session, ciphertext, ciphertext_len⟩
        else if pt.length > BUFFER_SIZE then
          ⟨CRYPTO_ERROR_INVALID_PARAM, session, ciphertext, ciphertext_len⟩
        else
          match s.encrypt_ctx.bind (fun c => O.EVP_EncryptUpdate c pt) with
          | none => ⟨CRYPTO_ERROR_ENCRYPT, some s, some buf, some len0⟩
          | some (c1, out1) =>
            match O.EVP_EncryptFinal_ex c1 with
            | none =>
              ⟨CRYPTO_ERROR_ENCRYPT, some { s with encrypt_ctx := some c1 }, some buf, some len0⟩
            | some (c2, out2) =>
              let encrypted_data := out1 ++ out2
              let out_len := encrypted_data.length
              let buf1 := memcpy buf 0 (htobe64 s.seq_num_send) 8
              let buf2 := memcpy buf1 8 encrypted_data out_len
              match calculate_hmac O (some (buf2.take (8 + out_len))) (some s.hmac_key)
                  (some (List.replicate HMAC_SIZE 0)) with
              | (rc, hmac) =>
                if rc ≠ CRYPTO_SUCCESS then
                  ⟨CRYPTO_ERROR_AUTH, some { s with encrypt_ctx := some c2 }, some buf2, some len0⟩
                else
                  let buf3 := memcpy buf2 (8 + out_len) (hmac.getD []) HMAC_SIZE
                  let len := 8 + out_len + HMAC_SIZE
                  ⟨CRYPTO_SUCCESS,
                    some { s with
                      encrypt_ctx := some c2
                      seq_num_send := (s.seq_num_send + 1) % 2^64
                      bytes_sent := (s.bytes_sent + len) % 2^32
                      last_activity := now },
                    some buf3, some len⟩
      | _, _, _ => ⟨CRYPTO_ERROR_INVALID_PARAM, session, ciphertext, ciphertext_len⟩

/-- The record a caller reads after `crypto_encrypt`: the first
`*ciphertext_len` bytes of the output buffer. -/
def encrypt_result_t.record (r : encrypt_result_t Ctx) : Bytes :=
  (r.ciphertext.getD []).take (r.ciphertext_len.getD 0)

/-! ## Decryption -/

/-- What `crypto_decrypt` leaves behind: the return code, the session, the
output buffer `plaintext` and the cell `*plaintext_len`. -/
structure decrypt_result_t (Ctx : Type) where
  code : Int
  session : Option (crypto_session_t Ctx)
  plaintext : Option Bytes
  plaintext_len : Option Nat

/-- Source function `crypto_decrypt(session, ciphertext, ciphertext_len, plaintext,
plaintext_len)`. `ciphertext` holds the `ciphertext_len` bytes of the record;
`plaintext` and `plaintext_len` carry what the output buffer and the length
cell held before the call; `now` is `time(NULL)`. A `NULL` cipher context makes
the update call fail. -/
def crypto_decrypt (O : OpenSSL Ctx) (now : Int)
    (session : Option (crypto_session_t Ctx)) (ciphertext : Option Bytes)
    (plaintext : Option Bytes) (plaintext_len : Option Nat) :
    decrypt_result_t Ctx :=
  match session with
  | none => ⟨CRYPTO_ERROR_INVALID_PARAM, session, plaintext, plaintext_len⟩
  | some s =>
    if s.is_initialized = 0 ∨ s.is_authenticated = 0 then
      ⟨CRYPTO_ERROR_INVALID_PARAM, session, plaintext, plaintext_len⟩
    else
      match ciphertext, plaintext, plaintext_len with
      | some ct, some buf, some len0 =>
        if ct.length = 0 then
          ⟨CRYPTO_ERROR_INVALID_PARAM, session, plaintext, plaintext_len⟩
        else if ct.length < 8 + 1 + HMAC_SIZE then
          ⟨CRYPTO_ERROR_INVALID_PARAM, session, plaintext, plaintext_len⟩
        else
          let seq_received := be64toh ct
          if seq_received ≤ s.seq_num_recv then
            ⟨CRYPTO_ERROR_AUTH, session, plaintext, plaintext_len⟩
          else
            let encrypted_len := ct.length - 8 - HMAC_SIZE
            match calculate_hmac O (some (ct.take (ct.length - HMAC_SIZE))) (some s.hmac_key)
                (some (List.replicate HMAC_SIZE 0)) with
            | (rc, calculated_hmac) =>
              if rc ≠ CRYPTO_SUCCESS then
                ⟨CRYPTO_ERROR_AUTH, session, plaintext, plaintext_len⟩
              else if CRYPTO_memcmp (calculated_hmac.getD [])
                  (ct.drop (ct.length - HMAC_SIZE)) HMAC_SIZE ≠ 0 then
                ⟨CRYPTO_ERROR_AUTH, session, plaintext, plaintext_len⟩
              else
                let encrypted_data := (ct.drop 8).take encrypted_len
                match s.decrypt_ctx.bind (fun c => O.EVP_DecryptUpdate c encrypted_data) with
                | none => ⟨CRYPTO_ERROR_DECRYPT, some s, some buf, some len0⟩
                | some (c1, out1) =>
                  let buf1 := memcpy buf 0 out1 out1.length
                  match O.EVP_DecryptFinal_ex c1 with
                  | none =>
                    ⟨CRYPTO_ERROR_DECRYPT, some { s with decrypt_ctx := some c1 },
                      some buf1, some len0⟩
                  | some (c2, out2) =>
                    let buf2 := memcpy buf1 out1.length out2 out2.length
                    let out_len := out1.length + out2.length
                    ⟨CRYPTO_SUCCESS,
                      some { s with
                        decrypt_ctx := some c2
                        seq_num_recv := seq_received
                        bytes_received := (s.bytes_received + ct.length) % 2^32
                        last_activity := now },
                      some buf2, some out_len⟩
      | _, _, _ => ⟨CRYPTO_ERROR_INVALID_PARAM, session, plaintext, plaintext_len⟩

/-- The plaintext a caller reads after `crypto_decrypt`: the first
`*plaintext_len` bytes of the output buffer. -/
def decrypt_result_t.message (r : decrypt_result_t Ctx) : Bytes :=
  (r.plaintext.getD []).take (r.plaintext_len.getD 0)

/-! ## Connections (`network_layer.c`) -/

def NETWORK_SUCCESS : Int := 0
def NETWORK_ERROR_PARAM : Int := -1
def NETWORK_ERROR_CRYPTO : Int := -12
def NETWORK_ERROR_STATE : Int := -13

/-- Source type `connection_state_t`. -/
inductive connection_state_t where
  | STATE_DISCONNECTED
  | STATE_CONNECTING
  | STATE_CONNECTED
  | STATE_AUTHENTICATING
  | STATE_READY
  | STATE_CLOSING
  | STATE_ERROR
deriving DecidableEq, Repr

open connection_state_t

/-- Source type `connection_t`. The fields `addr`, `addr_len` and `user_data`, which none of
the embedded functions reads, are left out. -/
structure connection_t (Ctx : Type) where
  sockfd : Int
  state : connection_state_t
  crypto : Option (crypto_session_t Ctx)
  remote_host : Bytes
  remote_port : Int
  connected_at : Int
  last_activity : Int
  bytes_sent : Nat
  bytes_received : Nat
  packets_sent : Nat
  packets_received : Nat
  is_listening : Int
  is_encrypted : Int
  password : Option Bytes

/-- The block returned by `calloc(1, sizeof(connection_t))`. -/
def calloc_connection : connection_t Ctx :=
  { sockfd := 0
    state := STATE_DISCONNECTED
    crypto := none
    remote_host := []
    remote_port := 0
    connected_at := 0
    last_activity := 0
    bytes_sent := 0
    bytes_received := 0
    packets_sent := 0
    packets_received := 0
    is_listening := 0
    is_encrypted := 0
    password := none }

/-- What the environment does during one `connect_to_host` call: the return
values of `resolve_hostname`, `create_socket`, `set_socket_options` and
`connect_with_retry`, the outcome of `calloc`, `time(NULL)`, and the
environment of the nested `crypto_session_create`. -/
structure connect_env_t where
  resolve_hostname : Int
  create_socket : Int
  set_socket_options : Int
  connect_with_retry : Int
  calloc_ok : Bool
  now : Int
  crypto : create_env_t

/-- Source function `connect_to_host(host, port, password)`; `none` is the `NULL` return. -/
def connect_to_host (O : OpenSSL Ctx) (env : connect_env_t) (host : Option Bytes)
    (port : Int) (password : Option Bytes) : Option (connection_t Ctx) :=
  match host with
  | none => none
  | some h =>
    if port ≤ 0 ∨ port > 65535 then none
    else if env.resolve_hostname ≠ NETWORK_SUCCESS then none
    else if env.create_socket < 0 then none
    else if env.set_socket_options ≠ NETWORK_SUCCESS then none
    else if env.connect_with_retry < 0 then none
    else if !env.calloc_ok then none
    else
      let conn : connection_t Ctx :=
        { (calloc_connection : connection_t Ctx) with
          sockfd := env.connect_with_retry
          state := STATE_CONNECTED
          connected_at := env.now
          last_activity := env.now
          remote_port := port
          remote_host := h.take 255 }
      match password with
      | none => some conn
      | some pw =>
        if pw.length > 0 then
          match crypto_session_create O env.crypto (some pw) with
          | none => none
          | some session =>
            some { conn with
              password := some pw
              is_encrypted := 1
              crypto := some session
              state := STATE_AUTHENTICATING }
        else some conn

/-- What the environment does during one `accept_connection` call: the return
values of `accept` and `set_socket_options`, the peer address as text and its
port, the outcome of `calloc`, `time(NULL)`, and the environment of the nested
`crypto_session_create`. -/
structure accept_env_t where
  client_fd : Int
  set_socket_options : Int
  ip_str : Bytes
  peer_port : Int
  calloc_ok : Bool
  now : Int
  crypto : create_env_t

/-- Source function `accept_connection(listener)`; `none` is the `NULL` return. -/
def accept_connection (O : OpenSSL Ctx) (env : accept_env_t)
    (listener : Option (connection_t Ctx)) : Option (connection_t Ctx) :=
  match listener with
  | none => none
  | some l =>
    if l.is_listening = 0 then none
    else if env.client_fd < 0 then none
    else if env.set_socket_options ≠ NETWORK_SUCCESS then none
    else if !env.calloc_ok then none
    else
      let client : connection_t Ctx :=
        { (calloc_connection : connection_t Ctx) with
          sockfd := env.client_fd
          state := STATE_CONNECTED
          connected_at := env.now
          last_activity := env.now
          remote_host := env.ip_str.take 255
          remote_port := env.peer_port }
      match l.password with
      | none => some client
      | some pw =>
        if l.is_encrypted ≠ 0 then
          match crypto_session_create O env.crypto (some pw) with
          | none => none
          | some session =>
            some { client with
              password := some pw
              is_encrypted := 1
              crypto := some session
              state := STATE_AUTHENTICATING }
        else some client

/-! ## CFB-128 instances of the OpenSSL interface

CFB-128 chaining as in OpenSSL's `CRYPTO_cfb128_encrypt`, over an arbitrary
block function and an arbitrary keyed digest. The instance `sampleOpenSSL`
fixes small stand-ins for both and is used to evaluate the embedded code on
concrete inputs. -/

/-- State of a CFB-128 cipher context: key, feedback register, position in
the register. -/
structure cfb_ctx_t where
  key : Bytes
  iv : Bytes
  num : Nat
deriving DecidableEq, Repr

/-- One byte of CFB-128 encryption over the block function `E`. -/
def cfb128_encrypt_byte (E : Bytes → Bytes → Bytes) (c : cfb_ctx_t) (p : Nat) :
    cfb_ctx_t × Nat :=
  let iv := if c.num = 0 then E c.key c.iv else c.iv
  let ct := iv.getD c.num 0 ^^^ p
  ({ c with iv := iv.set c.num ct, num := (c.num + 1) % 16 }, ct)

/-- One byte of CFB-128 decryption over the block function `E`. -/
def cfb128_decrypt_byte (E : Bytes → Bytes → Bytes) (c : cfb_ctx_t) (ct : Nat) :
    cfb_ctx_t × Nat :=
  let iv := if c.num = 0 then E c.key c.iv else c.iv
  let p := iv.getD c.num 0 ^^^ ct
  ({ c with iv := iv.set c.num ct, num := (c.num + 1) % 16 }, p)

/-- CFB-128 encryption of a byte string. -/
def cfb128_encrypt (E : Bytes → Bytes → Bytes) : cfb_ctx_t → Bytes → cfb_ctx_t × Bytes
  | c, [] => (c, [])
  | c, p :: ps =>
    let r := cfb128_encrypt_byte E c p
    let rest := cfb128_encrypt E r.1 ps
    (rest.1, r.2 :: rest.2)

/-- CFB-128 decryption of a byte string. -/
def cfb128_decrypt (E : Bytes → Bytes → Bytes) : cfb_ctx_t → Bytes → cfb_ctx_t × Bytes
  | c, [] => (c, [])
  | c, x :: xs =>
    let r := cfb128_decrypt_byte E c x
    let rest := cfb128_decrypt E r.1 xs
    (rest.1, r.2 :: rest.2)

/-- The instance of the interface built from a block function `E` and a keyed
digest `D` (key, data, output length): CFB-128 over `E`, `D` for the tag and
for key derivation, no call ever failing. -/
def cfbOpenSSL (E : Bytes → Bytes → Bytes) (D : Bytes → Bytes → Nat → Bytes) :
    OpenSSL cfb_ctx_t :=
  { PKCS5_PBKDF2_HMAC_SHA256 := fun pw salt _ keylen => some (D pw salt keylen)
    EVP_CIPHER_CTX_new := some ⟨[], [], 0⟩
    EVP_EncryptInit_ex := fun _ key iv => some ⟨key, iv, 0⟩
    EVP_DecryptInit_ex := fun _ key iv => some ⟨key, iv, 0⟩
    EVP_EncryptUpdate := fun c pt => some (cfb128_encrypt E c pt)
    EVP_EncryptFinal_ex := fun c => some (c, [])
    EVP_DecryptUpdate := fun c ct => some (cfb128_decrypt E c ct)
    EVP_DecryptFinal_ex := fun c => some (c, [])
    HMAC := fun key data => some (D key data 32) }

/-- Stand-in block function (in place of Twofish). -/
def sample_block (key block : Bytes) : Bytes :=
  List.zipWith (fun b i => (5 * b + key.sum + 7 * i + 3) % 256) block (List.range 16)

/-- Stand-in keyed checksum of `n` bytes (in place of HMAC-SHA-256 and of
PBKDF2). -/
def sample_digest (key data : Bytes) (n : Nat) : Bytes :=
  (List.range n).map (fun i => (key.sum + data.sum + i) % 256)

/-- The concrete instance. -/
def sampleOpenSSL : OpenSSL cfb_ctx_t := cfbOpenSSL sample_block sample_digest

/-- An environment in which both reads of the random source come back one
byte short, so that `platform_random_bytes` returns `PLATFORM_ERROR_IO`. -/
def sample_env (salt_byte iv_byte : Nat) : create_env_t :=
  { calloc_ok := true
    salt_stack := List.replicate 32 0
    os_salt := ⟨true, some (List.replicate 31 salt_byte)⟩
    os_iv := ⟨true, some (List.replicate 15 iv_byte)⟩
    now := 1000 }

/-- An output buffer of 128 zero bytes. -/
def sample_buffer : Bytes := List.replicate 128 0

/-- A session of the concrete instance with given counters, initialised and
authenticated, its two cipher contexts at the start of the stream. -/
def sample_session (send recv : Nat) : crypto_session_t cfb_ctx_t :=
  { enc_key := List.replicate 32 1
    hmac_key := List.replicate 32 2
    iv := List.replicate 16 3
    encrypt_ctx := some ⟨List.replicate 32 1, List.replicate 16 3, 0⟩
    decrypt_ctx := some ⟨List.replicate 32 1, List.replicate 16 3, 0⟩
    seq_num_send := send
    seq_num_recv := recv
    created_at := 1000
    last_activity := 1000
    bytes_sent := 0
    bytes_received := 0
    is_authenticated := 1
    is_initialized := 1 }

/-- An environment in which every system call of `connect_to_host` succeeds
and the nested session creation runs in `sample_env 1 2`. -/
def sample_connect_env : connect_env_t :=
  { resolve_hostname := 0
    create_socket := 3
    set_socket_options := 0
    connect_with_retry := 4
    calloc_ok := true
    now := 1000
    crypto := sample_env 1 2 }

/-- An environment in which every system call of `accept_connection` succeeds
and the nested session creation runs in `sample_env 3 4`. -/
def sample_accept_env : accept_env_t :=
  { client_fd := 5
    set_socket_options := 0
    ip_str := [49, 50, 55, 46, 48, 46, 48, 46, 49]
    peer_port := 50000
    calloc_ok := true
    now := 1000
    crypto := sample_env 3 4 }

/-- A listener as `create_listener` leaves it when given a password. -/
def sample_listener : connection_t cfb_ctx_t :=
  { (calloc_connection : connection_t cfb_ctx_t) with
    sockfd := 3
    state := STATE_READY
    is_listening := 1
    remote_port := 4444
    connected_at := 1000
    last_activity := 1000
    password := some [112, 119]
    is_encrypted := 1
    remote_host := [48, 46, 48, 46, 48, 46, 48] }

/-- The session that `crypto_session_create` returns for the passphrase
112, 119 in `sample_env 1 2`. -/
def sample_created : crypto_session_t cfb_ctx_t :=
  (crypto_session_create sampleOpenSSL (sample_env 1 2) (some [112, 119])).get (by decide)

/-! ## Facts about the library that the theorems name as hypotheses -/

/-- HMAC-SHA-256 writes a tag of `HMAC_SIZE` bytes. -/
def TagLength (O : OpenSSL Ctx) : Prop :=
  ∀ k d md, O.HMAC k d = some md → md.length = HMAC_SIZE

/-- CFB is a stream mode: the update call writes as many bytes as it reads and
the final call writes none. -/
def StreamLength (O : OpenSSL Ctx) : Prop :=
  (∀ c pt c' out, O.EVP_EncryptUpdate c pt = some (c', out) → out.length = pt.length) ∧
  (∀ c c' out, O.EVP_EncryptFinal_ex c = some (c', out) → out = [])

/-! ## Definitions used in the statements -/

/-- One record of the concrete instance: the first record of a session whose
send counter stands at 1, carrying the two bytes 72, 105. -/
def sample_record : Bytes :=
  (crypto_encrypt sampleOpenSSL 5 (some (sample_session 1 0)) (some [72, 105])
    (some sample_buffer) (some 0)).record

/-- The local array `hmac` after `calculate_hmac` has written the tag `md`
into it. -/
def hmac_array (md : Bytes) : Bytes :=
  memcpy (List.replicate HMAC_SIZE 0) 0 md md.length

/-- The byte string `r` with one bit inverted: bit `i % 8` of byte `i / 8`. -/
def flip_bit (r : Bytes) (i : Nat) : Bytes :=
  r.set (i / 8) (r.getD (i / 8) 0 ^^^ 2 ^ (i % 8))

/-- The decrypt context `d` is in step with the encrypt context `e` on the
plaintext `m`: whatever the encrypt calls on `e` write for `m`, the decrypt
calls on `d` accept those bytes and write `m` back. -/
def InStep (O : OpenSSL Ctx) (e d : Option Ctx) (m : Bytes) : Prop :=
  ∀ c c1 out1 c2 out2, e = some c → O.EVP_EncryptUpdate c m = some (c1, out1) →
    O.EVP_EncryptFinal_ex c1 = some (c2, out2) →
    ∃ d0 d1 p1 d2 p2, d = some d0 ∧
      O.EVP_DecryptUpdate d0 (out1 ++ out2) = some (d1, p1) ∧
      O.EVP_DecryptFinal_ex d1 = some (d2, p2) ∧ p1 ++ p2 = m

/-- The connection that `connect_to_host` returns in the sample environment. -/
def sample_connection : connection_t cfb_ctx_t :=
  (connect_to_host sampleOpenSSL sample_connect_env (some [104]) 4444 (some [112, 119])).get
    (by decide)

/-! ## Random bytes and session disposal (`crypto_engine.c`) -/

/-- Source function `crypto_random_bytes(buffer, length)`: return code and the
buffer afterwards. `rand_bytes` is what OpenSSL's `RAND_bytes(buffer, length)`
does: `none` when it does not return 1, otherwise the bytes it delivers; `os`
is the random source behind the platform fallback. -/
def crypto_random_bytes (rand_bytes : Option Bytes) (os : urandom_t)
    (buffer : Option Bytes) (length : Nat) : Int × Option Bytes :=
  match buffer with
  | none => (CRYPTO_ERROR_INVALID_PARAM, none)
  | some buf =>
    if length = 0 then (CRYPTO_ERROR_INVALID_PARAM, some buf)
    else
      match rand_bytes with
      | none =>
        let r := generate_random_bytes os buf length
        (r.1, some r.2)
      | some data => (CRYPTO_SUCCESS, some (memcpy buf 0 data length))

/-- What `crypto_session_destroy` leaves behind: the cipher contexts it handed
to `EVP_CIPHER_CTX_free`, and the contents of the session structure at the
moment it is handed to `free` (`none` when the argument was `NULL` and nothing
was done). -/
structure destroy_result_t (Ctx : Type) where
  freed_ctx : List Ctx
  block : Option (crypto_session_t Ctx)

/-- The effect of `memset(session, 0, sizeof(crypto_session_t))`: every byte of
the structure is zero, whatever it held before. -/
def memset_session (_s : crypto_session_t Ctx) : crypto_session_t Ctx :=
  { enc_key := List.replicate KEY_SIZE 0
    hmac_key := List.replicate KEY_SIZE 0
    iv := List.replicate IV_SIZE 0
    encrypt_ctx := none
    decrypt_ctx := none
    seq_num_send := 0
    seq_num_recv := 0
    created_at := 0
    last_activity := 0
    bytes_sent := 0
    bytes_received := 0
    is_authenticated := 0
    is_initialized := 0 }

/-- Source function `crypto_session_destroy(session)`. -/
def crypto_session_destroy (session : Option (crypto_session_t Ctx)) :
    destroy_result_t Ctx :=
  match session with
  | none => ⟨[], none⟩
  | some s =>
    let freed1 := match s.encrypt_ctx with
      | some c => [c]
      | none => []
    let s1 := { s with encrypt_ctx := none }
    let freed2 := match s1.decrypt_ctx with
      | some c => [c]
      | none => []
    let s2 := { s1 with decrypt_ctx := none }
    let s3 := { s2 with enc_key := List.replicate KEY_SIZE 0 }
    let s4 := { s3 with hmac_key := List.replicate KEY_SIZE 0 }
    let s5 := { s4 with iv := List.replicate IV_SIZE 0 }
    let s6 := memset_session s5
    ⟨freed1 ++ freed2, some s6⟩

/-- An environment in which both reads of the random source deliver every byte
asked for, so that `platform_random_bytes` returns `PLATFORM_SUCCESS`. -/
def working_env : create_env_t :=
  { calloc_ok := true
    salt_stack := List.replicate 32 0
    os_salt := ⟨true, some (List.replicate 32 7)⟩
    os_iv := ⟨true, some (List.replicate 16 9)⟩
    now := 1000 }

/-- The passphrase of the unit tests, `TestPassword123!`. -/
def test_password : Bytes :=
  [84, 101, 115, 116, 80, 97, 115, 115, 119, 111, 114, 100, 49, 50, 51, 33]

/-! ## File transfer (`file_transfer.c`)

The protocol layer (`send_message`, `send_file_chunk`) and the C library calls
on files are inputs of the embedding: each function takes a record saying what
those calls return, and hands back the list of sends it made. On the receiving
side the working directory is an explicit map from path to content that the
functions read and update. SHA-256 is a parameter `sha256`. -/

def DEFAULT_CHUNK_SIZE : Nat := 16384
def MAX_CHUNK_SIZE : Nat := 65536
def MAX_FILENAME_LEN : Nat := 512
def TRANSFER_TIMEOUT : Int := 30
def SHA256_DIGEST_LENGTH : Nat := 32

def FILE_TRANSFER_SUCCESS : Int := 0
def FILE_TRANSFER_IN_PROGRESS : Int := 1
def FILE_TRANSFER_ERROR_PARAM : Int := -1
def FILE_TRANSFER_ERROR_STATE : Int := -2
def FILE_TRANSFER_ERROR_IO : Int := -3
def FILE_TRANSFER_ERROR_NETWORK : Int := -4
def FILE_TRANSFER_ERROR_SIZE : Int := -5
def FILE_TRANSFER_ERROR_ORDER : Int := -6
def FILE_TRANSFER_ERROR_VERIFY : Int := -7
def FILE_TRANSFER_ERROR_TIMEOUT : Int := -8
def FILE_TRANSFER_CANCELLED : Int := -9

def PROTOCOL_SUCCESS : Int := 0
def MSG_FILE_START : Nat := 0x20
def MSG_FILE_CHUNK : Nat := 0x21
def MSG_FILE_END : Nat := 0x22

/-- Source type `transfer_state_t`. -/
inductive transfer_state_t where
  | TRANSFER_IDLE
  | TRANSFER_PREPARING
  | TRANSFER_SENDING
  | TRANSFER_RECEIVING
  | TRANSFER_COMPLETE
  | TRANSFER_ERROR
  | TRANSFER_CANCELLED
deriving DecidableEq, Repr

open transfer_state_t

/-- An open stdio stream (`FILE *`): either a stream opened with `"rb"`, given
by the bytes it has still to deliver, or a stream opened with `"wb"`, given by
the path it writes to. -/
inductive FILE where
  | reader (rest : Bytes)
  | writer (path : Bytes)
deriving DecidableEq, Repr

/-- Source type `file_transfer_t`. The fields `conn` (only handed on to the send
calls) and `user_data` (never read) are left out. -/
structure file_transfer_t where
  state : transfer_state_t
  filename : Bytes
  file : Option FILE
  file_size : Nat
  bytes_transferred : Nat
  chunks_sent : Nat
  chunks_received : Nat
  start_time : Int
  last_activity : Int
  checksum : Bytes
deriving DecidableEq, Repr

/-- One call into the protocol layer: `send_message(conn, type, payload,
payload_len)` or `send_file_chunk(conn, chunk_data, chunk_size,
chunk_number)`. -/
inductive sent_t where
  | message (type : Nat) (payload : Bytes)
  | file_chunk (chunk_data : Bytes) (chunk_number : Nat)
deriving DecidableEq, Repr

/-- The working directory: the content of each path that names a file. -/
abbrev fs_t := Bytes → Option Bytes

/-- The directory after `path` has been given the content `content`. -/
def fs_write (fs : fs_t) (path content : Bytes) : fs_t :=
  fun p => if p = path then some content else fs p

/-- The directory after `remove(path)`. -/
def fs_remove (fs : fs_t) (path : Bytes) : fs_t :=
  fun p => if p = path then none else fs p

/-- The text `.part`. -/
def part_suffix : Bytes := [46, 112, 97, 114, 116]

/-- Models `snprintf(buf, size, "%s.part", name)`: the text left in `buf`, cut to
`size - 1` characters. -/
def snprintf_part (size : Nat) (name : Bytes) : Bytes :=
  (name ++ part_suffix).take (size - 1)

/-- Source function `calculate_file_checksum(filename, checksum)`: return code
and the `checksum` buffer afterwards. `file` is what `fopen(filename, "rb")`
gives: `none` for `NULL`, otherwise the content that the read loop feeds to
SHA-256. -/
def calculate_file_checksum (sha256 : Bytes → Bytes) (file : Option Bytes)
    (checksum : Option Bytes) : Int × Option Bytes :=
  match file, checksum with
  | some content, some _ => (0, some (sha256 content))
  | _, c => (-1, c)

/-! ### Text helpers of the C library -/

/-- Library call `isspace(c)` in the C locale. -/
def isspace (c : Nat) : Bool := c == 32 || (9 ≤ c && c ≤ 13)

/-- Library call `isdigit(c)`. -/
def isdigit (c : Nat) : Bool := 48 ≤ c && c ≤ 57

/-- The value of `c` as a hexadecimal digit, if it is one. -/
def hex_value (c : Nat) : Option Nat :=
  if 48 ≤ c ∧ c ≤ 57 then some (c - 48)
  else if 97 ≤ c ∧ c ≤ 102 then some (c - 87)
  else if 65 ≤ c ∧ c ≤ 70 then some (c - 55)
  else none

/-- Library call `strtoull(s, NULL, 10)`: white space, an optional sign, then
decimal digits; `ULLONG_MAX` on overflow; a minus sign negates modulo 2^64. -/
def strtoull (s : Bytes) : Nat :=
  let s1 := s.dropWhile isspace
  let neg := s1.head? == some 45
  let s2 := if s1.head? == some 45 || s1.head? == some 43 then s1.drop 1 else s1
  let v := (s2.takeWhile isdigit).foldl (fun acc d => acc * 10 + (d - 48)) 0
  if v ≥ 2^64 then 2^64 - 1
  else if neg then (2^64 - v) % 2^64
  else v

/-- Library call `strtol(s, NULL, 16)`: white space, an optional sign, an
optional `0x` or `0X` in front of a hexadecimal digit, then hexadecimal digits;
clamped to the range of `long`. -/
def strtol16 (s : Bytes) : Int :=
  let s1 := s.dropWhile isspace
  let neg := s1.head? == some 45
  let s2 := if s1.head? == some 45 || s1.head? == some 43 then s1.drop 1 else s1
  let s3 :=
    match s2 with
    | 48 :: x :: d :: rest =>
      if (x == 120 || x == 88) && (hex_value d).isSome then d :: rest else s2
    | _ => s2
  let v := (s3.takeWhile (fun c => (hex_value c).isSome)).foldl
    (fun acc c => acc * 16 + (hex_value c).getD 0) 0
  if neg then (if v > 2^63 then -(2^63 : Int) else -(v : Int))
  else (if v > 2^63 - 1 then (2^63 - 1 : Int) else (v : Int))

/-- Library call `strtok_r(s, "|", &saveptr)` on the text `s` that is still to
be scanned: `none` when no token is left, otherwise the token and the text
after the delimiter that ended it. -/
def strtok_r (s : Bytes) : Option (Bytes × Bytes) :=
  let s1 := s.dropWhile (fun c => c == 124)
  if s1 = [] then none
  else some (s1.takeWhile (fun c => c != 124), (s1.dropWhile (fun c => c != 124)).drop 1)

/-- The decimal digits of `n`, most significant first, at most `fuel + 1` of
them. -/
def decimal_aux : Nat → Nat → Bytes → Bytes
  | 0, n, acc => (48 + n % 10) :: acc
  | fuel + 1, n, acc =>
    if n < 10 then (48 + n) :: acc
    else decimal_aux fuel (n / 10) ((48 + n % 10) :: acc)

/-- Models the conversion `%lu` of `printf` applied to `(unsigned long)n`. -/
def decimal (n : Nat) : Bytes := decimal_aux 19 (n % 2^64) []

/-- The lower-case hexadecimal digit for a value below 16. -/
def hex_digit (v : Nat) : Nat := if v < 10 then 48 + v else 87 + v

/-- Models the conversion `%02x` of `printf` applied to one `unsigned char`. -/
def hex2 (b : Nat) : Bytes := [hex_digit (b % 256 / 16), hex_digit (b % 16)]

/-! ### Sending -/

/-- What `stat(filename, &file_stat)` reports about the file. -/
structure stat_t where
  /-- `S_ISREG(file_stat.st_mode)` -/
  is_regular : Bool
  /-- `file_stat.st_size` -/
  st_size : Nat
deriving DecidableEq, Repr

/-- What the environment does during one `start_file_send` call. -/
structure send_start_env_t where
  /-- result of `stat`: `none` when it returns a negative value -/
  stat : Option stat_t
  /-- result of `fopen(filename, "rb")`: `none` for `NULL`, otherwise the bytes
  the stream will deliver -/
  fopen : Option Bytes
  /-- whether `calloc` returns a block -/
  calloc_ok : Bool
  /-- `time(NULL)` -/
  now : Int
  /-- result of the `fopen` inside `calculate_file_checksum`: `none` for `NULL`,
  otherwise the content it reads -/
  checksum_fopen : Option Bytes
  /-- return value of `send_message` -/
  send_result : Int

/-- What `start_file_send` leaves behind: the transfer it returns (`none` for
`NULL`) and the sends it made. -/
structure send_start_result_t where
  transfer : Option file_transfer_t
  sent : List sent_t

/-- The text that the `snprintf` calls of `start_file_send` print:
`filename|filesize|checksum`, the checksum as 64 hexadecimal digits. What
reaches the array `start_data` and the peer is `format_start_data`. -/
def file_start_payload (filename : Bytes) (file_size : Nat) (checksum : Bytes) : Bytes :=
  filename ++ [124] ++ decimal file_size ++ [124] ++
    ((List.range SHA256_DIGEST_LENGTH).map (fun i => hex2 (checksum.getD i 0))).flatten

/-- One call `snprintf(start_data + written, sizeof(start_data) - written, ...)`
of `start_file_send` that prints `text`: the array afterwards and the new value
of `written`, which grows by the length of the whole text whether it fits or
not. The size is computed in `size_t`. With `written` at the end of the array
the size is 0 and nothing is stored; `none` when `written` is past the end,
where the call stores outside the array. -/
def snprintf_at (start_data : Bytes) (written : Nat) (text : Bytes) : Option (Bytes × Nat) :=
  if written > start_data.length then none
  else
    let size := start_data.length - written
    let stored := if size = 0 then [] else text.take (size - 1) ++ [0]
    some (start_data.take written ++ stored ++ start_data.drop (written + stored.length),
      written + text.length)

/-- The loop of `start_file_send` that appends the checksum bytes of the given
indices as two hexadecimal digits each. -/
def start_data_loop (checksum : Bytes) : List Nat → Bytes → Nat → Option (Bytes × Nat)
  | [], start_data, written => some (start_data, written)
  | i :: rest, start_data, written =>
    match snprintf_at start_data written (hex2 (checksum.getD i 0)) with
    | none => none
    | some (start_data1, written1) => start_data_loop checksum rest start_data1 written1

/-- The bytes that `start_file_send` hands to `send_message`: the first
`data_len` bytes of the array `start_data[MAX_FILENAME_LEN + 20]` after the
`snprintf` calls, `data_len` being the sum of their return values. The array
starts with bytes that are never sent when the call stays inside it; they are
taken as 0. `none` when a `snprintf` stores outside the array or `data_len` is
more than the array holds. -/
def format_start_data (filename : Bytes) (file_size : Nat) (checksum : Bytes) : Option Bytes :=
  match snprintf_at (List.replicate (MAX_FILENAME_LEN + 20) 0) 0
      (filename ++ [124] ++ decimal file_size ++ [124]) with
  | none => none
  | some (start_data, written) =>
    match start_data_loop checksum (List.range SHA256_DIGEST_LENGTH) start_data written with
    | none => none
    | some (start_data1, data_len) =>
      if data_len ≤ start_data1.length then some (start_data1.take data_len) else none

/-- Source function `start_file_send(conn, filename)`. The result is `none` when
the call stores or reads outside `start_data`, where the C program has no
defined behaviour. -/
def start_file_send (sha256 : Bytes → Bytes) (env : send_start_env_t)
    (conn : Option (connection_t Ctx)) (filename : Option Bytes) :
    Option send_start_result_t :=
  match conn, filename with
  | some c, some name =>
    if c.state ≠ STATE_READY then some ⟨none, []⟩
    else
      match env.stat with
      | none => some ⟨none, []⟩
      | some file_stat =>
        if !file_stat.is_regular then some ⟨none, []⟩
        else if file_stat.st_size = 0 then some ⟨none, []⟩
        else
          match env.fopen with
          | none => some ⟨none, []⟩
          | some content =>
            if !env.calloc_ok then some ⟨none, []⟩
            else
              let transfer : file_transfer_t :=
                { state := TRANSFER_PREPARING
                  filename := name.take (MAX_FILENAME_LEN - 1)
                  file := some (FILE.reader content)
                  file_size := file_stat.st_size % 2^64
                  bytes_transferred := 0
                  chunks_sent := 0
                  chunks_received := 0
                  start_time := env.now
                  last_activity := env.now
                  checksum := List.replicate SHA256_DIGEST_LENGTH 0 }
              match calculate_file_checksum sha256 env.checksum_fopen (some transfer.checksum) with
              | (rc, checksum) =>
                if rc ≠ 0 then some ⟨none, []⟩
                else
                  let transfer := { transfer with checksum := checksum.getD [] }
                  match format_start_data name transfer.file_size transfer.checksum with
                  | none => none
                  | some start_data =>
                    let sent := [sent_t.message MSG_FILE_START start_data]
                    if env.send_result ≠ PROTOCOL_SUCCESS then some ⟨none, sent⟩
                    else some ⟨some { transfer with state := TRANSFER_SENDING }, sent⟩
  | _, _ => some ⟨none, []⟩

/-- What the environment does during one `process_file_transfer` call. -/
structure process_env_t where
  /-- `time(NULL)` at the timeout check -/
  now : Int
  /-- whether `fread` fails (delivers nothing, with the error flag set) -/
  fread_error : Bool
  /-- return value of the `send_message` or `send_file_chunk` call, if one is
  made -/
  send_result : Int
  /-- `time(NULL)` after a chunk has been sent -/
  now_sent : Int

/-- What `process_file_transfer` leaves behind: the return code, the transfer
and the sends it made. -/
structure process_result_t where
  code : Int
  transfer : Option file_transfer_t
  sent : List sent_t
deriving DecidableEq, Repr

/-- Source function `send_file_chunk_internal(transfer)`. The result is `none`
when the C function does not return: at end of file with bytes still owed it
calls itself on an unchanged transfer, without end. -/
def send_file_chunk_internal (env : process_env_t) (transfer : Option file_transfer_t) :
    Option process_result_t :=
  match transfer with
  | none => some ⟨FILE_TRANSFER_ERROR_PARAM, none, []⟩
  | some t =>
    match t.file with
    | none => some ⟨FILE_TRANSFER_ERROR_PARAM, some t, []⟩
    | some file =>
      if t.bytes_transferred ≥ t.file_size then
        let sent := [sent_t.message MSG_FILE_END (t.checksum.take SHA256_DIGEST_LENGTH)]
        if env.send_result ≠ PROTOCOL_SUCCESS then
          some ⟨FILE_TRANSFER_ERROR_NETWORK, some { t with state := TRANSFER_ERROR }, sent⟩
        else
          some ⟨FILE_TRANSFER_SUCCESS,
            some { t with file := none, state := TRANSFER_COMPLETE }, sent⟩
      else
        match file with
        | FILE.writer _ =>
          some ⟨ FILE_TRANSFER_ERROR_IO, some { t with state := TRANSFER_ERROR }, []⟩
        | FILE.reader rest =>
          if env.fread_error then
            some ⟨ FILE_TRANSFER_ERROR_IO, some { t with state := TRANSFER_ERROR }, []⟩
          else
            let chunk_data := rest.take DEFAULT_CHUNK_SIZE
            let bytes_read := chunk_data.length
            if bytes_read = 0 then none
            else
              let t1 := { t with file := some (FILE.reader (rest.drop DEFAULT_CHUNK_SIZE)) }
              let chunk_num := t1.chunks_sent
              let sent := [sent_t.file_chunk chunk_data chunk_num]
              if env.send_result ≠ PROTOCOL_SUCCESS then
                some ⟨FILE_TRANSFER_ERROR_NETWORK, some { t1 with state := TRANSFER_ERROR }, sent⟩
              else
                some ⟨FILE_TRANSFER_IN_PROGRESS,
                  some { t1 with
                    bytes_transferred := (t1.bytes_transferred + bytes_read) % 2^64
                    chunks_sent := (t1.chunks_sent + 1) % 2^32
                    last_activity := env.now_sent },
                  sent⟩

/-- Source function `process_file_transfer(transfer)`; `none` when the call does
not return. -/
def process_file_transfer (env : process_env_t) (transfer : Option file_transfer_t) :
    Option process_result_t :=
  match transfer with
  | none => some ⟨FILE_TRANSFER_ERROR_PARAM, none, []⟩
  | some t =>
    if env.now - t.last_activity > TRANSFER_TIMEOUT then
      some ⟨FILE_TRANSFER_ERROR_TIMEOUT, some { t with state := TRANSFER_ERROR }, []⟩
    else
      match t.state with
      | TRANSFER_SENDING => send_file_chunk_internal env (some t)
      | TRANSFER_RECEIVING => some ⟨FILE_TRANSFER_IN_PROGRESS, some t, []⟩
      | TRANSFER_COMPLETE => some ⟨FILE_TRANSFER_SUCCESS, some t, []⟩
      | TRANSFER_ERROR => some ⟨ FILE_TRANSFER_ERROR_IO, some t, []⟩
      | TRANSFER_CANCELLED => some ⟨FILE_TRANSFER_CANCELLED, some t, []⟩
      | _ => some ⟨FILE_TRANSFER_ERROR_STATE, some t, []⟩

/-! ### Receiving -/

/-- What the environment does during one `start_file_receive` call. -/
structure recv_start_env_t where
  /-- whether `fopen(output_filename, "wb")` returns a stream -/
  fopen_ok : Bool
  /-- whether `calloc` returns a block -/
  calloc_ok : Bool
  /-- `time(NULL)` -/
  now : Int

/-- What `start_file_receive` leaves behind: the transfer it returns (`none` for
`NULL`) and the working directory. -/
structure recv_start_result_t where
  transfer : Option file_transfer_t
  fs : fs_t

/-- The 32 bytes that `start_file_receive` reads out of the 64 characters of
`checksum_str`: byte `i` is `strtol` of characters `2i` and `2i + 1` in base
16, stored into an `unsigned char`. -/
def parse_checksum (checksum_str : Bytes) : Bytes :=
  (List.range SHA256_DIGEST_LENGTH).map (fun i =>
    (strtol16 ((checksum_str.drop (i * 2)).take 2) % 256).toNat)

/-- Source function `start_file_receive(conn, file_info, info_len)`;
`file_info` holds the `info_len` bytes of the payload. -/
def start_file_receive (env : recv_start_env_t) (fs : fs_t)
    (conn : Option (connection_t Ctx)) (file_info : Option Bytes) : recv_start_result_t :=
  match conn, file_info with
  | some _, some info =>
    if info.length = 0 then ⟨none, fs⟩
    else if info.length ≥ MAX_FILENAME_LEN + 100 then ⟨none, fs⟩
    else
      let info_str := info.takeWhile (fun c => c != 0)
      match strtok_r info_str with
      | none => ⟨none, fs⟩
      | some (filename, save1) =>
        match strtok_r save1 with
        | none => ⟨none, fs⟩
        | some (filesize_str, save2) =>
          match strtok_r save2 with
          | none => ⟨none, fs⟩
          | some (checksum_str, _) =>
            let file_size := strtoull filesize_str
            if file_size = 0 then ⟨none, fs⟩
            else if checksum_str.length ≠ SHA256_DIGEST_LENGTH * 2 then ⟨none, fs⟩
            else
              let expected_checksum := parse_checksum checksum_str
              let output_filename := snprintf_part (MAX_FILENAME_LEN + 10) filename
              if !env.fopen_ok then ⟨none, fs⟩
              else
                let fs1 := fs_write fs output_filename []
                if !env.calloc_ok then ⟨none, fs1⟩
                else
                  ⟨some
                    { state := TRANSFER_RECEIVING
                      filename := filename.take (MAX_FILENAME_LEN - 1)
                      file := some (FILE.writer output_filename)
                      file_size := file_size
                      bytes_transferred := 0
                      chunks_sent := 0
                      chunks_received := 0
                      start_time := env.now
                      last_activity := env.now
                      checksum := expected_checksum },
                   fs1⟩
  | _, _ => ⟨none, fs⟩

/-- What the environment does during one `receive_file_chunk` call. -/
structure recv_env_t where
  /-- the number of bytes `fwrite` manages to write (it never writes more than
  it is given) -/
  fwrite_limit : Nat
  /-- return value of `rename` when the file to rename exists -/
  rename_result : Int
  /-- `time(NULL)` -/
  now : Int

/-- What `receive_file_chunk` leaves behind: the return code, the transfer and
the working directory. -/
structure recv_result_t where
  code : Int
  transfer : Option file_transfer_t
  fs : fs_t

/-- Library call `fwrite(data, 1, size, file)`: the number of bytes written and
the working directory afterwards. A stream opened for reading takes nothing. -/
def fwrite (env : recv_env_t) (fs : fs_t) (data : Bytes) (file : FILE) : Nat × fs_t :=
  match file with
  | FILE.reader _ => (0, fs)
  | FILE.writer path =>
    let n := min env.fwrite_limit data.length
    (n, fs_write fs path ((fs path).getD [] ++ data.take n))

/-- Library call `rename(old, new)`: return value and the working directory
afterwards. -/
def rename (env : recv_env_t) (fs : fs_t) (old new : Bytes) : Int × fs_t :=
  match fs old with
  | none => (-1, fs)
  | some content =>
    if env.rename_result ≠ 0 then (env.rename_result, fs)
    else (0, fs_write (fs_remove fs old) new content)

/-- Source function `receive_file_chunk_internal(transfer, chunk_data,
chunk_size, chunk_num)`; `chunk_data` holds the `chunk_size` bytes of the
chunk. -/
def receive_file_chunk_internal (sha256 : Bytes → Bytes) (env : recv_env_t) (fs : fs_t)
    (transfer : Option file_transfer_t) (chunk_data : Option Bytes) (chunk_num : Nat) :
    recv_result_t :=
  match transfer, chunk_data with
  | some t, some chunk =>
    match t.file with
    | none => ⟨FILE_TRANSFER_ERROR_PARAM, transfer, fs⟩
    | some file =>
      let chunk_size := chunk.length
      if chunk_num ≠ t.chunks_received then ⟨FILE_TRANSFER_ERROR_ORDER, transfer, fs⟩
      else if (t.bytes_transferred + chunk_size) % 2^64 > t.file_size then
        ⟨FILE_TRANSFER_ERROR_SIZE, some { t with state := TRANSFER_ERROR }, fs⟩
      else
        let w := fwrite env fs chunk file
        let bytes_written := w.1
        let fs1 := w.2
        if bytes_written ≠ chunk_size then
          ⟨ FILE_TRANSFER_ERROR_IO, some { t with state := TRANSFER_ERROR }, fs1⟩
        else
          let t1 := { t with
            bytes_transferred := (t.bytes_transferred + bytes_written) % 2^64
            chunks_received := (t.chunks_received + 1) % 2^32
            last_activity := env.now }
          if t1.bytes_transferred ≥ t1.file_size then
            let t2 := { t1 with file := none }
            let final_filename := snprintf_part MAX_FILENAME_LEN t2.filename
            match calculate_file_checksum sha256 (fs1 final_filename)
                (some (List.replicate SHA256_DIGEST_LENGTH 0)) with
            | (rc, actual_checksum) =>
              if rc ≠ 0 then
                ⟨FILE_TRANSFER_ERROR_VERIFY, some { t2 with state := TRANSFER_ERROR }, fs1⟩
              else if (actual_checksum.getD []).take SHA256_DIGEST_LENGTH ≠
                  t2.checksum.take SHA256_DIGEST_LENGTH then
                ⟨FILE_TRANSFER_ERROR_VERIFY, some { t2 with state := TRANSFER_ERROR }, fs1⟩
              else
                let r := rename env fs1 final_filename t2.filename
                if r.1 ≠ 0 then
                  ⟨ FILE_TRANSFER_ERROR_IO, some { t2 with state := TRANSFER_ERROR }, r.2⟩
                else
                  ⟨FILE_TRANSFER_SUCCESS, some { t2 with state := TRANSFER_COMPLETE }, r.2⟩
          else ⟨FILE_TRANSFER_IN_PROGRESS, some t1, fs1⟩
  | _, _ => ⟨FILE_TRANSFER_ERROR_PARAM, transfer, fs⟩

/-- Source function `receive_file_chunk(transfer, chunk_data, chunk_size,
chunk_num)`. -/
def receive_file_chunk (sha256 : Bytes → Bytes) (env : recv_env_t) (fs : fs_t)
    (transfer : Option file_transfer_t) (chunk_data : Option Bytes) (chunk_num : Nat) :
    recv_result_t :=
  receive_file_chunk_internal sha256 env fs transfer chunk_data chunk_num

/-- Source function `cancel_file_transfer(transfer)`: return code, the transfer
and the working directory afterwards. -/
def cancel_file_transfer (fs : fs_t) (transfer : Option file_transfer_t) : recv_result_t :=
  match transfer with
  | none => ⟨FILE_TRANSFER_ERROR_PARAM, none, fs⟩
  | some t =>
    let t1 := { t with file := none }
    let fs1 :=
      if t1.state = TRANSFER_RECEIVING then
        fs_remove fs (snprintf_part (MAX_FILENAME_LEN + 10) t1.filename)
      else fs
    ⟨FILE_TRANSFER_SUCCESS, some { t1 with state := TRANSFER_CANCELLED }, fs1⟩

/-- The transfer after `receive_file_chunk_internal` has counted a chunk of
`n` bytes at time `now`. -/
def count_chunk (t : file_transfer_t) (n : Nat) (now : Int) : file_transfer_t :=
  { t with
    bytes_transferred := (t.bytes_transferred + n) % 2^64
    chunks_received := (t.chunks_received + 1) % 2^32
    last_activity := now }

/-! ### Sample values for file transfer -/

/-- Stand-in for SHA-256 in the examples: 32 bytes computed from the sum of the
content. -/
def sample_sha256 (content : Bytes) : Bytes := sample_digest [] content 32

/-- The payload of a FileStart message announcing the file `f` of 5 bytes with
the stand-in hash of the bytes 1, 2, 3, 4, 5. -/
def sample_file_info : Bytes := file_start_payload [102] 5 (sample_sha256 [1, 2, 3, 4, 5])

/-- An environment in which `fopen` and `calloc` succeed. -/
def sample_recv_start_env : recv_start_env_t :=
  { fopen_ok := true
    calloc_ok := true
    now := 1000 }

/-- An environment in which `fwrite` writes all it is given and `rename`
succeeds. -/
def sample_recv_env : recv_env_t :=
  { fwrite_limit := 65536
    rename_result := 0
    now := 1001 }

/-- A working directory without files. -/
def empty_fs : fs_t := fun _ => none

/-- The receiving transfer, and the working directory, as `start_file_receive`
leaves them on `sample_file_info`. -/
def sample_receiving : recv_start_result_t :=
  start_file_receive sample_recv_start_env empty_fs (some sample_listener)
    (some sample_file_info)

/-- The transfer of `sample_receiving`. -/
def sample_transfer : file_transfer_t := sample_receiving.transfer.get (by decide)

/-- The name `f.part`. -/
def sample_part_name : Bytes := [102, 46, 112, 97, 114, 116]

/-- The outcome of offering `sample_transfer` a first and last chunk of 5 bytes
whose hash is not the announced one. -/
def sample_corrupted : recv_result_t :=
  receive_file_chunk sample_sha256 sample_recv_env sample_receiving.fs
    (some sample_transfer) (some [9, 9, 9, 9, 9]) 0

/-! ### Runs of the receiving side -/

/-- One `receive_file_chunk` call: what the environment does during it, and its
arguments. -/
structure recv_call_t where
  env : recv_env_t
  chunk_data : Option Bytes
  chunk_num : Nat

/-- The calls `receive_file_chunk(transfer, ...)` of the list made one after the
other on the same transfer: the transfer and the working directory at the
end. -/
def receive_calls (sha256 : Bytes → Bytes) :
    List recv_call_t → Option file_transfer_t → fs_t → Option file_transfer_t × fs_t
  | [], transfer, fs => (transfer, fs)
  | c :: cs, transfer, fs =>
    let r := receive_file_chunk sha256 c.env fs transfer c.chunk_data c.chunk_num
    receive_calls sha256 cs r.transfer r.fs

/-- Whether a `receive_file_chunk` call accepted its chunk, that is, wrote it
and counted it: `chunks_received` differs between the transfer before and
after. -/
def chunk_counted (before after : Option file_transfer_t) : Bool :=
  before.map (fun t => t.chunks_received) != after.map (fun t => t.chunks_received)

/-- The total size of the chunks that the calls of `receive_calls` accepted. -/
def accepted_bytes (sha256 : Bytes → Bytes) :
    List recv_call_t → Option file_transfer_t → fs_t → Nat
  | [], _, _ => 0
  | c :: cs, transfer, fs =>
    let r := receive_file_chunk sha256 c.env fs transfer c.chunk_data c.chunk_num
    (if chunk_counted transfer r.transfer then (c.chunk_data.getD []).length else 0) +
      accepted_bytes sha256 cs r.transfer r.fs

/-- The total size of the chunks that the calls offer. -/
def offered_bytes (calls : List recv_call_t) : Nat :=
  (calls.map (fun c => (c.chunk_data.getD []).length)).sum

/-- Two calls on `sample_transfer`: chunk 0 of three bytes, then chunk 1 of one
byte. -/
def sample_calls : List recv_call_t :=
  [⟨sample_recv_env, some [1, 2, 3], 0⟩, ⟨sample_recv_env, some [4], 1⟩]

/-- The transfer after `sample_calls`. -/
def sample_after_calls : file_transfer_t :=
  (receive_calls sample_sha256 sample_calls sample_receiving.transfer sample_receiving.fs).1.get
    (by decide)

/-- The outcome of offering `sample_transfer` the announced five bytes as chunk
0. -/
def sample_completed : recv_result_t :=
  receive_file_chunk sample_sha256 sample_recv_env sample_receiving.fs
    (some sample_transfer) (some [1, 2, 3, 4, 5]) 0

/-- The payload of a FileEnd message that a peer sends after the chunk of
`sample_completed`: 32 zero bytes. -/
def sample_file_end : Bytes := List.replicate SHA256_DIGEST_LENGTH 0

/-- A completed transfer has its file closed and, stored under its final name,
bytes whose hash agrees with its `checksum` field on the
`SHA256_DIGEST_LENGTH` bytes that `memcmp` compares. -/
def Stored (sha256 : Bytes → Bytes) (t : file_transfer_t) (fs : fs_t) : Prop :=
  t.state = TRANSFER_COMPLETE →
    t.file = none ∧
    ∃ content, fs t.filename = some content ∧
      (sha256 content).take SHA256_DIGEST_LENGTH = t.checksum.take SHA256_DIGEST_LENGTH

/-- One call on `sample_transfer`: the announced five bytes as chunk 0. -/
def sample_full_calls : List recv_call_t := [⟨sample_recv_env, some [1, 2, 3, 4, 5], 0⟩]

/-- The transfer after `sample_full_calls`. -/
def sample_complete_transfer : file_transfer_t :=
  (receive_calls sample_sha256 sample_full_calls (some sample_transfer)
    sample_receiving.fs).1.get (by decide)

/-! ### Runs of the sending side -/

/-- What a sequence of `process_file_transfer` calls leaves behind: the return
codes and the sends made, in order, and the transfer at the end. -/
structure process_run_t where
  codes : List Int
  sent : List sent_t
  transfer : Option file_transfer_t
deriving DecidableEq, Repr

/-- The calls `process_file_transfer(transfer)` made one after the other on the
same transfer, one for each environment of the list; `none` when one of them
does not return. -/
def process_calls : List process_env_t → Option file_transfer_t → Option process_run_t
  | [], transfer => some ⟨[], [], transfer⟩
  | env :: envs, transfer =>
    match process_file_transfer env transfer with
    | none => none
    | some r =>
      match process_calls envs r.transfer with
      | none => none
      | some run => some ⟨r.code :: run.codes, r.sent ++ run.sent, run.transfer⟩

/-- Whether every call of a sequence that sends one chunk per call starts no
more than `TRANSFER_TIMEOUT` seconds after the activity before it: the first
after `last`, each later one after the `time(NULL)` that followed the send of
the call before. -/
def timely : Int → List process_env_t → Bool
  | _, [] => true
  | last, env :: envs => decide (env.now - last ≤ TRANSFER_TIMEOUT) && timely env.now_sent envs

/-- Whether in every call of the sequence `fread` works and the send
succeeds. -/
def sends_succeed (envs : List process_env_t) : Bool :=
  envs.all (fun env => !env.fread_error && decide (env.send_result = PROTOCOL_SUCCESS))

/-- The number of chunks of a file of `length` bytes: `length / 16384`, rounded
up. -/
def chunk_count (length : Nat) : Nat := (length + DEFAULT_CHUNK_SIZE - 1) / DEFAULT_CHUNK_SIZE

/-- The FileChunk sends numbered `first`, ..., `first + count - 1` of a file
with the given content: chunk `i` carries the bytes from offset `16384 * i`, at
most 16384 of them, under the number `i` as a `uint32_t`. -/
def file_chunks (content : Bytes) (first count : Nat) : List sent_t :=
  (List.range' first count).map (fun i =>
    sent_t.file_chunk ((content.drop (i * DEFAULT_CHUNK_SIZE)).take DEFAULT_CHUNK_SIZE)
      (i % 2^32))

/-- A file of 16385 bytes: one full chunk and one byte more. -/
def sample_content : Bytes := List.replicate 16385 7

/-- An environment in which `start_file_send` finds `sample_content` under the
name it is given, at time 1000, and everything succeeds. -/
def sample_send_env : send_start_env_t :=
  { stat := some ⟨true, 16385⟩
    fopen := some sample_content
    calloc_ok := true
    now := 1000
    checksum_fopen := some sample_content
    send_result := 0 }

/-- An environment in which a `process_file_transfer` call starts and ends at
time `now`, and `fread` and the send succeed. -/
def sample_process_env (now : Int) : process_env_t :=
  { now := now
    fread_error := false
    send_result := 0
    now_sent := now }

/-- The transfer that `start_file_send` returns for `sample_content` under the
name `f`, taken to `TRANSFER_ERROR` by a first `process_file_transfer` call
made 31 seconds after the start. -/
def sample_timed_out : Option process_result_t :=
  process_file_transfer (sample_process_env 1031)
    ((start_file_send sample_sha256 sample_send_env (some sample_listener) (some [102])).bind
      (fun r => r.transfer))

/-! ## Sending data (`network_layer.c`) -/

def NETWORK_ERROR_IO : Int := -8
def NETWORK_ERROR_CLOSED : Int := -9

/-- Values of `errno` on Linux. -/
def EINTR : Int := 4
def EAGAIN : Int := 11
def EWOULDBLOCK : Int := 11

/-- What one `send(sockfd, ...)` call does: its return value and, when that is
negative, `errno`. -/
structure send_call_t where
  ret : Int
  errno : Int
deriving DecidableEq, Repr

/-- What the environment does during one `send_data` call. -/
structure send_env_t where
  /-- `time(NULL)` inside `crypto_encrypt` -/
  now_encrypt : Int
  /-- what the array `encrypted` on the stack holds before it is written -/
  stack : Nat → Nat
  /-- what the variable `encrypted_len` holds before it is written -/
  encrypted_len : Nat
  /-- the `send` calls, in order -/
  sends : List send_call_t
  /-- `time(NULL)` inside `update_connection_stats` -/
  now : Int

/-- How the `while (total_sent < len)` loop of `send_data` ends. -/
inductive send_end_t where
  /-- everything was sent -/
  | done
  /-- `send` failed with an `errno` other than `EAGAIN`, `EWOULDBLOCK`, `EINTR` -/
  | failed
  /-- `send` returned 0 -/
  | closed
deriving DecidableEq, Repr

/-- The loop `while (total_sent < len)` of `send_data`, started with
`total_sent = total`: how it ends and `total_sent` at that point. The result is
`none` when the loop is still running after the last `send` call the
environment describes. -/
def send_loop (len : Nat) : List send_call_t → Nat → Option (send_end_t × Nat)
  | [], total => if total < len then none else some (send_end_t.done, total)
  | c :: cs, total =>
    if total < len then
      if c.ret < 0 then
        if c.errno = EAGAIN ∨ c.errno = EWOULDBLOCK then send_loop len cs total
        else if c.errno = EINTR then send_loop len cs total
        else some (send_end_t.failed, total)
      else if c.ret = 0 then some (send_end_t.closed, total)
      else send_loop len cs ((total + c.ret.toNat) % 2^64)
    else some (send_end_t.done, total)

/-- Source function `update_connection_stats(conn, is_send, bytes)` for a
non-`NULL` connection. -/
def update_connection_stats (now : Int) (conn : connection_t Ctx) (is_send : Int)
    (bytes : Nat) : connection_t Ctx :=
  if is_send ≠ 0 then
    { conn with
      last_activity := now
      bytes_sent := (conn.bytes_sent + bytes) % 2^64
      packets_sent := (conn.packets_sent + 1) % 2^32 }
  else
    { conn with
      last_activity := now
      bytes_received := (conn.bytes_received + bytes) % 2^64
      packets_received := (conn.packets_received + 1) % 2^32 }

/-- The conversion of a `size_t` to the `int` that `send_data` returns. -/
def size_to_int (n : Nat) : Int := ((n + 2^31) % 2^32 : Nat) - 2^31

/-- What `send_data` leaves behind: the return code, the connection, and the
number of bytes that the `send` calls took. -/
structure send_result_t (Ctx : Type) where
  code : Int
  conn : Option (connection_t Ctx)
  total_sent : Nat

/-- Source function `send_data(conn, data, len)`; `data` holds the `len` bytes
to send. The result is `none` when the send loop does not end within the `send`
calls that the environment describes. -/
def send_data (O : OpenSSL Ctx) (env : send_env_t) (conn : Option (connection_t Ctx))
    (data : Option Bytes) (len : Nat) : Option (send_result_t Ctx) :=
  match conn with
  | none => some ⟨NETWORK_ERROR_STATE, none, 0⟩
  | some c =>
    if c.state ≠ STATE_READY then some ⟨NETWORK_ERROR_STATE, some c, 0⟩
    else
      match data with
      | none => some ⟨NETWORK_ERROR_PARAM, some c, 0⟩
      | some d =>
        if len = 0 then some ⟨NETWORK_ERROR_PARAM, some c, 0⟩
        else
          let finish (c1 : connection_t Ctx) (len1 : Nat) : Option (send_result_t Ctx) :=
            match send_loop len1 env.sends 0 with
            | none => none
            | some (send_end_t.failed, total) =>
              some ⟨ NETWORK_ERROR_IO, some { c1 with state := STATE_ERROR }, total⟩
            | some (send_end_t.closed, total) =>
              some ⟨NETWORK_ERROR_CLOSED, some { c1 with state := STATE_CLOSING }, total⟩
            | some (send_end_t.done, total) =>
              some ⟨size_to_int total, some (update_connection_stats env.now c1 1 total), total⟩
          if c.is_encrypted ≠ 0 ∧ c.crypto.isSome then
            let r := crypto_encrypt O env.now_encrypt c.crypto (some (d.take len))
              (some ((List.range (len + 64)).map env.stack)) (some env.encrypted_len)
            if r.code ≠ CRYPTO_SUCCESS then
              some ⟨NETWORK_ERROR_CRYPTO, some { c with crypto := r.session }, 0⟩
            else finish { c with crypto := r.session } (r.ciphertext_len.getD 0)
          else finish c len

/-- The connection that `connect_to_host` returns in `sample_connect_env` when
no password is given. -/
def sample_plain_connection : connection_t cfb_ctx_t :=
  (connect_to_host sampleOpenSSL sample_connect_env (some [104]) 4444 none).get (by decide)

/-- An environment in which the socket takes all the bytes in one `send`. -/
def sample_send_data_env (n : Int) : send_env_t :=
  { now_encrypt := 1001
    stack := fun _ => 0
    encrypted_len := 0
    sends := [⟨n, 0⟩]
    now := 1001 }

/-- The text `Hello from client!` of `test_data_transmission`. -/
def hello_from_client : Bytes :=
  [72, 101, 108, 108, 111, 32, 102, 114, 111, 109, 32, 99, 108, 105, 101, 110, 116, 33]

/-! ## Command line (`main.c`) -/

def DEFAULT_PORT : Int := 4444

/-- Source type `app_mode_t`. -/
inductive app_mode_t where
  | MODE_NONE
  | MODE_CONNECT
  | MODE_LISTEN
  | MODE_FILE_SEND
  | MODE_FILE_RECEIVE
  | MODE_CHAT
  | MODE_P2P
  | MODE_SHELL
  | MODE_PORT_FORWARD
deriving DecidableEq, Repr

open app_mode_t

/-- Library call `strtol(s, NULL, 10)`: white space, an optional sign, then
decimal digits; clamped to the range of `long`. -/
def strtol10 (s : Bytes) : Int :=
  let s1 := s.dropWhile isspace
  let neg := s1.head? == some 45
  let s2 := if s1.head? == some 45 || s1.head? == some 43 then s1.drop 1 else s1
  let v : Nat := (s2.takeWhile isdigit).foldl (fun acc d => acc * 10 + (d - 48)) 0
  if neg then (if v > 2^63 then -(2^63 : Int) else -(v : Int))
  else (if v > 2^63 - 1 then (2^63 - 1 : Int) else (v : Int))

/-- Library call `atoi(s)`: `strtol(s, NULL, 10)` converted to `int`. -/
def atoi (s : Bytes) : Int := (strtol10 s + (2 : Int)^31) % (2 : Int)^32 - (2 : Int)^31

/-- The cells that `parse_arguments` writes through its pointer arguments
`mode`, `host`, `port`, `password`, `filename`, `p2p_port` and
`bootstrap_node`. -/
structure arguments_t where
  mode : app_mode_t
  host : Option Bytes
  port : Int
  password : Option Bytes
  filename : Option Bytes
  p2p_port : Int
  bootstrap_node : Option Bytes
deriving DecidableEq, Repr

/-- One return of `getopt_long` other than -1: the value returned and
`optarg`. -/
structure getopt_t where
  opt : Int
  optarg : Bytes
deriving DecidableEq, Repr

/-- Library call `strdup(s)`; `ok` tells whether the allocation succeeds. -/
def strdup (ok : Bool) (s : Bytes) : Option Bytes := if ok then some s else none

/-- How one pass through the `switch (opt)` of `parse_arguments` ends. -/
inductive switch_end_t where
  /-- `break`: the loop goes on, with the cells as given -/
  | next (a : arguments_t)
  /-- `return -1`, with the cells as given -/
  | fail (a : arguments_t)
  /-- `exit(0)` -/
  | exit
deriving DecidableEq, Repr

/-- The `switch (opt)` of `parse_arguments` for one return `g` of `getopt_long`.
The calls of `log_set_level` are left out. -/
def parse_option (strdup_ok : Bool) (g : getopt_t) (a : arguments_t) : switch_end_t :=
  if g.opt = 108 then switch_end_t.next { a with mode := MODE_LISTEN }
  else if g.opt = 112 then
    let a1 : arguments_t := { a with port := atoi g.optarg }
    if a1.port ≤ 0 ∨ a1.port > 65535 then switch_end_t.fail a1
    else switch_end_t.next a1
  else if g.opt = 107 then switch_end_t.next { a with password := strdup strdup_ok g.optarg }
  else if g.opt = 101 then switch_end_t.next { a with mode := MODE_SHELL }
  else if g.opt = 99 then switch_end_t.next { a with mode := MODE_CHAT }
  else if g.opt = 102 then
    switch_end_t.next { a with mode := MODE_FILE_SEND, filename := strdup strdup_ok g.optarg }
  else if g.opt = 256 then switch_end_t.next { a with mode := MODE_P2P }
  else if g.opt = 257 then switch_end_t.next { a with p2p_port := atoi g.optarg }
  else if g.opt = 258 then
    switch_end_t.next { a with bootstrap_node := strdup strdup_ok g.optarg }
  else if g.opt = 118 then switch_end_t.next a
  else if g.opt = 113 then switch_end_t.next a
  else if g.opt = 104 then switch_end_t.exit
  else if g.opt = 86 then switch_end_t.exit
  else switch_end_t.fail a

/-- The body of `parse_arguments` from the `while` loop on. `options` are the
successive returns of `getopt_long(argc, argv, "lp:k:e:cf:vqhV", ...)` before it
returns -1, `positional` are `argv[optind]`, ..., `argv[argc - 1]` at that point.
The result is `none` when the process ends in `exit(0)`, otherwise the return
value and the cells. -/
def parse_arguments_loop (strdup_ok : Bool) (positional : List Bytes) :
    List getopt_t → arguments_t → Option (Int × arguments_t)
  | [], a =>
    let a1 : arguments_t :=
      match positional with
      | h :: _ => { a with host := strdup strdup_ok h }
      | [] => a
    let a2 : arguments_t :=
      match positional with
      | _ :: p :: _ => { a1 with port := atoi p }
      | _ => a1
    if a2.password = none then some (-1, a2)
    else if a2.mode = MODE_NONE then
      some (0, { a2 with mode := if a2.host.isSome then MODE_CONNECT else MODE_LISTEN })
    else some (0, a2)
  | g :: gs, a =>
    match parse_option strdup_ok g a with
    | switch_end_t.next a1 => parse_arguments_loop strdup_ok positional gs a1
    | switch_end_t.fail a1 => some (-1, a1)
    | switch_end_t.exit => none

/-- Source function `parse_arguments(argc, argv, mode, host, port, password,
filename, p2p_port, bootstrap_node)`; `before` is what the cells held before the
call. -/
def parse_arguments (strdup_ok : Bool) (options : List getopt_t) (positional : List Bytes)
    (before : arguments_t) : Option (Int × arguments_t) :=
  parse_arguments_loop strdup_ok positional options
    { before with mode := MODE_NONE, port := DEFAULT_PORT, p2p_port := 5555 }

/-- The cells as `main` initialises them. -/
def main_arguments : arguments_t :=
  { mode := MODE_NONE
    host := none
    port := DEFAULT_PORT
    password := none
    filename := none
    p2p_port := 5555
    bootstrap_node := none }

/-- The options of the command line `cryptcat -k pw host 70000`: one return of
`getopt_long`, `'k'` with `optarg = "pw"`. -/
def sample_options : List getopt_t := [⟨107, [112, 119]⟩]

/-- The positional arguments `host` and `70000`. -/
def sample_positional : List Bytes := [[104, 111, 115, 116], [55, 48, 48, 48, 48]]

/-! ## Hexadecimal and Base64 text (`hex_utils.c`) -/

/-- The characters of the C string that starts at the first element of `s`:
those in front of the first NUL. -/
def cstr (s : Bytes) : Bytes := s.takeWhile (fun c => c != 0)

/-- Library call `strlen(s)`. -/
def strlen (s : Bytes) : Nat := (cstr s).length

/-- Source function `bin_to_hex(data, len)`: `none` is `NULL`, otherwise the
characters written in front of the terminating NUL. `data` holds the `len`
bytes to convert; `malloc_ok` tells whether `malloc` returns a block. -/
def bin_to_hex (malloc_ok : Bool) (data : Option Bytes) (len : Nat) : Option Bytes :=
  match data with
  | none => none
  | some d =>
    if len = 0 then none
    else if !malloc_ok then none
    else some ((List.range len).map (fun i => hex2 (d.getD i 0))).flatten

/-- Source function `hex_to_bin(hex, len)`: the buffer returned (`none` is
`NULL`) and the cell `*len` afterwards. Byte `i` is `strtol` of the characters
`2i` and `2i + 1` in base 16, stored into an `unsigned char`. -/
def hex_to_bin (malloc_ok : Bool) (hex : Option Bytes) (len : Option Nat) :
    Option Bytes × Option Nat :=
  match hex, len with
  | some h, some len0 =>
    let hex_len := strlen h
    if hex_len % 2 ≠ 0 then (none, some len0)
    else
      let n := hex_len / 2
      if !malloc_ok then (none, some n)
      else
        (some ((List.range n).map (fun i =>
          (strtol16 (((cstr h).drop (i * 2)).take 2) % 256).toNat)), some n)
  | _, _ => (none, len)

/-- Whether `c` is one of the characters `0`..`9`, `a`..`f`. -/
def is_lower_hex (c : Nat) : Bool := (48 ≤ c && c ≤ 57) || (97 ≤ c && c ≤ 102)

/-- The text `00112233GG556677` of `test_hex_utils`. -/
def sample_bad_hex : Bytes :=
  [48, 48, 49, 49, 50, 50, 51, 51, 71, 71, 53, 53, 54, 54, 55, 55]

/-- What `malloc` does: whether it returns a block, and what byte `i` of a
fresh block holds before it is written. -/
structure heap_t where
  malloc_ok : Bool
  junk : Nat → Nat

/-- Library call `malloc(size)`: `none` is `NULL`, otherwise the block of
`size` bytes. -/
def malloc (heap : heap_t) (size : Nat) : Option Bytes :=
  if heap.malloc_ok then some ((List.range size).map heap.junk) else none

/-- The store `block[i] = v` into an allocated block. A store outside the block
has no defined behaviour in C: the result is `none`. -/
def store (block : Bytes) (i v : Nat) : Option Bytes :=
  if i < block.length then some (block.set i v) else none

/-- The update `block[i] |= v` of an allocated block; `none` outside the
block. -/
def or_store (block : Bytes) (i v : Nat) : Option Bytes :=
  if i < block.length then some (block.set i (block.getD i 0 ||| v)) else none

/-- The array `base64_chars` of `bin_to_base64`. -/
def base64_chars : Bytes :=
  [65, 66, 67, 68, 69, 70, 71, 72, 73, 74, 75, 76, 77, 78, 79, 80,
   81, 82, 83, 84, 85, 86, 87, 88, 89, 90, 97, 98, 99, 100, 101, 102,
   103, 104, 105, 106, 107, 108, 109, 110, 111, 112, 113, 114, 115, 116, 117, 118,
   119, 120, 121, 122, 48, 49, 50, 51, 52, 53, 54, 55, 56, 57, 43, 47]

/-- The array `base64_index` of `base64_to_bin`. -/
def base64_index : List Int :=
  [-1,-1,-1,-1,-1,-1,-1,-1,-1,-1,-1,-1,-1,-1,-1,-1,
   -1,-1,-1,-1,-1,-1,-1,-1,-1,-1,-1,-1,-1,-1,-1,-1,
   -1,-1,-1,-1,-1,-1,-1,-1,-1,-1,-1,62,-1,-1,-1,63,
   52,53,54,55,56,57,58,59,60,61,-1,-1,-1,-1,-1,-1,
   -1, 0, 1, 2, 3, 4, 5, 6, 7, 8, 9,10,11,12,13,14,
   15,16,17,18,19,20,21,22,23,24,25,-1,-1,-1,-1,-1,
   -1,26,27,28,29,30,31,32,33,34,35,36,37,38,39,40,
   41,42,43,44,45,46,47,48,49,50,51,-1,-1,-1,-1,-1,
   -1,-1,-1,-1,-1,-1,-1,-1,-1,-1,-1,-1,-1,-1,-1,-1,
   -1,-1,-1,-1,-1,-1,-1,-1,-1,-1,-1,-1,-1,-1,-1,-1,
   -1,-1,-1,-1,-1,-1,-1,-1,-1,-1,-1,-1,-1,-1,-1,-1,
   -1,-1,-1,-1,-1,-1,-1,-1,-1,-1,-1,-1,-1,-1,-1,-1,
   -1,-1,-1,-1,-1,-1,-1,-1,-1,-1,-1,-1,-1,-1,-1,-1,
   -1,-1,-1,-1,-1,-1,-1,-1,-1,-1,-1,-1,-1,-1,-1,-1,
   -1,-1,-1,-1,-1,-1,-1,-1,-1,-1,-1,-1,-1,-1,-1,-1,
   -1,-1,-1,-1,-1,-1,-1,-1,-1,-1,-1,-1,-1,-1,-1,-1]

/-- The loop `while (len--)` of `bin_to_base64`. The first argument is the value
of `len` that the loop test reads; inside the body `len` is one less. The other
arguments are `i`, `j` and the block `base64`; the result is `i` and the block
when the loop ends, `none` when a store falls outside the block. -/
def bin_to_base64_loop (data : Bytes) : Nat → Nat → Nat → Bytes → Option (Nat × Bytes)
  | 0, i, _, base64 => some (i, base64)
  | len + 1, i, j, base64 =>
    let octet_a := if i < len then data.getD i 0 else 0
    let i1 := if i < len then i + 1 else i
    let octet_b := if i1 < len then data.getD i1 0 else 0
    let i2 := if i1 < len then i1 + 1 else i1
    let octet_c := if i2 < len then data.getD i2 0 else 0
    let i3 := if i2 < len then i2 + 1 else i2
    let triple := ((octet_a <<< 16) ||| (octet_b <<< 8) ||| octet_c) % 2^32
    match store base64 j (base64_chars.getD ((triple >>> 18) &&& 0x3F) 0) with
    | none => none
    | some b1 =>
      match store b1 (j + 1) (base64_chars.getD ((triple >>> 12) &&& 0x3F) 0) with
      | none => none
      | some b2 =>
        match store b2 (j + 2) (base64_chars.getD ((triple >>> 6) &&& 0x3F) 0) with
        | none => none
        | some b3 =>
          match store b3 (j + 3) (base64_chars.getD (triple &&& 0x3F) 0) with
          | none => none
          | some b4 => bin_to_base64_loop data len i3 (j + 4) b4

/-- The loop `for (k = 0; k < count; k++) base64[out_len - 1 - k] = '='` of
`bin_to_base64`, from `k` on, with `remaining = count - k` passes to go. -/
def base64_padding_loop (out_len : Nat) : Nat → Nat → Bytes → Option Bytes
  | 0, _, base64 => some base64
  | remaining + 1, k, base64 =>
    match store base64 (out_len - 1 - k) 61 with
    | none => none
    | some b1 => base64_padding_loop out_len remaining (k + 1) b1

/-- Source function `bin_to_base64(data, len)`; `data` holds the `len` bytes to
encode. The result is `none` when the call stores outside the block it
allocated; otherwise `some none` is `NULL` and `some (some block)` is the block
returned, which holds the text and its terminating NUL. -/
def bin_to_base64 (heap : heap_t) (data : Option Bytes) (len : Nat) : Option (Option Bytes) :=
  match data with
  | none => some none
  | some d =>
    if len = 0 then some none
    else
      let out_len := 4 * ((len + 2) / 3)
      match malloc heap (out_len + 1) with
      | none => some none
      | some base64 =>
        match bin_to_base64_loop d len 0 0 base64 with
        | none => none
        | some (i, b1) =>
          match base64_padding_loop out_len ((3 - (i % 3)) % 3) 0 b1 with
          | none => none
          | some b2 =>
            match store b2 out_len 0 with
            | none => none
            | some b3 => some (some b3)

/-- The loop `while (base64_len--)` of `base64_to_bin` over the characters still
to read, with `i`, `j` and the block `bin`; `none` when a store falls outside
the block. -/
def base64_to_bin_loop : Bytes → Nat → Nat → Bytes → Option Bytes
  | [], _, _, bin => some bin
  | ch :: rest, i, j, bin =>
    let c := base64_index.getD (ch % 256) (-1)
    if c = -1 then base64_to_bin_loop rest i j bin
    else
      let v := c.toNat
      if i % 4 = 0 then
        match store bin j ((v <<< 2) % 256) with
        | none => none
        | some b1 => base64_to_bin_loop rest (i + 1) j b1
      else if i % 4 = 1 then
        match or_store bin j ((v >>> 4) % 256) with
        | none => none
        | some b1 =>
          match store b1 (j + 1) (((v &&& 0x0F) <<< 4) % 256) with
          | none => none
          | some b2 => base64_to_bin_loop rest (i + 1) (j + 1) b2
      else if i % 4 = 2 then
        match or_store bin j ((v >>> 2) % 256) with
        | none => none
        | some b1 =>
          match store b1 (j + 1) (((v &&& 0x03) <<< 6) % 256) with
          | none => none
          | some b2 => base64_to_bin_loop rest (i + 1) (j + 1) b2
      else
        match or_store bin j (v % 256) with
        | none => none
        | some b1 => base64_to_bin_loop rest (i + 1) (j + 1) b1

/-- Source function `base64_to_bin(base64, len)`. The result is `none` when the
call stores outside the block it allocated; otherwise the buffer returned
(`none` is `NULL`) and the cell `*len` afterwards. -/
def base64_to_bin (heap : heap_t) (base64 : Option Bytes) (len : Option Nat) :
    Option (Option Bytes × Option Nat) :=
  match base64, len with
  | some s, some len0 =>
    let str := cstr s
    let base64_len := str.length
    if base64_len % 4 ≠ 0 then some (none, some len0)
    else
      let padding :=
        if base64_len > 0 ∧ str.getD (base64_len - 1) 0 = 61 then
          if base64_len > 1 ∧ str.getD (base64_len - 2) 0 = 61 then 2 else 1
        else 0
      let n := (base64_len / 4) * 3 - padding
      match malloc heap n with
      | none => some (none, some n)
      | some bin =>
        match base64_to_bin_loop str 0 0 bin with
        | none => none
        | some b1 => some (some b1, some n)
  | _, _ => some (none, len)

/-- A heap on which `malloc` succeeds, fresh blocks holding the byte 170. -/
def sample_heap : heap_t :=
  { malloc_ok := true
    junk := fun _ => 170 }

/-- The text `Hello, Base64!` of `test_hex_utils`. -/
def hello_base64 : Bytes :=
  [72, 101, 108, 108, 111, 44, 32, 66, 97, 115, 101, 54, 52, 33]

/-! ## Strings (`string_utils.c`) -/

/-- The loop of `strncpy_safe` from index `i` on, followed by the store of the
terminating NUL: `src` holds the characters of the source from index `i`, `dest`
is the destination array. The result is `none` when a store falls outside the
array. -/
def strncpy_safe_loop (dest_size : Nat) : Bytes → Nat → Bytes → Option Bytes
  | [], i, dest => store dest i 0
  | c :: rest, i, dest =>
    if i < dest_size - 1 ∧ c ≠ 0 then
      match store dest i c with
      | none => none
      | some d1 => strncpy_safe_loop dest_size rest (i + 1) d1
    else store dest i 0

/-- What a function that returns a pointer into its `dest` argument leaves
behind: the pointer as an offset from `dest` (`none` is `NULL`), and the array
`dest`. -/
structure dest_result_t where
  pointer : Option Nat
  dest : Option Bytes
deriving DecidableEq, Repr

/-- Source function `strncpy_safe(dest, src, dest_size)`; `dest` is the array
that the pointer `dest` points to, `src` a C string. The result is `none` when
a store falls outside the array. -/
def strncpy_safe (dest : Option Bytes) (src : Option Bytes) (dest_size : Nat) :
    Option dest_result_t :=
  match dest with
  | none => some ⟨none, none⟩
  | some d =>
    if dest_size = 0 then some ⟨none, some d⟩
    else
      match src with
      | none =>
        match store d 0 0 with
        | none => none
        | some d1 => some ⟨some 0, some d1⟩
      | some s =>
        match strncpy_safe_loop dest_size s 0 d with
        | none => none
        | some d1 => some ⟨some 0, some d1⟩

/-- Source function `strncat_safe(dest, src, dest_size)`. The result is `none`
when `dest` holds no NUL (then `strlen` reads past the array) or a store falls
outside the array. -/
def strncat_safe (dest : Option Bytes) (src : Option Bytes) (dest_size : Nat) :
    Option dest_result_t :=
  match dest, src with
  | none, _ => some ⟨none, none⟩
  | some d, none => some ⟨some 0, some d⟩
  | some d, some s =>
    if dest_size = 0 then some ⟨some 0, some d⟩
    else if 0 ∉ d then none
    else
      let dest_len := strlen d
      if dest_len ≥ dest_size then some ⟨some 0, some d⟩
      else
        match strncpy_safe (some (d.drop dest_len)) (some s) (dest_size - dest_len) with
        | none => none
        | some r =>
          some ⟨r.pointer.map (fun p => dest_len + p),
            r.dest.map (fun tail => d.take dest_len ++ tail)⟩

/-- The array `char dest[10]` of `test_string_utils` after `strcpy(dest,
"Hello")`; the bytes behind the NUL are left from the copy before. -/
def sample_dest : Bytes := [72, 101, 108, 108, 111, 0, 32, 87, 111, 0]

/-- The text `, World!`. -/
def comma_world : Bytes := [44, 32, 87, 111, 114, 108, 100, 33]

/-- Library call `strchr(s, c)`: whether it returns a non-`NULL` pointer. The
terminating NUL counts as part of the string. -/
def strchr (s : Bytes) (c : Nat) : Bool := decide (c ∈ cstr s) || c == 0

/-- Source function `str_escape(str, special_chars, escape_char)`: `none` is
`NULL`, otherwise the characters written in front of the terminating NUL.
`special_chars` is dereferenced without a check and is taken to be a string. -/
def str_escape (malloc_ok : Bool) (str : Option Bytes) (special_chars : Bytes)
    (escape_char : Nat) : Option Bytes :=
  match str with
  | none => none
  | some s =>
    if !malloc_ok then none
    else
      some ((cstr s).flatMap (fun c =>
        if strchr special_chars c then [escape_char, c] else [c]))

/-- The loop of `str_unescape` over the characters still to read, with the flag
`escape_next`: the characters written. -/
def str_unescape_loop (escape_char : Nat) : Bytes → Bool → Bytes
  | [], _ => []
  | c :: rest, escape_next =>
    if !escape_next && c == escape_char then str_unescape_loop escape_char rest true
    else c :: str_unescape_loop escape_char rest false

/-- Source function `str_unescape(str, escape_char)`: `none` is `NULL`,
otherwise the characters written in front of the terminating NUL. -/
def str_unescape (malloc_ok : Bool) (str : Option Bytes) (escape_char : Nat) : Option Bytes :=
  match str with
  | none => none
  | some s =>
    if !malloc_ok then none
    else some (str_unescape_loop escape_char (cstr s) false)

/-- The text `a\b`. -/
def sample_backslash : Bytes := [97, 92, 98]

/-- The text `Hello,World!` of `test_string_utils`. -/
def hello_world : Bytes := [72, 101, 108, 108, 111, 44, 87, 111, 114, 108, 100, 33]

/-- The name `../x`. -/
def sample_dotdot_name : Bytes := [46, 46, 47, 120]

/-- A FileStart payload with the name `../x`, the size 5 and, as checksum, 64
times the letter `G`. -/
def sample_dotdot_info : Bytes :=
  sample_dotdot_name ++ 124 :: ([53] ++ 124 :: List.replicate 64 71)

/-- What `start_file_receive` leaves behind on `sample_dotdot_info`. -/
def sample_dotdot : recv_start_result_t :=
  start_file_receive sample_recv_start_env empty_fs (some sample_listener)
    (some sample_dotdot_info)

/-- An environment in which `start_file_send` finds the five bytes 1, 2, 3, 4, 5
under the name it is given, and everything succeeds. -/
def sample_small_send_env : send_start_env_t :=
  { stat := some ⟨true, 5⟩
    fopen := some [1, 2, 3, 4, 5]
    calloc_ok := true
    now := 1000
    checksum_fopen := some [1, 2, 3, 4, 5]
    send_result := 0 }

/-- The outcome of offering `sample_transfer` a first chunk of 6 bytes, one more
than the FileStart payload announced. -/
def sample_oversized : recv_result_t :=
  receive_file_chunk sample_sha256 sample_recv_env sample_receiving.fs
    (some sample_transfer) (some [1, 2, 3, 4, 5, 6]) 0

/-- The outcome of offering the transfer of `sample_oversized`, which is in
`TRANSFER_ERROR`, the announced five bytes as chunk 0. -/
def sample_recovered : recv_result_t :=
  receive_file_chunk sample_sha256 sample_recv_env sample_oversized.fs
    sample_oversized.transfer (some [1, 2, 3, 4, 5]) 0

/-! ## Error handler (`src/utils/error_handler.c`, `error_handler.h`) -/

def ERROR_SUCCESS : Int := 0
def ERROR_GENERIC : Int := -1
def ERROR_CRITICAL : Int := -100

/-- The values of the enumerators of `error_code_t`, in the order of the
header: `ERROR_SUCCESS = 0`, then `ERROR_GENERIC = -1` down to
`ERROR_XDEV = -74`, then `ERROR_CRITICAL = -100`. -/
def error_code_t : List Int :=
  [0, -1, -2, -3, -4, -5, -6, -7, -8, -9, -10, -11, -12, -13, -14, -15, -16, -17, -18, -19,
   -20, -21, -22, -23, -24, -25, -26, -27, -28, -29, -30, -31, -32, -33, -34, -35, -36, -37,
   -38, -39, -40, -41, -42, -43, -44, -45, -46, -47, -48, -49, -50, -51, -52, -53, -54, -55,
   -56, -57, -58, -59, -60, -61, -62, -63, -64, -65, -66, -67, -68, -69, -70, -71, -72, -73,
   -74, -100]

/-- `error_handler_is_fatal(error_code)`: the value of the comparison
`error_code >= ERROR_CRITICAL`. -/
def error_handler_is_fatal (error_code : Int) : Int :=
  if error_code ≥ ERROR_CRITICAL then 1 else 0

/-! ## Memory utilities (`src/utils/memory_utils.c`) -/

/-- The loop of `secure_memcmp`: `result |= pa[i] ^ pb[i]` for each of the
`len` positions, `result` being an `unsigned char`. The lists are the bytes of
the two buffers from position `i` on; `none` is a read past the end of a
buffer. -/
def secure_memcmp_loop : Bytes → Bytes → Nat → Nat → Option Nat
  | _, _, 0, result => some result
  | x :: pa, y :: pb, len + 1, result =>
    secure_memcmp_loop pa pb len ((result ||| (x ^^^ y)) % 256)
  | _, _, _ + 1, _ => none

/-- `secure_memcmp(a, b, len)`. -/
def secure_memcmp (a b : Bytes) (len : Nat) : Option Nat :=
  secure_memcmp_loop a b len 0

/-! ## Transfer information (`get_file_transfer_info`) -/

/-- The struct `file_transfer_info_t` of `file_transfer.h`: `progress_percent`
is a `uint8_t`, `transfer_rate` a `uint32_t`. -/
structure file_transfer_info_t where
  state : transfer_state_t
  filename : Bytes
  bytes_transferred : Nat
  file_size : Nat
  chunks_sent : Nat
  chunks_received : Nat
  progress_percent : Nat
  elapsed_time : Int
  transfer_rate : Nat
deriving DecidableEq, Repr

/-- `get_file_transfer_info(transfer)`; `now` is what `time(NULL)` returns.
The struct starts as `\x7b0\x7d`. The 64-bit product `bytes_transferred * 100`
wraps, and the quotient is stored into the 8-bit field. -/
def get_file_transfer_info (now : Int) (transfer : Option file_transfer_t) :
    file_transfer_info_t :=
  let info : file_transfer_info_t := ⟨TRANSFER_IDLE, [], 0, 0, 0, 0, 0, 0, 0⟩
  match transfer with
  | none => info
  | some t =>
    let elapsed_time := now - t.start_time
    let transfer_rate :=
      if elapsed_time > 0 then (t.bytes_transferred / elapsed_time.toNat) % 2^32 else 0
    let progress_percent :=
      if t.file_size > 0 then ((t.bytes_transferred * 100) % 2^64 / t.file_size) % 256
      else info.progress_percent
    { state := t.state
      filename := (cstr t.filename).take (512 - 1)
      bytes_transferred := t.bytes_transferred
      file_size := t.file_size
      chunks_sent := t.chunks_sent
      chunks_received := t.chunks_received
      progress_percent := progress_percent
      elapsed_time := elapsed_time
      transfer_rate := transfer_rate }

/-! ## Base64 texts with padding -/

/-- Whether `ch` is a character that the table `base64_index` of
`base64_to_bin` maps to a value: a letter, a digit, `+` or `/`. -/
def base64_char (ch : Nat) : Bool :=
  base64_index.getD (ch % 256) (-1) != -1

/-! ## CRC-32 (`crc32` of `src/utils/hex_utils.c`) -/

/-- The array `crc_table` of `crc32`. -/
def crc_table : List Nat :=
  [0x00000000, 0x77073096, 0xEE0E612C, 0x990951BA, 0x076DC419, 0x706AF48F,
   0xE963A535, 0x9E6495A3, 0x0EDB8832, 0x79DCB8A4, 0xE0D5E91E, 0x97D2D988,
   0x09B64C2B, 0x7EB17CBD, 0xE7B82D07, 0x90BF1D91, 0x1DB71064, 0x6AB020F2,
   0xF3B97148, 0x84BE41DE, 0x1ADAD47D, 0x6DDDE4EB, 0xF4D4B551, 0x83D385C7,
   0x136C9856, 0x646BA8C0, 0xFD62F97A, 0x8A65C9EC, 0x14015C4F, 0x63066CD9,
   0xFA0F3D63, 0x8D080DF5, 0x3B6E20C8, 0x4C69105E, 0xD56041E4, 0xA2677172,
   0x3C03E4D1, 0x4B04D447, 0xD20D85FD, 0xA50AB56B, 0x35B5A8FA, 0x42B2986C,
   0xDBBBC9D6, 0xACBCF940, 0x32D86CE3, 0x45DF5C75, 0xDCD60DCF, 0xABD13D59,
   0x26D930AC, 0x51DE003A, 0xC8D75180, 0xBFD06116, 0x21B4F4B5, 0x56B3C423,
   0xCFBA9599, 0xB8BDA50F, 0x2802B89E, 0x5F058808, 0xC60CD9B2, 0xB10BE924,
   0x2F6F7C87, 0x58684C11, 0xC1611DAB, 0xB6662D3D, 0x76DC4190, 0x01DB7106,
   0x98D220BC, 0xEFD5102A, 0x71B18589, 0x06B6B51F, 0x9FBFE4A5, 0xE8B8D433,
   0x7807C9A2, 0x0F00F934, 0x9609A88E, 0xE10E9818, 0x7F6A0DBB, 0x086D3D2D,
   0x91646C97, 0xE6635C01, 0x6B6B51F4, 0x1C6C6162, 0x856530D8, 0xF262004E,
   0x6C0695ED, 0x1B01A57B, 0x8208F4C1, 0xF50FC457, 0x65B0D9C6, 0x12B7E950,
   0x8BBEB8EA, 0xFCB9887C, 0x62DD1DDF, 0x15DA2D49, 0x8CD37CF3, 0xFBD44C65,
   0x4DB26158, 0x3AB551CE, 0xA3BC0074, 0xD4BB30E2, 0x4ADFA541, 0x3DD895D7,
   0xA4D1C46D, 0xD3D6F4FB, 0x4369E96A, 0x346ED9FC, 0xAD678846, 0xDA60B8D0,
   0x44042D73, 0x33031DE5, 0xAA0A4C5F, 0xDD0D7CC9, 0x5005713C, 0x270241AA,
   0xBE0B1010, 0xC90C2086, 0x5768B525, 0x206F85B3, 0xB966D409, 0xCE61E49F,
   0x5EDEF90E, 0x29D9C998, 0xB0D09822, 0xC7D7A8B4, 0x59B33D17, 0x2EB40D81,
   0xB7BD5C3B, 0xC0BA6CAD, 0xEDB88320, 0x9ABFB3B6, 0x03B6E20C, 0x74B1D29A,
   0xEAD54739, 0x9DD277AF, 0x04DB2615, 0x73DC1683, 0xE3630B12, 0x94643B84,
   0x0D6D6A3E, 0x7A6A5AA8, 0xE40ECF0B, 0x9309FF9D, 0x0A00AE27, 0x7D079EB1,
   0xF00F9344, 0x8708A3D2, 0x1E01F268, 0x6906C2FE, 0xF762575D, 0x806567CB,
   0x196C3671, 0x6E6B06E7, 0xFED41B76, 0x89D32BE0, 0x10DA7A5A, 0x67DD4ACC,
   0xF9B9DF6F, 0x8EBEEFF9, 0x17B7BE43, 0x60B08ED5, 0xD6D6A3E8, 0xA1D1937E,
   0x38D8C2C4, 0x4FDFF252, 0xD1BB67F1, 0xA6BC5767, 0x3FB506DD, 0x48B2364B,
   0xD80D2BDA, 0xAF0A1B4C, 0x36034AF6, 0x41047A60, 0xDF60EFC3, 0xA867DF55,
   0x316E8EEF, 0x4669BE79, 0xCB61B38C, 0xBC66831A, 0x256FD2A0, 0x5268E236,
   0xCC0C7795, 0xBB0B4703, 0x220216B9, 0x5505262F, 0xC5BA3BBE, 0xB2BD0B28,
   0x2BB45A92, 0x5CB36A04, 0xC2D7FFA7, 0xB5D0CF31, 0x2CD99E8B, 0x5BDEAE1D,
   0x9B64C2B0, 0xEC63F226, 0x756AA39C, 0x026D930A, 0x9C0906A9, 0xEB0E363F,
   0x72076785, 0x05005713, 0x95BF4A82, 0xE2B87A14, 0x7BB12BAE, 0x0CB61B38,
   0x92D28E9B, 0xE5D5BE0D, 0x7CDCEFB7, 0x0BDBDF21, 0x86D3D2D4, 0xF1D4E242,
   0x68DDB3F8, 0x1FDA836E, 0x81BE16CD, 0xF6B9265B, 0x6FB077E1, 0x18B74777,
   0x88085AE6, 0xFF0F6A70, 0x66063BCA, 0x11010B5C, 0x8F659EFF, 0xF862AE69,
   0x616BFFD3, 0x166CCF45, 0xA00AE278, 0xD70DD2EE, 0x4E048354, 0x3903B3C2,
   0xA7672661, 0xD06016F7, 0x4969474D, 0x3E6E77DB, 0xAED16A4A, 0xD9D65ADC,
   0x40DF0B66, 0x37D83BF0, 0xA9BCAE53, 0xDEBB9EC5, 0x47B2CF7F, 0x30B5FFE9,
   0xBDBDF21C, 0xCABAC28A, 0x53B39330, 0x24B4A3A6, 0xBAD03605, 0xCDD70693,
   0x54DE5729, 0x23D967BF, 0xB3667A2E, 0xC4614AB8, 0x5D681B02, 0x2A6F2B94,
   0xB40BBE37, 0xC30C8EA1, 0x5A05DF1B, 0x2D02EF8D]

/-- The loop of `crc32`:
`crc = (crc >> 8) ^ crc_table[(crc ^ data[i]) & 0xFF]`. -/
def crc32_loop : Bytes → Nat → Nat
  | [], crc => crc
  | d :: data, crc =>
    crc32_loop data ((crc >>> 8) ^^^ crc_table.getD ((crc ^^^ (d % 256)) &&& 0xFF) 0)

/-- `crc32(data, len)` on the `len` bytes `data`: the loop from `0xFFFFFFFF`,
then the 32-bit complement `~crc`. -/
def crc32 (data : Bytes) : Nat :=
  (2^32 - 1 - crc32_loop data 0xFFFFFFFF) % 2^32

/-- One bit of the bit-by-bit CRC-32 with the reflected polynomial
`0xEDB88320`: shift right, and fold the polynomial in when the bit shifted out
is 1. -/
def crc32_bit_step (crc : Nat) : Nat :=
  if crc % 2 = 1 then (crc >>> 1) ^^^ 0xEDB88320 else crc >>> 1

/-- The bit-by-bit reference: each byte is folded into the low byte of the
register, followed by eight bit steps. -/
def crc32_reference_loop : Bytes → Nat → Nat
  | [], crc => crc
  | d :: data, crc => crc32_reference_loop data (crc32_bit_step^[8] (crc ^^^ (d % 256)))

/-- The bit-by-bit reference CRC-32: initial value `0xFFFFFFFF`, final
complement. -/
def crc32_reference (data : Bytes) : Nat :=
  (2^32 - 1 - crc32_reference_loop data 0xFFFFFFFF) % 2^32

/-- The ASCII bytes of `123456789`. -/
def check_digits : Bytes := [49, 50, 51, 52, 53, 54, 55, 56, 57]

/-! ## Memory pool (`pool_allocate`, `pool_free` of `src/utils/memory_utils.c`) -/

/-- The pool `struct memory_pool_s`. The header only names the type; the
fields are the ones `create_memory_pool` fills: `blocks` holds the addresses of
the `num_blocks` blocks, `in_use` one `int` for each. -/
structure memory_pool_t where
  block_size : Nat
  num_blocks : Nat
  blocks : List Nat
  in_use : List Int
deriving DecidableEq, Repr

/-- The bytes stored at each block address. -/
abbrev memory_t := Nat → Bytes

/-- The effect of `memset(ptr, 0, len)` and of `secure_zero(ptr, len)` on the
bytes at `ptr`: the first `len` bytes become 0 (none when `len` is 0). -/
def zero_fill (block : Bytes) (len : Nat) : Bytes :=
  List.replicate len 0 ++ block.drop len

/-- What a pool call leaves: the pointer returned (`none` is `NULL`; `pool_free`
returns nothing), the pool and the memory. -/
structure pool_result_t where
  ptr : Option Nat
  pool : memory_pool_t
  memory : memory_t

/-- The loop of `pool_allocate` from index `i`, with `k` indices still to
visit. -/
def pool_allocate_loop (pool : memory_pool_t) (memory : memory_t) : Nat → Nat → pool_result_t
  | 0, _ => ⟨none, pool, memory⟩
  | k + 1, i =>
    if pool.in_use.getD i 0 = 0 then
      let block := pool.blocks.getD i 0
      ⟨some block, { pool with in_use := pool.in_use.set i 1 },
        Function.update memory block (zero_fill (memory block) pool.block_size)⟩
    else pool_allocate_loop pool memory k (i + 1)

/-- `pool_allocate(pool)` on a pool that is not `NULL` (for `NULL` the call
returns `NULL` at once). -/
def pool_allocate (pool : memory_pool_t) (memory : memory_t) : pool_result_t :=
  pool_allocate_loop pool memory pool.num_blocks 0

/-- The loop of `pool_free` from index `i`, with `k` indices still to visit;
`ptr` is the address passed, not `NULL`. -/
def pool_free_loop (pool : memory_pool_t) (memory : memory_t) (ptr : Nat) :
    Nat → Nat → pool_result_t
  | 0, _ => ⟨none, pool, memory⟩
  | k + 1, i =>
    if pool.blocks.getD i 0 = ptr ∧ pool.in_use.getD i 0 ≠ 0 then
      ⟨none, { pool with in_use := pool.in_use.set i 0 },
        Function.update memory ptr (zero_fill (memory ptr) pool.block_size)⟩
    else pool_free_loop pool memory ptr k (i + 1)

/-- `pool_free(pool, ptr)` on a pool that is not `NULL`; `ptr` is `none` for
`NULL`. -/
def pool_free (pool : memory_pool_t) (memory : memory_t) (ptr : Option Nat) : pool_result_t :=
  match ptr with
  | none => ⟨none, pool, memory⟩
  | some p => pool_free_loop pool memory p pool.num_blocks 0

/-- One call on a pool. -/
inductive pool_call_t where
  | allocate
  | free (ptr : Option Nat)
deriving DecidableEq, Repr

/-- A sequence of `pool_allocate` and `pool_free` calls on the same pool: the
pool and the memory at the end. -/
def pool_calls : List pool_call_t → memory_pool_t → memory_t → memory_pool_t × memory_t
  | [], pool, memory => (pool, memory)
  | pool_call_t.allocate :: cs, pool, memory =>
    pool_calls cs (pool_allocate pool memory).pool (pool_allocate pool memory).memory
  | pool_call_t.free ptr :: cs, pool, memory =>
    pool_calls cs (pool_free pool memory ptr).pool (pool_free pool memory ptr).memory

/-- What `create_memory_pool` establishes and no call changes: both arrays have
`num_blocks` entries and the blocks, separate mappings, have distinct
addresses. -/
def pool_wf (pool : memory_pool_t) : Prop :=
  pool.blocks.length = pool.num_blocks ∧ pool.in_use.length = pool.num_blocks ∧
    pool.blocks.Nodup

instance (pool : memory_pool_t) : Decidable (pool_wf pool) := by
  unfold pool_wf
  infer_instance

/-- A pool of three blocks of four bytes at the addresses 1000, 2000 and 3000,
none in use. -/
def sample_pool : memory_pool_t :=
  { block_size := 4, num_blocks := 3, blocks := [1000, 2000, 3000], in_use := [0, 0, 0] }

/-- Memory in which every byte is 170. -/
def sample_memory : memory_t := fun _ => [170, 170, 170, 170]

/-- Two allocations, then the first block is freed. -/
def sample_pool_calls : List pool_call_t :=
  [pool_call_t.allocate, pool_call_t.allocate, pool_call_t.free (some 1000)]

/-! ## `str_replace`, `str_split`, `str_join` (`src/utils/string_utils.c`) -/

/-- Library call `strstr(haystack, needle)` on the characters of the two
strings: the offset of the first occurrence of `needle`, `none` for `NULL`. An
empty `needle` is found at offset 0. -/
def strstr : Bytes → Bytes → Option Nat
  | [], needle => if needle = [] then some 0 else none
  | c :: s, needle =>
    if (c :: s).take needle.length = needle then some 0
    else (strstr s needle).map (fun k => k + 1)

/-- The counting loop of `str_replace`,
`while ((tmp = strstr(tmp, old)) != NULL) \x7b count++; tmp += old_len; \x7d`,
on the text `tmp` still to scan. The first argument bounds the number of
passes: `none` when the loop has not ended within that many passes, or when
`count`, an `int`, would pass `INT_MAX`. -/
def str_replace_count (old : Bytes) : Nat → Bytes → Nat → Option Nat
  | 0, _, _ => none
  | fuel + 1, tmp, count =>
    match strstr tmp old with
    | none => some count
    | some k =>
      if count + 1 ≥ 2^31 then none
      else str_replace_count old fuel (tmp.drop (k + old.length)) (count + 1)

/-- The copying loop `while (count--)` of `str_replace` followed by
`strcpy(current, start)`: `start` is the text still to copy, `current` what has
been written. `none` when `strstr` returns `NULL` inside the loop, which the
code dereferences. -/
def str_replace_build (old new : Bytes) : Nat → Bytes → Bytes → Option Bytes
  | 0, start, current => some (current ++ start)
  | count + 1, start, current =>
    match strstr start old with
    | none => none
    | some k =>
      str_replace_build old new count (start.drop (k + old.length))
        (current ++ start.take k ++ new)

/-- Source function `str_replace(str, old, new)`; `fuel` bounds the passes of
the counting loop. The outer `none` says that the call has not returned within
`fuel` passes or has left defined behaviour (`count` overflowing, a write past
the block of `new_size` bytes); otherwise the string returned, `none` for
`NULL`. `new_size` is computed in `size_t`, so `new_len - old_len` and the
product wrap. -/
def str_replace (malloc_ok : Bool) (fuel : Nat) (str old new : Option Bytes) :
    Option (Option Bytes) :=
  match str, old, new with
  | some s, some o, some n =>
    let old_len := strlen o
    let new_len := strlen n
    let str_len := strlen s
    match str_replace_count (cstr o) fuel (cstr s) 0 with
    | none => none
    | some count =>
      let new_size := (str_len + count * ((new_len + 2^64 - old_len) % 2^64) + 1) % 2^64
      if !malloc_ok then some none
      else
        match str_replace_build (cstr o) (cstr n) count (cstr s) [] with
        | none => none
        | some result => if result.length + 1 ≤ new_size then some (some result) else none
  | _, _, _ => some (str.map cstr)

/-- The reference for `str_replace`: `s` with every occurrence of `old`, found
scanning left to right and not overlapping an earlier one, replaced by `new`.
The last argument counts the characters of a replaced occurrence still to
skip. -/
def replace_all (old new : Bytes) : Bytes → Nat → Bytes
  | [], _ => []
  | _ :: s, skip + 1 => replace_all old new s skip
  | c :: s, 0 =>
    if old ≠ [] ∧ (c :: s).take old.length = old then
      new ++ replace_all old new s (old.length - 1)
    else c :: replace_all old new s 0

/-- The text `Hello World`. -/
def hello_world_text : Bytes := [72, 101, 108, 108, 111, 32, 87, 111, 114, 108, 100]

/-- The text `World`. -/
def world_text : Bytes := [87, 111, 114, 108, 100]

/-- The text `Universe`. -/
def universe_text : Bytes := [85, 110, 105, 118, 101, 114, 115, 101]

/-- The tokens that `strtok(s, delim)` and the calls `strtok(NULL, delim)` after
it return, in order, on the characters `s`: the maximal runs of characters that
are not in `delim`. The last argument is the token being read. -/
def strtok_all (delim : Bytes) : Bytes → Bytes → List Bytes
  | [], token => if token = [] then [] else [token]
  | c :: s, token =>
    if c ∈ delim then
      if token = [] then strtok_all delim s [] else token :: strtok_all delim s []
    else strtok_all delim s (token ++ [c])

/-- The struct `str_split_t`: the array `tokens` and `count`. -/
structure str_split_t where
  tokens : List Bytes
  count : Nat
deriving DecidableEq, Repr

/-- Which allocations of one `str_split` call succeed: the struct, the copy of
the string, the array of `count` pointers, and the copy of token `i`. -/
structure str_split_env_t where
  malloc_split_ok : Bool
  strdup_copy_ok : Bool
  malloc_tokens_ok : Bool
  strdup_token_ok : Nat → Bool

/-- Source function `str_split(str, delim)`: the inner `none` is `NULL`; the
outer `none` says that `count`, an `int`, has overflowed. Both passes tokenize
the same characters, the copy being restored with `strcpy` in between. -/
def str_split (env : str_split_env_t) (str delim : Option Bytes) :
    Option (Option str_split_t) :=
  match str, delim with
  | some s, some d =>
    if !env.malloc_split_ok then some none
    else if !env.strdup_copy_ok then some none
    else
      let tokens := strtok_all (cstr d) (cstr s) []
      if tokens.length ≥ 2^31 then none
      else if !env.malloc_tokens_ok then some none
      else if (List.range tokens.length).all env.strdup_token_ok then
        some (some ⟨tokens, tokens.length⟩)
      else some none
  | _, _ => some none

/-- The two loops of `str_join` over the entries `strings[i]`: `strcat` of each
entry that is not `NULL`, and of `delim` after every entry but the last. -/
def str_join_loop (delim : Bytes) : List (Option Bytes) → Bytes
  | [] => []
  | [s] => cstr (s.getD [])
  | s :: t :: rest => cstr (s.getD []) ++ delim ++ str_join_loop delim (t :: rest)

/-- Source function `str_join(strings, count, delim)`: the inner `none` is
`NULL`; the outer `none` says that the array has fewer than `count` entries or
that the characters written do not fit the block of `total_len` bytes, which is
computed in `size_t`. -/
def str_join (malloc_ok : Bool) (strings : Option (List (Option Bytes))) (count : Int)
    (delim : Option Bytes) : Option (Option Bytes) :=
  match strings, delim with
  | some a, some d =>
    if count ≤ 0 then some none
    else if a.length < count.toNat then none
    else
      let used := a.take count.toNat
      let total_len :=
        ((used.map (fun s => strlen (s.getD []))).sum % 2^64 +
          ((count.toNat - 1) * strlen d) % 2^64 + 1) % 2^64
      if !malloc_ok then some none
      else
        let result := str_join_loop (cstr d) used
        if result.length + 1 ≤ total_len then some (some result) else none
  | _, _ => some none

/-- An environment in which every allocation succeeds. -/
def split_env : str_split_env_t := ⟨true, true, true, fun _ => true⟩

/-- The words `one`, `two`, `three` of the unit test. -/
def one_two_three : List Bytes :=
  [[111, 110, 101], [116, 119, 111], [116, 104, 114, 101, 101]]

/-! ## Configuration store (`src/utils/config_parser.c`)

The mutex functions `config_mutex_lock` and `config_mutex_unlock` are declared
in `config_parser.h` and defined nowhere in the source tree; the calls take no
part in the embedding. -/

def CONFIG_MAX_KEY_LEN : Nat := 256
def CONFIG_MAX_VALUE_LEN : Nat := 1024
def CONFIG_MAX_SECTION_LEN : Nat := 256
def CONFIG_MAX_LINE_LEN : Nat := 2048
def CONFIG_MAX_PATH : Nat := 1024

def CONFIG_SUCCESS : Int := 0
def CONFIG_ERROR_PARAM : Int := -1
def CONFIG_ERROR_MEMORY : Int := -2
def CONFIG_ERROR_NOTFOUND : Int := -4
def CONFIG_ERROR_NOFILE : Int := -6

/-- The struct `config_entry_t`: the strings held in the arrays `key` and
`value`. The list `entries` of a section is the chain of `next` pointers. -/
structure config_entry_t where
  key : Bytes
  value : Bytes
deriving DecidableEq, Repr

/-- The struct `config_section_t`. -/
structure config_section_t where
  name : Bytes
  entries : List config_entry_t
deriving DecidableEq, Repr

/-- The struct `config_s`, without its mutex. -/
structure config_t where
  sections : List config_section_t
  filename : Bytes
  last_modified : Int
  auto_save : Int
deriving DecidableEq, Repr

/-- Source function `find_section(config, section)`: the first section whose
name compares equal to the string `section`. -/
def find_section : List config_section_t → Bytes → Option config_section_t
  | [], _ => none
  | sect :: rest, section_name =>
    if sect.name = cstr section_name then some sect else find_section rest section_name

/-- Source function `find_entry(section, key)`. -/
def find_entry : List config_entry_t → Bytes → Option config_entry_t
  | [], _ => none
  | entry :: rest, key =>
    if entry.key = cstr key then some entry else find_entry rest key

/-- Source function `config_get_string(config, section, key, default_value)`:
the string that the returned pointer points to. -/
def config_get_string (config : Option config_t) (section_name key default_value : Option Bytes) :
    Option Bytes :=
  match config, section_name, key with
  | some c, some s, some k =>
    match find_section c.sections s with
    | none => default_value
    | some sect =>
      match find_entry sect.entries k with
      | none => default_value
      | some entry => some entry.value
  | _, _, _ => default_value

/-- What the environment does during one call: whether `malloc` of a section
and of an entry succeed, whether `fopen(filename, "w")` succeeds, and the text
of `__DATE__`. -/
structure config_env_t where
  malloc_section_ok : Bool
  malloc_entry_ok : Bool
  fopen_ok : Bool
  date : Bytes

/-- The text that `save_config_to_file` prints. -/
def config_text (date : Bytes) (sections : List config_section_t) : Bytes :=
  [59, 32, 67, 114, 121, 112, 116, 99, 97, 116, 32, 67, 111, 110, 102, 105, 103, 117, 114, 97, 116, 105, 111, 110, 10] ++
  [59, 32, 71, 101, 110, 101, 114, 97, 116, 101, 100, 32, 111, 110, 32] ++ date ++ [10, 10] ++
  sections.flatMap (fun sect =>
    [91] ++ sect.name ++ [93, 10] ++
    sect.entries.flatMap (fun entry => entry.key ++ [32, 61, 32] ++ entry.value ++ [10]) ++
    [10])

def CONFIG_ERROR_IO : Int := -3

/-- Source function `save_config_to_file(config, filename)`: the return value
and the working directory afterwards. -/
def save_config_to_file (env : config_env_t) (fs : fs_t) (config : config_t)
    (filename : Bytes) : Int × fs_t :=
  if !env.fopen_ok then ( CONFIG_ERROR_IO, fs)
  else (CONFIG_SUCCESS, fs_write fs (cstr filename) (config_text env.date config.sections))

/-- What a call that changes the configuration leaves: the return value, the
configuration and the working directory. -/
structure config_result_t where
  code : Int
  config : config_t
  fs : fs_t

/-- The auto-save at the end of a changing call: when `auto_save` is set and a
file name is known, `save_config_to_file(config, config->filename)`, whose
return value is dropped. -/
def config_auto_save (env : config_env_t) (fs : fs_t) (config : config_t) : fs_t :=
  if config.auto_save ≠ 0 ∧ config.filename ≠ [] then
    (save_config_to_file env fs config config.filename).2
  else fs

/-- The entries after `strncpy(entry->value, value, CONFIG_MAX_VALUE_LEN - 1)`
on the entry that `find_entry` found. -/
def set_entry_value (key value : Bytes) : List config_entry_t → List config_entry_t
  | [] => []
  | entry :: rest =>
    if entry.key = cstr key then
      { entry with value := (cstr value).take (CONFIG_MAX_VALUE_LEN - 1) } :: rest
    else entry :: set_entry_value key value rest

/-- The sections after the first one named `section`, the one `find_section`
found, has been given the entries `entries`. -/
def set_section_entries (section_name : Bytes) (entries : List config_entry_t) :
    List config_section_t → List config_section_t
  | [] => []
  | sect :: rest =>
    if sect.name = cstr section_name then { sect with entries := entries } :: rest
    else sect :: set_section_entries section_name entries rest

/-- Source function `config_set_string(config, section, key, value)`. A new
section and a new entry are zeroed, given their name with `strncpy` of at most
255 characters, and linked in at the head of their list; a section created
before the entry allocation fails stays in the list. -/
def config_set_string (env : config_env_t) (fs : fs_t) (config : config_t)
    (section_name key value : Option Bytes) : config_result_t :=
  match section_name, key, value with
  | some s, some k, some v =>
    let found := find_section config.sections s
    if found = none ∧ !env.malloc_section_ok then ⟨CONFIG_ERROR_MEMORY, config, fs⟩
    else
      let sections1 :=
        if found = none then
          (⟨(cstr s).take (CONFIG_MAX_SECTION_LEN - 1), []⟩ : config_section_t) ::
            config.sections
        else config.sections
      let sect : config_section_t :=
        found.getD ⟨(cstr s).take (CONFIG_MAX_SECTION_LEN - 1), []⟩
      let entry := find_entry sect.entries k
      if entry = none ∧ !env.malloc_entry_ok then
        ⟨CONFIG_ERROR_MEMORY, { config with sections := sections1 }, fs⟩
      else
        let entries1 :=
          if entry = none then
            (⟨(cstr k).take (CONFIG_MAX_KEY_LEN - 1),
              (cstr v).take (CONFIG_MAX_VALUE_LEN - 1)⟩ : config_entry_t) :: sect.entries
          else set_entry_value k v sect.entries
        let sections2 :=
          if found = none then
            (⟨(cstr s).take (CONFIG_MAX_SECTION_LEN - 1), entries1⟩ : config_section_t) ::
              config.sections
          else set_section_entries s entries1 config.sections
        let config2 := { config with sections := sections2 }
        ⟨CONFIG_SUCCESS, config2, config_auto_save env fs config2⟩
  | _, _, _ => ⟨CONFIG_ERROR_PARAM, config, fs⟩

/-- The loop of `config_delete_key` over the entries: the list without the
first entry whose key is `key`, `none` when there is none. -/
def remove_entry (key : Bytes) : List config_entry_t → Option (List config_entry_t)
  | [] => none
  | entry :: rest =>
    if entry.key = cstr key then some rest
    else (remove_entry key rest).map (fun r => entry :: r)

/-- Source function `config_delete_key(config, section, key)`. -/
def config_delete_key (env : config_env_t) (fs : fs_t) (config : config_t)
    (section_name key : Option Bytes) : config_result_t :=
  match section_name, key with
  | some s, some k =>
    match find_section config.sections s with
    | none => ⟨CONFIG_ERROR_NOTFOUND, config, fs⟩
    | some sect =>
      match remove_entry k sect.entries with
      | none => ⟨CONFIG_ERROR_NOTFOUND, config, fs⟩
      | some entries1 =>
        let config2 :=
          { config with sections := set_section_entries s entries1 config.sections }
        ⟨CONFIG_SUCCESS, config2, config_auto_save env fs config2⟩
  | _, _ => ⟨CONFIG_ERROR_PARAM, config, fs⟩

/-- The loop of `config_delete_section`: the list without the first section
named `section`, `none` when there is none. -/
def remove_section (section_name : Bytes) : List config_section_t → Option (List config_section_t)
  | [] => none
  | sect :: rest =>
    if sect.name = cstr section_name then some rest
    else (remove_section section_name rest).map (fun r => sect :: r)

/-- Source function `config_delete_section(config, section)`. -/
def config_delete_section (env : config_env_t) (fs : fs_t) (config : config_t)
    (section_name : Option Bytes) : config_result_t :=
  match section_name with
  | some s =>
    match remove_section s config.sections with
    | none => ⟨CONFIG_ERROR_NOTFOUND, config, fs⟩
    | some sections1 =>
      let config2 := { config with sections := sections1 }
      ⟨CONFIG_SUCCESS, config2, config_auto_save env fs config2⟩
  | none => ⟨CONFIG_ERROR_PARAM, config, fs⟩

/-- Source function `config_clear(config)`. -/
def config_clear (config : config_t) : config_t :=
  { config with sections := [] }

/-- Source function `config_create(filename)` when `malloc` succeeds: a zeroed
struct with the file name copied and `auto_save` set. -/
def config_create (filename : Option Bytes) : config_t :=
  { sections := []
    filename := (cstr (filename.getD [])).take (CONFIG_MAX_PATH - 1)
    last_modified := 0
    auto_save := 1 }

/-- One changing call on a configuration. -/
inductive config_call_t where
  | set_string (env : config_env_t) (section_name key value : Bytes)
  | delete_key (env : config_env_t) (section_name key : Bytes)
  | delete_section (env : config_env_t) (section_name : Bytes)

/-- The outcome of one call of `config_call_t`. -/
def config_call (fs : fs_t) (config : config_t) : config_call_t → config_result_t
  | config_call_t.set_string env s k v => config_set_string env fs config (some s) (some k) (some v)
  | config_call_t.delete_key env s k => config_delete_key env fs config (some s) (some k)
  | config_call_t.delete_section env s => config_delete_section env fs config (some s)

/-- A sequence of changing calls on the same configuration. -/
def config_calls : List config_call_t → config_t → fs_t → config_t × fs_t
  | [], config, fs => (config, fs)
  | c :: cs, config, fs => config_calls cs (config_call fs config c).config (config_call fs config c).fs

/-- Whether the section name and the key that a call passes are shorter than
the arrays that hold them. -/
def short_names : config_call_t → Prop
  | config_call_t.set_string _ s k _ =>
    strlen s < CONFIG_MAX_SECTION_LEN ∧ strlen k < CONFIG_MAX_KEY_LEN
  | config_call_t.delete_key _ _ _ => True
  | config_call_t.delete_section _ _ => True

/-- An environment in which every allocation and `fopen` succeed. -/
def config_env : config_env_t := ⟨true, true, true, [79, 99, 116, 32, 51, 48, 32, 50, 48, 50, 54]⟩

/-- The section name `network`. -/
def network_text : Bytes := [110, 101, 116, 119, 111, 114, 107]

/-- The key `host`. -/
def host_text : Bytes := [104, 111, 115, 116]

/-- The key `port`. -/
def port_text : Bytes := [112, 111, 114, 116]

/-- The value `127.0.0.1`. -/
def localhost_text : Bytes := [49, 50, 55, 46, 48, 46, 48, 46, 49]

/-- The value `4444`. -/
def port_value_text : Bytes := [52, 52, 52, 52]

/-- The file name `test_config.ini`. -/
def config_file_name : Bytes := [116, 101, 115, 116, 95, 99, 111, 110, 102, 105, 103, 46, 105, 110, 105]

/-- The calls `config_set_string(config, "network", "host", "127.0.0.1")` and
`config_set_string(config, "network", "port", "4444")`. -/
def sample_config_calls : List config_call_t :=
  [config_call_t.set_string config_env network_text host_text localhost_text,
   config_call_t.set_string config_env network_text port_text port_value_text]

/-- The configuration of the unit test after `sample_config_calls`. -/
def sample_config : config_t :=
  (config_calls sample_config_calls (config_create (some config_file_name)) empty_fs).1

/-- A key of 256 characters `a`. -/
def long_key : Bytes := List.replicate 256 97

/-- The value that `config_get_string` finds for a section name and a key,
`none` when it falls back to the default. -/
def config_lookup (sections : List config_section_t) (s k : Bytes) : Option Bytes :=
  (find_section sections s).bind (fun sect => (find_entry sect.entries k).map (fun e => e.value))

/-- No two sections have the same name and no two entries of a section the same
key. -/
def config_wf (sections : List config_section_t) : Prop :=
  (sections.map (fun sect => sect.name)).Nodup ∧
    ∀ sect ∈ sections, (sect.entries.map (fun e => e.key)).Nodup

instance (c : config_call_t) : Decidable (short_names c) := by
  cases c <;> unfold short_names <;> infer_instance

/-! ### Loading a configuration file -/

/-- Source function `trim_string(str)`: the string left at `str`. The pointer
that skips the leading white space is the function's own copy, so the string
keeps its leading white space; the trailing white space of the rest is cut
off. -/
def trim_string (str : Bytes) : Bytes :=
  str.takeWhile isspace ++ ((str.dropWhile isspace).reverse.dropWhile isspace).reverse

/-- Source function `parse_line(line, section, key, value)` on buffers that
hold the empty string: `none` for the return value 0, otherwise the strings left
in `section`, `key` and `value`. -/
def parse_line (line : Bytes) : Option (Bytes × Bytes × Bytes) :=
  let ptr := line.dropWhile isspace
  match ptr with
  | [] => none
  | c :: rest =>
    if c = 91 then
      if 93 ∈ rest then
        some ((trim_string (rest.takeWhile (fun x => x != 93))).take
          (CONFIG_MAX_SECTION_LEN - 1), [], [])
      else none
    else if 61 ∈ ptr then
      let key_start := trim_string (ptr.takeWhile (fun x => x != 61))
      let value_start := trim_string ((ptr.dropWhile (fun x => x != 61)).drop 1)
      let value_start :=
        if value_start.head? = some 34 ∧ value_start.getLast? = some 34 then
          (value_start.take (value_start.length - 1)).drop 1
        else value_start
      some ([], key_start.take (CONFIG_MAX_KEY_LEN - 1),
        value_start.take (CONFIG_MAX_VALUE_LEN - 1))
    else none

/-- The strings that successive calls `fgets(line, size, file)` return on a
file holding `content`: each ends after a line feed or when `size - 1`
characters have been read. The last argument is the line being read. -/
def fgets_lines (size : Nat) : Bytes → Bytes → List Bytes
  | [], line => if line = [] then [] else [line]
  | c :: rest, line =>
    if c = 10 then (line ++ [c]) :: fgets_lines size rest []
    else if line.length + 2 = size then (line ++ [c]) :: fgets_lines size rest []
    else fgets_lines size rest (line ++ [c])

/-- One pass of the `while (fgets(...))` loop of `config_load`, on the string
`raw` that `fgets` returned, with `current_section` and the configuration. The
function `config_set` that the loop calls is defined nowhere in the source
tree and is a parameter. -/
def config_load_line (config_set : config_t → Bytes → Bytes → Bytes → config_t)
    (state : Bytes × config_t) (raw : Bytes) : Bytes × config_t :=
  let line := cstr raw
  let line := line.takeWhile (fun x => x != 10)
  let line := line.takeWhile (fun x => x != 13)
  let line := trim_string line
  if line.head? = none ∨ line.head? = some 59 ∨ line.head? = some 35 then state
  else
    match parse_line line with
    | none => state
    | some (sect, key, value) =>
      if sect ≠ [] then (sect.take (CONFIG_MAX_SECTION_LEN - 1), state.2)
      else if key ≠ [] then
        if state.1 = [] then state
        else (state.1, config_set state.2 state.1 key value)
      else state

/-- Source function `config_load(config, filename)` on a configuration that is
not `NULL`: the return value and the configuration. `mtime` is the
modification time that `stat` reports, `none` when `stat` fails. -/
def config_load (config_set : config_t → Bytes → Bytes → Bytes → config_t)
    (mtime : Option Int) (fs : fs_t) (config : config_t) (filename : Option Bytes) :
    Int × config_t :=
  let config1 :=
    match filename with
    | some f => { config with filename := (cstr f).take (CONFIG_MAX_PATH - 1) }
    | none => config
  if config1.filename = [] then (CONFIG_ERROR_NOFILE, config1)
  else
    match fs config1.filename with
    | none => (CONFIG_ERROR_NOFILE, config1)
    | some content =>
      let config2 :=
        ((fgets_lines CONFIG_MAX_LINE_LEN content []).foldl (config_load_line config_set)
          ([], config_clear config1)).2
      match mtime with
      | some t => (CONFIG_SUCCESS, { config2 with last_modified := t })
      | none => (CONFIG_SUCCESS, config2)

/-- The file name `test_config_saved.ini`. -/
def saved_file_name : Bytes :=
  [116, 101, 115, 116, 95, 99, 111, 110, 102, 105, 103, 95, 115, 97, 118, 101, 100, 46, 105,
   110, 105]

/-- The working directory after `config_save(config, "test_config_saved.ini")`
on `sample_config`. -/
def saved_fs : fs_t :=
  (save_config_to_file config_env empty_fs sample_config saved_file_name).2

/-- A `config_set` that stores the value as `config_set_string` does; the file
that the auto-save of `config_set_string` would write is left out. -/
def storing_config_set (config : config_t) (s k v : Bytes) : config_t :=
  (config_set_string config_env empty_fs config (some s) (some k) (some v)).config

/-- Whether a section name, key or value is as the round trip asks: not empty
and without NUL, white space (line breaks included), quotes, `=`, `[`, `]`,
`;` and `#`. -/
def plain_text (l : Bytes) : Bool :=
  l != [] && l.all (fun x => !isspace x && x != 0 && x != 34 && x != 61 && x != 91 &&
    x != 93 && x != 59 && x != 35)



/-! ## Theorems -/

theorem be64toh_htobe64 (x : Nat) (rest : Bytes) :
    be64toh (htobe64 x ++ rest) = x % 2^64 := by
  simp only [be64toh, htobe64, List.cons_append, List.nil_append, List.take_succ_cons,
    List.take_zero, List.foldl_cons, List.foldl_nil]
  omega

theorem codes_ne_success :
    CRYPTO_ERROR_INVALID_PARAM ≠ CRYPTO_SUCCESS ∧ CRYPTO_ERROR_AUTH ≠ CRYPTO_SUCCESS ∧
    CRYPTO_ERROR_DECRYPT ≠ CRYPTO_SUCCESS ∧ CRYPTO_ERROR_ENCRYPT ≠ CRYPTO_SUCCESS := by
  decide

/-- What a successful `crypto_decrypt` implies about its arguments and about
the session it leaves behind. -/
theorem crypto_decrypt_success (O : OpenSSL Ctx) (now : Int)
    (session : Option (crypto_session_t Ctx)) (ciphertext plaintext : Option Bytes)
    (plaintext_len : Option Nat)
    (h : (crypto_decrypt O now session ciphertext plaintext plaintext_len).code = CRYPTO_SUCCESS) :
    ∃ s s' ct, session = some s ∧ ciphertext = some ct ∧
      (crypto_decrypt O now session ciphertext plaintext plaintext_len).session = some s' ∧
      s.is_initialized ≠ 0 ∧ s.is_authenticated ≠ 0 ∧
      s'.is_initialized = s.is_initialized ∧ s'.is_authenticated = s.is_authenticated ∧
      8 + 1 + HMAC_SIZE ≤ ct.length ∧ s.seq_num_recv < be64toh ct ∧
      s'.seq_num_recv = be64toh ct := by
  obtain ⟨hc, hc2, hc3, -⟩ := codes_ne_success
  cases session with
  | none => exact absurd h hc
  | some s =>
    by_cases hflags : s.is_initialized = 0 ∨ s.is_authenticated = 0
    · simp [crypto_decrypt, hflags, hc] at h
    · cases ciphertext <;> cases plaintext <;> cases plaintext_len <;>
        try (simp [crypto_decrypt, hflags, hc] at h; done)
      rename_i ct buf len0
      by_cases hz : ct.length = 0
      · simp [crypto_decrypt, hflags, hc, hz] at h
      by_cases hlen : ct.length < 8 + 1 + HMAC_SIZE
      · simp [crypto_decrypt, hflags, hc, hz, hlen] at h
      by_cases hseq : be64toh ct ≤ s.seq_num_recv
      · simp [crypto_decrypt, hflags, hc2, hz, hlen, hseq] at h
      rcases hcm : calculate_hmac O (some (ct.take (ct.length - HMAC_SIZE))) (some s.hmac_key)
                (some (List.replicate HMAC_SIZE 0)) with ⟨rc, tag⟩
      by_cases hrc : rc ≠ CRYPTO_SUCCESS
      · simp [crypto_decrypt, hflags, hc2, hz, hlen, hseq, hcm, hrc] at h
      by_cases hmem : CRYPTO_memcmp (tag.getD []) (ct.drop (ct.length - HMAC_SIZE)) HMAC_SIZE ≠ 0
      · simp [crypto_decrypt, hflags, hc2, hz, hlen, hseq, hcm, hrc, hmem] at h
      rcases hupd : s.decrypt_ctx.bind
          (fun c => O.EVP_DecryptUpdate c ((ct.drop 8).take (ct.length - 8 - HMAC_SIZE)))
        with _ | ⟨c1, out1⟩
      · simp [crypto_decrypt, hflags, hc3, hz, hlen, hseq, hcm, hrc, hmem, hupd] at h
      rcases hfin : O.EVP_DecryptFinal_ex c1 with _ | ⟨c2, out2⟩
      · simp [crypto_decrypt, hflags, hc3, hz, hlen, hseq, hcm, hrc, hmem, hupd, hfin] at h
      simp only [crypto_decrypt, hflags, hz, hlen, hseq, hcm, hrc, hmem, hupd, hfin, if_false]
      push_neg at hflags
      refine ⟨s, _, ct, rfl, rfl, rfl, hflags.1, hflags.2, rfl, rfl, ?_, ?_, rfl⟩
      · omega
      · omega

/-- A `crypto_decrypt` that does not return `CRYPTO_SUCCESS` leaves the receive
counter and the received-byte counter of the session as they were. -/
theorem crypto_decrypt_failure_frame (O : OpenSSL Ctx) (now : Int)
    (session : Option (crypto_session_t Ctx)) (ciphertext plaintext : Option Bytes)
    (plaintext_len : Option Nat)
    (h : (crypto_decrypt O now session ciphertext plaintext plaintext_len).code ≠ CRYPTO_SUCCESS) :
    ((crypto_decrypt O now session ciphertext plaintext plaintext_len).session.map
        (fun s => (s.seq_num_recv, s.bytes_received))) =
      session.map (fun s => (s.seq_num_recv, s.bytes_received)) := by
  cases session with
  | none => rfl
  | some s =>
    by_cases hflags : s.is_initialized = 0 ∨ s.is_authenticated = 0
    · simp [crypto_decrypt, hflags]
    · cases ciphertext <;> cases plaintext <;> cases plaintext_len <;>
        try (simp [crypto_decrypt, hflags]; done)
      rename_i ct buf len0
      by_cases hz : ct.length = 0
      · simp [crypto_decrypt, hflags, hz]
      by_cases hlen : ct.length < 8 + 1 + HMAC_SIZE
      · simp [crypto_decrypt, hflags, hz, hlen]
      by_cases hseq : be64toh ct ≤ s.seq_num_recv
      · simp [crypto_decrypt, hflags, hz, hlen, hseq]
      rcases hcm : calculate_hmac O (some (ct.take (ct.length - HMAC_SIZE))) (some s.hmac_key)
                (some (List.replicate HMAC_SIZE 0)) with ⟨rc, tag⟩
      by_cases hrc : rc ≠ CRYPTO_SUCCESS
      · simp [crypto_decrypt, hflags, hz, hlen, hseq, hcm, hrc]
      by_cases hmem : CRYPTO_memcmp (tag.getD []) (ct.drop (ct.length - HMAC_SIZE)) HMAC_SIZE ≠ 0
      · simp [crypto_decrypt, hflags, hz, hlen, hseq, hcm, hrc, hmem]
      rcases hupd : s.decrypt_ctx.bind
          (fun c => O.EVP_DecryptUpdate c ((ct.drop 8).take (ct.length - 8 - HMAC_SIZE)))
        with _ | ⟨c1, out1⟩
      · simp [crypto_decrypt, hflags, hz, hlen, hseq, hcm, hrc, hmem, hupd]
      rcases hfin : O.EVP_DecryptFinal_ex c1 with _ | ⟨c2, out2⟩
      · simp [crypto_decrypt, hflags, hz, hlen, hseq, hcm, hrc, hmem, hupd, hfin]
      · simp [crypto_decrypt, hflags, hz, hlen, hseq, hcm, hrc, hmem, hupd, hfin] at h

/-- On an initialised, authenticated session a record whose sequence number
does not exceed the receive counter is answered with `CRYPTO_ERROR_AUTH`,
provided it has the minimum length. -/
theorem crypto_decrypt_stale (O : OpenSSL Ctx) (now : Int) (s : crypto_session_t Ctx)
    (ct buf : Bytes) (len0 : Nat) (hi : s.is_initialized ≠ 0) (ha : s.is_authenticated ≠ 0)
    (hlen : 8 + 1 + HMAC_SIZE ≤ ct.length) (hseq : be64toh ct ≤ s.seq_num_recv) :
    (crypto_decrypt O now (some s) (some ct) (some buf) (some len0)).code = CRYPTO_ERROR_AUTH := by
  have hz : ct.length ≠ 0 := by omega
  have hl : ¬ ct.length < 8 + 1 + HMAC_SIZE := by omega
  simp [crypto_decrypt, hi, ha, hz, hl, hseq]

theorem memcpy_zero_full (h src : Bytes) (hlen : h.length = src.length) :
    memcpy h 0 src src.length = src := by
  have hd : h.drop (0 + src.length) = [] := List.drop_eq_nil_of_le (by omega)
  simp only [memcpy, List.take_zero, List.nil_append, List.take_length, hd, List.append_nil]

/-- With 32-byte tags, `calculate_hmac` on a local 32-byte array hands back
the tag itself. -/
theorem calculate_hmac_some (O : OpenSSL Ctx) (hT : TagLength O) (d k md : Bytes)
    (h : O.HMAC (k.take KEY_SIZE) d = some md) :
    calculate_hmac O (some d) (some k) (some (List.replicate HMAC_SIZE 0)) =
      (CRYPTO_SUCCESS, some md) := by
  have hl := hT _ _ _ h
  simp only [calculate_hmac, h]
  rw [memcpy_zero_full _ _ (by simp [hl])]

theorem calculate_hmac_none (O : OpenSSL Ctx) (d k : Bytes)
    (h : O.HMAC (k.take KEY_SIZE) d = none) :
    calculate_hmac O (some d) (some k) (some (List.replicate HMAC_SIZE 0)) =
      (CRYPTO_ERROR_AUTH, some (List.replicate HMAC_SIZE 0)) := by
  simp only [calculate_hmac, h]

/-- A record of at least the minimum length whose last 32 bytes are not the
tag of the bytes before them is answered with `CRYPTO_ERROR_AUTH`. -/
theorem crypto_decrypt_mac_mismatch (O : OpenSSL Ctx) (hT : TagLength O) (now : Int)
    (s : crypto_session_t Ctx) (ct buf : Bytes) (len0 : Nat)
    (hi : s.is_initialized ≠ 0) (ha : s.is_authenticated ≠ 0)
    (hlen : 8 + 1 + HMAC_SIZE ≤ ct.length)
    (hmac : O.HMAC (s.hmac_key.take KEY_SIZE) (ct.take (ct.length - HMAC_SIZE)) ≠
      some (ct.drop (ct.length - HMAC_SIZE))) :
    (crypto_decrypt O now (some s) (some ct) (some buf) (some len0)).code = CRYPTO_ERROR_AUTH := by
  have hz : ct.length ≠ 0 := by omega
  have hl : ¬ ct.length < 8 + 1 + HMAC_SIZE := by omega
  by_cases hseq : be64toh ct ≤ s.seq_num_recv
  · exact crypto_decrypt_stale O now s ct buf len0 hi ha hlen hseq
  · rcases hm : O.HMAC (s.hmac_key.take KEY_SIZE) (ct.take (ct.length - HMAC_SIZE)) with _ | md
    · simp [crypto_decrypt, hi, ha, hz, hl, hseq, calculate_hmac_none O _ _ hm,
        CRYPTO_ERROR_AUTH, CRYPTO_SUCCESS]
    · have hmd : md.length = HMAC_SIZE := hT _ _ _ hm
      have hne : md ≠ ct.drop (ct.length - HMAC_SIZE) := by
        intro heq
        exact hmac (by rw [hm, heq])
      have hcmp : CRYPTO_memcmp md (ct.drop (ct.length - HMAC_SIZE)) HMAC_SIZE ≠ 0 := by
        have h1 : md.take HMAC_SIZE = md := List.take_of_length_le (by omega)
        have h2 : (ct.drop (ct.length - HMAC_SIZE)).take HMAC_SIZE =
            ct.drop (ct.length - HMAC_SIZE) :=
          List.take_of_length_le (by simp only [List.length_drop]; omega)
        simp [CRYPTO_memcmp, h1, h2, hne]
      simp [crypto_decrypt, hi, ha, hz, hl, hseq, calculate_hmac_some O hT _ _ _ hm, hcmp,
        CRYPTO_SUCCESS]

/-- C3. If `crypto_decrypt` returns `CRYPTO_SUCCESS` for a record `r`, then the
next `crypto_decrypt` of the same `r` on the session left behind by that call
returns `CRYPTO_ERROR_AUTH`. -/
theorem crypto_decrypt_replay_rejected (O : OpenSSL Ctx) (now now' : Int)
    (session : Option (crypto_session_t Ctx)) (r : Bytes) (plaintext : Option Bytes)
    (plaintext_len : Option Nat) (buf' : Bytes) (len' : Nat)
    (h : (crypto_decrypt O now session (some r) plaintext plaintext_len).code = CRYPTO_SUCCESS) :
    (crypto_decrypt O now'
      (crypto_decrypt O now session (some r) plaintext plaintext_len).session
      (some r) (some buf') (some len')).code = CRYPTO_ERROR_AUTH := by
  obtain ⟨s, s', ct, -, hct, hs', hi, ha, hi', ha', hlen, -, hrecv⟩ :=
    crypto_decrypt_success O now session (some r) plaintext plaintext_len h
  cases hct
  rw [hs']
  exact crypto_decrypt_stale O now' s' r buf' len' (by rw [hi']; exact hi)
    (by rw [ha']; exact ha) hlen (by rw [hrecv])

/-- C3 on the sample record: accepted once, refused the second time. -/
theorem crypto_decrypt_replay_rejected_witness :
    (crypto_decrypt sampleOpenSSL 6 (some (sample_session 0 0)) (some sample_record)
      (some sample_buffer) (some 0)).code = CRYPTO_SUCCESS ∧
    (crypto_decrypt sampleOpenSSL 7
      (crypto_decrypt sampleOpenSSL 6 (some (sample_session 0 0)) (some sample_record)
        (some sample_buffer) (some 0)).session
      (some sample_record) (some sample_buffer) (some 0)).code = CRYPTO_ERROR_AUTH :=
  ⟨by decide,
   crypto_decrypt_replay_rejected sampleOpenSSL 6 7 (some (sample_session 0 0)) sample_record
    (some sample_buffer) (some 0) sample_buffer 0 (by decide)⟩

/-- C7. A `crypto_decrypt` that fails leaves `seq_num_recv` and
`bytes_received` unchanged; a `crypto_decrypt` that succeeds sets
`seq_num_recv` to the sequence number carried by the record, and that number
is strictly greater than the previous `seq_num_recv`. -/
theorem crypto_decrypt_recv_counter (O : OpenSSL Ctx) (now : Int)
    (session : Option (crypto_session_t Ctx)) (ciphertext plaintext : Option Bytes)
    (plaintext_len : Option Nat) :
    ((crypto_decrypt O now session ciphertext plaintext plaintext_len).code ≠ CRYPTO_SUCCESS →
      ((crypto_decrypt O now session ciphertext plaintext plaintext_len).session.map
          (fun s => (s.seq_num_recv, s.bytes_received))) =
        session.map (fun s => (s.seq_num_recv, s.bytes_received))) ∧
    ((crypto_decrypt O now session ciphertext plaintext plaintext_len).code = CRYPTO_SUCCESS →
      ∃ s s' ct, session = some s ∧ ciphertext = some ct ∧
        (crypto_decrypt O now session ciphertext plaintext plaintext_len).session = some s' ∧
        s'.seq_num_recv = be64toh ct ∧ s.seq_num_recv < s'.seq_num_recv) := by
  refine ⟨crypto_decrypt_failure_frame O now session ciphertext plaintext plaintext_len, ?_⟩
  intro h
  obtain ⟨s, s', ct, hs, hct, hs', -, -, -, -, -, hlt, hrecv⟩ :=
    crypto_decrypt_success O now session ciphertext plaintext plaintext_len h
  exact ⟨s, s', ct, hs, hct, hs', hrecv, by rw [hrecv]; exact hlt⟩

/-- C7 on concrete calls: a refused 40-byte record leaves the counters at
(0, 0); the accepted sample record moves `seq_num_recv` from 0 to 1. -/
theorem crypto_decrypt_recv_counter_witness :
    ((crypto_decrypt sampleOpenSSL 6 (some (sample_session 0 0)) (some (List.replicate 40 0))
        (some sample_buffer) (some 0)).session.map
          (fun s => (s.seq_num_recv, s.bytes_received))) = some (0, 0) ∧
    ∃ s s' ct, some (sample_session 0 0) = some s ∧ some sample_record = some ct ∧
      (crypto_decrypt sampleOpenSSL 6 (some (sample_session 0 0)) (some sample_record)
        (some sample_buffer) (some 0)).session = some s' ∧
      s'.seq_num_recv = be64toh ct ∧ s.seq_num_recv < s'.seq_num_recv :=
  ⟨(crypto_decrypt_recv_counter sampleOpenSSL 6 (some (sample_session 0 0))
      (some (List.replicate 40 0)) (some sample_buffer) (some 0)).1 (by decide),
   (crypto_decrypt_recv_counter sampleOpenSSL 6 (some (sample_session 0 0))
      (some sample_record) (some sample_buffer) (some 0)).2 (by decide)⟩

theorem memcpy_take (dst src : Bytes) (off n : Nat) (h1 : off ≤ dst.length)
    (h2 : n ≤ src.length) :
    (memcpy dst off src n).take (off + n) = dst.take off ++ src.take n := by
  unfold memcpy
  apply List.take_left'
  simp only [List.length_append, List.length_take]
  omega

theorem memcpy_length_ge (dst src : Bytes) (off n : Nat) (h1 : off ≤ dst.length)
    (h2 : n ≤ src.length) : off + n ≤ (memcpy dst off src n).length := by
  simp only [memcpy, List.length_append, List.length_take, List.length_drop]
  omega

theorem hmac_array_length (md : Bytes) : HMAC_SIZE ≤ (hmac_array md).length := by
  simp only [hmac_array, memcpy, List.length_append, List.length_take, List.length_drop,
    List.length_replicate]
  omega

theorem hmac_array_of_length (md : Bytes) (h : md.length = HMAC_SIZE) : hmac_array md = md :=
  memcpy_zero_full _ _ (by simp [h])

/-- The first `8 + n` bytes of the output buffer after the first two `memcpy`
calls of `crypto_encrypt`: the bytes over which the tag is computed. -/
theorem data_bytes (buf enc : Bytes) (x : Nat) :
    (memcpy (memcpy buf 0 (htobe64 x) 8) 8 enc enc.length).take (8 + enc.length) =
      htobe64 x ++ enc ∧
    8 + enc.length ≤ (memcpy (memcpy buf 0 (htobe64 x) 8) 8 enc enc.length).length := by
  have h8 : (htobe64 x).length = 8 := rfl
  have t1 : (memcpy buf 0 (htobe64 x) 8).take 8 = htobe64 x := by
    have := memcpy_take buf (htobe64 x) 0 8 (Nat.zero_le _) (by rw [h8])
    simpa [List.take_of_length_le (le_of_eq h8)] using this
  have l1 : 8 ≤ (memcpy buf 0 (htobe64 x) 8).length := by
    have := memcpy_length_ge buf (htobe64 x) 0 8 (Nat.zero_le _) (by rw [h8])
    omega
  refine ⟨?_, memcpy_length_ge _ enc 8 enc.length l1 (le_refl _)⟩
  rw [memcpy_take _ _ _ _ l1 (le_refl _), t1, List.take_length]

/-- The first `8 + n + 32` bytes of the output buffer after the three
`memcpy` calls of `crypto_encrypt`. -/
theorem record_bytes (buf enc hm : Bytes) (x : Nat) (hhm : HMAC_SIZE ≤ hm.length) :
    (memcpy (memcpy (memcpy buf 0 (htobe64 x) 8) 8 enc enc.length) (8 + enc.length) hm
        HMAC_SIZE).take (8 + enc.length + HMAC_SIZE) =
      htobe64 x ++ enc ++ hm.take HMAC_SIZE := by
  rw [memcpy_take _ _ _ _ (data_bytes buf enc x).2 hhm, (data_bytes buf enc x).1]

/-- The result of `crypto_encrypt` when every check passes and every library
call succeeds. -/
theorem crypto_encrypt_path (O : OpenSSL Ctx) (now : Int) (s : crypto_session_t Ctx)
    (pt buf : Bytes) (len0 : Nat) (c c1 c2 : Ctx) (out1 out2 md : Bytes)
    (hi : s.is_initialized ≠ 0) (ha : s.is_authenticated ≠ 0)
    (hz : pt.length ≠ 0) (hbig : ¬ pt.length > BUFFER_SIZE)
    (hctx : s.encrypt_ctx = some c) (hupd : O.EVP_EncryptUpdate c pt = some (c1, out1))
    (hfin : O.EVP_EncryptFinal_ex c1 = some (c2, out2))
    (hm : O.HMAC (s.hmac_key.take KEY_SIZE) (htobe64 s.seq_num_send ++ (out1 ++ out2)) =
      some md) :
    crypto_encrypt O now (some s) (some pt) (some buf) (some len0) =
      ⟨CRYPTO_SUCCESS,
        some { s with
          encrypt_ctx := some c2
          seq_num_send := (s.seq_num_send + 1) % 2^64
          bytes_sent := (s.bytes_sent + (8 + (out1 ++ out2).length + HMAC_SIZE)) % 2^32
          last_activity := now },
        some (memcpy (memcpy (memcpy buf 0 (htobe64 s.seq_num_send) 8) 8 (out1 ++ out2)
          (out1 ++ out2).length) (8 + (out1 ++ out2).length) (hmac_array md) HMAC_SIZE),
        some (8 + (out1 ++ out2).length + HMAC_SIZE)⟩ := by
  have hdata := (data_bytes buf (out1 ++ out2) s.seq_num_send).1
  simp only [crypto_encrypt, hi, ha, or_self, if_false, hz, hbig, hctx, Option.bind_some,
    Option.some_bind, hupd, hfin, hdata, calculate_hmac, hm, ne_eq, not_true_eq_false,
    Option.getD_some, hmac_array]

/-- The result of `crypto_encrypt` when the library fails to compute the tag. -/
theorem crypto_encrypt_hmac_fail (O : OpenSSL Ctx) (now : Int) (s : crypto_session_t Ctx)
    (pt buf : Bytes) (len0 : Nat) (c c1 c2 : Ctx) (out1 out2 : Bytes)
    (hi : s.is_initialized ≠ 0) (ha : s.is_authenticated ≠ 0)
    (hz : pt.length ≠ 0) (hbig : ¬ pt.length > BUFFER_SIZE)
    (hctx : s.encrypt_ctx = some c) (hupd : O.EVP_EncryptUpdate c pt = some (c1, out1))
    (hfin : O.EVP_EncryptFinal_ex c1 = some (c2, out2))
    (hm : O.HMAC (s.hmac_key.take KEY_SIZE) (htobe64 s.seq_num_send ++ (out1 ++ out2)) = none) :
    crypto_encrypt O now (some s) (some pt) (some buf) (some len0) =
      ⟨CRYPTO_ERROR_AUTH, some { s with encrypt_ctx := some c2 },
        some (memcpy (memcpy buf 0 (htobe64 s.seq_num_send) 8) 8 (out1 ++ out2)
          (out1 ++ out2).length),
        some len0⟩ := by
  have hdata := (data_bytes buf (out1 ++ out2) s.seq_num_send).1
  have hc2 : CRYPTO_ERROR_AUTH ≠ CRYPTO_SUCCESS := by decide
  simp only [crypto_encrypt, hi, ha, or_self, if_false, hz, hbig, hctx, Option.bind_some,
    Option.some_bind, hupd, hfin, hdata, calculate_hmac, hm, ne_eq, hc2, not_false_eq_true,
    if_true]

/-- What a successful `crypto_encrypt` implies about its arguments, the library
calls it made, the session it leaves behind and the record it wrote. -/
theorem crypto_encrypt_success (O : OpenSSL Ctx) (now : Int)
    (session : Option (crypto_session_t Ctx)) (plaintext ciphertext : Option Bytes)
    (ciphertext_len : Option Nat)
    (h : (crypto_encrypt O now session plaintext ciphertext ciphertext_len).code =
      CRYPTO_SUCCESS) :
    ∃ s pt c c1 out1 c2 out2 md,
      session = some s ∧ plaintext = some pt ∧
      s.is_initialized ≠ 0 ∧ s.is_authenticated ≠ 0 ∧
      1 ≤ pt.length ∧ pt.length ≤ BUFFER_SIZE ∧
      s.encrypt_ctx = some c ∧ O.EVP_EncryptUpdate c pt = some (c1, out1) ∧
      O.EVP_EncryptFinal_ex c1 = some (c2, out2) ∧
      O.HMAC (s.hmac_key.take KEY_SIZE) (htobe64 s.seq_num_send ++ (out1 ++ out2)) = some md ∧
      (crypto_encrypt O now session plaintext ciphertext ciphertext_len).session =
        some { s with
          encrypt_ctx := some c2
          seq_num_send := (s.seq_num_send + 1) % 2^64
          bytes_sent := (s.bytes_sent + (8 + (out1 ++ out2).length + HMAC_SIZE)) % 2^32
          last_activity := now } ∧
      (crypto_encrypt O now session plaintext ciphertext ciphertext_len).ciphertext_len =
        some (8 + (out1 ++ out2).length + HMAC_SIZE) ∧
      (crypto_encrypt O now session plaintext ciphertext ciphertext_len).record =
        htobe64 s.seq_num_send ++ (out1 ++ out2) ++ (hmac_array md).take HMAC_SIZE := by
  obtain ⟨hc, hc2, -, hc4⟩ := codes_ne_success
  cases session with
  | none => exact absurd h hc
  | some s =>
    by_cases hflags : s.is_initialized = 0 ∨ s.is_authenticated = 0
    · simp [crypto_encrypt, hflags, hc] at h
    · cases plaintext <;> cases ciphertext <;> cases ciphertext_len <;>
        try (simp [crypto_encrypt, hflags, hc] at h; done)
      rename_i pt buf len0
      by_cases hz : pt.length = 0
      · simp [crypto_encrypt, hflags, hc, hz] at h
      by_cases hbig : pt.length > BUFFER_SIZE
      · simp [crypto_encrypt, hflags, hc, hz, hbig] at h
      rcases hctx : s.encrypt_ctx with _ | c
      · simp [crypto_encrypt, hflags, hc4, hz, hbig, hctx] at h
      rcases hupd : O.EVP_EncryptUpdate c pt with _ | ⟨c1, out1⟩
      · simp [crypto_encrypt, hflags, hc4, hz, hbig, hctx, hupd] at h
      rcases hfin : O.EVP_EncryptFinal_ex c1 with _ | ⟨c2, out2⟩
      · simp [crypto_encrypt, hflags, hc4, hz, hbig, hctx, hupd, hfin] at h
      push_neg at hflags
      rcases hm : O.HMAC (s.hmac_key.take KEY_SIZE) (htobe64 s.seq_num_send ++ (out1 ++ out2))
        with _ | md
      · rw [crypto_encrypt_hmac_fail O now s pt buf len0 c c1 c2 out1 out2 hflags.1 hflags.2
          hz hbig hctx hupd hfin hm] at h
        exact absurd h hc2
      have hp := crypto_encrypt_path O now s pt buf len0 c c1 c2 out1 out2 md hflags.1
        hflags.2 hz hbig hctx hupd hfin hm
      refine ⟨s, pt, c, c1, out1, c2, out2, md, rfl, rfl, hflags.1, hflags.2, by omega,
        by omega, hctx, hupd, hfin, hm, ?_, ?_, ?_⟩
      · rw [hp]
      · rw [hp]
      · rw [hp]
        exact record_bytes buf (out1 ++ out2) (hmac_array md) s.seq_num_send
          (hmac_array_length md)

/-- A `crypto_encrypt` that does not return `CRYPTO_SUCCESS` leaves the send
counter of the session as it was. -/
theorem crypto_encrypt_failure_frame (O : OpenSSL Ctx) (now : Int)
    (session : Option (crypto_session_t Ctx)) (plaintext ciphertext : Option Bytes)
    (ciphertext_len : Option Nat)
    (h : (crypto_encrypt O now session plaintext ciphertext ciphertext_len).code ≠
      CRYPTO_SUCCESS) :
    (crypto_encrypt O now session plaintext ciphertext ciphertext_len).session.map
        (fun s => s.seq_num_send) = session.map (fun s => s.seq_num_send) := by
  cases session with
  | none => rfl
  | some s =>
    by_cases hflags : s.is_initialized = 0 ∨ s.is_authenticated = 0
    · simp [crypto_encrypt, hflags]
    · cases plaintext <;> cases ciphertext <;> cases ciphertext_len <;>
        try (simp [crypto_encrypt, hflags]; done)
      rename_i pt buf len0
      by_cases hz : pt.length = 0
      · simp [crypto_encrypt, hflags, hz]
      by_cases hbig : pt.length > BUFFER_SIZE
      · simp [crypto_encrypt, hflags, hz, hbig]
      rcases hctx : s.encrypt_ctx with _ | c
      · simp [crypto_encrypt, hflags, hz, hbig, hctx]
      rcases hupd : O.EVP_EncryptUpdate c pt with _ | ⟨c1, out1⟩
      · simp [crypto_encrypt, hflags, hz, hbig, hctx, hupd]
      rcases hfin : O.EVP_EncryptFinal_ex c1 with _ | ⟨c2, out2⟩
      · simp [crypto_encrypt, hflags, hz, hbig, hctx, hupd, hfin]
      push_neg at hflags
      rcases hm : O.HMAC (s.hmac_key.take KEY_SIZE) (htobe64 s.seq_num_send ++ (out1 ++ out2))
        with _ | md
      · rw [crypto_encrypt_hmac_fail O now s pt buf len0 c c1 c2 out1 out2 hflags.1 hflags.2
          hz hbig hctx hupd hfin hm]
        rfl
      · rw [crypto_encrypt_path O now s pt buf len0 c c1 c2 out1 out2 md hflags.1
          hflags.2 hz hbig hctx hupd hfin hm] at h
        exact absurd rfl h

/-- Every session handed out by `crypto_session_create` has both sequence
counters and both byte counters at 0 and both flags at 1. -/
theorem crypto_session_create_fresh (O : OpenSSL Ctx) (env : create_env_t)
    (password : Option Bytes) (s : crypto_session_t Ctx)
    (h : crypto_session_create O env password = some s) :
    s.seq_num_send = 0 ∧ s.seq_num_recv = 0 ∧ s.is_authenticated = 1 ∧
    s.is_initialized = 1 ∧ s.bytes_sent = 0 ∧ s.bytes_received = 0 := by
  cases password with
  | none => simp [crypto_session_create] at h
  | some pw =>
    by_cases h1 : pw.length = 0
    · simp [crypto_session_create, h1] at h
    by_cases h2 : pw.length > MAX_PASSWORD_LEN
    · simp [crypto_session_create, h1, h2] at h
    by_cases h3 : (!env.calloc_ok) = true
    · simp [crypto_session_create, h1, h2, h3] at h
    by_cases h4 : (generate_random_bytes env.os_salt env.salt_stack SALT_SIZE).1 = 0
    · simp [crypto_session_create, h1, h2, h3, h4] at h
    by_cases h5 : (generate_random_bytes env.os_iv
        (calloc_session : crypto_session_t Ctx).iv IV_SIZE).1 = 0
    · simp [crypto_session_create, h1, h2, h3, h4, h5] at h
    rcases hd : derive_keys O (some pw)
        (some (generate_random_bytes env.os_salt env.salt_stack SALT_SIZE).2)
        (calloc_session : crypto_session_t Ctx).enc_key
        (calloc_session : crypto_session_t Ctx).hmac_key with ⟨rc, ek, hk⟩
    by_cases h6 : rc ≠ CRYPTO_SUCCESS
    · simp [crypto_session_create, h1, h2, h3, h4, h5, hd, h6] at h
    rcases hn : O.EVP_CIPHER_CTX_new with _ | e0
    · simp [crypto_session_create, h1, h2, h3, h4, h5, hd, h6, hn] at h
    rcases hei : O.EVP_EncryptInit_ex e0 ek
        (generate_random_bytes env.os_iv (calloc_session : crypto_session_t Ctx).iv IV_SIZE).2
      with _ | e1
    · simp [crypto_session_create, h1, h2, h3, h4, h5, hd, h6, hn, hei] at h
    rcases hdi : O.EVP_DecryptInit_ex e0 ek
        (generate_random_bytes env.os_iv (calloc_session : crypto_session_t Ctx).iv IV_SIZE).2
      with _ | d1
    · simp [crypto_session_create, h1, h2, h3, h4, h5, hd, h6, hn, hei, hdi] at h
    simp only [crypto_session_create, h1, h2, h3, h4, h5, hd, h6, hn, hei, hdi, if_false,
      Bool.false_eq_true, Option.some.injEq] at h
    subst h
    simp [calloc_session]

theorem sample_tagLength : TagLength sampleOpenSSL := by
  intro k d md h
  simp only [sampleOpenSSL, cfbOpenSSL, Option.some.injEq] at h
  subst h
  simp [sample_digest, HMAC_SIZE]

theorem cfb128_encrypt_length (E : Bytes → Bytes → Bytes) (c : cfb_ctx_t) (pt : Bytes) :
    (cfb128_encrypt E c pt).2.length = pt.length := by
  induction pt generalizing c with
  | nil => rfl
  | cons p ps ih => simp [cfb128_encrypt, ih]

/-- Every CFB-128 instance is a stream mode. -/
theorem cfb_streamLength (E : Bytes → Bytes → Bytes) (D : Bytes → Bytes → Nat → Bytes) :
    StreamLength (cfbOpenSSL E D) := by
  constructor
  · intro c pt c' out h
    simp only [cfbOpenSSL, Option.some.injEq] at h
    have := cfb128_encrypt_length E c pt
    rw [h] at this
    exact this
  · intro c c' out h
    simp only [cfbOpenSSL, Option.some.injEq, Prod.mk.injEq] at h
    exact h.2.symm

theorem sample_streamLength : StreamLength sampleOpenSSL :=
  cfb_streamLength sample_block sample_digest

theorem be64toh_record (x : Nat) (enc tag : Bytes) :
    be64toh (htobe64 x ++ enc ++ tag) = x % 2^64 := by
  rw [List.append_assoc]
  exact be64toh_htobe64 x _

theorem record_length (x : Nat) (enc md : Bytes) :
    (htobe64 x ++ enc ++ (hmac_array md).take HMAC_SIZE).length = 8 + enc.length + HMAC_SIZE := by
  have h8 : (htobe64 x).length = 8 := rfl
  have := hmac_array_length md
  simp only [List.length_append, List.length_take, h8]
  omega

/-- C1, as the code behaves. On a session whose send counter stands at its
initial value 0 (as on every session handed out by `crypto_session_create`),
the record that `crypto_encrypt` produces carries sequence number 0, and
`crypto_decrypt` on the same session refuses it (the replay check
`seq_received <= seq_num_recv` holds for 0) instead of returning
`CRYPTO_SUCCESS`. When the cipher is a stream mode the code returned is
`CRYPTO_ERROR_AUTH`. -/
theorem fresh_session_roundtrip_refused (O : OpenSSL Ctx) (now now' : Int)
    (s : crypto_session_t Ctx) (m buf pbuf : Bytes) (len0 plen0 : Nat)
    (hsend : s.seq_num_send = 0)
    (he : (crypto_encrypt O now (some s) (some m) (some buf) (some len0)).code =
      CRYPTO_SUCCESS) :
    (crypto_decrypt O now'
      (crypto_encrypt O now (some s) (some m) (some buf) (some len0)).session
      (some (crypto_encrypt O now (some s) (some m) (some buf) (some len0)).record)
      (some pbuf) (some plen0)).code ≠ CRYPTO_SUCCESS ∧
    (StreamLength O →
      (crypto_decrypt O now'
        (crypto_encrypt O now (some s) (some m) (some buf) (some len0)).session
        (some (crypto_encrypt O now (some s) (some m) (some buf) (some len0)).record)
        (some pbuf) (some plen0)).code = CRYPTO_ERROR_AUTH) := by
  obtain ⟨s0, pt, c, c1, out1, c2, out2, md, hs, hpt, hi, ha, h1, -, hctx, hupd, hfin, -, hs', -,
    hrec⟩ := crypto_encrypt_success O now _ _ _ _ he
  cases hs
  cases hpt
  have hseq : be64toh (crypto_encrypt O now (some s) (some m) (some buf)
      (some len0)).record = 0 := by
    rw [hrec, be64toh_record, hsend, Nat.zero_mod]
  constructor
  · intro hd
    obtain ⟨t, -, ct, ht, hct, -, -, -, -, -, -, hlt, -⟩ :=
      crypto_decrypt_success O now' _ _ _ _ hd
    cases hct
    rw [hs'] at ht
    cases ht
    rw [hseq] at hlt
    exact Nat.not_lt_zero _ hlt
  · intro hS
    rw [hs']
    refine crypto_decrypt_stale O now' _ _ pbuf plen0 hi ha ?_ ?_
    · have hl1 := hS.1 _ _ _ _ hupd
      rw [hrec, record_length, List.length_append, hl1]
      omega
    · rw [hseq]
      exact Nat.zero_le _

/-- C1 evaluated on the session that `crypto_session_create` returns in
`sample_env 1 2`, with the two-byte message 72, 105: encryption succeeds and
decryption of the record on the same session returns `CRYPTO_ERROR_AUTH`. -/
theorem fresh_session_roundtrip_refused_witness :
    (crypto_encrypt sampleOpenSSL 5 (some sample_created) (some [72, 105])
      (some sample_buffer) (some 0)).code = CRYPTO_SUCCESS ∧
    (crypto_decrypt sampleOpenSSL 6
      (crypto_encrypt sampleOpenSSL 5 (some sample_created) (some [72, 105])
        (some sample_buffer) (some 0)).session
      (some (crypto_encrypt sampleOpenSSL 5 (some sample_created) (some [72, 105])
        (some sample_buffer) (some 0)).record)
      (some sample_buffer) (some 0)).code = CRYPTO_ERROR_AUTH :=
  ⟨by decide,
   (fresh_session_roundtrip_refused sampleOpenSSL 5 6 sample_created [72, 105] sample_buffer
      sample_buffer 0 0
      (crypto_session_create_fresh sampleOpenSSL (sample_env 1 2) (some [112, 119])
        sample_created (Option.some_get _).symm).1
      (by decide)).2 sample_streamLength⟩

/-- C5. With a stream cipher and 32-byte tags, a successful `crypto_encrypt` of
`m` sets `*ciphertext_len` to `|m| + 40` and writes a record of that many
bytes: bytes 0..7 are the big-endian send counter, the next `|m|` bytes are
what the cipher calls wrote, and the last 32 bytes are the HMAC, under the
session's `hmac_key`, of the `8 + |m|` bytes before them. -/
theorem crypto_encrypt_record_layout (O : OpenSSL Ctx) (hT : TagLength O)
    (hS : StreamLength O) (now : Int) (s : crypto_session_t Ctx) (m buf : Bytes) (len0 : Nat)
    (he : (crypto_encrypt O now (some s) (some m) (some buf) (some len0)).code =
      CRYPTO_SUCCESS) :
    ∃ c c1 out1 c2 out2 md,
      s.encrypt_ctx = some c ∧ O.EVP_EncryptUpdate c m = some (c1, out1) ∧
      O.EVP_EncryptFinal_ex c1 = some (c2, out2) ∧
      (out1 ++ out2).length = m.length ∧
      (crypto_encrypt O now (some s) (some m) (some buf) (some len0)).ciphertext_len =
        some (m.length + 40) ∧
      (crypto_encrypt O now (some s) (some m) (some buf) (some len0)).record.length =
        m.length + 40 ∧
      (crypto_encrypt O now (some s) (some m) (some buf) (some len0)).record.take 8 =
        htobe64 s.seq_num_send ∧
      ((crypto_encrypt O now (some s) (some m) (some buf) (some len0)).record.drop 8).take
        m.length = out1 ++ out2 ∧
      (crypto_encrypt O now (some s) (some m) (some buf) (some len0)).record.drop
        (8 + m.length) = md ∧
      md.length = 32 ∧
      O.HMAC (s.hmac_key.take KEY_SIZE)
        ((crypto_encrypt O now (some s) (some m) (some buf) (some len0)).record.take
          (8 + m.length)) = some md := by
  obtain ⟨s0, pt, c, c1, out1, c2, out2, md, hs, hpt, -, -, -, -, hctx, hupd, hfin, hm, -, hlen,
    hrec⟩ := crypto_encrypt_success O now _ _ _ _ he
  cases hs
  cases hpt
  have hmd : md.length = HMAC_SIZE := hT _ _ _ hm
  have h8 : (htobe64 s.seq_num_send).length = 8 := rfl
  have hout2 : out2 = [] := hS.2 _ _ _ hfin
  have hout1 : out1.length = m.length := hS.1 _ _ _ _ hupd
  have henc : (out1 ++ out2).length = m.length := by rw [hout2, List.append_nil, hout1]
  have htag : (hmac_array md).take HMAC_SIZE = md := by
    rw [hmac_array_of_length md hmd]
    exact List.take_of_length_le (le_of_eq hmd)
  rw [htag] at hrec
  refine ⟨c, c1, out1, c2, out2, md, hctx, hupd, hfin, henc, ?_, ?_, ?_, ?_, ?_, hmd, ?_⟩
  · rw [hlen, henc]
    simp only [HMAC_SIZE]
    congr 1
    omega
  · rw [hrec]
    simp only [List.length_append, h8, henc, hmd, HMAC_SIZE]
    omega
  · rw [hrec, List.append_assoc]
    exact List.take_left' h8
  · rw [hrec, List.append_assoc, List.drop_left' h8]
    exact List.take_left' henc
  · rw [hrec]
    exact List.drop_left' (by simp only [List.length_append, h8, henc])
  · rw [hrec]
    rw [List.take_left' (by simp only [List.length_append, h8, henc])]
    exact hm

/-- C5 on the sample session: the 2-byte message gives a 42-byte record. -/
theorem crypto_encrypt_record_layout_witness :
    ∃ c c1 out1 c2 out2 md,
      (sample_session 1 0).encrypt_ctx = some c ∧
      sampleOpenSSL.EVP_EncryptUpdate c [72, 105] = some (c1, out1) ∧
      sampleOpenSSL.EVP_EncryptFinal_ex c1 = some (c2, out2) ∧
      (out1 ++ out2).length = [72, 105].length ∧
      (crypto_encrypt sampleOpenSSL 5 (some (sample_session 1 0)) (some [72, 105])
        (some sample_buffer) (some 0)).ciphertext_len = some ([72, 105].length + 40) ∧
      (crypto_encrypt sampleOpenSSL 5 (some (sample_session 1 0)) (some [72, 105])
        (some sample_buffer) (some 0)).record.length = [72, 105].length + 40 ∧
      (crypto_encrypt sampleOpenSSL 5 (some (sample_session 1 0)) (some [72, 105])
        (some sample_buffer) (some 0)).record.take 8 = htobe64 (sample_session 1 0).seq_num_send ∧
      ((crypto_encrypt sampleOpenSSL 5 (some (sample_session 1 0)) (some [72, 105])
        (some sample_buffer) (some 0)).record.drop 8).take [72, 105].length = out1 ++ out2 ∧
      (crypto_encrypt sampleOpenSSL 5 (some (sample_session 1 0)) (some [72, 105])
        (some sample_buffer) (some 0)).record.drop (8 + [72, 105].length) = md ∧
      md.length = 32 ∧
      sampleOpenSSL.HMAC ((sample_session 1 0).hmac_key.take KEY_SIZE)
        ((crypto_encrypt sampleOpenSSL 5 (some (sample_session 1 0)) (some [72, 105])
          (some sample_buffer) (some 0)).record.take (8 + [72, 105].length)) = some md :=
  crypto_encrypt_record_layout sampleOpenSSL sample_tagLength sample_streamLength 5
    (sample_session 1 0) [72, 105] sample_buffer 0 (by decide)

/-- C6 fails at the top of the counter's range: on a session whose
`seq_num_send` is `2^64 - 1`, a successful `crypto_encrypt` writes `2^64 - 1`
into its record and leaves `seq_num_send = 0`; the next record carries 0, which
is not greater than `2^64 - 1`. -/
theorem seq_num_send_wraps :
    (crypto_encrypt sampleOpenSSL 5 (some (sample_session (2^64 - 1) 0)) (some [72])
      (some sample_buffer) (some 0)).code = CRYPTO_SUCCESS ∧
    be64toh (crypto_encrypt sampleOpenSSL 5 (some (sample_session (2^64 - 1) 0)) (some [72])
      (some sample_buffer) (some 0)).record = 2^64 - 1 ∧
    (crypto_encrypt sampleOpenSSL 5 (some (sample_session (2^64 - 1) 0)) (some [72])
      (some sample_buffer) (some 0)).session.map (fun s => s.seq_num_send) = some 0 ∧
    (crypto_encrypt sampleOpenSSL 6
      (crypto_encrypt sampleOpenSSL 5 (some (sample_session (2^64 - 1) 0)) (some [72])
        (some sample_buffer) (some 0)).session
      (some [73]) (some sample_buffer) (some 0)).code = CRYPTO_SUCCESS ∧
    be64toh (crypto_encrypt sampleOpenSSL 6
      (crypto_encrypt sampleOpenSSL 5 (some (sample_session (2^64 - 1) 0)) (some [72])
        (some sample_buffer) (some 0)).session
      (some [73]) (some sample_buffer) (some 0)).record = 0 := by
  decide

/-- C6, amended. `crypto_session_create` hands out sessions with
`seq_num_send = 0`. A successful `crypto_encrypt` writes `seq_num_send` into
bytes 0..7 of its record and then sets the counter to
`(seq_num_send + 1) % 2^64`; while the counter is below `2^64 - 1` that is
`seq_num_send + 1`. A failing `crypto_encrypt` leaves the counter unchanged.
Two successive successful calls that start below `2^64 - 1` emit strictly
increasing sequence numbers. -/
theorem seq_num_send_progress (O : OpenSSL Ctx) (now now2 : Int)
    (session : Option (crypto_session_t Ctx)) (plaintext ciphertext : Option Bytes)
    (ciphertext_len : Option Nat) (plaintext2 ciphertext2 : Option Bytes)
    (ciphertext_len2 : Option Nat) :
    (∀ env password s, crypto_session_create O env password = some s → s.seq_num_send = 0) ∧
    ((crypto_encrypt O now session plaintext ciphertext ciphertext_len).code = CRYPTO_SUCCESS →
      ∃ s s', session = some s ∧
        (crypto_encrypt O now session plaintext ciphertext ciphertext_len).session = some s' ∧
        be64toh (crypto_encrypt O now session plaintext ciphertext ciphertext_len).record =
          s.seq_num_send % 2^64 ∧
        s'.seq_num_send = (s.seq_num_send + 1) % 2^64 ∧
        (s.seq_num_send < 2^64 - 1 →
          be64toh (crypto_encrypt O now session plaintext ciphertext ciphertext_len).record =
            s.seq_num_send ∧
          s'.seq_num_send = s.seq_num_send + 1)) ∧
    ((crypto_encrypt O now session plaintext ciphertext ciphertext_len).code ≠ CRYPTO_SUCCESS →
      (crypto_encrypt O now session plaintext ciphertext ciphertext_len).session.map
        (fun s => s.seq_num_send) = session.map (fun s => s.seq_num_send)) ∧
    ((crypto_encrypt O now session plaintext ciphertext ciphertext_len).code = CRYPTO_SUCCESS →
      (crypto_encrypt O now2
        (crypto_encrypt O now session plaintext ciphertext ciphertext_len).session
        plaintext2 ciphertext2 ciphertext_len2).code = CRYPTO_SUCCESS →
      (∀ s, session = some s → s.seq_num_send < 2^64 - 1) →
      be64toh (crypto_encrypt O now session plaintext ciphertext ciphertext_len).record <
        be64toh (crypto_encrypt O now2
          (crypto_encrypt O now session plaintext ciphertext ciphertext_len).session
          plaintext2 ciphertext2 ciphertext_len2).record) := by
  refine ⟨fun env password s hs => (crypto_session_create_fresh O env password s hs).1, ?_,
    crypto_encrypt_failure_frame O now session plaintext ciphertext ciphertext_len, ?_⟩
  · intro he
    obtain ⟨s, pt, c, c1, out1, c2, out2, md, hs, -, -, -, -, -, -, -, -, -, hs', -, hrec⟩ :=
      crypto_encrypt_success O now _ _ _ _ he
    refine ⟨s, _, hs, hs', ?_, rfl, ?_⟩
    · rw [hrec, be64toh_record]
    · intro hlt
      rw [hrec, be64toh_record]
      constructor
      · exact Nat.mod_eq_of_lt (by omega)
      · exact Nat.mod_eq_of_lt (by omega)
  · intro he he2 hlt
    obtain ⟨s, pt, c, c1, out1, c2, out2, md, hs, -, -, -, -, -, -, -, -, -, hs', -, hrec⟩ :=
      crypto_encrypt_success O now _ _ _ _ he
    obtain ⟨t, pt2, d, d1, o1, d2, o2, md2, ht, -, -, -, -, -, -, -, -, -, -, -, hrec2⟩ :=
      crypto_encrypt_success O now2 _ _ _ _ he2
    have hb := hlt s hs
    rw [hs'] at ht
    cases ht
    rw [hrec, hrec2, be64toh_record, be64toh_record]
    simp only
    omega

/-- C6 amended, on the sample session with `seq_num_send = 1`: the record
carries 1, the counter becomes 2, and the next record carries 2. -/
theorem seq_num_send_progress_witness :
    (∃ s s', some (sample_session 1 0) = some s ∧
      (crypto_encrypt sampleOpenSSL 5 (some (sample_session 1 0)) (some [72, 105])
        (some sample_buffer) (some 0)).session = some s' ∧
      be64toh (crypto_encrypt sampleOpenSSL 5 (some (sample_session 1 0)) (some [72, 105])
        (some sample_buffer) (some 0)).record = s.seq_num_send % 2^64 ∧
      s'.seq_num_send = (s.seq_num_send + 1) % 2^64 ∧
      (s.seq_num_send < 2^64 - 1 →
        be64toh (crypto_encrypt sampleOpenSSL 5 (some (sample_session 1 0)) (some [72, 105])
          (some sample_buffer) (some 0)).record = s.seq_num_send ∧
        s'.seq_num_send = s.seq_num_send + 1)) ∧
    be64toh (crypto_encrypt sampleOpenSSL 5 (some (sample_session 1 0)) (some [72, 105])
        (some sample_buffer) (some 0)).record <
      be64toh (crypto_encrypt sampleOpenSSL 6
        (crypto_encrypt sampleOpenSSL 5 (some (sample_session 1 0)) (some [72, 105])
          (some sample_buffer) (some 0)).session
        (some [73]) (some sample_buffer) (some 0)).record :=
  ⟨(seq_num_send_progress sampleOpenSSL 5 6 (some (sample_session 1 0)) (some [72, 105])
      (some sample_buffer) (some 0) (some [73]) (some sample_buffer) (some 0)).2.1 (by decide),
   (seq_num_send_progress sampleOpenSSL 5 6 (some (sample_session 1 0)) (some [72, 105])
      (some sample_buffer) (some 0) (some [73]) (some sample_buffer) (some 0)).2.2.2
      (by decide) (by decide)
      (by intro s hs; cases hs; decide)⟩

/-- C9. `crypto_encrypt` returns `CRYPTO_ERROR_INVALID_PARAM` and leaves the
session, the output buffer and `*ciphertext_len` exactly as they were whenever
the plaintext is empty, is longer than 65536 bytes, or the session's
`is_authenticated` is 0. A plaintext of exactly 65536 bytes on an initialised,
authenticated session with valid pointers is never answered with
`CRYPTO_ERROR_INVALID_PARAM`. -/
theorem crypto_encrypt_invalid_param (O : OpenSSL Ctx) (now : Int)
    (s : crypto_session_t Ctx) (m : Bytes) (ciphertext : Option Bytes)
    (ciphertext_len : Option Nat) :
    ((m.length = 0 ∨ 65536 < m.length ∨ s.is_authenticated = 0) →
      crypto_encrypt O now (some s) (some m) ciphertext ciphertext_len =
        ⟨CRYPTO_ERROR_INVALID_PARAM, some s, ciphertext, ciphertext_len⟩) ∧
    (m.length = 65536 → s.is_initialized ≠ 0 → s.is_authenticated ≠ 0 →
      ∀ buf len0, (crypto_encrypt O now (some s) (some m) (some buf) (some len0)).code ≠
        CRYPTO_ERROR_INVALID_PARAM) := by
  constructor
  · intro h
    by_cases hflags : s.is_initialized = 0 ∨ s.is_authenticated = 0
    · simp [crypto_encrypt, hflags]
    · have hna : s.is_authenticated ≠ 0 := fun h0 => hflags (Or.inr h0)
      have hm : m.length = 0 ∨ m.length > BUFFER_SIZE := by
        rcases h with h | h | h
        · exact Or.inl h
        · exact Or.inr h
        · exact absurd h hna
      cases ciphertext <;> cases ciphertext_len <;> try (simp [crypto_encrypt, hflags]; done)
      rcases hm with hm | hm
      · simp [crypto_encrypt, hflags, hm]
      · have hz : m.length ≠ 0 := by
          have : BUFFER_SIZE = 65536 := rfl
          omega
        simp [crypto_encrypt, hflags, hm, hz]
  · intro hlen hi ha buf len0
    have hz : m.length ≠ 0 := by omega
    have hbig : ¬ m.length > BUFFER_SIZE := by
      have : BUFFER_SIZE = 65536 := rfl
      omega
    rcases hctx : s.encrypt_ctx with _ | c
    · simp [crypto_encrypt, hi, ha, hz, hbig, hctx, CRYPTO_ERROR_ENCRYPT,
        CRYPTO_ERROR_INVALID_PARAM]
    rcases hupd : O.EVP_EncryptUpdate c m with _ | ⟨c1, out1⟩
    · simp [crypto_encrypt, hi, ha, hz, hbig, hctx, hupd, CRYPTO_ERROR_ENCRYPT,
        CRYPTO_ERROR_INVALID_PARAM]
    rcases hfin : O.EVP_EncryptFinal_ex c1 with _ | ⟨c2, out2⟩
    · simp [crypto_encrypt, hi, ha, hz, hbig, hctx, hupd, hfin, CRYPTO_ERROR_ENCRYPT,
        CRYPTO_ERROR_INVALID_PARAM]
    rcases hm : O.HMAC (s.hmac_key.take KEY_SIZE) (htobe64 s.seq_num_send ++ (out1 ++ out2))
      with _ | md
    · rw [crypto_encrypt_hmac_fail O now s m buf len0 c c1 c2 out1 out2 hi ha hz hbig hctx
        hupd hfin hm]
      show CRYPTO_ERROR_AUTH ≠ CRYPTO_ERROR_INVALID_PARAM
      decide
    · rw [crypto_encrypt_path O now s m buf len0 c c1 c2 out1 out2 md hi ha hz hbig hctx
        hupd hfin hm]
      show CRYPTO_SUCCESS ≠ CRYPTO_ERROR_INVALID_PARAM
      decide

/-- C9 on concrete calls: the empty plaintext is refused and nothing changes;
a plaintext of 65536 bytes is not refused. -/
theorem crypto_encrypt_invalid_param_witness :
    crypto_encrypt sampleOpenSSL 5 (some (sample_session 1 0)) (some []) (some sample_buffer)
        (some 0) =
      ⟨CRYPTO_ERROR_INVALID_PARAM, some (sample_session 1 0), some sample_buffer, some 0⟩ ∧
    (crypto_encrypt sampleOpenSSL 5 (some (sample_session 1 0))
      (some (List.replicate 65536 0)) (some sample_buffer) (some 0)).code ≠
        CRYPTO_ERROR_INVALID_PARAM :=
  ⟨(crypto_encrypt_invalid_param sampleOpenSSL 5 (sample_session 1 0) [] (some sample_buffer)
      (some 0)).1 (Or.inl rfl),
   (crypto_encrypt_invalid_param sampleOpenSSL 5 (sample_session 1 0)
      (List.replicate 65536 0) (some sample_buffer) (some 0)).2 (List.length_replicate _ _) (by decide)
      (by decide) sample_buffer 0⟩

/-! ## Tampering -/

theorem flip_bit_length (r : Bytes) (i : Nat) : (flip_bit r i).length = r.length := by
  simp [flip_bit]

theorem xor_pow_ne (b k : Nat) : b ^^^ 2 ^ k ≠ b := by
  intro h
  have h2 : b ^^^ (b ^^^ 2 ^ k) = b ^^^ b := by rw [h]
  rw [Nat.xor_cancel_left, Nat.xor_self] at h2
  exact absurd h2 (Nat.pos_iff_ne_zero.mp (Nat.pow_pos (by decide)))

theorem flip_bit_ne (r : Bytes) (i : Nat) (h : i / 8 < r.length) : flip_bit r i ≠ r := by
  intro heq
  have h1 : (flip_bit r i)[i / 8]? = r[i / 8]? := by rw [heq]
  simp only [flip_bit, List.getD_eq_getElem?_getD, List.getElem?_set_eq_of_lt _ h,
    List.getElem?_eq_getElem h, Option.getD_some, Option.some.injEq] at h1
  exact xor_pow_ne _ _ h1

theorem flip_bit_append_left (a b : Bytes) (i : Nat) (h : i / 8 < a.length) :
    flip_bit (a ++ b) i = flip_bit a i ++ b := by
  simp only [flip_bit]
  rw [List.set_append_left _ _ h, List.getD_append _ _ _ _ h]

theorem flip_bit_append_right (a b : Bytes) (i : Nat) (h : a.length ≤ i / 8) :
    ∃ b', flip_bit (a ++ b) i = a ++ b' ∧ b'.length = b.length ∧
      (i / 8 < a.length + b.length → b' ≠ b) := by
  refine ⟨b.set (i / 8 - a.length) ((a ++ b).getD (i / 8) 0 ^^^ 2 ^ (i % 8)), ?_, ?_, ?_⟩
  · simp only [flip_bit]
    rw [List.set_append_right _ _ h]
  · simp
  · intro hlt heq
    have hne := flip_bit_ne (a ++ b) i (by simpa using hlt)
    apply hne
    simp only [flip_bit]
    rw [List.set_append_right _ _ h, heq]

/-- C10 fails: a 40-byte record on an authenticated session is answered with
`CRYPTO_ERROR_INVALID_PARAM`, which is not `CRYPTO_ERROR_AUTH`, while the
sample record with one tag bit inverted is answered with `CRYPTO_ERROR_AUTH`. -/
theorem short_record_is_invalid_param :
    (crypto_decrypt sampleOpenSSL 6 (some (sample_session 0 0)) (some (List.replicate 40 0))
      (some sample_buffer) (some 0)).code = CRYPTO_ERROR_INVALID_PARAM ∧
    (crypto_decrypt sampleOpenSSL 6 (some (sample_session 0 0)) (some (List.replicate 40 0))
      (some sample_buffer) (some 0)).code ≠ CRYPTO_ERROR_AUTH ∧
    (crypto_decrypt sampleOpenSSL 6 (some (sample_session 0 0))
      (some (flip_bit sample_record 335)) (some sample_buffer) (some 0)).code =
        CRYPTO_ERROR_AUTH := by
  decide

/-- C10, amended. On an initialised, authenticated session `crypto_decrypt`
answers every record shorter than 41 bytes with `CRYPTO_ERROR_INVALID_PARAM`,
and every record of at least 41 bytes whose last 32 bytes are not the HMAC of
the bytes before them with `CRYPTO_ERROR_AUTH`: the two failures carry
different codes. -/
theorem crypto_decrypt_short_versus_mac (O : OpenSSL Ctx) (hT : TagLength O) (now : Int)
    (s : crypto_session_t Ctx) (ct buf : Bytes) (len0 : Nat)
    (hi : s.is_initialized ≠ 0) (ha : s.is_authenticated ≠ 0) :
    (ct.length < 41 →
      (crypto_decrypt O now (some s) (some ct) (some buf) (some len0)).code =
        CRYPTO_ERROR_INVALID_PARAM) ∧
    (41 ≤ ct.length →
      O.HMAC (s.hmac_key.take KEY_SIZE) (ct.take (ct.length - HMAC_SIZE)) ≠
        some (ct.drop (ct.length - HMAC_SIZE)) →
      (crypto_decrypt O now (some s) (some ct) (some buf) (some len0)).code =
        CRYPTO_ERROR_AUTH) ∧
    CRYPTO_ERROR_INVALID_PARAM ≠ CRYPTO_ERROR_AUTH := by
  refine ⟨?_, ?_, by decide⟩
  · intro hlen
    by_cases hz : ct.length = 0
    · simp [crypto_decrypt, hi, ha, hz]
    · have hl : ct.length < 8 + 1 + HMAC_SIZE := by simp only [HMAC_SIZE]; omega
      simp [crypto_decrypt, hi, ha, hz, hl]
  · intro hlen hmac
    exact crypto_decrypt_mac_mismatch O hT now s ct buf len0 hi ha
      (by simp only [HMAC_SIZE]; omega) hmac

/-- C10 amended, on the sample session: 40 zero bytes give
`CRYPTO_ERROR_INVALID_PARAM`, the sample record with a bit of its tag inverted
gives `CRYPTO_ERROR_AUTH`. -/
theorem crypto_decrypt_short_versus_mac_witness :
    (crypto_decrypt sampleOpenSSL 6 (some (sample_session 0 0)) (some (List.replicate 40 0))
      (some sample_buffer) (some 0)).code = CRYPTO_ERROR_INVALID_PARAM ∧
    (crypto_decrypt sampleOpenSSL 6 (some (sample_session 0 0))
      (some (flip_bit sample_record 335)) (some sample_buffer) (some 0)).code =
        CRYPTO_ERROR_AUTH :=
  ⟨(crypto_decrypt_short_versus_mac sampleOpenSSL sample_tagLength 6 (sample_session 0 0)
      (List.replicate 40 0) sample_buffer 0 (by decide) (by decide)).1 (by decide),
   (crypto_decrypt_short_versus_mac sampleOpenSSL sample_tagLength 6 (sample_session 0 0)
      (flip_bit sample_record 335) sample_buffer 0 (by decide) (by decide)).2.1 (by decide)
      (by decide)⟩

/-- C4. Let `r` be the record of a successful `crypto_encrypt` on session `a`
and `r'` be `r` with any single bit inverted. On every initialised,
authenticated session `b` holding the same `hmac_key`, `crypto_decrypt` of
`r'` returns `CRYPTO_ERROR_AUTH`. The library facts used are stated as
hypotheses: the cipher is a stream mode, tags are 32 bytes long and, when the
inverted bit lies in the sequence field or the ciphertext, the HMAC of the
altered bytes differs from the HMAC of the original bytes. -/
theorem crypto_decrypt_tampered (O : OpenSSL Ctx) (hT : TagLength O) (hS : StreamLength O)
    (now now' : Int) (a b : crypto_session_t Ctx) (m buf pbuf : Bytes) (len0 plen0 : Nat)
    (i : Nat)
    (he : (crypto_encrypt O now (some a) (some m) (some buf) (some len0)).code =
      CRYPTO_SUCCESS)
    (hpos : i / 8 <
      (crypto_encrypt O now (some a) (some m) (some buf) (some len0)).record.length)
    (hbi : b.is_initialized ≠ 0) (hba : b.is_authenticated ≠ 0)
    (hkey : b.hmac_key = a.hmac_key)
    (hmac : i / 8 < 8 + m.length →
      O.HMAC (a.hmac_key.take KEY_SIZE)
        (flip_bit ((crypto_encrypt O now (some a) (some m) (some buf)
          (some len0)).record.take (8 + m.length)) i) ≠
      O.HMAC (a.hmac_key.take KEY_SIZE)
        ((crypto_encrypt O now (some a) (some m) (some buf)
          (some len0)).record.take (8 + m.length))) :
    (crypto_decrypt O now' (some b)
      (some (flip_bit (crypto_encrypt O now (some a) (some m) (some buf)
        (some len0)).record i))
      (some pbuf) (some plen0)).code = CRYPTO_ERROR_AUTH := by
  obtain ⟨s0, pt, c, c1, out1, c2, out2, md, hs, hpt, -, -, hm1, -, hctx, hupd, hfin, hm, -, -,
    hrec⟩ := crypto_encrypt_success O now _ _ _ _ he
  cases hs
  cases hpt
  have hmd : md.length = HMAC_SIZE := hT _ _ _ hm
  have h8 : (htobe64 a.seq_num_send).length = 8 := rfl
  have hout2 : out2 = [] := hS.2 _ _ _ hfin
  have hout1 : out1.length = m.length := hS.1 _ _ _ _ hupd
  have henc : (out1 ++ out2).length = m.length := by rw [hout2, List.append_nil, hout1]
  have htag : (hmac_array md).take HMAC_SIZE = md := by
    rw [hmac_array_of_length md hmd]
    exact List.take_of_length_le (le_of_eq hmd)
  rw [htag] at hrec
  have hdlen : (htobe64 a.seq_num_send ++ (out1 ++ out2)).length = 8 + m.length := by
    rw [List.length_append, h8, henc]
  rw [hrec] at hpos hmac ⊢
  rw [List.take_left' hdlen] at hmac
  have hrlen : (htobe64 a.seq_num_send ++ (out1 ++ out2) ++ md).length =
      8 + m.length + HMAC_SIZE := by
    rw [List.length_append, hdlen, hmd]
  have hH : HMAC_SIZE = 32 := rfl
  apply crypto_decrypt_mac_mismatch O hT now' b _ pbuf plen0 hbi hba
  · rw [flip_bit_length, hrlen]
    omega
  · rw [flip_bit_length, hrlen, hkey, Nat.add_sub_cancel]
    by_cases hj : i / 8 < 8 + m.length
    · rw [flip_bit_append_left _ _ _ (by rw [hdlen]; exact hj),
        List.take_left' (by rw [flip_bit_length, hdlen]),
        List.drop_left' (by rw [flip_bit_length, hdlen]), ← hm]
      exact hmac hj
    · obtain ⟨md', hfl, hlen', hne⟩ := flip_bit_append_right
        (htobe64 a.seq_num_send ++ (out1 ++ out2)) md i (by rw [hdlen]; omega)
      rw [hfl, List.take_left' hdlen, List.drop_left' hdlen, hm]
      intro heq
      apply hne (by rw [← List.length_append]; exact hpos)
      exact (Option.some.inj heq).symm

/-- C4 on the sample record: inverting bit 3 of byte 9 (a ciphertext byte)
makes `crypto_decrypt` return `CRYPTO_ERROR_AUTH`. -/
theorem crypto_decrypt_tampered_witness :
    (crypto_decrypt sampleOpenSSL 6 (some (sample_session 0 0))
      (some (flip_bit (crypto_encrypt sampleOpenSSL 5 (some (sample_session 1 0))
        (some [72, 105]) (some sample_buffer) (some 0)).record 75))
      (some sample_buffer) (some 0)).code = CRYPTO_ERROR_AUTH :=
  crypto_decrypt_tampered sampleOpenSSL sample_tagLength sample_streamLength 5 6
    (sample_session 1 0) (sample_session 0 0) [72, 105] sample_buffer sample_buffer 0 0 75
    (by decide) (by decide) (by decide) (by decide) rfl (fun _ => by decide)

/-! ## Decryption of a record on another session -/

/-- The result of `crypto_decrypt` when every check passes and every library
call succeeds. -/
theorem crypto_decrypt_path (O : OpenSSL Ctx) (hT : TagLength O) (now : Int)
    (s : crypto_session_t Ctx) (ct buf : Bytes) (len0 : Nat) (d0 d1 d2 : Ctx)
    (p1 p2 md : Bytes)
    (hi : s.is_initialized ≠ 0) (ha : s.is_authenticated ≠ 0)
    (hlen : 8 + 1 + HMAC_SIZE ≤ ct.length) (hseq : s.seq_num_recv < be64toh ct)
    (hm : O.HMAC (s.hmac_key.take KEY_SIZE) (ct.take (ct.length - HMAC_SIZE)) = some md)
    (hmd : md = ct.drop (ct.length - HMAC_SIZE))
    (hctx : s.decrypt_ctx = some d0)
    (hupd : O.EVP_DecryptUpdate d0 ((ct.drop 8).take (ct.length - 8 - HMAC_SIZE)) =
      some (d1, p1))
    (hfin : O.EVP_DecryptFinal_ex d1 = some (d2, p2)) :
    crypto_decrypt O now (some s) (some ct) (some buf) (some len0) =
      ⟨CRYPTO_SUCCESS,
        some { s with
          decrypt_ctx := some d2
          seq_num_recv := be64toh ct
          bytes_received := (s.bytes_received + ct.length) % 2^32
          last_activity := now },
        some (memcpy (memcpy buf 0 p1 p1.length) p1.length p2 p2.length),
        some (p1.length + p2.length)⟩ := by
  have hz : ct.length ≠ 0 := by omega
  have hl : ¬ ct.length < 8 + 1 + HMAC_SIZE := by omega
  have hs : ¬ be64toh ct ≤ s.seq_num_recv := by omega
  have hcmp : CRYPTO_memcmp md (ct.drop (ct.length - HMAC_SIZE)) HMAC_SIZE = 0 := by
    rw [← hmd]
    simp [CRYPTO_memcmp]
  simp only [crypto_decrypt, hi, ha, or_self, if_false, hz, hl, hs,
    calculate_hmac_some O hT _ _ _ hm, ne_eq, not_true_eq_false, Option.getD_some, hcmp,
    hctx, Option.bind_some, Option.some_bind, hupd, hfin]

theorem message_bytes (buf p1 p2 : Bytes) :
    (memcpy (memcpy buf 0 p1 p1.length) p1.length p2 p2.length).take (p1.length + p2.length) =
      p1 ++ p2 := by
  have l1 : p1.length ≤ (memcpy buf 0 p1 p1.length).length := by
    have := memcpy_length_ge buf p1 0 p1.length (Nat.zero_le _) (le_refl _)
    omega
  have t1 : (memcpy buf 0 p1 p1.length).take p1.length = p1 := by
    have := memcpy_take buf p1 0 p1.length (Nat.zero_le _) (le_refl _)
    simpa using this
  rw [memcpy_take _ _ _ _ l1 (le_refl _), t1, List.take_length]

/-- The sessions that `crypto_session_create` returns in `sample_env 1 2` and
`sample_env 3 4` for the passphrase `pw`, each with its own salt and IV: the
first record encrypted on one is answered with `CRYPTO_ERROR_AUTH` by the other,
and so is the second record (sequence number 1, which passes the replay check
and then fails the MAC comparison because the two sessions derived different
keys). -/
theorem sample_sessions_refuse :
    (crypto_session_create sampleOpenSSL (sample_env 1 2) (some [112, 119])).isSome = true ∧
    (crypto_session_create sampleOpenSSL (sample_env 3 4) (some [112, 119])).isSome = true ∧
    (crypto_encrypt sampleOpenSSL 5
      (crypto_session_create sampleOpenSSL (sample_env 1 2) (some [112, 119]))
      (some [72, 105]) (some sample_buffer) (some 0)).code = CRYPTO_SUCCESS ∧
    (crypto_decrypt sampleOpenSSL 6
      (crypto_session_create sampleOpenSSL (sample_env 3 4) (some [112, 119]))
      (some (crypto_encrypt sampleOpenSSL 5
        (crypto_session_create sampleOpenSSL (sample_env 1 2) (some [112, 119]))
        (some [72, 105]) (some sample_buffer) (some 0)).record)
      (some sample_buffer) (some 0)).code = CRYPTO_ERROR_AUTH ∧
    (crypto_encrypt sampleOpenSSL 7
      (crypto_encrypt sampleOpenSSL 5
        (crypto_session_create sampleOpenSSL (sample_env 1 2) (some [112, 119]))
        (some [72, 105]) (some sample_buffer) (some 0)).session
      (some [33]) (some sample_buffer) (some 0)).code = CRYPTO_SUCCESS ∧
    (crypto_decrypt sampleOpenSSL 8
      (crypto_session_create sampleOpenSSL (sample_env 3 4) (some [112, 119]))
      (some (crypto_encrypt sampleOpenSSL 7
        (crypto_encrypt sampleOpenSSL 5
          (crypto_session_create sampleOpenSSL (sample_env 1 2) (some [112, 119]))
          (some [72, 105]) (some sample_buffer) (some 0)).session
        (some [33]) (some sample_buffer) (some 0)).record)
      (some sample_buffer) (some 0)).code = CRYPTO_ERROR_AUTH := by
  decide

theorem cfb128_roundtrip (E : Bytes → Bytes → Bytes) (c : cfb_ctx_t) (m : Bytes) :
    cfb128_decrypt E c (cfb128_encrypt E c m).2 = ((cfb128_encrypt E c m).1, m) := by
  induction m generalizing c with
  | nil => rfl
  | cons p ps ih =>
    have hstate : (cfb128_decrypt_byte E c (cfb128_encrypt_byte E c p).2).1 =
        (cfb128_encrypt_byte E c p).1 := rfl
    have hbyte : (cfb128_decrypt_byte E c (cfb128_encrypt_byte E c p).2).2 = p := by
      simp only [cfb128_decrypt_byte, cfb128_encrypt_byte]
      exact Nat.xor_cancel_left _ _
    simp only [cfb128_encrypt, cfb128_decrypt, hstate, hbyte, ih]

/-- In every CFB-128 instance, a decrypt context equal to the encrypt context
is in step with it on every plaintext. -/
theorem cfb_inStep (E : Bytes → Bytes → Bytes) (D : Bytes → Bytes → Nat → Bytes)
    (c : cfb_ctx_t) (m : Bytes) : InStep (cfbOpenSSL E D) (some c) (some c) m := by
  intro c0 c1 out1 c2 out2 hc hupd hfin
  cases hc
  simp only [cfbOpenSSL, Option.some.injEq, Prod.mk.injEq] at hupd hfin
  obtain ⟨-, rfl⟩ := hfin
  have hrt := cfb128_roundtrip E c m
  rw [hupd] at hrt
  refine ⟨c, c1, m, c1, [], rfl, ?_, rfl, by simp⟩
  simp only [cfbOpenSSL, List.append_nil]
  rw [hrt]

theorem sample_inStep (c : cfb_ctx_t) (m : Bytes) :
    InStep sampleOpenSSL (some c) (some c) m :=
  cfb_inStep sample_block sample_digest c m

/-- C2 (code defect). Two sessions created independently by
`crypto_session_create` from the same passphrase, in whatever environments:
the first record that `crypto_encrypt` produces on one is answered with
`CRYPTO_ERROR_AUTH` by `crypto_decrypt` on the other (with a stream cipher, as
CFB is), whatever the plaintext. On the sample sessions, which drew different
salts, the second record is refused as well: its sequence number 1 passes the
replay check and the MAC comparison fails, the two sessions having derived
different keys. -/
theorem independent_sessions_refused (O : OpenSSL Ctx) (hS : StreamLength O)
    (env1 env2 : create_env_t) (password : Option Bytes) (a b : crypto_session_t Ctx)
    (now now1 : Int) (m buf pbuf : Bytes) (len0 plen0 : Nat)
    (ha : crypto_session_create O env1 password = some a)
    (hb : crypto_session_create O env2 password = some b)
    (he : (crypto_encrypt O now (some a) (some m) (some buf) (some len0)).code =
      CRYPTO_SUCCESS) :
    (crypto_decrypt O now1 (some b)
      (some (crypto_encrypt O now (some a) (some m) (some buf) (some len0)).record)
      (some pbuf) (some plen0)).code = CRYPTO_ERROR_AUTH ∧
    (crypto_encrypt sampleOpenSSL 7
      (crypto_encrypt sampleOpenSSL 5
        (crypto_session_create sampleOpenSSL (sample_env 1 2) (some [112, 119]))
        (some [72, 105]) (some sample_buffer) (some 0)).session
      (some [33]) (some sample_buffer) (some 0)).code = CRYPTO_SUCCESS ∧
    (crypto_decrypt sampleOpenSSL 8
      (crypto_session_create sampleOpenSSL (sample_env 3 4) (some [112, 119]))
      (some (crypto_encrypt sampleOpenSSL 7
        (crypto_encrypt sampleOpenSSL 5
          (crypto_session_create sampleOpenSSL (sample_env 1 2) (some [112, 119]))
          (some [72, 105]) (some sample_buffer) (some 0)).session
        (some [33]) (some sample_buffer) (some 0)).record)
      (some sample_buffer) (some 0)).code = CRYPTO_ERROR_AUTH := by
  obtain ⟨hsend, -, -, -, -, -⟩ := crypto_session_create_fresh O env1 password a ha
  obtain ⟨-, hrecv, hauth, hinit, -, -⟩ := crypto_session_create_fresh O env2 password b hb
  obtain ⟨s0, pt, c, c1, out1, c2, out2, md, hs, hpt, -, -, h1, -, hctx, hupd, hfin, -, -, -,
    hrec⟩ := crypto_encrypt_success O now _ _ _ _ he
  cases hs
  cases hpt
  refine ⟨?_, sample_sessions_refuse.2.2.2.2⟩
  refine crypto_decrypt_stale O now1 b _ pbuf plen0 (by rw [hinit]; decide)
    (by rw [hauth]; decide) ?_ ?_
  · have hl1 := hS.1 _ _ _ _ hupd
    rw [hrec, record_length, List.length_append, hl1]
    omega
  · rw [hrec, be64toh_record, hsend, Nat.zero_mod]
    exact Nat.zero_le _

/-- The sessions created in `sample_env 1 2` and `sample_env 3 4` from the
passphrase `pw`, and the message 72, 105. -/
theorem independent_sessions_refused_witness :
    (crypto_session_create sampleOpenSSL (sample_env 1 2) (some [112, 119])).isSome = true ∧
    (crypto_session_create sampleOpenSSL (sample_env 3 4) (some [112, 119])).isSome = true ∧
    (crypto_encrypt sampleOpenSSL 5
      (crypto_session_create sampleOpenSSL (sample_env 1 2) (some [112, 119]))
      (some [72, 105]) (some sample_buffer) (some 0)).code = CRYPTO_SUCCESS ∧
    (crypto_decrypt sampleOpenSSL 6
      (crypto_session_create sampleOpenSSL (sample_env 3 4) (some [112, 119]))
      (some (crypto_encrypt sampleOpenSSL 5
        (crypto_session_create sampleOpenSSL (sample_env 1 2) (some [112, 119]))
        (some [72, 105]) (some sample_buffer) (some 0)).record)
      (some sample_buffer) (some 0)).code = CRYPTO_ERROR_AUTH :=
  ⟨by decide, by decide, by decide,
    (independent_sessions_refused sampleOpenSSL sample_streamLength (sample_env 1 2)
      (sample_env 3 4) (some [112, 119])
      ((crypto_session_create sampleOpenSSL (sample_env 1 2) (some [112, 119])).get (by decide))
      ((crypto_session_create sampleOpenSSL (sample_env 3 4) (some [112, 119])).get (by decide))
      5 6 [72, 105] sample_buffer sample_buffer 0 0
      (Option.some_get _).symm (Option.some_get _).symm (by decide)).1⟩

/-! ## The session of a connection that is still authenticating -/

/-- A connection that `connect_to_host` returns for a non-empty password is in
`STATE_AUTHENTICATING` and carries a session made by `crypto_session_create`. -/
theorem connect_to_host_encrypted (O : OpenSSL Ctx) (env : connect_env_t)
    (host : Option Bytes) (port : Int) (pw : Bytes) (conn : connection_t Ctx)
    (hpw : pw.length > 0)
    (h : connect_to_host O env host port (some pw) = some conn) :
    conn.state = STATE_AUTHENTICATING ∧
    ∃ s, crypto_session_create O env.crypto (some pw) = some s ∧ conn.crypto = some s := by
  cases host with
  | none => simp [connect_to_host] at h
  | some hst =>
    simp only [connect_to_host, hpw, if_true] at h
    split_ifs at h
    rcases hc : crypto_session_create O env.crypto (some pw) with _ | s
    · simp [hc] at h
    · simp only [hc, Option.some.injEq] at h
      subst h
      exact ⟨rfl, s, rfl, rfl⟩

/-- A connection that `accept_connection` returns for a listener that holds a
password and has `is_encrypted` set is in `STATE_AUTHENTICATING` and carries a
session made by `crypto_session_create`. -/
theorem accept_connection_encrypted (O : OpenSSL Ctx) (env : accept_env_t)
    (l conn : connection_t Ctx) (pw : Bytes)
    (hpw : l.password = some pw) (henc : l.is_encrypted ≠ 0)
    (h : accept_connection O env (some l) = some conn) :
    conn.state = STATE_AUTHENTICATING ∧
    ∃ s, crypto_session_create O env.crypto (some pw) = some s ∧ conn.crypto = some s := by
  simp only [accept_connection, hpw, henc, ne_eq, not_false_eq_true, if_true] at h
  split_ifs at h
  rcases hc : crypto_session_create O env.crypto (some pw) with _ | s
  · simp [hc] at h
  · simp only [hc, Option.some.injEq] at h
    subst h
    exact ⟨rfl, s, rfl, rfl⟩

/-- C8 fails. The connection that `connect_to_host` returns for a password, and
the one that `accept_connection` returns for a listener with a password, are in
`STATE_AUTHENTICATING`, their sessions already have `is_authenticated = 1`,
and `crypto_encrypt` on those sessions returns `CRYPTO_SUCCESS`. -/
theorem authenticating_session_encrypts :
    (connect_to_host sampleOpenSSL sample_connect_env (some [104]) 4444
      (some [112, 119])).map (fun c => c.state) = some STATE_AUTHENTICATING ∧
    ((connect_to_host sampleOpenSSL sample_connect_env (some [104]) 4444
      (some [112, 119])).bind (fun c => c.crypto)).map (fun s => s.is_authenticated) =
        some 1 ∧
    (crypto_encrypt sampleOpenSSL 5
      ((connect_to_host sampleOpenSSL sample_connect_env (some [104]) 4444
        (some [112, 119])).bind (fun c => c.crypto))
      (some [72, 105]) (some sample_buffer) (some 0)).code = CRYPTO_SUCCESS ∧
    (accept_connection sampleOpenSSL sample_accept_env (some sample_listener)).map
      (fun c => c.state) = some STATE_AUTHENTICATING ∧
    ((accept_connection sampleOpenSSL sample_accept_env (some sample_listener)).bind
      (fun c => c.crypto)).map (fun s => s.is_authenticated) = some 1 ∧
    (crypto_encrypt sampleOpenSSL 5
      ((accept_connection sampleOpenSSL sample_accept_env (some sample_listener)).bind
        (fun c => c.crypto))
      (some [72, 105]) (some sample_buffer) (some 0)).code = CRYPTO_SUCCESS := by
  decide

/-- C8, amended. `crypto_encrypt` and `crypto_decrypt` return
`CRYPTO_ERROR_INVALID_PARAM` and change nothing whenever the session's
`is_authenticated` is 0. Every connection that `connect_to_host` returns for a
non-empty password, and every connection that `accept_connection` returns for
an encrypted listener with a password, is in `STATE_AUTHENTICATING` and carries
a session whose `is_authenticated` and `is_initialized` are already 1, so that
flag does not refuse it. -/
theorem session_flag_gate (O : OpenSSL Ctx) :
    (∀ (now : Int) (s : crypto_session_t Ctx) (data out : Option Bytes) (len : Option Nat),
      s.is_authenticated = 0 →
      crypto_encrypt O now (some s) data out len =
        ⟨CRYPTO_ERROR_INVALID_PARAM, some s, out, len⟩ ∧
      crypto_decrypt O now (some s) data out len =
        ⟨CRYPTO_ERROR_INVALID_PARAM, some s, out, len⟩) ∧
    (∀ (env : connect_env_t) (host : Option Bytes) (port : Int) (pw : Bytes)
      (conn : connection_t Ctx), pw.length > 0 →
      connect_to_host O env host port (some pw) = some conn →
      conn.state = STATE_AUTHENTICATING ∧
      ∃ s, conn.crypto = some s ∧ s.is_authenticated = 1 ∧ s.is_initialized = 1) ∧
    (∀ (env : accept_env_t) (l conn : connection_t Ctx) (pw : Bytes),
      l.password = some pw → l.is_encrypted ≠ 0 →
      accept_connection O env (some l) = some conn →
      conn.state = STATE_AUTHENTICATING ∧
      ∃ s, conn.crypto = some s ∧ s.is_authenticated = 1 ∧ s.is_initialized = 1) := by
  refine ⟨?_, ?_, ?_⟩
  · intro now s data out len h0
    constructor
    · simp [crypto_encrypt, h0]
    · simp [crypto_decrypt, h0]
  · intro env host port pw conn hpw h
    obtain ⟨hst, s, hs, hc⟩ := connect_to_host_encrypted O env host port pw conn hpw h
    obtain ⟨-, -, ha, hi, -⟩ := crypto_session_create_fresh O env.crypto (some pw) s hs
    exact ⟨hst, s, hc, ha, hi⟩
  · intro env l conn pw hpw henc h
    obtain ⟨hst, s, hs, hc⟩ := accept_connection_encrypted O env l conn pw hpw henc h
    obtain ⟨-, -, ha, hi, -⟩ := crypto_session_create_fresh O env.crypto (some pw) s hs
    exact ⟨hst, s, hc, ha, hi⟩

/-- C8 amended, on concrete values: a session with `is_authenticated = 0` is
refused by `crypto_encrypt`; the connection returned by `connect_to_host` in
the sample environment is in `STATE_AUTHENTICATING` with an authenticated
session. -/
theorem session_flag_gate_witness :
    (crypto_encrypt sampleOpenSSL 5
        (some { sample_session 1 0 with is_authenticated := 0 })
        (some [72, 105]) (some sample_buffer) (some 0) =
      ⟨CRYPTO_ERROR_INVALID_PARAM, some { sample_session 1 0 with is_authenticated := 0 },
        some sample_buffer, some 0⟩) ∧
    sample_connection.state = STATE_AUTHENTICATING ∧
    ∃ s, sample_connection.crypto = some s ∧ s.is_authenticated = 1 ∧ s.is_initialized = 1 :=
  ⟨((session_flag_gate sampleOpenSSL).1 5 { sample_session 1 0 with is_authenticated := 0 }
      (some [72, 105]) (some sample_buffer) (some 0) rfl).1,
   (session_flag_gate sampleOpenSSL).2.1 sample_connect_env (some [104]) 4444
      [112, 119] sample_connection (by decide) (Option.some_get _).symm⟩

/-! ## Session creation, random bytes and disposal -/

/-- C11, as the code behaves. `crypto_session_create` tests
`!generate_random_bytes(...)`, and `platform_random_bytes` returns
`PLATFORM_SUCCESS = 0` when it has delivered every byte: whenever the random
source succeeds for the salt, or for the IV, `crypto_session_create` returns
`NULL`, whatever the passphrase and the library do. -/
theorem crypto_session_create_rng_success (O : OpenSSL Ctx) (env : create_env_t)
    (password : Option Bytes)
    (h : (platform_random_bytes env.os_salt env.salt_stack SALT_SIZE).1 = PLATFORM_SUCCESS ∨
      (platform_random_bytes env.os_iv (List.replicate IV_SIZE 0) IV_SIZE).1 =
        PLATFORM_SUCCESS) :
    crypto_session_create O env password = none := by
  cases password with
  | none => rfl
  | some pw =>
    by_cases h1 : pw.length = 0
    · simp [crypto_session_create, h1]
    by_cases h2 : pw.length > MAX_PASSWORD_LEN
    · simp [crypto_session_create, h1, h2]
    by_cases h3 : (!env.calloc_ok) = true
    · simp [crypto_session_create, h1, h2, h3]
    by_cases h4 : (generate_random_bytes env.os_salt env.salt_stack SALT_SIZE).1 = 0
    · simp [crypto_session_create, h1, h2, h3, h4]
    by_cases h5 : (generate_random_bytes env.os_iv
        (calloc_session : crypto_session_t Ctx).iv IV_SIZE).1 = 0
    · simp [crypto_session_create, h1, h2, h3, h4, h5]
    · exfalso
      rcases h with h | h
      · exact h4 h
      · exact h5 h

/-- C11 evaluated: the passphrase of the unit tests, a random source that
delivers all 32 and all 16 bytes, a library in which every call succeeds; the
result is `NULL`. -/
theorem crypto_session_create_rng_success_witness :
    (platform_random_bytes working_env.os_salt working_env.salt_stack SALT_SIZE).1 =
      PLATFORM_SUCCESS ∧
    (platform_random_bytes working_env.os_iv (List.replicate IV_SIZE 0) IV_SIZE).1 =
      PLATFORM_SUCCESS ∧
    crypto_session_create sampleOpenSSL working_env (some test_password) = none :=
  ⟨by decide, by decide,
   crypto_session_create_rng_success sampleOpenSSL working_env (some test_password)
    (Or.inl (by decide))⟩

/-- When the passphrase has 1 to 1024 bytes, `calloc` succeeds, both calls of
the random source return a non-zero code and no library call fails,
`crypto_session_create` returns a session. -/
theorem crypto_session_create_some (O : OpenSSL Ctx) (env : create_env_t) (pw : Bytes)
    (h1 : pw.length ≠ 0) (h2 : pw.length ≤ MAX_PASSWORD_LEN) (h3 : env.calloc_ok = true)
    (h4 : (generate_random_bytes env.os_salt env.salt_stack SALT_SIZE).1 ≠ 0)
    (h5 : (generate_random_bytes env.os_iv (List.replicate IV_SIZE 0) IV_SIZE).1 ≠ 0)
    (hk : ∀ p s, (O.PKCS5_PBKDF2_HMAC_SHA256 p s PBKDF2_ITERATIONS (KEY_SIZE * 2)).isSome = true)
    (hn : O.EVP_CIPHER_CTX_new.isSome = true)
    (he : ∀ c k iv, (O.EVP_EncryptInit_ex c k iv).isSome = true)
    (hd : ∀ c k iv, (O.EVP_DecryptInit_ex c k iv).isSome = true) :
    (crypto_session_create O env (some pw)).isSome = true := by
  have h2' : ¬ pw.length > MAX_PASSWORD_LEN := by omega
  have h5' : (generate_random_bytes env.os_iv
      (calloc_session : crypto_session_t Ctx).iv IV_SIZE).1 ≠ 0 := h5
  obtain ⟨derived, hderived⟩ := Option.isSome_iff_exists.mp
    (hk pw ((generate_random_bytes env.os_salt env.salt_stack SALT_SIZE).2.take SALT_SIZE))
  obtain ⟨c0, hc0⟩ := Option.isSome_iff_exists.mp hn
  obtain ⟨e1, he1⟩ := Option.isSome_iff_exists.mp (he c0
    (memcpy (calloc_session : crypto_session_t Ctx).enc_key 0 derived KEY_SIZE)
    (generate_random_bytes env.os_iv (calloc_session : crypto_session_t Ctx).iv IV_SIZE).2)
  obtain ⟨d1, hd1⟩ := Option.isSome_iff_exists.mp (hd c0
    (memcpy (calloc_session : crypto_session_t Ctx).enc_key 0 derived KEY_SIZE)
    (generate_random_bytes env.os_iv (calloc_session : crypto_session_t Ctx).iv IV_SIZE).2)
  simp only [crypto_session_create, h1, h2', h3, h4, h5', derive_keys, hderived, hc0, he1, hd1,
    if_false, Bool.not_true, Bool.false_eq_true, ne_eq, not_true_eq_false, Option.isSome_some]

/-- C12. `crypto_session_create` returns `NULL` for a `NULL` passphrase, for
the empty passphrase and for every passphrase longer than 1024 bytes. A
passphrase of exactly 1024 bytes passes the length checks: the call returns a
session whenever the later steps (allocation, the two random draws as the code
tests them, key derivation, cipher initialisation) go through. -/
theorem crypto_session_create_password_length (O : OpenSSL Ctx) (env : create_env_t) :
    crypto_session_create O env none = none ∧
    crypto_session_create O env (some []) = none ∧
    (∀ pw : Bytes, pw.length > 1024 → crypto_session_create O env (some pw) = none) ∧
    (∀ pw : Bytes, pw.length = 1024 →
      env.calloc_ok = true →
      (generate_random_bytes env.os_salt env.salt_stack SALT_SIZE).1 ≠ 0 →
      (generate_random_bytes env.os_iv (List.replicate IV_SIZE 0) IV_SIZE).1 ≠ 0 →
      (∀ p s, (O.PKCS5_PBKDF2_HMAC_SHA256 p s PBKDF2_ITERATIONS (KEY_SIZE * 2)).isSome = true) →
      O.EVP_CIPHER_CTX_new.isSome = true →
      (∀ c k iv, (O.EVP_EncryptInit_ex c k iv).isSome = true) →
      (∀ c k iv, (O.EVP_DecryptInit_ex c k iv).isSome = true) →
      (crypto_session_create O env (some pw)).isSome = true) := by
  refine ⟨rfl, ?_, ?_, ?_⟩
  · simp [crypto_session_create]
  · intro pw hlen
    have h1 : pw.length ≠ 0 := by omega
    have h2 : pw.length > MAX_PASSWORD_LEN := hlen
    simp [crypto_session_create, h1, h2]
  · intro pw hlen h3 h4 h5 hk hn he hd
    exact crypto_session_create_some O env pw (by omega)
      (by simp only [MAX_PASSWORD_LEN]; omega) h3 h4 h5 hk hn he hd

/-- C12 on concrete passphrases: 1025 bytes are refused, 1024 bytes give a
session in `sample_env 1 2`. -/
theorem crypto_session_create_password_length_witness :
    crypto_session_create sampleOpenSSL (sample_env 1 2) (some (List.replicate 1025 65)) =
      none ∧
    (crypto_session_create sampleOpenSSL (sample_env 1 2)
      (some (List.replicate 1024 65))).isSome = true :=
  ⟨(crypto_session_create_password_length sampleOpenSSL (sample_env 1 2)).2.2.1
      (List.replicate 1025 65) (by rw [List.length_replicate]; omega),
   (crypto_session_create_password_length sampleOpenSSL (sample_env 1 2)).2.2.2
      (List.replicate 1024 65) (List.length_replicate _ _) rfl (by decide) (by decide)
      (fun _ _ => rfl) rfl (fun _ _ _ => rfl) (fun _ _ _ => rfl)⟩

/-- C13. For every session, `crypto_session_destroy` hands both cipher contexts
to `EVP_CIPHER_CTX_free`, and at the moment the structure is handed to `free`
every field of it is zero: `enc_key`, `hmac_key` and `iv` hold only zero
bytes, both context pointers are `NULL`, and all counters, times and flags
are 0. -/
theorem crypto_session_destroy_wipes (s : crypto_session_t Ctx) :
    ∃ b, (crypto_session_destroy (some s)).block = some b ∧
      b.enc_key = List.replicate 32 0 ∧ b.hmac_key = List.replicate 32 0 ∧
      b.iv = List.replicate 16 0 ∧ b.encrypt_ctx = none ∧ b.decrypt_ctx = none ∧
      b.seq_num_send = 0 ∧ b.seq_num_recv = 0 ∧ b.created_at = 0 ∧ b.last_activity = 0 ∧
      b.bytes_sent = 0 ∧ b.bytes_received = 0 ∧ b.is_authenticated = 0 ∧
      b.is_initialized = 0 ∧
      (∀ c, s.encrypt_ctx = some c → c ∈ (crypto_session_destroy (some s)).freed_ctx) ∧
      (∀ c, s.decrypt_ctx = some c → c ∈ (crypto_session_destroy (some s)).freed_ctx) := by
  refine ⟨memset_session s, rfl, rfl, rfl, rfl, rfl, rfl, rfl, rfl, rfl, rfl, rfl, rfl, rfl, rfl,
    ?_, ?_⟩
  · intro c hc
    simp [crypto_session_destroy, hc]
  · intro c hc
    simp [crypto_session_destroy, hc]

/-- C13 on `sample_session 7 3`, whose two cipher contexts are set: the block
handed to `free` is all zero and both contexts have been freed. -/
theorem crypto_session_destroy_wipes_witness :
    ∃ b, (crypto_session_destroy (some (sample_session 7 3))).block = some b ∧
      b.enc_key = List.replicate 32 0 ∧ b.hmac_key = List.replicate 32 0 ∧
      b.iv = List.replicate 16 0 ∧ b.encrypt_ctx = none ∧ b.decrypt_ctx = none ∧
      b.seq_num_send = 0 ∧ b.seq_num_recv = 0 ∧ b.created_at = 0 ∧ b.last_activity = 0 ∧
      b.bytes_sent = 0 ∧ b.bytes_received = 0 ∧ b.is_authenticated = 0 ∧
      b.is_initialized = 0 ∧
      (∀ c, (sample_session 7 3).encrypt_ctx = some c →
        c ∈ (crypto_session_destroy (some (sample_session 7 3))).freed_ctx) ∧
      (∀ c, (sample_session 7 3).decrypt_ctx = some c →
        c ∈ (crypto_session_destroy (some (sample_session 7 3))).freed_ctx) :=
  crypto_session_destroy_wipes (sample_session 7 3)

/-- C14, as the code behaves. A request for zero bytes into a valid buffer is
answered with `CRYPTO_ERROR_INVALID_PARAM`, not with `CRYPTO_SUCCESS`, and the
buffer is left alone; a `NULL` buffer is answered with
`CRYPTO_ERROR_INVALID_PARAM` as well. -/
theorem crypto_random_bytes_zero_length (rand_bytes : Option Bytes) (os : urandom_t)
    (buf : Bytes) (length : Nat) :
    crypto_random_bytes rand_bytes os (some buf) 0 = (CRYPTO_ERROR_INVALID_PARAM, some buf) ∧
    (crypto_random_bytes rand_bytes os (some buf) 0).1 ≠ CRYPTO_SUCCESS ∧
    (crypto_random_bytes rand_bytes os none length).1 ≠ CRYPTO_SUCCESS := by
  refine ⟨rfl, ?_, ?_⟩
  · show CRYPTO_ERROR_INVALID_PARAM ≠ CRYPTO_SUCCESS
    decide
  · show CRYPTO_ERROR_INVALID_PARAM ≠ CRYPTO_SUCCESS
    decide

/-! ## File transfer: receiving -/

/-- The outcomes of `receive_file_chunk_internal` on a transfer whose file is
open, one for each `return` of the source. -/
theorem receive_file_chunk_cases (sha256 : Bytes → Bytes) (env : recv_env_t) (fs : fs_t)
    (t : file_transfer_t) (file : FILE) (chunk : Bytes) (chunk_num : Nat)
    (hfile : t.file = some file) :
    (chunk_num ≠ t.chunks_received ∧
      receive_file_chunk_internal sha256 env fs (some t) (some chunk) chunk_num =
        ⟨FILE_TRANSFER_ERROR_ORDER, some t, fs⟩) ∨
    (chunk_num = t.chunks_received ∧
      (t.bytes_transferred + chunk.length) % 2^64 > t.file_size ∧
      receive_file_chunk_internal sha256 env fs (some t) (some chunk) chunk_num =
        ⟨FILE_TRANSFER_ERROR_SIZE, some { t with state := TRANSFER_ERROR }, fs⟩) ∨
    (chunk_num = t.chunks_received ∧
      (t.bytes_transferred + chunk.length) % 2^64 ≤ t.file_size ∧
      (fwrite env fs chunk file).1 ≠ chunk.length ∧
      receive_file_chunk_internal sha256 env fs (some t) (some chunk) chunk_num =
        ⟨ FILE_TRANSFER_ERROR_IO, some { t with state := TRANSFER_ERROR },
          (fwrite env fs chunk file).2⟩) ∨
    (chunk_num = t.chunks_received ∧
      (t.bytes_transferred + chunk.length) % 2^64 ≤ t.file_size ∧
      (fwrite env fs chunk file).1 = chunk.length ∧
      (t.bytes_transferred + chunk.length) % 2^64 < t.file_size ∧
      receive_file_chunk_internal sha256 env fs (some t) (some chunk) chunk_num =
        ⟨FILE_TRANSFER_IN_PROGRESS, some (count_chunk t chunk.length env.now),
          (fwrite env fs chunk file).2⟩) ∨
    (chunk_num = t.chunks_received ∧
      (t.bytes_transferred + chunk.length) % 2^64 = t.file_size ∧
      (fwrite env fs chunk file).1 = chunk.length ∧
      (∀ content, (fwrite env fs chunk file).2 (snprintf_part MAX_FILENAME_LEN t.filename) =
          some content →
        (sha256 content).take SHA256_DIGEST_LENGTH ≠ t.checksum.take SHA256_DIGEST_LENGTH) ∧
      receive_file_chunk_internal sha256 env fs (some t) (some chunk) chunk_num =
        ⟨FILE_TRANSFER_ERROR_VERIFY,
          some { count_chunk t chunk.length env.now with file := none, state := TRANSFER_ERROR },
          (fwrite env fs chunk file).2⟩) ∨
    (∃ content, chunk_num = t.chunks_received ∧
      (t.bytes_transferred + chunk.length) % 2^64 = t.file_size ∧
      (fwrite env fs chunk file).1 = chunk.length ∧
      (fwrite env fs chunk file).2 (snprintf_part MAX_FILENAME_LEN t.filename) = some content ∧
      (sha256 content).take SHA256_DIGEST_LENGTH = t.checksum.take SHA256_DIGEST_LENGTH ∧
      env.rename_result ≠ 0 ∧
      receive_file_chunk_internal sha256 env fs (some t) (some chunk) chunk_num =
        ⟨ FILE_TRANSFER_ERROR_IO,
          some { count_chunk t chunk.length env.now with file := none, state := TRANSFER_ERROR },
          (fwrite env fs chunk file).2⟩) ∨
    (∃ content, chunk_num = t.chunks_received ∧
      (t.bytes_transferred + chunk.length) % 2^64 = t.file_size ∧
      (fwrite env fs chunk file).1 = chunk.length ∧
      (fwrite env fs chunk file).2 (snprintf_part MAX_FILENAME_LEN t.filename) = some content ∧
      (sha256 content).take SHA256_DIGEST_LENGTH = t.checksum.take SHA256_DIGEST_LENGTH ∧
      env.rename_result = 0 ∧
      receive_file_chunk_internal sha256 env fs (some t) (some chunk) chunk_num =
        ⟨FILE_TRANSFER_SUCCESS,
          some { count_chunk t chunk.length env.now with file := none, state := TRANSFER_COMPLETE },
          fs_write (fs_remove (fwrite env fs chunk file).2
            (snprintf_part MAX_FILENAME_LEN t.filename))
            t.filename content⟩) := by
  obtain ⟨st, fname, f, fsz, bt, cs, cr, stt, la, ck⟩ := t
  simp only at hfile
  subst hfile
  simp only
  have hunf : receive_file_chunk_internal sha256 env fs
      (some ⟨st, fname, some file, fsz, bt, cs, cr, stt, la, ck⟩) (some chunk) chunk_num =
      receive_file_chunk_internal sha256 env fs
      (some ⟨st, fname, some file, fsz, bt, cs, cr, stt, la, ck⟩) (some chunk) chunk_num := rfl
  conv at hunf =>
    rhs
    simp only [receive_file_chunk_internal]
  by_cases hnum : chunk_num ≠ cr
  · left
    exact ⟨hnum, by rw [hunf, if_pos hnum]⟩
  right
  have hnum' : chunk_num = cr := not_not.mp hnum
  by_cases hsize : (bt + chunk.length) % 2^64 > fsz
  · left
    exact ⟨hnum', hsize, by rw [hunf, if_neg hnum, if_pos hsize]⟩
  right
  have hsize' : (bt + chunk.length) % 2^64 ≤ fsz := not_lt.mp hsize
  by_cases hw : (fwrite env fs chunk file).1 ≠ chunk.length
  · left
    exact ⟨hnum', hsize', hw, by rw [hunf, if_neg hnum, if_neg hsize, if_pos hw]⟩
  right
  have hw' : (fwrite env fs chunk file).1 = chunk.length := not_not.mp hw
  rw [if_neg hnum, if_neg hsize, if_neg hw, hw'] at hunf
  by_cases hdone : (bt + chunk.length) % 2^64 < fsz
  · left
    refine ⟨hnum', hsize', hw', hdone, ?_⟩
    rw [hunf, if_neg (not_le.mpr hdone)]
    rfl
  right
  have heq : (bt + chunk.length) % 2^64 = fsz := by omega
  have hd : (bt + chunk.length) % 2^64 ≥ fsz := by omega
  rw [if_pos hd] at hunf
  rcases hc : (fwrite env fs chunk file).2 (snprintf_part MAX_FILENAME_LEN fname)
    with _ | content
  · left
    refine ⟨hnum', heq, hw', ?_, ?_⟩
    · intro content h
      cases h
    rw [hunf, hc]
    rfl
  have hsum : calculate_file_checksum sha256 (some content)
      (some (List.replicate SHA256_DIGEST_LENGTH 0)) = (0, some (sha256 content)) := rfl
  rw [hc, hsum] at hunf
  simp only [ne_eq, not_true_eq_false, if_false, Option.getD_some] at hunf
  by_cases hh : (sha256 content).take SHA256_DIGEST_LENGTH = ck.take SHA256_DIGEST_LENGTH
  swap
  · left
    refine ⟨hnum', heq, hw', ?_, ?_⟩
    · intro c h
      cases h
      exact hh
    rw [hunf, if_pos hh]
    rfl
  right
  have hren : rename env (fwrite env fs chunk file).2
      (snprintf_part MAX_FILENAME_LEN fname) fname =
      if env.rename_result ≠ 0 then (env.rename_result, (fwrite env fs chunk file).2)
      else (0, fs_write (fs_remove (fwrite env fs chunk file).2
        (snprintf_part MAX_FILENAME_LEN fname)) fname content) := by
    simp only [rename, hc]
  rw [if_neg (not_not.mpr hh), hren] at hunf
  by_cases hr : env.rename_result ≠ 0
  · left
    refine ⟨content, hnum', heq, hw', rfl, hh, hr, ?_⟩
    rw [hunf, if_pos hr, if_pos hr]
    rfl
  · right
    have hr' : env.rename_result = 0 := not_not.mp hr
    refine ⟨content, hnum', heq, hw', rfl, hh, hr', ?_⟩
    rw [hunf, if_neg hr]
    simp only [ne_eq, not_true_eq_false, if_false]
    rfl

/-- C15 (divergence from the claim). For every transfer whose file is open and
every chunk whose number differs from `chunks_received`, `receive_file_chunk`
returns `FILE_TRANSFER_ERROR_ORDER` and writes nothing, but it leaves the
transfer exactly as it was: the state is not set to `TRANSFER_ERROR`. -/
theorem receive_file_chunk_out_of_order (sha256 : Bytes → Bytes) (env : recv_env_t)
    (fs : fs_t) (t : file_transfer_t) (file : FILE) (chunk : Bytes) (chunk_num : Nat)
    (hfile : t.file = some file) (hnum : chunk_num ≠ t.chunks_received) :
    receive_file_chunk sha256 env fs (some t) (some chunk) chunk_num =
      ⟨FILE_TRANSFER_ERROR_ORDER, some t, fs⟩ := by
  rcases receive_file_chunk_cases sha256 env fs t file chunk chunk_num hfile with
    h | h | h | h | h | ⟨_, h⟩ | ⟨_, h⟩
  · exact h.2
  all_goals exact absurd h.1 hnum

/-- The chunk numbered 2 offered to the fresh `sample_transfer`, which expects
chunk 0, is answered with `FILE_TRANSFER_ERROR_ORDER` while the transfer stays
in `TRANSFER_RECEIVING`. -/
theorem receive_file_chunk_out_of_order_witness :
    receive_file_chunk sample_sha256 sample_recv_env sample_receiving.fs
        (some sample_transfer) (some [1, 2]) 2 =
      ⟨FILE_TRANSFER_ERROR_ORDER, some sample_transfer, sample_receiving.fs⟩ ∧
    sample_transfer.state = TRANSFER_RECEIVING ∧
    sample_transfer.state ≠ TRANSFER_ERROR :=
  ⟨receive_file_chunk_out_of_order sample_sha256 sample_recv_env sample_receiving.fs
      sample_transfer (FILE.writer sample_part_name) [1, 2] 2 (by decide) (by decide),
    by decide, by decide⟩

theorem cancel_file_transfer_other_state (fs : fs_t) (t : file_transfer_t)
    (hstate : t.state ≠ TRANSFER_RECEIVING) :
    cancel_file_transfer fs (some t) =
      ⟨FILE_TRANSFER_SUCCESS, some { t with file := none, state := TRANSFER_CANCELLED }, fs⟩ := by
  simp only [cancel_file_transfer, hstate, if_false]

/-- C20 (divergence from the claim). A receive transfer whose file is open is
offered, under the expected number, a chunk that takes the total past
`file_size`: `receive_file_chunk` returns `FILE_TRANSFER_ERROR_SIZE` and sets
`TRANSFER_ERROR`. `cancel_file_transfer` then sets `TRANSFER_CANCELLED` and
returns `FILE_TRANSFER_SUCCESS`, but the working directory is what it was
before the chunk arrived: the `.part` file that `start_file_receive` created is
not removed. -/
theorem cancel_file_transfer_keeps_part (sha256 : Bytes → Bytes) (env : recv_env_t)
    (fs : fs_t) (t : file_transfer_t) (file : FILE) (chunk : Bytes)
    (hfile : t.file = some file)
    (hover : (t.bytes_transferred + chunk.length) % 2^64 > t.file_size) :
    (receive_file_chunk sha256 env fs (some t) (some chunk) t.chunks_received).code =
      FILE_TRANSFER_ERROR_SIZE ∧
    (receive_file_chunk sha256 env fs (some t) (some chunk) t.chunks_received).transfer.map
      (fun t1 => t1.state) = some TRANSFER_ERROR ∧
    cancel_file_transfer
      (receive_file_chunk sha256 env fs (some t) (some chunk) t.chunks_received).fs
      (receive_file_chunk sha256 env fs (some t) (some chunk) t.chunks_received).transfer =
      ⟨FILE_TRANSFER_SUCCESS, some { t with file := none, state := TRANSFER_CANCELLED }, fs⟩ := by
  have hle : ¬ (t.bytes_transferred + chunk.length) % 2^64 ≤ t.file_size := not_le.mpr hover
  have heq : ¬ (t.bytes_transferred + chunk.length) % 2^64 = t.file_size := by omega
  unfold receive_file_chunk
  rcases receive_file_chunk_cases sha256 env fs t file chunk t.chunks_received hfile with
    h | h | h | h | h | ⟨_, h⟩ | ⟨_, h⟩
  · exact absurd rfl h.1
  · rw [h.2.2]
    refine ⟨rfl, rfl, ?_⟩
    exact cancel_file_transfer_other_state fs { t with state := TRANSFER_ERROR }
      (by intro hs; cases hs)
  · exact absurd h.2.1 hle
  · exact absurd h.2.1 hle
  · exact absurd h.2.1 heq
  · exact absurd h.2.1 heq
  · exact absurd h.2.1 heq

/-- The transfer `sample_transfer`, for which `f.part` exists, is offered 6 bytes
where 5 were announced, and is then cancelled: `f.part` is still there. -/
theorem cancel_file_transfer_keeps_part_witness :
    sample_receiving.fs sample_part_name = some [] ∧
    (receive_file_chunk sample_sha256 sample_recv_env sample_receiving.fs
      (some sample_transfer) (some [1, 2, 3, 4, 5, 6]) sample_transfer.chunks_received).code =
      FILE_TRANSFER_ERROR_SIZE ∧
    (receive_file_chunk sample_sha256 sample_recv_env sample_receiving.fs
      (some sample_transfer) (some [1, 2, 3, 4, 5, 6])
      sample_transfer.chunks_received).transfer.map (fun t1 => t1.state) =
      some TRANSFER_ERROR ∧
    cancel_file_transfer
      (receive_file_chunk sample_sha256 sample_recv_env sample_receiving.fs
        (some sample_transfer) (some [1, 2, 3, 4, 5, 6]) sample_transfer.chunks_received).fs
      (receive_file_chunk sample_sha256 sample_recv_env sample_receiving.fs
        (some sample_transfer) (some [1, 2, 3, 4, 5, 6])
        sample_transfer.chunks_received).transfer =
      ⟨FILE_TRANSFER_SUCCESS,
        some { sample_transfer with file := none, state := TRANSFER_CANCELLED },
        sample_receiving.fs⟩ :=
  ⟨by decide,
    cancel_file_transfer_keeps_part sample_sha256 sample_recv_env sample_receiving.fs
      sample_transfer (FILE.writer sample_part_name) [1, 2, 3, 4, 5, 6] (by decide)
      (by decide)⟩

theorem snprintf_part_short (size : Nat) (name : Bytes) (h : name.length + 5 < size) :
    snprintf_part size name = name ++ part_suffix := by
  unfold snprintf_part
  apply List.take_of_length_le
  simp only [List.length_append, part_suffix, List.length_cons, List.length_nil]
  omega

theorem part_name_ne (name : Bytes) : name ++ part_suffix ≠ name := by
  intro h
  have := congrArg List.length h
  simp [part_suffix] at this

theorem fwrite_full (env : recv_env_t) (fs : fs_t) (chunk path : Bytes)
    (h : chunk.length ≤ env.fwrite_limit) :
    fwrite env fs chunk (FILE.writer path) =
      (chunk.length, fs_write fs path ((fs path).getD [] ++ chunk)) := by
  simp only [fwrite, Nat.min_eq_right h, List.take_length]

theorem fs_write_same (fs : fs_t) (path content : Bytes) :
    fs_write fs path content path = some content := by
  simp only [fs_write, if_true]

theorem fs_write_other (fs : fs_t) (path content p : Bytes) (h : p ≠ path) :
    fs_write fs path content p = fs p := by
  simp only [fs_write, h, if_false]

/-- C19 (amended). When the last chunk of a transfer has been written to
`<name>.part` and the bytes in that file hash to something other than the
declared checksum, `receive_file_chunk` returns `FILE_TRANSFER_ERROR_VERIFY`,
the state becomes `TRANSFER_ERROR` and what is stored under the final name is
as it was before the call; the file `<name>.part` is still there, holding the
bytes received. -/
theorem receive_file_chunk_verify_failure (sha256 : Bytes → Bytes) (env : recv_env_t)
    (fs : fs_t) (t : file_transfer_t) (chunk : Bytes)
    (hfile : t.file = some (FILE.writer (t.filename ++ part_suffix)))
    (hname : t.filename.length + 5 < MAX_FILENAME_LEN)
    (hlast : (t.bytes_transferred + chunk.length) % 2^64 = t.file_size)
    (hwrite : chunk.length ≤ env.fwrite_limit)
    (hmis : (sha256 ((fs (t.filename ++ part_suffix)).getD [] ++ chunk)).take
        SHA256_DIGEST_LENGTH ≠ t.checksum.take SHA256_DIGEST_LENGTH) :
    (receive_file_chunk sha256 env fs (some t) (some chunk) t.chunks_received).code =
      FILE_TRANSFER_ERROR_VERIFY ∧
    (receive_file_chunk sha256 env fs (some t) (some chunk) t.chunks_received).transfer.map
      (fun t1 => t1.state) = some TRANSFER_ERROR ∧
    (receive_file_chunk sha256 env fs (some t) (some chunk) t.chunks_received).fs t.filename =
      fs t.filename ∧
    (receive_file_chunk sha256 env fs (some t) (some chunk) t.chunks_received).fs
      (t.filename ++ part_suffix) =
      some ((fs (t.filename ++ part_suffix)).getD [] ++ chunk) := by
  have hw := fwrite_full env fs chunk (t.filename ++ part_suffix) hwrite
  have hp := snprintf_part_short MAX_FILENAME_LEN t.filename hname
  have hstored : (fwrite env fs chunk (FILE.writer (t.filename ++ part_suffix))).2
      (snprintf_part MAX_FILENAME_LEN t.filename) =
      some ((fs (t.filename ++ part_suffix)).getD [] ++ chunk) := by
    rw [hw, hp]
    exact fs_write_same _ _ _
  unfold receive_file_chunk
  rcases receive_file_chunk_cases sha256 env fs t _ chunk t.chunks_received hfile with
    h | h | h | h | h | ⟨c, h⟩ | ⟨c, h⟩
  · exact absurd rfl h.1
  · exact absurd h.2.1 (by rw [hlast]; exact lt_irrefl _)
  · exact absurd (by rw [hw]) h.2.2.1
  · exact absurd h.2.2.2.1 (by rw [hlast]; exact lt_irrefl _)
  · rw [h.2.2.2.2, hw]
    refine ⟨rfl, rfl, ?_, fs_write_same _ _ _⟩
    exact fs_write_other _ _ _ _ (part_name_ne t.filename).symm
  · have hc := h.2.2.2.1
    rw [hstored] at hc
    cases hc
    exact absurd h.2.2.2.2.1 hmis
  · have hc := h.2.2.2.1
    rw [hstored] at hc
    cases hc
    exact absurd h.2.2.2.2.1 hmis

/-- The five bytes 9 offered to `sample_transfer` as the whole file: the answer
is `FILE_TRANSFER_ERROR_VERIFY` and `f.part` keeps the five bytes. -/
theorem receive_file_chunk_verify_failure_witness :
    (receive_file_chunk sample_sha256 sample_recv_env sample_receiving.fs
      (some sample_transfer) (some [9, 9, 9, 9, 9]) sample_transfer.chunks_received).code =
      FILE_TRANSFER_ERROR_VERIFY ∧
    (receive_file_chunk sample_sha256 sample_recv_env sample_receiving.fs
      (some sample_transfer) (some [9, 9, 9, 9, 9])
      sample_transfer.chunks_received).transfer.map (fun t1 => t1.state) =
      some TRANSFER_ERROR ∧
    (receive_file_chunk sample_sha256 sample_recv_env sample_receiving.fs
      (some sample_transfer) (some [9, 9, 9, 9, 9]) sample_transfer.chunks_received).fs
      sample_transfer.filename = sample_receiving.fs sample_transfer.filename ∧
    (receive_file_chunk sample_sha256 sample_recv_env sample_receiving.fs
      (some sample_transfer) (some [9, 9, 9, 9, 9]) sample_transfer.chunks_received).fs
      (sample_transfer.filename ++ part_suffix) =
      some ((sample_receiving.fs (sample_transfer.filename ++ part_suffix)).getD [] ++
        [9, 9, 9, 9, 9]) :=
  receive_file_chunk_verify_failure sample_sha256 sample_recv_env sample_receiving.fs
    sample_transfer [9, 9, 9, 9, 9] (by decide) (by decide) (by decide) (by decide) (by decide)

/-- C19 (counterexample). The five bytes 9 arrive for a file announced with the
hash of other bytes: `receive_file_chunk` returns `FILE_TRANSFER_ERROR_VERIFY`,
the state is `TRANSFER_ERROR`, nothing is stored under `f`, and `f.part` has not
been deleted: it holds the five bytes. -/
theorem verify_failure_leaves_part :
    sample_corrupted.code = FILE_TRANSFER_ERROR_VERIFY ∧
    sample_corrupted.transfer.map (fun t => t.state) = some TRANSFER_ERROR ∧
    sample_corrupted.fs [102] = none ∧
    sample_corrupted.fs sample_part_name = some [9, 9, 9, 9, 9] := by
  decide

theorem start_file_receive_fresh (env : recv_start_env_t) (fs : fs_t)
    (conn : Option (connection_t Ctx)) (file_info : Option Bytes) (t : file_transfer_t)
    (h : (start_file_receive env fs conn file_info).transfer = some t) :
    t.state = TRANSFER_RECEIVING ∧ t.bytes_transferred = 0 ∧ t.chunks_received = 0 := by
  unfold start_file_receive at h
  split at h
  · split at h
    · cases h
    split at h
    · cases h
    simp only at h
    split at h
    · cases h
    split at h
    · cases h
    split at h
    · cases h
    split at h
    · cases h
    split at h
    · cases h
    split at h
    · cases h
    split at h
    · cases h
    simp only [Option.some.injEq] at h
    subst h
    exact ⟨rfl, rfl, rfl⟩
  · cases h

theorem chunks_received_step (n : Nat) : (n + 1) % 2^32 ≠ n := by omega

/-- One `receive_file_chunk` call either leaves `bytes_transferred` and
`chunks_received` alone or counts the whole chunk, which then fits. -/
theorem receive_file_chunk_step (sha256 : Bytes → Bytes) (env : recv_env_t) (fs : fs_t)
    (t : file_transfer_t) (data : Option Bytes) (chunk_num : Nat) :
    ∃ t1, (receive_file_chunk sha256 env fs (some t) data chunk_num).transfer = some t1 ∧
      t1.file_size = t.file_size ∧
      ((chunk_counted (some t) (some t1) = false ∧
          t1.bytes_transferred = t.bytes_transferred) ∨
        (chunk_counted (some t) (some t1) = true ∧
          t1.bytes_transferred = (t.bytes_transferred + (data.getD []).length) % 2^64 ∧
          (t.bytes_transferred + (data.getD []).length) % 2^64 ≤ t.file_size)) := by
  have hsame : chunk_counted (some t) (some t) = false := by
    simp [chunk_counted]
  have hcount : ∀ t1 : file_transfer_t, t1.chunks_received = (t.chunks_received + 1) % 2^32 →
      chunk_counted (some t) (some t1) = true := by
    intro t1 h1
    simp only [chunk_counted, Option.map_some', h1, bne_iff_ne, ne_eq, Option.some.injEq]
    exact (chunks_received_step _).symm
  unfold receive_file_chunk
  rcases data with _ | chunk
  · exact ⟨t, rfl, rfl, Or.inl ⟨hsame, rfl⟩⟩
  rcases hfile : t.file with _ | file
  · refine ⟨t, ?_, rfl, Or.inl ⟨hsame, rfl⟩⟩
    simp only [receive_file_chunk_internal, hfile]
  rcases receive_file_chunk_cases sha256 env fs t file chunk chunk_num hfile with
    h | h | h | h | h | ⟨c, h⟩ | ⟨c, h⟩
  · rw [h.2]
    exact ⟨t, rfl, rfl, Or.inl ⟨hsame, rfl⟩⟩
  · rw [h.2.2]
    exact ⟨_, rfl, rfl, Or.inl ⟨hsame, rfl⟩⟩
  · rw [h.2.2.2]
    exact ⟨_, rfl, rfl, Or.inl ⟨hsame, rfl⟩⟩
  · rw [h.2.2.2.2]
    exact ⟨_, rfl, rfl, Or.inr ⟨hcount _ rfl, rfl, h.2.1⟩⟩
  · rw [h.2.2.2.2]
    exact ⟨_, rfl, rfl, Or.inr ⟨hcount _ rfl, rfl, le_of_eq h.2.1⟩⟩
  · rw [h.2.2.2.2.2.2]
    exact ⟨_, rfl, rfl, Or.inr ⟨hcount _ rfl, rfl, le_of_eq h.2.1⟩⟩
  · rw [h.2.2.2.2.2.2]
    exact ⟨_, rfl, rfl, Or.inr ⟨hcount _ rfl, rfl, le_of_eq h.2.1⟩⟩

theorem receive_calls_inv (sha256 : Bytes → Bytes) (calls : List recv_call_t) :
    ∀ (t0 : file_transfer_t) (fs0 : fs_t), t0.bytes_transferred ≤ t0.file_size →
      t0.bytes_transferred + offered_bytes calls < 2^64 →
      ∃ t, (receive_calls sha256 calls (some t0) fs0).1 = some t ∧
        t.file_size = t0.file_size ∧
        t.bytes_transferred ≤ t.file_size ∧
        t.bytes_transferred = t0.bytes_transferred + accepted_bytes sha256 calls (some t0) fs0 ∧
        t.bytes_transferred ≤ t0.bytes_transferred + offered_bytes calls := by
  induction calls with
  | nil =>
    intro t0 fs0 hinv _
    exact ⟨t0, rfl, rfl, hinv, rfl, Nat.le_add_right _ _⟩
  | cons c cs ih =>
    intro t0 fs0 hinv hvol
    have hoff : offered_bytes (c :: cs) = (c.chunk_data.getD []).length + offered_bytes cs := by
      simp only [offered_bytes, List.map_cons, List.sum_cons]
    rw [hoff] at hvol
    obtain ⟨t1, ht1, hsize1, hstep⟩ :=
      receive_file_chunk_step sha256 c.env fs0 t0 c.chunk_data c.chunk_num
    have hmod : (t0.bytes_transferred + (c.chunk_data.getD []).length) % 2^64 =
        t0.bytes_transferred + (c.chunk_data.getD []).length :=
      Nat.mod_eq_of_lt (by omega)
    simp only [receive_calls, accepted_bytes, ht1]
    rcases hstep with ⟨hc, hbt⟩ | ⟨hc, hbt, hfit⟩
    · obtain ⟨t, ht, hs, hle, hacc, hoffd⟩ := ih t1
        (receive_file_chunk sha256 c.env fs0 (some t0) c.chunk_data c.chunk_num).fs
        (by rw [hbt, hsize1]; exact hinv) (by rw [hbt]; omega)
      refine ⟨t, ht, hs.trans hsize1, hle, ?_, ?_⟩
      · rw [hacc, hbt, hc]
        simp only [Bool.false_eq_true, if_false, Nat.zero_add]
      · rw [hoff]
        omega
    · rw [hmod] at hbt hfit
      obtain ⟨t, ht, hs, hle, hacc, hoffd⟩ := ih t1
        (receive_file_chunk sha256 c.env fs0 (some t0) c.chunk_data c.chunk_num).fs
        (by rw [hbt, hsize1]; exact hfit) (by rw [hbt]; omega)
      refine ⟨t, ht, hs.trans hsize1, hle, ?_, ?_⟩
      · rw [hacc, hbt, hc]
        simp only [if_true]
        omega
      · rw [hoff]
        omega

theorem receive_file_chunk_oversize (sha256 : Bytes → Bytes) (env : recv_env_t) (fs : fs_t)
    (t : file_transfer_t) (chunk : Bytes) (chunk_num : Nat)
    (hnw : t.bytes_transferred + chunk.length < 2^64)
    (hover : t.bytes_transferred + chunk.length > t.file_size) :
    (receive_file_chunk sha256 env fs (some t) (some chunk) chunk_num).fs = fs ∧
    (receive_file_chunk sha256 env fs (some t) (some chunk) chunk_num).transfer.map
      (fun t1 => t1.bytes_transferred) = some t.bytes_transferred ∧
    (t.file ≠ none → chunk_num = t.chunks_received →
      (receive_file_chunk sha256 env fs (some t) (some chunk) chunk_num).code =
        FILE_TRANSFER_ERROR_SIZE) := by
  have hmod : (t.bytes_transferred + chunk.length) % 2^64 =
      t.bytes_transferred + chunk.length := Nat.mod_eq_of_lt hnw
  unfold receive_file_chunk
  rcases hfile : t.file with _ | file
  · have h : receive_file_chunk_internal sha256 env fs (some t) (some chunk) chunk_num =
        ⟨FILE_TRANSFER_ERROR_PARAM, some t, fs⟩ := by
      simp only [receive_file_chunk_internal, hfile]
    rw [h]
    exact ⟨rfl, rfl, fun hn => absurd rfl hn⟩
  rcases receive_file_chunk_cases sha256 env fs t file chunk chunk_num hfile with
    h | h | h | h | h | ⟨c, h⟩ | ⟨c, h⟩
  · rw [h.2]
    exact ⟨rfl, rfl, fun _ hn => absurd hn h.1⟩
  · rw [h.2.2]
    exact ⟨rfl, rfl, fun _ _ => rfl⟩
  · exact absurd h.2.1 (by rw [hmod]; omega)
  · exact absurd h.2.1 (by rw [hmod]; omega)
  · exact absurd h.2.1 (by rw [hmod]; omega)
  · exact absurd h.2.1 (by rw [hmod]; omega)
  · exact absurd h.2.1 (by rw [hmod]; omega)

/-- C16. For a transfer created by `start_file_receive` and then handed to any
sequence of `receive_file_chunk` calls, as long as the chunks offered so far and
the next one total less than 2^64 bytes: `bytes_transferred` is at most
`file_size` and equals the total size of the chunks accepted (written and
counted); and a next chunk that would take the total past `file_size` is not
written, leaves `bytes_transferred` as it is and, when it is the chunk expected
next on a transfer whose file is open, is answered with
`FILE_TRANSFER_ERROR_SIZE`. -/
theorem receive_calls_bytes (sha256 : Bytes → Bytes) (env0 : recv_start_env_t) (fs0 : fs_t)
    (conn : Option (connection_t Ctx)) (file_info : Option Bytes)
    (calls : List recv_call_t) (env : recv_env_t) (chunk : Bytes) (chunk_num : Nat)
    (t : file_transfer_t)
    (hvol : offered_bytes calls + chunk.length < 2^64)
    (ht : (receive_calls sha256 calls (start_file_receive env0 fs0 conn file_info).transfer
      (start_file_receive env0 fs0 conn file_info).fs).1 = some t) :
    t.bytes_transferred ≤ t.file_size ∧
    t.bytes_transferred = accepted_bytes sha256 calls
      (start_file_receive env0 fs0 conn file_info).transfer
      (start_file_receive env0 fs0 conn file_info).fs ∧
    (t.bytes_transferred + chunk.length > t.file_size →
      (receive_file_chunk sha256 env
        (receive_calls sha256 calls (start_file_receive env0 fs0 conn file_info).transfer
          (start_file_receive env0 fs0 conn file_info).fs).2
        (some t) (some chunk) chunk_num).fs =
        (receive_calls sha256 calls (start_file_receive env0 fs0 conn file_info).transfer
          (start_file_receive env0 fs0 conn file_info).fs).2 ∧
      (receive_file_chunk sha256 env
        (receive_calls sha256 calls (start_file_receive env0 fs0 conn file_info).transfer
          (start_file_receive env0 fs0 conn file_info).fs).2
        (some t) (some chunk) chunk_num).transfer.map (fun t1 => t1.bytes_transferred) =
        some t.bytes_transferred ∧
      (t.file ≠ none → chunk_num = t.chunks_received →
        (receive_file_chunk sha256 env
          (receive_calls sha256 calls (start_file_receive env0 fs0 conn file_info).transfer
            (start_file_receive env0 fs0 conn file_info).fs).2
          (some t) (some chunk) chunk_num).code = FILE_TRANSFER_ERROR_SIZE)) := by
  rcases hstart : (start_file_receive env0 fs0 conn file_info).transfer with _ | t0
  · rw [hstart] at ht
    have hnone : ∀ (cs : List recv_call_t) (fs : fs_t),
        (receive_calls sha256 cs none fs).1 = none := by
      intro cs
      induction cs with
      | nil => intro fs; rfl
      | cons c cs ih =>
        intro fs
        simp only [receive_calls, receive_file_chunk, receive_file_chunk_internal]
        exact ih fs
    rw [hnone] at ht
    cases ht
  obtain ⟨_, hbt0, _⟩ := start_file_receive_fresh env0 fs0 conn file_info t0 hstart
  rw [hstart] at ht
  obtain ⟨t1, ht1, _, hle, hacc, hoffd⟩ := receive_calls_inv sha256 calls t0
    (start_file_receive env0 fs0 conn file_info).fs (by rw [hbt0]; exact Nat.zero_le _)
    (by rw [hbt0]; omega)
  rw [ht] at ht1
  cases ht1
  rw [hbt0, Nat.zero_add] at hacc hoffd
  refine ⟨hle, hacc, fun hover => ?_⟩
  exact receive_file_chunk_oversize sha256 env _ t chunk chunk_num (by omega) hover

/-- After chunk 0 of three bytes and chunk 1 of one byte of the five announced,
four bytes are counted; a chunk 2 of two bytes is answered with
`FILE_TRANSFER_ERROR_SIZE` and changes neither the directory nor the count. -/
theorem receive_calls_bytes_witness :
    offered_bytes sample_calls + [5, 6].length < 2^64 ∧
    sample_after_calls.bytes_transferred ≤ sample_after_calls.file_size ∧
    sample_after_calls.bytes_transferred =
      accepted_bytes sample_sha256 sample_calls sample_receiving.transfer sample_receiving.fs ∧
    (receive_file_chunk sample_sha256 sample_recv_env
      (receive_calls sample_sha256 sample_calls sample_receiving.transfer
        sample_receiving.fs).2
      (some sample_after_calls) (some [5, 6]) 2).fs =
      (receive_calls sample_sha256 sample_calls sample_receiving.transfer
        sample_receiving.fs).2 ∧
    (receive_file_chunk sample_sha256 sample_recv_env
      (receive_calls sample_sha256 sample_calls sample_receiving.transfer
        sample_receiving.fs).2
      (some sample_after_calls) (some [5, 6]) 2).transfer.map
        (fun t1 => t1.bytes_transferred) = some sample_after_calls.bytes_transferred ∧
    (receive_file_chunk sample_sha256 sample_recv_env
      (receive_calls sample_sha256 sample_calls sample_receiving.transfer
        sample_receiving.fs).2
      (some sample_after_calls) (some [5, 6]) 2).code = FILE_TRANSFER_ERROR_SIZE :=
  have h := receive_calls_bytes sample_sha256 sample_recv_start_env empty_fs
    (some sample_listener) (some sample_file_info) sample_calls sample_recv_env [5, 6] 2
    sample_after_calls (by decide) (Option.some_get _).symm
  ⟨by decide, h.1, h.2.1, (h.2.2 (by decide)).1, (h.2.2 (by decide)).2.1,
    (h.2.2 (by decide)).2.2 (by decide) (by decide)⟩

theorem receive_file_chunk_stored (sha256 : Bytes → Bytes) (env : recv_env_t) (fs : fs_t)
    (t : file_transfer_t) (data : Option Bytes) (chunk_num : Nat) (hinv : Stored sha256 t fs) :
    ∃ t1, (receive_file_chunk sha256 env fs (some t) data chunk_num).transfer = some t1 ∧
      t1.checksum = t.checksum ∧ t1.filename = t.filename ∧
      Stored sha256 t1 (receive_file_chunk sha256 env fs (some t) data chunk_num).fs := by
  unfold receive_file_chunk
  rcases data with _ | chunk
  · exact ⟨t, rfl, rfl, rfl, hinv⟩
  rcases hfile : t.file with _ | file
  · have h : receive_file_chunk_internal sha256 env fs (some t) (some chunk) chunk_num =
        ⟨FILE_TRANSFER_ERROR_PARAM, some t, fs⟩ := by
      simp only [receive_file_chunk_internal, hfile]
    rw [h]
    exact ⟨t, rfl, rfl, rfl, hinv⟩
  have hopen : t.state ≠ TRANSFER_COMPLETE := by
    intro hs
    have := (hinv hs).1
    rw [hfile] at this
    cases this
  rcases receive_file_chunk_cases sha256 env fs t file chunk chunk_num hfile with
    h | h | h | h | h | ⟨c, h⟩ | ⟨c, h⟩
  · rw [h.2]
    exact ⟨t, rfl, rfl, rfl, hinv⟩
  · rw [h.2.2]
    exact ⟨_, rfl, rfl, rfl, fun hs => by cases hs⟩
  · rw [h.2.2.2]
    exact ⟨_, rfl, rfl, rfl, fun hs => by cases hs⟩
  · rw [h.2.2.2.2]
    exact ⟨_, rfl, rfl, rfl, fun hs => absurd hs hopen⟩
  · rw [h.2.2.2.2]
    exact ⟨_, rfl, rfl, rfl, fun hs => by cases hs⟩
  · rw [h.2.2.2.2.2.2]
    exact ⟨_, rfl, rfl, rfl, fun hs => by cases hs⟩
  · rw [h.2.2.2.2.2.2]
    exact ⟨_, rfl, rfl, rfl, fun _ => ⟨rfl, c, fs_write_same _ _ _, h.2.2.2.2.1⟩⟩

theorem receive_calls_stored (sha256 : Bytes → Bytes) (calls : List recv_call_t) :
    ∀ (t0 : file_transfer_t) (fs0 : fs_t), Stored sha256 t0 fs0 →
      ∃ t, (receive_calls sha256 calls (some t0) fs0).1 = some t ∧
        t.checksum = t0.checksum ∧ t.filename = t0.filename ∧
        Stored sha256 t (receive_calls sha256 calls (some t0) fs0).2 := by
  induction calls with
  | nil =>
    intro t0 fs0 hinv
    exact ⟨t0, rfl, rfl, rfl, hinv⟩
  | cons c cs ih =>
    intro t0 fs0 hinv
    obtain ⟨t1, ht1, hck, hname, hinv1⟩ :=
      receive_file_chunk_stored sha256 c.env fs0 t0 c.chunk_data c.chunk_num hinv
    obtain ⟨t, ht, hck2, hname2, hinv2⟩ := ih t1 _ hinv1
    simp only [receive_calls, ht1]
    exact ⟨t, ht, hck2.trans hck, hname2.trans hname, hinv2⟩

/-- C18 (amended). Whenever a transfer created by `start_file_receive` is in
`TRANSFER_COMPLETE` after a sequence of `receive_file_chunk` calls, the file
stored under its name has a SHA-256 equal to the checksum that
`start_file_receive` read out of the FileStart payload. No FileEnd message
takes part. -/
theorem receive_calls_complete (sha256 : Bytes → Bytes) (env0 : recv_start_env_t)
    (fs0 : fs_t) (conn : Option (connection_t Ctx)) (file_info : Option Bytes)
    (calls : List recv_call_t) (t0 t : file_transfer_t)
    (hstart : (start_file_receive env0 fs0 conn file_info).transfer = some t0)
    (hrun : (receive_calls sha256 calls (some t0)
      (start_file_receive env0 fs0 conn file_info).fs).1 = some t)
    (hstate : t.state = TRANSFER_COMPLETE) :
    ∃ content,
      (receive_calls sha256 calls (some t0)
        (start_file_receive env0 fs0 conn file_info).fs).2 t0.filename = some content ∧
      (sha256 content).take SHA256_DIGEST_LENGTH = t0.checksum.take SHA256_DIGEST_LENGTH := by
  obtain ⟨hrecv, _, _⟩ := start_file_receive_fresh env0 fs0 conn file_info t0 hstart
  have hinv0 : Stored sha256 t0 (start_file_receive env0 fs0 conn file_info).fs := by
    intro hs
    rw [hrecv] at hs
    cases hs
  obtain ⟨t1, ht1, hck, hname, hinv⟩ := receive_calls_stored sha256 calls t0 _ hinv0
  rw [hrun] at ht1
  cases ht1
  obtain ⟨_, content, hc, hh⟩ := hinv hstate
  exact ⟨content, by rw [← hname]; exact hc, by rw [← hck]; exact hh⟩

/-- The announced five bytes arrive as chunk 0: the transfer is complete and the
file `f` holds bytes with the announced hash. -/
theorem receive_calls_complete_witness :
    sample_complete_transfer.state = TRANSFER_COMPLETE ∧
    ∃ content,
      (receive_calls sample_sha256 sample_full_calls (some sample_transfer)
        (start_file_receive sample_recv_start_env empty_fs (some sample_listener)
          (some sample_file_info)).fs).2 sample_transfer.filename = some content ∧
      (sample_sha256 content).take SHA256_DIGEST_LENGTH =
        sample_transfer.checksum.take SHA256_DIGEST_LENGTH :=
  ⟨by decide,
    receive_calls_complete sample_sha256 sample_recv_start_env empty_fs (some sample_listener)
      (some sample_file_info) sample_full_calls sample_transfer sample_complete_transfer
      (Option.some_get _).symm (Option.some_get _).symm (by decide)⟩

/-- C18 (counterexample). A peer sends the FileStart payload `sample_file_info`,
the announced five bytes as chunk 0 and then a FileEnd message carrying
`sample_file_end`. The call that delivers the chunk already returns
`FILE_TRANSFER_SUCCESS` with the transfer in `TRANSFER_COMPLETE` and the bytes
stored under `f`, although their hash is not the one of the FileEnd message; and
no later `receive_file_chunk` call changes the transfer or the directory. -/
theorem complete_without_file_end :
    sample_completed.code = FILE_TRANSFER_SUCCESS ∧
    sample_completed.transfer.map (fun t => t.state) = some TRANSFER_COMPLETE ∧
    sample_completed.fs [102] = some [1, 2, 3, 4, 5] ∧
    sample_sha256 [1, 2, 3, 4, 5] ≠ sample_file_end ∧
    ∀ (env : recv_env_t) (data : Option Bytes) (chunk_num : Nat),
      receive_file_chunk sample_sha256 env sample_completed.fs sample_completed.transfer
        data chunk_num =
        ⟨FILE_TRANSFER_ERROR_PARAM, sample_completed.transfer, sample_completed.fs⟩ := by
  refine ⟨by decide, by decide, by decide, by decide, ?_⟩
  intro env data chunk_num
  have h : sample_completed.transfer =
      some { sample_transfer with
        bytes_transferred := 5, chunks_received := 1, last_activity := 1001,
        file := none, state := TRANSFER_COMPLETE } := by decide
  rw [h]
  rcases data with _ | chunk
  · rfl
  · rfl

/-! ## File transfer: sending -/

theorem process_file_transfer_chunk (env : process_env_t) (t : file_transfer_t) (rest : Bytes)
    (hstate : t.state = TRANSFER_SENDING) (hfile : t.file = some (FILE.reader rest))
    (hlt : t.bytes_transferred < t.file_size) (hrest : rest ≠ [])
    (htime : env.now - t.last_activity ≤ TRANSFER_TIMEOUT)
    (hread : env.fread_error = false) (hsend : env.send_result = PROTOCOL_SUCCESS) :
    process_file_transfer env (some t) =
      some ⟨FILE_TRANSFER_IN_PROGRESS,
        some { t with
          file := some (FILE.reader (rest.drop DEFAULT_CHUNK_SIZE))
          bytes_transferred :=
            (t.bytes_transferred + (rest.take DEFAULT_CHUNK_SIZE).length) % 2^64
          chunks_sent := (t.chunks_sent + 1) % 2^32
          last_activity := env.now_sent },
        [sent_t.file_chunk (rest.take DEFAULT_CHUNK_SIZE) t.chunks_sent]⟩ := by
  have hread0 : (rest.take DEFAULT_CHUNK_SIZE).length ≠ 0 := by
    cases rest with
    | nil => exact absurd rfl hrest
    | cons b bs => simp [DEFAULT_CHUNK_SIZE]
  have hto : ¬ env.now - t.last_activity > TRANSFER_TIMEOUT := not_lt.mpr htime
  have hge : ¬ t.bytes_transferred ≥ t.file_size := not_le.mpr hlt
  obtain ⟨st, fname, f, fsz, bt, cs, cr, stt, la, ck⟩ := t
  simp only at hstate hfile hto hge hread0
  subst hstate
  subst hfile
  simp only [process_file_transfer, hto, if_false, send_file_chunk_internal, hge, hread,
    Bool.false_eq_true, hread0, hsend, ne_eq, not_true_eq_false]

theorem process_file_transfer_end (env : process_env_t) (t : file_transfer_t) (file : FILE)
    (hstate : t.state = TRANSFER_SENDING) (hfile : t.file = some file)
    (hge : t.bytes_transferred ≥ t.file_size)
    (htime : env.now - t.last_activity ≤ TRANSFER_TIMEOUT)
    (hsend : env.send_result = PROTOCOL_SUCCESS) :
    process_file_transfer env (some t) =
      some ⟨FILE_TRANSFER_SUCCESS,
        some { t with file := none, state := TRANSFER_COMPLETE },
        [sent_t.message MSG_FILE_END (t.checksum.take SHA256_DIGEST_LENGTH)]⟩ := by
  have hto : ¬ env.now - t.last_activity > TRANSFER_TIMEOUT := not_lt.mpr htime
  obtain ⟨st, fname, f, fsz, bt, cs, cr, stt, la, ck⟩ := t
  simp only at hstate hfile hto hge
  subst hstate
  subst hfile
  simp only [process_file_transfer, hto, if_false, send_file_chunk_internal, hge, if_true,
    hsend, ne_eq, not_true_eq_false]

theorem process_calls_from (content : Bytes) (hL : content.length < 2^64) :
    ∀ (d j : Nat) (t : file_transfer_t) (envs : List process_env_t),
      t.state = TRANSFER_SENDING →
      t.file = some (FILE.reader (content.drop (j * DEFAULT_CHUNK_SIZE))) →
      t.file_size = content.length →
      t.bytes_transferred = min (j * DEFAULT_CHUNK_SIZE) content.length →
      t.chunks_sent = j % 2^32 →
      j + d = chunk_count content.length →
      envs.length = d + 1 →
      sends_succeed envs = true →
      timely t.last_activity envs = true →
      ∃ t1, process_calls envs (some t) =
          some ⟨List.replicate d FILE_TRANSFER_IN_PROGRESS ++ [FILE_TRANSFER_SUCCESS],
            file_chunks content j d ++
              [sent_t.message MSG_FILE_END (t.checksum.take SHA256_DIGEST_LENGTH)],
            some t1⟩ ∧
        t1.state = TRANSFER_COMPLETE ∧ t1.bytes_transferred = content.length := by
  intro d
  induction d with
  | zero =>
    intro j t envs hstate hfile hsize hbt _ hj hlen hok htime
    obtain ⟨env, rfl⟩ : ∃ env, envs = [env] := by
      match envs, hlen with
      | [env], _ => exact ⟨env, rfl⟩
    simp only [sends_succeed, List.all_cons, List.all_nil, Bool.and_true, Bool.and_eq_true,
      Bool.not_eq_true', decide_eq_true_eq] at hok
    simp only [timely, Bool.and_true, decide_eq_true_eq] at htime
    have hge : t.bytes_transferred ≥ t.file_size := by
      rw [hbt, hsize]
      simp only [chunk_count, DEFAULT_CHUNK_SIZE] at hj ⊢
      omega
    have hstep := process_file_transfer_end env t _ hstate hfile hge htime hok.2
    refine ⟨{ t with file := none, state := TRANSFER_COMPLETE }, ?_, rfl, ?_⟩
    · simp only [process_calls, hstep, List.replicate, List.nil_append, file_chunks,
        List.range'_zero, List.map_nil, List.append_nil]
    · show t.bytes_transferred = content.length
      rw [hsize] at hge
      rw [hbt] at hge ⊢
      omega
  | succ d ih =>
    intro j t envs hstate hfile hsize hbt hcs hj hlen hok htime
    obtain ⟨env, rest_envs, rfl⟩ : ∃ env rest_envs, envs = env :: rest_envs := by
      match envs, hlen with
      | env :: rest_envs, _ => exact ⟨env, rest_envs, rfl⟩
    have hlen1 : rest_envs.length = d + 1 := by
      simpa using hlen
    have hok1 : sends_succeed rest_envs = true := by
      simp only [sends_succeed, List.all_cons, Bool.and_eq_true] at hok
      exact hok.2
    have hok0 : env.fread_error = false ∧ env.send_result = PROTOCOL_SUCCESS := by
      simp only [sends_succeed, List.all_cons, Bool.and_eq_true, Bool.not_eq_true',
        decide_eq_true_eq] at hok
      exact hok.1
    simp only [timely, Bool.and_eq_true, decide_eq_true_eq] at htime
    have hpos : j * DEFAULT_CHUNK_SIZE < content.length := by
      simp only [chunk_count, DEFAULT_CHUNK_SIZE] at hj ⊢
      omega
    have hlt : t.bytes_transferred < t.file_size := by
      rw [hbt, hsize]
      omega
    have hrest : content.drop (j * DEFAULT_CHUNK_SIZE) ≠ [] := by
      intro h
      have := congrArg List.length h
      simp only [List.length_drop, List.length_nil] at this
      omega
    have hstep := process_file_transfer_chunk env t _ hstate hfile hlt hrest htime.1
      hok0.1 hok0.2
    have htake : ((content.drop (j * DEFAULT_CHUNK_SIZE)).take DEFAULT_CHUNK_SIZE).length =
        min DEFAULT_CHUNK_SIZE (content.length - j * DEFAULT_CHUNK_SIZE) := by
      simp only [List.length_take, List.length_drop]
    obtain ⟨t1, hrun, hst1, hbt1⟩ := ih (j + 1)
      { t with
        file := some (FILE.reader
          ((content.drop (j * DEFAULT_CHUNK_SIZE)).drop DEFAULT_CHUNK_SIZE))
        bytes_transferred := (t.bytes_transferred +
          ((content.drop (j * DEFAULT_CHUNK_SIZE)).take DEFAULT_CHUNK_SIZE).length) % 2^64
        chunks_sent := (t.chunks_sent + 1) % 2^32
        last_activity := env.now_sent }
      rest_envs hstate
      (by
        show some (FILE.reader ((content.drop (j * DEFAULT_CHUNK_SIZE)).drop
          DEFAULT_CHUNK_SIZE)) = _
        rw [List.drop_drop, Nat.succ_mul, Nat.add_comm])
      hsize
      (by
        show (t.bytes_transferred +
          ((content.drop (j * DEFAULT_CHUNK_SIZE)).take DEFAULT_CHUNK_SIZE).length) % 2^64 = _
        rw [htake, hbt]
        simp only [DEFAULT_CHUNK_SIZE] at hpos ⊢
        omega)
      (by
        show (t.chunks_sent + 1) % 2^32 = _
        rw [hcs]
        omega)
      (by omega) hlen1 hok1 htime.2
    refine ⟨t1, ?_, hst1, hbt1⟩
    simp only [process_calls, hstep]
    rw [hrun]
    simp only [List.replicate_succ, List.cons_append, file_chunks, List.range'_succ,
      List.map_cons, List.singleton_append, hcs, List.nil_append]

theorem hex2_flatten_length (f : Nat → Nat) (l : List Nat) :
    ((l.map (fun i => hex2 (f i))).flatten).length = 2 * l.length := by
  induction l with
  | nil => rfl
  | cons b t ih =>
    rw [List.map_cons, List.flatten_cons, List.length_append, ih, List.length_cons]
    have h2 : (hex2 (f b)).length = 2 := rfl
    omega

theorem snprintf_at_fit (start_data : Bytes) (written : Nat) (text : Bytes)
    (h : written + text.length + 1 ≤ start_data.length) :
    ∃ d, snprintf_at start_data written text = some (d, written + text.length) ∧
      d.length = start_data.length ∧
      d.take (written + text.length) = start_data.take written ++ text := by
  have h1 : ¬ (written > start_data.length) := by omega
  have h2 : ¬ (start_data.length - written = 0) := by omega
  have h3 : text.take (start_data.length - written - 1) = text :=
    List.take_of_length_le (by omega)
  refine ⟨start_data.take written ++ (text ++ [0]) ++
    start_data.drop (written + (text ++ [0]).length), ?_, ?_, ?_⟩
  · simp only [snprintf_at, h1, if_false, h2, h3]
  · simp only [List.length_append, List.length_take, List.length_drop, List.length_cons,
      List.length_nil]
    omega
  · rw [List.append_assoc, List.append_assoc, ← List.append_assoc]
    rw [List.take_append_of_le_length (by
      simp only [List.length_append, List.length_take]; omega)]
    apply List.take_of_length_le
    simp only [List.length_append, List.length_take]
    omega

theorem start_data_loop_fit (checksum : Bytes) : ∀ (is : List Nat) (start_data : Bytes)
    (written : Nat),
    written + ((is.map (fun i => hex2 (checksum.getD i 0))).flatten).length + 1 ≤
      start_data.length →
    ∃ d, start_data_loop checksum is start_data written =
        some (d, written + ((is.map (fun i => hex2 (checksum.getD i 0))).flatten).length) ∧
      d.length = start_data.length ∧
      d.take (written + ((is.map (fun i => hex2 (checksum.getD i 0))).flatten).length) =
        start_data.take written ++ (is.map (fun i => hex2 (checksum.getD i 0))).flatten := by
  intro is
  induction is with
  | nil =>
    intro start_data written _
    exact ⟨start_data, rfl, rfl, by simp⟩
  | cons i rest ih =>
    intro start_data written h
    simp only [List.map_cons, List.flatten_cons, List.length_append] at h ⊢
    obtain ⟨d1, hrun1, hl1, ht1⟩ := snprintf_at_fit start_data written
      (hex2 (checksum.getD i 0)) (by omega)
    obtain ⟨d2, hrun2, hl2, ht2⟩ := ih d1 (written + (hex2 (checksum.getD i 0)).length)
      (by rw [hl1]; omega)
    refine ⟨d2, ?_, hl2.trans hl1, ?_⟩
    · simp only [start_data_loop, hrun1, hrun2, Nat.add_assoc]
    · rw [← Nat.add_assoc, ht2, ht1, List.append_assoc]

/-- When the text `name|size|checksum` and its terminating NUL fit the array
`start_data`, the bytes handed to `send_message` are that text. -/
theorem format_start_data_fit (filename : Bytes) (file_size : Nat) (checksum : Bytes)
    (hfit : filename.length + (decimal file_size).length + 66 < MAX_FILENAME_LEN + 20) :
    format_start_data filename file_size checksum =
      some (file_start_payload filename file_size checksum) := by
  have hhex : (((List.range SHA256_DIGEST_LENGTH).map
      (fun i => hex2 (checksum.getD i 0))).flatten).length = 64 := by
    rw [hex2_flatten_length]
    rfl
  have hlen0 : (List.replicate (MAX_FILENAME_LEN + 20) 0 : Bytes).length = MAX_FILENAME_LEN + 20 :=
    List.length_replicate _ _
  have htext : (filename ++ [124] ++ decimal file_size ++ [124]).length =
      filename.length + (decimal file_size).length + 2 := by
    simp only [List.length_append, List.length_cons, List.length_nil]
    omega
  obtain ⟨d1, hrun1, hl1, ht1⟩ := snprintf_at_fit (List.replicate (MAX_FILENAME_LEN + 20) 0) 0
    (filename ++ [124] ++ decimal file_size ++ [124]) (by rw [hlen0, htext]; omega)
  obtain ⟨d2, hrun2, hl2, ht2⟩ := start_data_loop_fit checksum (List.range SHA256_DIGEST_LENGTH)
    d1 (0 + (filename ++ [124] ++ decimal file_size ++ [124]).length)
    (by rw [hl1, hlen0, hhex, htext]; omega)
  have hle : 0 + (filename ++ [124] ++ decimal file_size ++ [124]).length +
      (((List.range SHA256_DIGEST_LENGTH).map (fun i => hex2 (checksum.getD i 0))).flatten).length
        ≤ d2.length := by
    rw [hl2, hl1, hlen0, hhex, htext]
    omega
  unfold format_start_data
  rw [hrun1]
  dsimp only
  rw [hrun2]
  dsimp only
  rw [if_pos hle, ht2, ht1, List.take_zero, List.nil_append]
  rfl

set_option maxRecDepth 10000 in
theorem start_file_send_success (sha256 : Bytes → Bytes) (env : send_start_env_t)
    (conn : connection_t Ctx) (name content : Bytes)
    (hready : conn.state = STATE_READY)
    (hstat : env.stat = some ⟨true, content.length⟩)
    (hopen : env.fopen = some content)
    (hsum : env.checksum_fopen = some content)
    (hcalloc : env.calloc_ok = true)
    (hstart : env.send_result = PROTOCOL_SUCCESS)
    (hL1 : 1 ≤ content.length) (hL2 : content.length < 2^64)
    (hfit : name.length + (decimal content.length).length + 66 < MAX_FILENAME_LEN + 20) :
    start_file_send sha256 env (some conn) (some name) =
      some ⟨some
        { state := TRANSFER_SENDING
          filename := name.take (MAX_FILENAME_LEN - 1)
          file := some (FILE.reader content)
          file_size := content.length
          bytes_transferred := 0
          chunks_sent := 0
          chunks_received := 0
          start_time := env.now
          last_activity := env.now
          checksum := sha256 content },
       [sent_t.message MSG_FILE_START
         (file_start_payload name content.length (sha256 content))]⟩ := by
  have hne : content.length ≠ 0 := by omega
  have hmod : content.length % 2^64 = content.length := Nat.mod_eq_of_lt hL2
  simp only [start_file_send, hready, ne_eq, not_true_eq_false, if_false, hstat, Bool.not_true,
    Bool.false_eq_true, hne, hopen, hcalloc, hsum, calculate_file_checksum, hstart,
    Option.getD_some, hmod, format_start_data_fit name content.length (sha256 content) hfit]

theorem file_chunk_length (content : Bytes) (i : Nat) :
    (i + 1 < chunk_count content.length →
      ((content.drop (i * DEFAULT_CHUNK_SIZE)).take DEFAULT_CHUNK_SIZE).length =
        DEFAULT_CHUNK_SIZE) ∧
    (i + 1 = chunk_count content.length →
      1 ≤ ((content.drop (i * DEFAULT_CHUNK_SIZE)).take DEFAULT_CHUNK_SIZE).length ∧
      ((content.drop (i * DEFAULT_CHUNK_SIZE)).take DEFAULT_CHUNK_SIZE).length ≤
        DEFAULT_CHUNK_SIZE) := by
  simp only [List.length_take, List.length_drop, chunk_count, DEFAULT_CHUNK_SIZE]
  omega

/-- C17 (amended). For a file of `L >= 1` bytes (below 2^64) that `stat`, the
stream and the checksum pass all see with the same content, under a name that
fits the array `start_data` of `MAX_FILENAME_LEN + 20` bytes together with the
size, the checksum and the terminating NUL, on a connection in `STATE_READY`,
with `calloc` and every send succeeding and every `process_file_transfer` call
made within `TRANSFER_TIMEOUT` seconds of the activity before it:
`start_file_send` stays inside `start_data` and makes exactly one send, the
FileStart message `name|L|checksum`; the first `ceil(L/16384)` calls of `process_file_transfer` each return
`FILE_TRANSFER_IN_PROGRESS` and send one FileChunk, chunk `i` carrying the bytes
from offset `16384 * i` under the number `i mod 2^32`, each of 16384 bytes except
possibly the last; the call after them sends FileEnd with the checksum and
returns `FILE_TRANSFER_SUCCESS`, leaving the transfer in
`TRANSFER_COMPLETE`. -/
theorem file_send_run (sha256 : Bytes → Bytes) (env : send_start_env_t)
    (conn : connection_t Ctx) (name content : Bytes) (envs : List process_env_t)
    (hready : conn.state = STATE_READY)
    (hstat : env.stat = some ⟨true, content.length⟩)
    (hopen : env.fopen = some content)
    (hsum : env.checksum_fopen = some content)
    (hcalloc : env.calloc_ok = true)
    (hstart : env.send_result = PROTOCOL_SUCCESS)
    (hL1 : 1 ≤ content.length) (hL2 : content.length < 2^64)
    (hfit : name.length + (decimal content.length).length + 66 < MAX_FILENAME_LEN + 20)
    (hcalls : envs.length = chunk_count content.length + 1)
    (hok : sends_succeed envs = true)
    (htime : timely env.now envs = true) :
    (start_file_send sha256 env (some conn) (some name)).map (fun r => r.sent) =
      some [sent_t.message MSG_FILE_START
        (file_start_payload name content.length (sha256 content))] ∧
    (∃ t, process_calls envs
        ((start_file_send sha256 env (some conn) (some name)).bind (fun r => r.transfer)) =
        some ⟨List.replicate (chunk_count content.length) FILE_TRANSFER_IN_PROGRESS ++
            [FILE_TRANSFER_SUCCESS],
          file_chunks content 0 (chunk_count content.length) ++
            [sent_t.message MSG_FILE_END ((sha256 content).take SHA256_DIGEST_LENGTH)],
          some t⟩ ∧
      t.state = TRANSFER_COMPLETE) ∧
    (∀ i, i + 1 < chunk_count content.length →
      ((content.drop (i * DEFAULT_CHUNK_SIZE)).take DEFAULT_CHUNK_SIZE).length =
        DEFAULT_CHUNK_SIZE) ∧
    (∀ i, i + 1 = chunk_count content.length →
      1 ≤ ((content.drop (i * DEFAULT_CHUNK_SIZE)).take DEFAULT_CHUNK_SIZE).length ∧
      ((content.drop (i * DEFAULT_CHUNK_SIZE)).take DEFAULT_CHUNK_SIZE).length ≤
        DEFAULT_CHUNK_SIZE) := by
  have hs := start_file_send_success sha256 env conn name content hready hstat hopen hsum
    hcalloc hstart hL1 hL2 hfit
  rw [hs]
  refine ⟨rfl, ?_, fun i => (file_chunk_length content i).1,
    fun i => (file_chunk_length content i).2⟩
  obtain ⟨t1, hrun, hst, _⟩ := process_calls_from content hL2 (chunk_count content.length) 0
    { state := TRANSFER_SENDING
      filename := name.take (MAX_FILENAME_LEN - 1)
      file := some (FILE.reader content)
      file_size := content.length
      bytes_transferred := 0
      chunks_sent := 0
      chunks_received := 0
      start_time := env.now
      last_activity := env.now
      checksum := sha256 content }
    envs rfl (by rw [Nat.zero_mul, List.drop_zero]) rfl
    (by rw [Nat.zero_mul, Nat.zero_min]) rfl (Nat.zero_add _) hcalls hok htime
  exact ⟨t1, hrun, hst⟩

theorem process_calls_error (envs : List process_env_t) :
    ∀ t : file_transfer_t, t.state = TRANSFER_ERROR →
      ∃ run, process_calls envs (some t) = some run ∧ run.sent = [] ∧
        FILE_TRANSFER_SUCCESS ∉ run.codes ∧
        run.transfer.map (fun t1 => t1.state) = some TRANSFER_ERROR := by
  induction envs with
  | nil =>
    intro t h
    exact ⟨⟨[], [], some t⟩, rfl, rfl, List.not_mem_nil _, by simp only [Option.map_some', h]⟩
  | cons env envs ih =>
    intro t h
    obtain ⟨st, fname, f, fsz, bt, cs, cr, stt, la, ck⟩ := t
    simp only at h
    subst h
    obtain ⟨run, hrun, hsent, hcodes, hstate⟩ := ih
      ⟨TRANSFER_ERROR, fname, f, fsz, bt, cs, cr, stt, la, ck⟩ rfl
    by_cases hto : env.now - la > TRANSFER_TIMEOUT
    · refine ⟨⟨FILE_TRANSFER_ERROR_TIMEOUT :: run.codes, run.sent, run.transfer⟩, ?_, hsent, ?_,
        hstate⟩
      · simp only [process_calls, process_file_transfer, hto, if_true, hrun, List.nil_append]
      · intro hmem
        rcases List.mem_cons.mp hmem with h | h
        · exact absurd h (by decide)
        · exact hcodes h
    · refine ⟨⟨ FILE_TRANSFER_ERROR_IO :: run.codes, run.sent, run.transfer⟩, ?_, hsent, ?_,
        hstate⟩
      · simp only [process_calls, process_file_transfer, hto, if_false, hrun, List.nil_append]
      · intro hmem
        rcases List.mem_cons.mp hmem with h | h
        · exact absurd h (by decide)
        · exact hcodes h

/-- A file of 16385 bytes goes out as FileStart, chunk 0 of 16384 bytes, chunk 1
of one byte and FileEnd, in three `process_file_transfer` calls. -/
theorem file_send_run_witness :
    (start_file_send sample_sha256 sample_send_env (some sample_listener)
      (some [102])).map (fun r => r.sent) =
      some [sent_t.message MSG_FILE_START
        (file_start_payload [102] sample_content.length (sample_sha256 sample_content))] ∧
    ∃ t, process_calls
        [sample_process_env 1001, sample_process_env 1002, sample_process_env 1003]
        ((start_file_send sample_sha256 sample_send_env (some sample_listener)
          (some [102])).bind (fun r => r.transfer)) =
        some ⟨List.replicate (chunk_count sample_content.length) FILE_TRANSFER_IN_PROGRESS ++
            [FILE_TRANSFER_SUCCESS],
          file_chunks sample_content 0 (chunk_count sample_content.length) ++
            [sent_t.message MSG_FILE_END
              ((sample_sha256 sample_content).take SHA256_DIGEST_LENGTH)],
          some t⟩ ∧
      t.state = TRANSFER_COMPLETE :=
  have hlen : sample_content.length = 16385 := List.length_replicate _ _
  have h := file_send_run sample_sha256 sample_send_env sample_listener [102] sample_content
    [sample_process_env 1001, sample_process_env 1002, sample_process_env 1003]
    (by decide) (by rw [hlen]; rfl) rfl rfl rfl rfl (by rw [hlen]; decide)
    (by rw [hlen]; decide) (by rw [hlen]; decide) (by rw [hlen]; decide) (by decide) (by decide)
  ⟨h.1, h.2.1⟩

/-- C17 (counterexample). The file content is unchanged and every send succeeds,
but the first `process_file_transfer` call comes 31 seconds after
`start_file_send` took the time, before it computed the checksum and sent
FileStart: the call returns `FILE_TRANSFER_ERROR_TIMEOUT` and puts the transfer
in `TRANSFER_ERROR`, and however many calls follow, none sends a FileChunk or a
FileEnd and none returns `FILE_TRANSFER_SUCCESS`. -/
theorem file_send_times_out :
    ((start_file_send sample_sha256 sample_send_env (some sample_listener)
      (some [102])).bind (fun r => r.transfer)).map (fun t => t.state) =
      some TRANSFER_SENDING ∧
    sample_timed_out.map (fun r => (r.code, r.sent)) =
      some (FILE_TRANSFER_ERROR_TIMEOUT, []) ∧
    ∀ envs : List process_env_t,
      ∃ run, process_calls envs (sample_timed_out.bind (fun r => r.transfer)) = some run ∧
        run.sent = [] ∧ FILE_TRANSFER_SUCCESS ∉ run.codes := by
  have hs := start_file_send_success sample_sha256 sample_send_env sample_listener [102]
    sample_content (by decide) (by rw [sample_content, List.length_replicate]; rfl) rfl rfl rfl
    rfl (by rw [sample_content, List.length_replicate]; decide)
    (by rw [sample_content, List.length_replicate]; decide)
    (by rw [sample_content, List.length_replicate]; decide)
  have ht : sample_timed_out = some ⟨FILE_TRANSFER_ERROR_TIMEOUT,
      some
        { state := TRANSFER_ERROR
          filename := [102]
          file := some (FILE.reader sample_content)
          file_size := sample_content.length
          bytes_transferred := 0
          chunks_sent := 0
          chunks_received := 0
          start_time := 1000
          last_activity := 1000
          checksum := sample_sha256 sample_content }, []⟩ := by
    unfold sample_timed_out
    rw [hs]
    rfl
  refine ⟨by rw [hs]; rfl, by rw [ht]; rfl, ?_⟩
  intro envs
  rw [ht]
  obtain ⟨run, hrun, hsent, hcodes, _⟩ := process_calls_error envs
    { state := TRANSFER_ERROR
      filename := [102]
      file := some (FILE.reader sample_content)
      file_size := sample_content.length
      bytes_transferred := 0
      chunks_sent := 0
      chunks_received := 0
      start_time := 1000
      last_activity := 1000
      checksum := sample_sha256 sample_content } rfl
  exact ⟨run, hrun, hsent, hcodes⟩

set_option maxRecDepth 100000 in
/-- The five-byte file under a name of 465 characters: the text
`name|5|checksum` has 532 characters, the last `snprintf` cuts it, and the 532
bytes sent are its first 531 characters and a NUL. Under a name of 466
characters the last `snprintf` is left no room and `data_len` is 533, more than
`start_data` holds: the call has no defined behaviour. -/
theorem start_file_send_long_name :
    (start_file_send sample_sha256 sample_small_send_env (some sample_listener)
      (some (List.replicate 465 102))).map (fun r => r.sent) =
      some [sent_t.message MSG_FILE_START
        ((file_start_payload (List.replicate 465 102) 5 (sample_sha256 [1, 2, 3, 4, 5])).take
          531 ++ [0])] ∧
    (start_file_send sample_sha256 sample_small_send_env (some sample_listener)
      (some (List.replicate 466 102))).isNone = true := by
  decide

/-! ## Sending data -/

/-- C24 (divergence from the claim). A connection that `connect_to_host`
returns when no password is given, or that `accept_connection` returns for a
listener without a password, is in `STATE_CONNECTED`, and `send_data` on it
returns `NETWORK_ERROR_STATE` whatever `data` and `len` are: no `send` call is
made and the connection is left as it was. It returns neither `len` for a
non-empty message nor `NETWORK_ERROR_PARAM` for `NULL` data or length 0. -/
theorem send_data_connected (O : OpenSSL Ctx) (cenv : connect_env_t) (aenv : accept_env_t)
    (env : send_env_t) (host : Option Bytes) (port : Int) (l c : connection_t Ctx)
    (data : Option Bytes) (len : Nat)
    (hc : connect_to_host O cenv host port none = some c ∨
      (l.password = none ∧ accept_connection O aenv (some l) = some c)) :
    c.state = STATE_CONNECTED ∧
    send_data O env (some c) data len = some ⟨NETWORK_ERROR_STATE, some c, 0⟩ := by
  have hstate : c.state = STATE_CONNECTED := by
    rcases hc with h | ⟨hpw, h⟩
    · cases host with
      | none => simp [connect_to_host] at h
      | some hst =>
        simp only [connect_to_host] at h
        split_ifs at h
        simp only [Option.some.injEq] at h
        subst h
        rfl
    · simp only [accept_connection, hpw] at h
      split_ifs at h
      simp only [Option.some.injEq] at h
      subst h
      rfl
  refine ⟨hstate, ?_⟩
  have hne : c.state ≠ STATE_READY := by
    rw [hstate]
    decide
  simp only [send_data, hne, ne_eq, not_false_eq_true, if_true]

/-- The calls of `test_data_transmission` on the client that `connect_to_host`
returned without a password: the 18 bytes of `Hello from client!`, then `NULL`
data with length 0. Both are answered with `NETWORK_ERROR_STATE`. -/
theorem send_data_connected_witness :
    sample_plain_connection.state = STATE_CONNECTED ∧
    send_data sampleOpenSSL (sample_send_data_env 18) (some sample_plain_connection)
      (some hello_from_client) 18 =
      some ⟨NETWORK_ERROR_STATE, some sample_plain_connection, 0⟩ ∧
    send_data sampleOpenSSL (sample_send_data_env 18) (some sample_plain_connection)
      none 0 = some ⟨NETWORK_ERROR_STATE, some sample_plain_connection, 0⟩ ∧
    NETWORK_ERROR_STATE ≠ 18 ∧ NETWORK_ERROR_STATE ≠ NETWORK_ERROR_PARAM :=
  ⟨(send_data_connected sampleOpenSSL sample_connect_env sample_accept_env
      (sample_send_data_env 18) (some [104]) 4444 sample_listener sample_plain_connection
      (some hello_from_client) 18 (Or.inl (Option.some_get _).symm)).1,
    (send_data_connected sampleOpenSSL sample_connect_env sample_accept_env
      (sample_send_data_env 18) (some [104]) 4444 sample_listener sample_plain_connection
      (some hello_from_client) 18 (Or.inl (Option.some_get _).symm)).2,
    (send_data_connected sampleOpenSSL sample_connect_env sample_accept_env
      (sample_send_data_env 18) (some [104]) 4444 sample_listener sample_plain_connection
      none 0 (Or.inl (Option.some_get _).symm)).2,
    by decide, by decide⟩

/-! ## Command line -/

theorem parse_arguments_loop_port (strdup_ok : Bool) (h p : Bytes) (rest : List Bytes)
    (options : List getopt_t) :
    ∀ (a after : arguments_t),
      parse_arguments_loop strdup_ok (h :: p :: rest) options a = some (0, after) →
      after.port = atoi p := by
  induction options with
  | nil =>
    intro a after hres
    simp only [parse_arguments_loop] at hres
    split_ifs at hres
    all_goals
      simp only [Option.some.injEq, Prod.mk.injEq] at hres
      obtain ⟨hcode, rfl⟩ := hres
      first
        | exact absurd hcode (by decide)
        | rfl
  | cons g gs ih =>
    intro a after hres
    rw [parse_arguments_loop] at hres
    rcases hopt : parse_option strdup_ok g a with a1 | a1 | _
    · rw [hopt] at hres
      exact ih a1 after hres
    · rw [hopt] at hres
      simp only [Option.some.injEq, Prod.mk.injEq] at hres
      exact absurd hres.1 (by decide)
    · rw [hopt] at hres
      cases hres

/-- C25 (divergence from the claim). Whenever `parse_arguments` returns 0 on a
command line with two or more positional arguments, the port it hands back is
`atoi` of the second positional argument, whatever that value is: the range
check applied to `-p` is not applied to it. -/
theorem parse_arguments_positional_port (strdup_ok : Bool) (options : List getopt_t)
    (h p : Bytes) (rest : List Bytes) (before after : arguments_t)
    (hres : parse_arguments strdup_ok options (h :: p :: rest) before = some (0, after)) :
    after.port = atoi p :=
  parse_arguments_loop_port strdup_ok h p rest options _ after hres

/-- The command line `cryptcat -k pw host 70000` is accepted with port 70000. -/
theorem parse_arguments_positional_port_witness :
    parse_arguments true sample_options sample_positional main_arguments =
      some (0, { main_arguments with
        mode := MODE_CONNECT, host := some [104, 111, 115, 116], port := 70000,
        password := some [112, 119] }) ∧
    ({ main_arguments with
        mode := MODE_CONNECT, host := some [104, 111, 115, 116], port := 70000,
        password := some [112, 119] } : arguments_t).port = atoi [55, 48, 48, 48, 48] ∧
    ¬ (1 ≤ atoi [55, 48, 48, 48, 48] ∧ atoi [55, 48, 48, 48, 48] ≤ 65535) :=
  ⟨by decide,
    parse_arguments_positional_port true sample_options [104, 111, 115, 116]
      [55, 48, 48, 48, 48] [] main_arguments _ (by decide),
    by decide⟩

/-! ## Hexadecimal text -/

theorem cstr_of_nonzero (s : Bytes) (h : ∀ c ∈ s, c ≠ 0) : cstr s = s := by
  unfold cstr
  rw [List.takeWhile_eq_self_iff]
  intro c hc
  simpa using h c hc

theorem hex_digit_value (v : Nat) (h : v < 16) : hex_value (hex_digit v) = some v := by
  unfold hex_digit hex_value
  split_ifs <;> first | omega | (congr 1; omega)

theorem hex_digit_lower (v : Nat) (h : v < 16) : is_lower_hex (hex_digit v) = true := by
  unfold hex_digit is_lower_hex
  split_ifs <;> simp <;> omega

theorem hex_digit_facts (v : Nat) (h : v < 16) :
    hex_digit v ≠ 0 ∧ hex_digit v ≠ 124 ∧ isspace (hex_digit v) = false ∧
    hex_digit v ≠ 45 ∧ hex_digit v ≠ 43 := by
  unfold hex_digit isspace
  split_ifs <;> simp <;> omega

set_option maxRecDepth 100000 in
theorem strtol16_hex2_all : ∀ b, b < 256 → strtol16 (hex2 b) = (b : Int) := by
  decide

theorem strtol16_hex2 (b : Nat) (h : b < 256) : strtol16 (hex2 b) = b :=
  strtol16_hex2_all b h

set_option maxRecDepth 100000 in
theorem hex2_chars : ∀ b, b < 256 → ∀ c ∈ hex2 b,
    is_lower_hex c = true ∧ c ≠ 0 ∧ c ≠ 124 := by
  decide

theorem hex2_chars_mod (b : Nat) : ∀ c ∈ hex2 b, is_lower_hex c = true ∧ c ≠ 0 ∧ c ≠ 124 := by
  have h : hex2 b = hex2 (b % 256) := by
    have h16 : b % 256 % 16 = b % 16 := by omega
    simp only [hex2, Nat.mod_mod, h16]
  rw [h]
  exact hex2_chars (b % 256) (Nat.mod_lt _ (by decide))

theorem range_map_getD (d : Bytes) : (List.range d.length).map (fun i => d.getD i 0) = d := by
  apply List.ext_getElem
  · simp
  · intro i h1 h2
    simp only [List.getElem_map, List.getElem_range]
    exact List.getD_eq_getElem _ _ h2

theorem hex_flatten_length (l : Bytes) : ((l.map hex2).flatten).length = 2 * l.length := by
  induction l with
  | nil => rfl
  | cons b t ih =>
    simp only [List.map_cons, List.flatten_cons, List.length_append, ih, hex2, List.length_cons,
      List.length_nil]
    omega

theorem hex_flatten_chars (l : Bytes) :
    ∀ c ∈ (l.map hex2).flatten, is_lower_hex c = true ∧ c ≠ 0 ∧ c ≠ 124 := by
  intro c hc
  rw [List.mem_flatten] at hc
  obtain ⟨blk, hblk, hcb⟩ := hc
  rw [List.mem_map] at hblk
  obtain ⟨b, _, rfl⟩ := hblk
  exact hex2_chars_mod b c hcb

theorem hex_flatten_block (l : Bytes) :
    ∀ i, i < l.length → (((l.map hex2).flatten).drop (i * 2)).take 2 = hex2 (l.getD i 0) := by
  induction l with
  | nil => intro i hi; cases hi
  | cons b t ih =>
    intro i hi
    cases i with
    | zero =>
      simp only [List.map_cons, List.flatten_cons, hex2, Nat.zero_mul, List.drop_zero,
        List.cons_append, List.nil_append, List.take_succ_cons, List.take_zero, List.getD_cons_zero]
    | succ k =>
      have hk : k < t.length := by simpa using hi
      have h2 : (k + 1) * 2 = k * 2 + 1 + 1 := by omega
      rw [h2]
      simp only [List.map_cons, List.flatten_cons, hex2, List.cons_append, List.nil_append,
        List.drop_succ_cons, List.getD_cons_succ]
      exact ih k hk

/-- C26. For every non-empty byte string `d` (and `malloc` succeeding),
`bin_to_hex` returns exactly `2 * |d|` characters, each one of `0`..`9`,
`a`..`f`, and `hex_to_bin` of that text returns `d` and stores `|d|` in
`*len`. -/
theorem hex_round_trip (d : Bytes) (len0 : Nat) (hne : d ≠ [])
    (hbytes : ∀ b ∈ d, b < 256) :
    ∃ hex, bin_to_hex true (some d) d.length = some hex ∧
      hex.length = 2 * d.length ∧
      (∀ c ∈ hex, is_lower_hex c = true) ∧
      hex_to_bin true (some hex) (some len0) = (some d, some d.length) := by
  have hlen : d.length ≠ 0 := by
    intro h
    exact hne (List.length_eq_zero.mp h)
  refine ⟨(d.map hex2).flatten, ?_, hex_flatten_length d,
    fun c hc => (hex_flatten_chars d c hc).1, ?_⟩
  · simp only [bin_to_hex, hlen, if_false, Bool.not_true, Bool.false_eq_true]
    have hm : (List.range d.length).map (fun i => hex2 (d.getD i 0)) =
        ((List.range d.length).map (fun i => d.getD i 0)).map hex2 := by
      rw [List.map_map]
      rfl
    rw [hm, range_map_getD]
  · have hc : cstr (d.map hex2).flatten = (d.map hex2).flatten :=
      cstr_of_nonzero _ (fun c hc => (hex_flatten_chars d c hc).2.1)
    have hmod : 2 * d.length % 2 = 0 := by omega
    have hdiv : 2 * d.length / 2 = d.length := by omega
    simp only [hex_to_bin, strlen, hc, hex_flatten_length, hmod, ne_eq, not_true_eq_false,
      if_false, Bool.not_true, Bool.false_eq_true, hdiv, Prod.mk.injEq, Option.some.injEq,
      and_true]
    conv_rhs => rw [← range_map_getD d]
    apply List.map_congr_left
    intro i hi
    have hi' : i < d.length := List.mem_range.mp hi
    rw [hex_flatten_block d i hi']
    have hb : d.getD i 0 < 256 := by
      rw [List.getD_eq_getElem _ _ hi']
      exact hbytes _ (List.getElem_mem _)
    rw [strtol16_hex2 _ hb]
    omega

/-- The eight bytes of `test_hex_utils` go to `0011223344556677` and back. -/
theorem hex_round_trip_witness :
    ∃ hex, bin_to_hex true (some [0, 17, 34, 51, 68, 85, 102, 119]) 8 = some hex ∧
      hex.length = 2 * 8 ∧
      (∀ c ∈ hex, is_lower_hex c = true) ∧
      hex_to_bin true (some hex) (some 0) = (some [0, 17, 34, 51, 68, 85, 102, 119], some 8) :=
  hex_round_trip [0, 17, 34, 51, 68, 85, 102, 119] 0 (by decide) (by decide)

/-- C27 (divergence from the claim). For every string of even length, whatever
its characters are, `hex_to_bin` returns a buffer of half that many bytes (when
`malloc` succeeds), not `NULL`: the characters are handed to `strtol` and never
checked. A string of odd length does get `NULL`. -/
theorem hex_to_bin_unchecked (hex : Bytes) (len0 : Nat) (heven : strlen hex % 2 = 0) :
    ∃ bin, hex_to_bin true (some hex) (some len0) = (some bin, some (strlen hex / 2)) ∧
      bin.length = strlen hex / 2 := by
  refine ⟨(List.range (strlen hex / 2)).map (fun i =>
    (strtol16 (((cstr hex).drop (i * 2)).take 2) % 256).toNat), ?_, ?_⟩
  · simp only [hex_to_bin, heven, ne_eq, not_true_eq_false, if_false, Bool.not_true,
      Bool.false_eq_true]
  · simp only [List.length_map, List.length_range]

/-- The text `00112233GG556677` of `test_hex_utils`, for which the test expects
`NULL`: `hex_to_bin` returns eight bytes, with 0 where `GG` stands. -/
theorem hex_to_bin_unchecked_witness :
    strlen sample_bad_hex % 2 = 0 ∧
    hex_to_bin true (some sample_bad_hex) (some 0) =
      (some [0, 17, 34, 51, 0, 85, 102, 119], some 8) ∧
    ∃ bin, hex_to_bin true (some sample_bad_hex) (some 0) =
        (some bin, some (strlen sample_bad_hex / 2)) ∧
      bin.length = strlen sample_bad_hex / 2 :=
  ⟨by decide, by decide, hex_to_bin_unchecked sample_bad_hex 0 (by decide)⟩

/-! ## Base64 text -/

theorem store_length (block : Bytes) (i v : Nat) (b1 : Bytes) (h : store block i v = some b1) :
    b1.length = block.length ∧ i < block.length := by
  unfold store at h
  split_ifs at h with hi
  simp only [Option.some.injEq] at h
  subst h
  exact ⟨List.length_set _ _ _, hi⟩

theorem bin_to_base64_loop_overflow (data : Bytes) :
    ∀ (n i j : Nat) (block : Bytes), 1 ≤ n → j + 4 * n > block.length →
      bin_to_base64_loop data n i j block = none := by
  intro n
  induction n with
  | zero => intro i j block h; omega
  | succ m ih =>
    intro i j block _ hover
    rw [bin_to_base64_loop]
    split
    · rfl
    rename_i b1 h1
    obtain ⟨hl1, _⟩ := store_length _ _ _ _ h1
    split
    · rfl
    rename_i b2 h2
    obtain ⟨hl2, _⟩ := store_length _ _ _ _ h2
    split
    · rfl
    rename_i b3 h3
    obtain ⟨hl3, _⟩ := store_length _ _ _ _ h3
    split
    · rfl
    rename_i b4 h4
    obtain ⟨hl4, hj4⟩ := store_length _ _ _ _ h4
    apply ih
    · omega
    · omega

theorem bin_to_base64_single (junk : Nat → Nat) (x : Nat) :
    bin_to_base64 ⟨true, junk⟩ (some [x]) 1 = some (some [65, 65, 65, 65, 0]) := by
  simp [bin_to_base64, malloc, bin_to_base64_loop, store, base64_padding_loop, base64_chars,
    List.range, List.range.loop]

set_option maxRecDepth 100000 in
theorem base64_index_A : base64_index[65]?.getD (-1) = 0 := by decide

theorem base64_to_bin_loop_A (a b c : Nat) :
    base64_to_bin_loop [65, 65, 65, 65] 0 0 [a, b, c] = some [0, 0, 0] := by
  simp [base64_to_bin_loop, store, or_store, base64_index_A]

theorem base64_to_bin_A (junk : Nat → Nat) (len0 : Nat) :
    base64_to_bin ⟨true, junk⟩ (some [65, 65, 65, 65, 0]) (some len0) =
      some (some [0, 0, 0], some 3) := by
  have hc : cstr [65, 65, 65, 65, 0] = [65, 65, 65, 65] := by decide
  have hm : malloc ⟨true, junk⟩ 3 = some [junk 0, junk 1, junk 2] := rfl
  simp only [base64_to_bin, hc]
  simp [hm, base64_to_bin_loop_A]

/-- C28 (divergence from the claim). With `malloc` succeeding: for a single
byte, whatever it is, `bin_to_base64` returns the text `AAAA` (the loop test
`len--` has already taken `len` to 0 when the body asks `i < len`, so the byte
is never read), and `base64_to_bin` of `AAAA` returns three zero bytes with
`*len = 3`; for two or more bytes `bin_to_base64` runs its loop `len` times,
four characters each, and stores outside the block of `4 * ((len + 2) / 3) + 1`
bytes that it allocated. -/
theorem base64_round_trip_fails (heap : heap_t) (len0 : Nat)
    (hok : heap.malloc_ok = true) :
    (∀ x : Nat, bin_to_base64 heap (some [x]) 1 = some (some [65, 65, 65, 65, 0])) ∧
    base64_to_bin heap (some [65, 65, 65, 65, 0]) (some len0) = some (some [0, 0, 0], some 3) ∧
    (∀ d : Bytes, 2 ≤ d.length → bin_to_base64 heap (some d) d.length = none) := by
  obtain ⟨ok, junk⟩ := heap
  simp only at hok
  subst hok
  refine ⟨fun x => bin_to_base64_single junk x, base64_to_bin_A junk len0, ?_⟩
  intro d hd
  have hne : d.length ≠ 0 := by omega
  simp only [bin_to_base64, hne, if_false, malloc, if_true]
  rw [bin_to_base64_loop_overflow d d.length 0 0 _ (by omega)
    (by simp only [List.length_map, List.length_range]; omega)]

/-- The calls of `test_hex_utils`, and a single byte: on `Hello, Base64!`
`bin_to_base64` stores outside its block; the byte `H` alone goes to `AAAA` and
comes back as three zero bytes. -/
theorem base64_round_trip_fails_witness :
    bin_to_base64 sample_heap (some [72]) 1 = some (some [65, 65, 65, 65, 0]) ∧
    base64_to_bin sample_heap (some [65, 65, 65, 65, 0]) (some 0) =
      some (some [0, 0, 0], some 3) ∧
    bin_to_base64 sample_heap (some hello_base64) hello_base64.length = none :=
  ⟨(base64_round_trip_fails sample_heap 0 rfl).1 72,
    (base64_round_trip_fails sample_heap 0 rfl).2.1,
    (base64_round_trip_fails sample_heap 0 rfl).2.2 hello_base64 (by decide)⟩

/-! ## Strings -/

theorem cstr_nonzero (s : Bytes) : ∀ c ∈ cstr s, c ≠ 0 := by
  intro c hc
  have := List.mem_takeWhile_imp hc
  simpa using this

theorem cstr_cons_nonzero (c : Nat) (s : Bytes) (h : c ≠ 0) : cstr (c :: s) = c :: cstr s := by
  simp [cstr, h]

theorem cstr_cons_zero (s : Bytes) : cstr (0 :: s) = [] := by
  simp [cstr]

theorem cstr_append_zero (a b : Bytes) (h : ∀ c ∈ a, c ≠ 0) : cstr (a ++ 0 :: b) = a := by
  induction a with
  | nil => exact cstr_cons_zero b
  | cons x t ih =>
    have hx : x ≠ 0 := h x (List.mem_cons_self _ _)
    rw [List.cons_append, cstr_cons_nonzero _ _ hx, ih (fun c hc => h c (List.mem_cons_of_mem _ hc))]

theorem take_strlen (d : Bytes) : d.take (strlen d) = cstr d := by
  induction d with
  | nil => rfl
  | cons x t ih =>
    by_cases hx : x = 0
    · subst hx
      simp [strlen, cstr_cons_zero]
    · simp only [strlen, cstr_cons_nonzero _ _ hx, List.length_cons, List.take_succ_cons]
      exact congrArg (fun l => x :: l) ih

theorem drop_strlen (d : Bytes) (h : strlen d < d.length) :
    ∃ rest, d.drop (strlen d) = 0 :: rest := by
  induction d with
  | nil => simp at h
  | cons x t ih =>
    by_cases hx : x = 0
    · subst hx
      exact ⟨t, by simp [strlen, cstr_cons_zero]⟩
    · have hlen : strlen (x :: t) = strlen t + 1 := by
        simp only [strlen, cstr_cons_nonzero _ _ hx, List.length_cons]
      rw [hlen] at h ⊢
      have ht : strlen t < t.length := by simpa using h
      obtain ⟨rest, hr⟩ := ih ht
      exact ⟨rest, by simpa using hr⟩

theorem store_eq (d : Bytes) (i v : Nat) (h : i < d.length) :
    store d i v = some (d.take i ++ v :: d.drop (i + 1)) := by
  simp only [store, h, if_true, List.set_eq_take_append_cons_drop]

theorem strncpy_safe_loop_spec (size : Nat) :
    ∀ (s : Bytes) (i : Nat) (d : Bytes), i < size → size ≤ d.length →
      strncpy_safe_loop size s i d =
        some (d.take i ++ (cstr s).take (size - 1 - i) ++
          0 :: d.drop (i + min (cstr s).length (size - 1 - i) + 1)) := by
  intro s
  induction s with
  | nil =>
    intro i d hi hd
    simp only [strncpy_safe_loop, store_eq d i 0 (by omega), cstr, List.takeWhile_nil,
      List.take_nil, List.append_nil, List.length_nil, Nat.zero_min, Nat.add_zero]
  | cons c rest ih =>
    intro i d hi hd
    rw [strncpy_safe_loop]
    by_cases hc : i < size - 1 ∧ c ≠ 0
    · rw [if_pos hc, store_eq d i c (by omega)]
      simp only
      have hlen : (d.take i ++ c :: d.drop (i + 1)).length = d.length := by
        simp only [List.length_append, List.length_take, List.length_cons, List.length_drop]
        omega
      rw [ih (i + 1) _ (by omega) (by omega), cstr_cons_nonzero _ _ hc.2]
      have htake : (d.take i ++ c :: d.drop (i + 1)).take (i + 1) = d.take i ++ [c] := by
        rw [List.take_append_eq_append_take]
        simp only [List.length_take, Nat.min_eq_left (show i ≤ d.length by omega)]
        rw [List.take_of_length_le (by simp only [List.length_take]; omega)]
        have : i + 1 - i = 1 := by omega
        rw [this]
        rfl
      have hdrop : ∀ k, (d.take i ++ c :: d.drop (i + 1)).drop (i + 1 + k) =
          d.drop (i + 1 + k) := by
        intro k
        rw [List.drop_append_eq_append_drop]
        simp only [List.length_take, Nat.min_eq_left (show i ≤ d.length by omega)]
        rw [List.drop_of_length_le (by simp only [List.length_take]; omega)]
        have : i + 1 + k - i = k + 1 := by omega
        rw [this, List.nil_append, List.drop_succ_cons, List.drop_drop]
      have h1 : size - 1 - i = (size - 1 - (i + 1)) + 1 := by omega
      have hidx : i + 1 + min (cstr rest).length (size - 1 - (i + 1)) + 1 =
          i + 1 + (min (cstr rest).length (size - 1 - (i + 1)) + 1) := by omega
      have hidx2 : i + min (c :: cstr rest).length (size - 1 - i) + 1 =
          i + 1 + (min (cstr rest).length (size - 1 - (i + 1)) + 1) := by
        simp only [List.length_cons]
        omega
      rw [htake, hidx, hdrop, hidx2]
      conv_rhs => rw [h1, List.take_succ_cons]
      simp only [List.append_assoc, List.singleton_append, List.cons_append, List.nil_append]
    · rw [if_neg hc, store_eq d i 0 (by omega)]
      by_cases hz : c = 0
      · subst hz
        simp only [cstr_cons_zero, List.take_nil, List.append_nil, List.length_nil, Nat.zero_min,
          Nat.add_zero]
      · have hi2 : size - 1 - i = 0 := by
          have : ¬ i < size - 1 := fun h => hc ⟨h, hz⟩
          omega
        simp only [hi2, List.take_zero, List.append_nil, Nat.min_zero, Nat.add_zero]

/-- C29 (divergence from the claim). For every array `dest` of `dest_size`
bytes that holds a string shorter than `dest_size`, and every string `src`,
`strncat_safe(dest, src, dest_size)` leaves in `dest` the first
`dest_size - 1` characters of `dest` followed by `src`, NUL-terminated, as
claimed; but the pointer it returns is `dest + strlen(dest)`, the place where
`src` was copied to, and not `dest`. -/
theorem strncat_safe_pointer (dest src : Bytes) (dest_size : Nat)
    (hsize : dest.length = dest_size) (hnul : strlen dest < dest_size) :
    ∃ d1, strncat_safe (some dest) (some src) dest_size =
        some ⟨some (strlen dest), some d1⟩ ∧
      d1.length = dest_size ∧
      cstr d1 = (cstr dest ++ cstr src).take (dest_size - 1) := by
  have hne : dest_size ≠ 0 := by omega
  have hge : ¬ strlen dest ≥ dest_size := by omega
  obtain ⟨rest, hrest⟩ := drop_strlen dest (by omega)
  have hzero : 0 ∈ dest := by
    have : (0 : Nat) ∈ dest.drop (strlen dest) := by
      rw [hrest]
      exact List.mem_cons_self _ _
    exact List.mem_of_mem_drop this
  have hsub : (dest.drop (strlen dest)).length = dest_size - strlen dest := by
    rw [List.length_drop, hsize]
  have hloop := strncpy_safe_loop_spec (dest_size - strlen dest) src 0
    (dest.drop (strlen dest)) (by omega) (by omega)
  have hne2 : dest_size - strlen dest ≠ 0 := by omega
  refine ⟨dest.take (strlen dest) ++ ((cstr src).take (dest_size - strlen dest - 1 - 0) ++
    0 :: (dest.drop (strlen dest)).drop
      (0 + min (cstr src).length (dest_size - strlen dest - 1 - 0) + 1)), ?_, ?_, ?_⟩
  · simp only [strncat_safe, hne, if_false, hzero, not_true_eq_false, hge, strncpy_safe, hne2,
      hloop, List.take_zero, List.nil_append, Option.map_some', Nat.add_zero]
  · simp only [List.length_append, List.length_take, List.length_cons, List.length_drop, hsize]
    omega
  · rw [take_strlen, ← List.append_assoc, cstr_append_zero]
    · rw [List.take_append_eq_append_take]
      have h1 : (cstr dest).take (dest_size - 1) = cstr dest := by
        apply List.take_of_length_le
        show strlen dest ≤ dest_size - 1
        omega
      have h2 : dest_size - 1 - (cstr dest).length = dest_size - strlen dest - 1 - 0 := by
        show dest_size - 1 - strlen dest = _
        omega
      rw [h1, h2]
    · intro c hc
      rcases List.mem_append.mp hc with h | h
      · exact cstr_nonzero dest c h
      · exact cstr_nonzero src c (List.mem_of_mem_take h)

/-- The call of `test_string_utils`: `dest` holds `Hello` in an array of 10
bytes and `, World!` is appended. The array then holds `Hello, Wo`, and the
pointer returned is `dest + 5`, where the test expects `dest`. -/
theorem strncat_safe_pointer_witness :
    strncat_safe (some sample_dest) (some comma_world) 10 =
      some ⟨some 5, some [72, 101, 108, 108, 111, 44, 32, 87, 111, 0]⟩ ∧
    ∃ d1, strncat_safe (some sample_dest) (some comma_world) 10 =
        some ⟨some (strlen sample_dest), some d1⟩ ∧
      d1.length = 10 ∧
      cstr d1 = (cstr sample_dest ++ cstr comma_world).take (10 - 1) :=
  ⟨by decide, strncat_safe_pointer sample_dest comma_world 10 (by decide) (by decide)⟩

theorem str_unescape_loop_escape (e : Nat) (specials : Bytes) :
    ∀ l : Bytes, (∀ c ∈ l, c = e → strchr specials c = true) →
      str_unescape_loop e
        (l.flatMap (fun c => if strchr specials c then [e, c] else [c])) false = l := by
  intro l
  induction l with
  | nil => intro _; rfl
  | cons c t ih =>
    intro h
    have ht := ih (fun x hx => h x (List.mem_cons_of_mem _ hx))
    rw [List.flatMap_cons]
    by_cases hs : strchr specials c = true
    · simp only [hs, if_true, List.cons_append, List.nil_append, str_unescape_loop, Bool.not_false,
        beq_self_eq_true, Bool.and_self, Bool.not_true, Bool.false_and, Bool.false_eq_true,
        if_false, ht]
    · have hce : c ≠ e := fun hce => hs (h c (List.mem_cons_self _ _) hce)
      have hbeq : (c == e) = false := by simpa using hce
      simp only [hs, if_false, List.cons_append, List.nil_append, str_unescape_loop,
        Bool.not_false, hbeq, Bool.and_false, Bool.false_eq_true, ht]

/-- C30 (amended). For every string `s`, every string of special characters
and every escape character `e` other than NUL such that `e`, if it occurs in
`s`, is itself one of the special characters:
`str_unescape(str_escape(s, specials, e), e)` equals `s` (with `malloc`
succeeding). -/
theorem str_escape_round_trip (s specials : Bytes) (e : Nat) (he : e ≠ 0)
    (hesc : e ∈ cstr s → e ∈ cstr specials) :
    ∃ escaped, str_escape true (some s) specials e = some escaped ∧
      str_unescape true (some escaped) e = some (cstr s) := by
  refine ⟨_, rfl, ?_⟩
  have hnz : ∀ c ∈ (cstr s).flatMap (fun c => if strchr specials c then [e, c] else [c]),
      c ≠ 0 := by
    intro c hc
    rw [List.mem_flatMap] at hc
    obtain ⟨x, hx, hcx⟩ := hc
    have hx0 := cstr_nonzero s x hx
    split_ifs at hcx
    · simp only [List.mem_cons, List.mem_singleton, List.not_mem_nil, or_false] at hcx
      rcases hcx with h | h
      · rw [h]; exact he
      · rw [h]; exact hx0
    · simp only [List.mem_singleton] at hcx
      rw [hcx]; exact hx0
  simp only [str_unescape, Bool.not_true, Bool.false_eq_true, if_false, cstr_of_nonzero _ hnz]
  rw [str_unescape_loop_escape]
  intro c hc hce
  subst hce
  simp only [strchr, Bool.or_eq_true, decide_eq_true_eq]
  exact Or.inl (hesc hc)

/-- The strings of `test_string_utils`: `Hello,World!` with the special
characters `,!` and the backslash as escape character. -/
theorem str_escape_round_trip_witness :
    str_escape true (some hello_world) [44, 33] 92 =
      some [72, 101, 108, 108, 111, 92, 44, 87, 111, 114, 108, 100, 92, 33] ∧
    ∃ escaped, str_escape true (some hello_world) [44, 33] 92 = some escaped ∧
      str_unescape true (some escaped) 92 = some (cstr hello_world) :=
  ⟨by decide, str_escape_round_trip hello_world [44, 33] 92 (by decide) (by decide)⟩

/-- C30 (counterexample). The string `a\b` with the comma as only special
character and the backslash as escape character: `str_escape` returns `a\b`
unchanged and `str_unescape` of that returns `ab`. -/
theorem str_escape_loses_backslash :
    str_escape true (some sample_backslash) [44] 92 = some [97, 92, 98] ∧
    str_unescape true (some [97, 92, 98]) 92 = some [97, 98] ∧
    [97, 98] ≠ sample_backslash := by
  decide

/-! ## File transfer: the FileStart payload -/

theorem takeWhile_append_stop (p : Nat → Bool) (a b : Bytes) (x : Nat)
    (ha : ∀ c ∈ a, p c = true) (hx : p x = false) :
    (a ++ x :: b).takeWhile p = a ∧ (a ++ x :: b).dropWhile p = x :: b := by
  induction a with
  | nil => simp [hx]
  | cons y t ih =>
    have hy : p y = true := ha y (List.mem_cons_self _ _)
    obtain ⟨h1, h2⟩ := ih (fun c hc => ha c (List.mem_cons_of_mem _ hc))
    simp only [List.cons_append, List.takeWhile_cons, hy, if_true, h1, List.dropWhile_cons, h2,
      and_self]

theorem strtok_r_field (tok rest : Bytes) (hne : tok ≠ []) (h124 : 124 ∉ tok) :
    strtok_r (tok ++ 124 :: rest) = some (tok, rest) := by
  obtain ⟨x, t, rfl⟩ := List.exists_cons_of_ne_nil hne
  have hx : x ≠ 124 := fun h => h124 (by rw [h]; exact List.mem_cons_self _ _)
  have hall : ∀ c ∈ x :: t, (fun c => c != 124) c = true := by
    intro c hc
    have : c ≠ 124 := fun h => h124 (by rw [← h]; exact hc)
    simpa using this
  obtain ⟨h1, h2⟩ := takeWhile_append_stop (fun c => c != 124) (x :: t) rest 124 hall
    (by simp)
  have hd : ((x :: t) ++ 124 :: rest).dropWhile (fun c => c == 124) =
      (x :: t) ++ 124 :: rest := by
    simp [hx]
  simp only [strtok_r, hd, h1, h2, List.drop_succ_cons, List.drop_zero]
  simp

theorem strtok_r_last (tok : Bytes) (hne : tok ≠ []) (h124 : 124 ∉ tok) :
    strtok_r tok = some (tok, []) := by
  obtain ⟨x, t, rfl⟩ := List.exists_cons_of_ne_nil hne
  have hx : x ≠ 124 := fun h => h124 (by rw [h]; exact List.mem_cons_self _ _)
  have hall : ∀ c ∈ x :: t, (fun c => c != 124) c = true := by
    intro c hc
    have : c ≠ 124 := fun h => h124 (by rw [← h]; exact hc)
    simpa using this
  have hd : (x :: t).dropWhile (fun c => c == 124) = x :: t := by
    simp [hx]
  have ht : (x :: t).takeWhile (fun c => c != 124) = x :: t :=
    List.takeWhile_eq_self_iff.mpr hall
  have hdw : (x :: t).dropWhile (fun c => c != 124) = [] :=
    List.dropWhile_eq_nil_iff.mpr hall
  simp only [strtok_r, hd, ht, hdw, List.drop_nil]
  simp

/-- The outcome of `start_file_receive` on a payload of three fields
`name|size|checksum`, none of them empty or holding `|` or NUL. -/
theorem start_file_receive_fields (env : recv_start_env_t) (fs : fs_t)
    (conn : connection_t Ctx) (name size checksum : Bytes)
    (hname : name ≠ [] ∧ 124 ∉ name ∧ 0 ∉ name)
    (hsize : size ≠ [] ∧ 124 ∉ size ∧ 0 ∉ size)
    (hsum : checksum ≠ [] ∧ 124 ∉ checksum ∧ 0 ∉ checksum)
    (hlen : (name ++ 124 :: (size ++ 124 :: checksum)).length < MAX_FILENAME_LEN + 100) :
    start_file_receive env fs (some conn) (some (name ++ 124 :: (size ++ 124 :: checksum))) =
      if strtoull size = 0 then ⟨none, fs⟩
      else if checksum.length ≠ SHA256_DIGEST_LENGTH * 2 then ⟨none, fs⟩
      else if !env.fopen_ok then ⟨none, fs⟩
      else if !env.calloc_ok then
        ⟨none, fs_write fs (snprintf_part (MAX_FILENAME_LEN + 10) name) []⟩
      else
        ⟨some
          { state := TRANSFER_RECEIVING
            filename := name.take (MAX_FILENAME_LEN - 1)
            file := some (FILE.writer (snprintf_part (MAX_FILENAME_LEN + 10) name))
            file_size := strtoull size
            bytes_transferred := 0
            chunks_sent := 0
            chunks_received := 0
            start_time := env.now
            last_activity := env.now
            checksum := parse_checksum checksum },
         fs_write fs (snprintf_part (MAX_FILENAME_LEN + 10) name) []⟩ := by
  have hnz : ∀ c ∈ name ++ 124 :: (size ++ 124 :: checksum), c ≠ 0 := by
    intro c hc h0
    subst h0
    simp only [List.mem_append, List.mem_cons] at hc
    rcases hc with h | h | h | h | h
    · exact hname.2.2 h
    · cases h
    · exact hsize.2.2 h
    · cases h
    · exact hsum.2.2 h
  have hstr : (name ++ 124 :: (size ++ 124 :: checksum)).takeWhile (fun c => c != 0) =
      name ++ 124 :: (size ++ 124 :: checksum) := cstr_of_nonzero _ hnz
  have hl0 : (name ++ 124 :: (size ++ 124 :: checksum)).length ≠ 0 := by
    simp only [List.length_append, List.length_cons]
    omega
  have hge : ¬ (name ++ 124 :: (size ++ 124 :: checksum)).length ≥ MAX_FILENAME_LEN + 100 := by
    omega
  simp only [start_file_receive, hl0, if_false, hge, hstr,
    strtok_r_field name _ hname.1 hname.2.1, strtok_r_field size _ hsize.1 hsize.2.1,
    strtok_r_last checksum hsum.1 hsum.2.1]

/-- C21 (amended). For every FileStart payload of three fields
`name|size|checksum` (none empty, none holding `|` or NUL, fewer than 612 bytes
in all): when the size field reads as 0 or the checksum field is not exactly 64
characters long, `start_file_receive` returns `NULL` and leaves the working
directory as it was; otherwise, when `fopen` and `calloc` succeed, it returns a
transfer and has created the `.part` file, whatever the name is and whatever the
64 characters of the checksum field are. -/
theorem start_file_receive_checks (env : recv_start_env_t) (fs : fs_t)
    (conn : connection_t Ctx) (name size checksum : Bytes)
    (hname : name ≠ [] ∧ 124 ∉ name ∧ 0 ∉ name)
    (hsize : size ≠ [] ∧ 124 ∉ size ∧ 0 ∉ size)
    (hsum : checksum ≠ [] ∧ 124 ∉ checksum ∧ 0 ∉ checksum)
    (hlen : (name ++ 124 :: (size ++ 124 :: checksum)).length < MAX_FILENAME_LEN + 100) :
    (strtoull size = 0 ∨ checksum.length ≠ 64 →
      start_file_receive env fs (some conn)
        (some (name ++ 124 :: (size ++ 124 :: checksum))) = ⟨none, fs⟩) ∧
    (strtoull size ≠ 0 → checksum.length = 64 → env.fopen_ok = true →
      env.calloc_ok = true →
      ∃ t, (start_file_receive env fs (some conn)
          (some (name ++ 124 :: (size ++ 124 :: checksum)))).transfer = some t ∧
        t.filename = name.take (MAX_FILENAME_LEN - 1) ∧
        t.file_size = strtoull size ∧
        t.checksum = parse_checksum checksum ∧
        (start_file_receive env fs (some conn)
          (some (name ++ 124 :: (size ++ 124 :: checksum)))).fs
          (snprintf_part (MAX_FILENAME_LEN + 10) name) = some []) := by
  rw [start_file_receive_fields env fs conn name size checksum hname hsize hsum hlen]
  constructor
  · intro h
    rcases h with h | h
    · rw [if_pos h]
    · by_cases h0 : strtoull size = 0
      · rw [if_pos h0]
      · have h' : checksum.length ≠ SHA256_DIGEST_LENGTH * 2 := h
        rw [if_neg h0, if_pos h']
  · intro h0 h64 hopen hcalloc
    have h64' : ¬ checksum.length ≠ SHA256_DIGEST_LENGTH * 2 := by
      rw [h64]
      decide
    rw [if_neg h0, if_neg h64']
    simp only [hopen, hcalloc, Bool.not_true, Bool.false_eq_true, if_false]
    exact ⟨_, rfl, rfl, rfl, rfl, fs_write_same _ _ _⟩

/-- The payloads `f|0|...` and `f|5|abc` are refused, and the payload
`sample_file_info` gives a transfer and the file `f.part`. -/
theorem start_file_receive_checks_witness :
    start_file_receive sample_recv_start_env empty_fs (some sample_listener)
      (some ([102] ++ 124 :: ([48] ++ 124 :: List.replicate 64 48))) = ⟨none, empty_fs⟩ ∧
    start_file_receive sample_recv_start_env empty_fs (some sample_listener)
      (some ([102] ++ 124 :: ([53] ++ 124 :: [97, 98, 99]))) = ⟨none, empty_fs⟩ ∧
    ∃ t, (start_file_receive sample_recv_start_env empty_fs (some sample_listener)
        (some ([102] ++ 124 :: ([53] ++ 124 :: List.replicate 64 48)))).transfer = some t ∧
      t.filename = [102] ∧ t.file_size = 5 ∧
      t.checksum = parse_checksum (List.replicate 64 48) ∧
      (start_file_receive sample_recv_start_env empty_fs (some sample_listener)
        (some ([102] ++ 124 :: ([53] ++ 124 :: List.replicate 64 48)))).fs
        (snprintf_part (MAX_FILENAME_LEN + 10) [102]) = some [] :=
  ⟨(start_file_receive_checks sample_recv_start_env empty_fs sample_listener [102] [48]
      (List.replicate 64 48) (by decide) (by decide) (by decide) (by decide)).1
      (Or.inl (by decide)),
    (start_file_receive_checks sample_recv_start_env empty_fs sample_listener [102] [53]
      [97, 98, 99] (by decide) (by decide) (by decide) (by decide)).1 (Or.inr (by decide)),
    (start_file_receive_checks sample_recv_start_env empty_fs sample_listener [102] [53]
      (List.replicate 64 48) (by decide) (by decide) (by decide) (by decide)).2
      (by decide) (by decide) rfl rfl⟩

/-- C21 (counterexample). The payload names the file `../x` and carries 64
letters `G` where the hexadecimal checksum belongs: `start_file_receive`
returns a transfer for the name `../x` and has created the file `../x.part`. -/
theorem start_file_receive_dotdot_name :
    sample_dotdot.transfer.map (fun t => (t.state, t.filename)) =
      some (TRANSFER_RECEIVING, sample_dotdot_name) ∧
    sample_dotdot.fs (sample_dotdot_name ++ part_suffix) = some [] ∧
    empty_fs (sample_dotdot_name ++ part_suffix) = none := by
  decide

theorem decimal_aux_digits :
    ∀ (fuel n : Nat) (acc : Bytes), (∀ x ∈ acc, isdigit x = true) →
      ∀ x ∈ decimal_aux fuel n acc, isdigit x = true := by
  intro fuel
  induction fuel with
  | zero =>
    intro n acc hacc x hx
    simp only [decimal_aux, List.mem_cons] at hx
    rcases hx with h | h
    · subst h
      simp only [isdigit, Bool.and_eq_true, decide_eq_true_eq]
      omega
    · exact hacc x h
  | succ fuel ih =>
    intro n acc hacc x hx
    rw [decimal_aux] at hx
    split_ifs at hx with hn
    · simp only [List.mem_cons] at hx
      rcases hx with h | h
      · subst h
        simp only [isdigit, Bool.and_eq_true, decide_eq_true_eq]
        omega
      · exact hacc x h
    · refine ih (n / 10) _ ?_ x hx
      intro y hy
      simp only [List.mem_cons] at hy
      rcases hy with h | h
      · subst h
        simp only [isdigit, Bool.and_eq_true, decide_eq_true_eq]
        omega
      · exact hacc y h

theorem decimal_aux_ne_nil : ∀ (fuel n : Nat) (acc : Bytes), decimal_aux fuel n acc ≠ [] := by
  intro fuel
  induction fuel with
  | zero => intro n acc; simp [decimal_aux]
  | succ fuel ih =>
    intro n acc
    rw [decimal_aux]
    split_ifs
    · simp
    · exact ih _ _

theorem decimal_aux_value :
    ∀ (fuel n : Nat) (acc : Bytes), n < 10 ^ (fuel + 1) →
      (decimal_aux fuel n acc).foldl (fun a d => a * 10 + (d - 48)) 0 =
        acc.foldl (fun a d => a * 10 + (d - 48)) n := by
  intro fuel
  induction fuel with
  | zero =>
    intro n acc hn
    have h10 : n < 10 := by simpa using hn
    have : 0 * 10 + (48 + n % 10 - 48) = n := by omega
    simp only [decimal_aux, List.foldl_cons, this]
  | succ fuel ih =>
    intro n acc hn
    rw [decimal_aux]
    split_ifs with h10
    · have : 0 * 10 + (48 + n - 48) = n := by omega
      simp only [List.foldl_cons, this]
    · have hdiv : n / 10 < 10 ^ (fuel + 1) := by
        rw [Nat.div_lt_iff_lt_mul (by decide)]
        calc n < 10 ^ (fuel + 1 + 1) := hn
          _ = 10 ^ (fuel + 1) * 10 := by rw [Nat.pow_succ]
      rw [ih (n / 10) _ hdiv]
      have : n / 10 * 10 + (48 + n % 10 - 48) = n := by omega
      simp only [List.foldl_cons, this]

theorem decimal_facts (n : Nat) :
    decimal n ≠ [] ∧ 124 ∉ decimal n ∧ 0 ∉ decimal n ∧ strtoull (decimal n) = n % 2^64 := by
  have hd : ∀ x ∈ decimal n, isdigit x = true :=
    decimal_aux_digits 19 (n % 2^64) [] (fun x hx => by cases hx)
  have hne : decimal n ≠ [] := decimal_aux_ne_nil 19 (n % 2^64) []
  have hnot : ∀ c, isdigit c = false → c ∉ decimal n := by
    intro c hc hmem
    rw [hd c hmem] at hc
    cases hc
  refine ⟨hne, hnot 124 (by decide), hnot 0 (by decide), ?_⟩
  obtain ⟨x, t, hxt⟩ := List.exists_cons_of_ne_nil hne
  have hx : isdigit x = true := hd x (by rw [hxt]; exact List.mem_cons_self _ _)
  have hxs : isspace x = false := by
    simp only [isdigit, Bool.and_eq_true, decide_eq_true_eq] at hx
    simp only [isspace, Bool.or_eq_false_iff, beq_eq_false_iff_ne, ne_eq, Bool.and_eq_false_iff,
      decide_eq_false_iff_not]
    omega
  have hx45 : x ≠ 45 := by
    simp only [isdigit, Bool.and_eq_true, decide_eq_true_eq] at hx
    omega
  have hx43 : x ≠ 43 := by
    simp only [isdigit, Bool.and_eq_true, decide_eq_true_eq] at hx
    omega
  have htw : (decimal n).takeWhile isdigit = decimal n := List.takeWhile_eq_self_iff.mpr hd
  have hval : (decimal n).foldl (fun a d => a * 10 + (d - 48)) 0 = n % 2^64 := by
    have := decimal_aux_value 19 (n % 2^64) [] (by
      have : n % 2^64 < 2^64 := Nat.mod_lt _ (by decide)
      have h2 : (2:Nat)^64 < 10 ^ (19 + 1) := by decide
      omega)
    simpa [decimal] using this
  have hlt : ¬ n % 2^64 ≥ 2^64 := by
    have : n % 2^64 < 2^64 := Nat.mod_lt _ (by decide)
    omega
  have hsign : (some x == some 45 || some x == some 43) = false := by
    simp [hx45, hx43]
  unfold strtoull
  rw [hxt] at htw hval ⊢
  have hneg : (some x == some 45) = false := by
    simp [hx45]
  simp only [List.dropWhile_cons, hxs, Bool.false_eq_true, if_false, List.head?_cons,
    hsign, htw, hval, hlt]
  simp only [hneg, Bool.false_eq_true, if_false]

theorem parse_checksum_hex (checksum : Bytes) (hlen : checksum.length = SHA256_DIGEST_LENGTH)
    (hbytes : ∀ b ∈ checksum, b < 256) :
    parse_checksum (checksum.map hex2).flatten = checksum := by
  unfold parse_checksum
  conv_rhs => rw [← range_map_getD checksum, hlen]
  apply List.map_congr_left
  intro i hi
  have hi' : i < checksum.length := by
    rw [hlen]
    exact List.mem_range.mp hi
  rw [hex_flatten_block checksum i hi']
  have hb : checksum.getD i 0 < 256 := by
    rw [List.getD_eq_getElem _ _ hi']
    exact hbytes _ (List.getElem_mem _)
  rw [strtol16_hex2 _ hb]
  omega

theorem file_start_payload_fields (name : Bytes) (size : Nat) (checksum : Bytes)
    (hlen : checksum.length = SHA256_DIGEST_LENGTH) :
    file_start_payload name size checksum =
      name ++ 124 :: (decimal size ++ 124 :: (checksum.map hex2).flatten) := by
  have hm : (List.range SHA256_DIGEST_LENGTH).map (fun i => hex2 (checksum.getD i 0)) =
      checksum.map hex2 := by
    conv_rhs => rw [← range_map_getD checksum, hlen]
    rw [List.map_map]
    rfl
  simp only [file_start_payload, hm, List.append_assoc, List.singleton_append, List.cons_append,
    List.nil_append]

/-- C22. For every non-empty file name without `|` (and without NUL) that fits
the sender's buffer of `MAX_FILENAME_LEN + 20` bytes together with the size,
the checksum and the terminating NUL, every size from 1 to `2^64 - 1` and every
checksum of 32 bytes, the payload `name|size|hex` that `start_file_send` builds
is parsed by `start_file_receive` (with `fopen` and `calloc` succeeding) into
a transfer with the same name, the same size and the same 32 checksum bytes. -/
theorem file_start_round_trip (env : recv_start_env_t) (fs : fs_t) (conn : connection_t Ctx)
    (name : Bytes) (size : Nat) (checksum : Bytes)
    (hname : name ≠ [] ∧ 124 ∉ name ∧ 0 ∉ name)
    (hfit : name.length + (decimal size).length + 66 < MAX_FILENAME_LEN + 20)
    (hsize : 1 ≤ size ∧ size < 2^64)
    (hsum : checksum.length = 32 ∧ ∀ b ∈ checksum, b < 256)
    (hopen : env.fopen_ok = true) (hcalloc : env.calloc_ok = true) :
    ∃ t, (start_file_receive env fs (some conn)
        (some (file_start_payload name size checksum))).transfer = some t ∧
      t.filename = name ∧ t.file_size = size ∧ t.checksum = checksum := by
  obtain ⟨hdne, hd124, hd0, hdval⟩ := decimal_facts size
  have hmod : size % 2^64 = size := Nat.mod_eq_of_lt hsize.2
  rw [hmod] at hdval
  have hhex := hex_flatten_chars checksum
  have hhexlen : ((checksum.map hex2).flatten).length = 64 := by
    rw [hex_flatten_length, hsum.1]
  have hhexne : (checksum.map hex2).flatten ≠ [] := by
    intro h
    rw [h] at hhexlen
    cases hhexlen
  have hh124 : 124 ∉ (checksum.map hex2).flatten := fun h => (hhex 124 h).2.2 rfl
  have hh0 : 0 ∉ (checksum.map hex2).flatten := fun h => (hhex 0 h).2.1 rfl
  have hlen : (name ++ 124 :: (decimal size ++ 124 :: (checksum.map hex2).flatten)).length <
      MAX_FILENAME_LEN + 100 := by
    simp only [List.length_append, List.length_cons, hhexlen]
    simp only [MAX_FILENAME_LEN] at hfit ⊢
    omega
  rw [file_start_payload_fields name size checksum hsum.1,
    start_file_receive_fields env fs conn name (decimal size) _ hname ⟨hdne, hd124, hd0⟩
      ⟨hhexne, hh124, hh0⟩ hlen, hdval]
  have h0 : ¬ size = 0 := by omega
  have h64 : ¬ ((checksum.map hex2).flatten).length ≠ SHA256_DIGEST_LENGTH * 2 := by
    rw [hhexlen]
    decide
  rw [if_neg h0, if_neg h64]
  simp only [hopen, hcalloc, Bool.not_true, Bool.false_eq_true, if_false]
  refine ⟨_, rfl, ?_, rfl, parse_checksum_hex checksum hsum.1 hsum.2⟩
  apply List.take_of_length_le
  simp only [MAX_FILENAME_LEN] at hfit ⊢
  omega

set_option maxRecDepth 100000 in
/-- The payload that `start_file_send` sends for the file `f` of five bytes is
`file_start_payload` of the name, the size 5 and the checksum, and
`start_file_receive` reads the three back. -/
theorem file_start_round_trip_witness :
    (start_file_send sample_sha256 sample_small_send_env (some sample_listener)
      (some [102])).map (fun r => r.sent) =
      some [sent_t.message MSG_FILE_START
        (file_start_payload [102] 5 (sample_sha256 [1, 2, 3, 4, 5]))] ∧
    ∃ t, (start_file_receive sample_recv_start_env empty_fs (some sample_listener)
        (some (file_start_payload [102] 5 (sample_sha256 [1, 2, 3, 4, 5])))).transfer =
        some t ∧
      t.filename = [102] ∧ t.file_size = 5 ∧ t.checksum = sample_sha256 [1, 2, 3, 4, 5] :=
  ⟨by decide,
    file_start_round_trip sample_recv_start_env empty_fs sample_listener [102] 5
      (sample_sha256 [1, 2, 3, 4, 5]) (by decide) (by decide) (by decide) (by decide) rfl rfl⟩

/-! ## File transfer: state changes -/

set_option maxRecDepth 10000 in
theorem start_file_send_state (sha256 : Bytes → Bytes) (env : send_start_env_t)
    (conn : Option (connection_t Ctx)) (filename : Option Bytes) (t : file_transfer_t)
    (h : (start_file_send sha256 env conn filename).bind (fun r => r.transfer) = some t) :
    t.state = TRANSFER_SENDING := by
  rcases conn with _ | c
  · cases h
  rcases filename with _ | name
  · cases h
  rcases hstat : env.stat with _ | st
  · simp [start_file_send, hstat] at h
  rcases hopen : env.fopen with _ | content
  · simp [start_file_send, hstat, hopen] at h
  rcases hsum : env.checksum_fopen with _ | summed
  · simp [start_file_send, hstat, hopen, hsum, calculate_file_checksum] at h
  simp only [start_file_send, hstat, hopen, hsum, calculate_file_checksum, Option.getD_some]
    at h
  generalize format_start_data name _ _ = start_data at h
  rcases start_data with _ | d
  · split_ifs at h <;>
      simp only [Option.some_bind, Option.none_bind, Option.some.injEq, reduceCtorEq] at h
  · split_ifs at h <;>
      simp only [Option.some_bind, Option.none_bind, Option.some.injEq, reduceCtorEq] at h
    subst h
    rfl

theorem send_file_chunk_internal_state (env : process_env_t) (t : file_transfer_t)
    (r : process_result_t) (h : send_file_chunk_internal env (some t) = some r) :
    ∃ t1, r.transfer = some t1 ∧
      (t1.state = t.state ∨ t1.state = TRANSFER_ERROR ∨ t1.state = TRANSFER_COMPLETE) := by
  unfold send_file_chunk_internal at h
  simp only at h
  split at h
  · simp only [Option.some.injEq] at h
    subst h
    exact ⟨t, rfl, Or.inl rfl⟩
  · split at h
    · split at h
      · simp only [Option.some.injEq] at h
        subst h
        exact ⟨_, rfl, Or.inr (Or.inl rfl)⟩
      · simp only [Option.some.injEq] at h
        subst h
        exact ⟨_, rfl, Or.inr (Or.inr rfl)⟩
    · split at h
      · simp only [Option.some.injEq] at h
        subst h
        exact ⟨_, rfl, Or.inr (Or.inl rfl)⟩
      · split at h
        · simp only [Option.some.injEq] at h
          subst h
          exact ⟨_, rfl, Or.inr (Or.inl rfl)⟩
        · split at h
          · cases h
          · split at h
            · simp only [Option.some.injEq] at h
              subst h
              exact ⟨_, rfl, Or.inr (Or.inl rfl)⟩
            · simp only [Option.some.injEq] at h
              subst h
              exact ⟨_, rfl, Or.inl rfl⟩

theorem process_file_transfer_state (env : process_env_t) (t : file_transfer_t)
    (r : process_result_t) (h : process_file_transfer env (some t) = some r) :
    ∃ t1, r.transfer = some t1 ∧
      (t1.state = t.state ∨ t1.state = TRANSFER_ERROR ∨
        (t.state = TRANSFER_SENDING ∧ t1.state = TRANSFER_COMPLETE)) := by
  unfold process_file_transfer at h
  simp only at h
  split at h
  · simp only [Option.some.injEq] at h
    subst h
    exact ⟨_, rfl, Or.inr (Or.inl rfl)⟩
  · split at h
    · rename_i hs
      obtain ⟨t1, ht1, hc⟩ := send_file_chunk_internal_state env t r h
      refine ⟨t1, ht1, ?_⟩
      rcases hc with hc | hc | hc
      · exact Or.inl hc
      · exact Or.inr (Or.inl hc)
      · exact Or.inr (Or.inr ⟨hs, hc⟩)
    all_goals
      simp only [Option.some.injEq] at h
      subst h
      exact ⟨t, rfl, Or.inl rfl⟩

theorem receive_file_chunk_state (sha256 : Bytes → Bytes) (env : recv_env_t) (fs : fs_t)
    (t : file_transfer_t) (data : Option Bytes) (chunk_num : Nat) :
    ∃ t1, (receive_file_chunk sha256 env fs (some t) data chunk_num).transfer = some t1 ∧
      (t1.state = t.state ∨
        (t.file ≠ none ∧ (t1.state = TRANSFER_ERROR ∨ t1.state = TRANSFER_COMPLETE))) := by
  unfold receive_file_chunk
  rcases data with _ | chunk
  · exact ⟨t, rfl, Or.inl rfl⟩
  rcases hfile : t.file with _ | file
  · have h : receive_file_chunk_internal sha256 env fs (some t) (some chunk) chunk_num =
        ⟨FILE_TRANSFER_ERROR_PARAM, some t, fs⟩ := by
      simp only [receive_file_chunk_internal, hfile]
    rw [h]
    exact ⟨t, rfl, Or.inl rfl⟩
  have hopen : (some file : Option FILE) ≠ none := by
    intro h
    cases h
  rcases receive_file_chunk_cases sha256 env fs t file chunk chunk_num hfile with
    h | h | h | h | h | ⟨c, h⟩ | ⟨c, h⟩
  · rw [h.2]
    exact ⟨t, rfl, Or.inl rfl⟩
  · rw [h.2.2]
    exact ⟨_, rfl, Or.inr ⟨hopen, Or.inl rfl⟩⟩
  · rw [h.2.2.2]
    exact ⟨_, rfl, Or.inr ⟨hopen, Or.inl rfl⟩⟩
  · rw [h.2.2.2.2]
    exact ⟨_, rfl, Or.inl rfl⟩
  · rw [h.2.2.2.2]
    exact ⟨_, rfl, Or.inr ⟨hopen, Or.inl rfl⟩⟩
  · rw [h.2.2.2.2.2.2]
    exact ⟨_, rfl, Or.inr ⟨hopen, Or.inl rfl⟩⟩
  · rw [h.2.2.2.2.2.2]
    exact ⟨_, rfl, Or.inr ⟨hopen, Or.inr rfl⟩⟩

/-- C23 (amended). The state changes that the five functions make:
`start_file_send`, when it stays inside its array `start_data`, hands back
transfers in `TRANSFER_SENDING` and `start_file_receive` transfers in
`TRANSFER_RECEIVING`;
`process_file_transfer` leaves the state as it is, or sets `TRANSFER_ERROR`
(from any state), or moves `TRANSFER_SENDING` to `TRANSFER_COMPLETE`;
`receive_file_chunk` leaves the state as it is or, when the file of the
transfer is open and whatever the state is, sets `TRANSFER_ERROR` or
`TRANSFER_COMPLETE`; `cancel_file_transfer` sets `TRANSFER_CANCELLED` from
every state. -/
theorem transfer_state_changes (sha256 : Bytes → Bytes) (t : file_transfer_t) :
    (∀ (env : send_start_env_t) (conn : Option (connection_t Ctx)) (filename : Option Bytes),
      (start_file_send sha256 env conn filename).bind (fun r => r.transfer) = some t →
      t.state = TRANSFER_SENDING) ∧
    (∀ (env : recv_start_env_t) (fs : fs_t) (conn : Option (connection_t Ctx))
      (file_info : Option Bytes),
      (start_file_receive env fs conn file_info).transfer = some t →
      t.state = TRANSFER_RECEIVING) ∧
    (∀ (env : process_env_t) (r : process_result_t),
      process_file_transfer env (some t) = some r →
      ∃ t1, r.transfer = some t1 ∧
        (t1.state = t.state ∨ t1.state = TRANSFER_ERROR ∨
          (t.state = TRANSFER_SENDING ∧ t1.state = TRANSFER_COMPLETE))) ∧
    (∀ (env : recv_env_t) (fs : fs_t) (data : Option Bytes) (chunk_num : Nat),
      ∃ t1, (receive_file_chunk sha256 env fs (some t) data chunk_num).transfer = some t1 ∧
        (t1.state = t.state ∨
          (t.file ≠ none ∧ (t1.state = TRANSFER_ERROR ∨ t1.state = TRANSFER_COMPLETE)))) ∧
    (∀ fs : fs_t,
      (cancel_file_transfer fs (some t)).transfer.map (fun t1 => t1.state) =
        some TRANSFER_CANCELLED) :=
  ⟨fun env conn filename h => start_file_send_state sha256 env conn filename t h,
    fun env fs conn file_info h => (start_file_receive_fresh env fs conn file_info t h).1,
    fun env r h => process_file_transfer_state env t r h,
    fun env fs data chunk_num => receive_file_chunk_state sha256 env fs t data chunk_num,
    fun _ => rfl⟩

/-- The transfer that `start_file_receive` returns for `sample_file_info` is in
`TRANSFER_RECEIVING`; `process_file_transfer` on it one second later leaves the
state, a chunk delivered to it leaves the state or sets `TRANSFER_ERROR` or
`TRANSFER_COMPLETE`, and `cancel_file_transfer` sets `TRANSFER_CANCELLED`. -/
theorem transfer_state_changes_witness :
    sample_transfer.state = TRANSFER_RECEIVING ∧
    (∃ t1, (process_file_transfer (sample_process_env 1001) (some sample_transfer)).bind
        (fun r => r.transfer) = some t1 ∧
      (t1.state = sample_transfer.state ∨ t1.state = TRANSFER_ERROR ∨
        (sample_transfer.state = TRANSFER_SENDING ∧ t1.state = TRANSFER_COMPLETE))) ∧
    (∃ t1, (receive_file_chunk sample_sha256 sample_recv_env sample_receiving.fs
        (some sample_transfer) (some [1, 2, 3, 4, 5]) 0).transfer = some t1 ∧
      (t1.state = sample_transfer.state ∨
        (sample_transfer.file ≠ none ∧
          (t1.state = TRANSFER_ERROR ∨ t1.state = TRANSFER_COMPLETE)))) ∧
    (cancel_file_transfer sample_receiving.fs (some sample_transfer)).transfer.map
      (fun t1 => t1.state) = some TRANSFER_CANCELLED :=
  have h := @transfer_state_changes cfb_ctx_t sample_sha256 sample_transfer
  ⟨h.2.1 sample_recv_start_env empty_fs (some sample_listener) (some sample_file_info)
      (Option.some_get _).symm,
    (h.2.2.1 (sample_process_env 1001)
      ((process_file_transfer (sample_process_env 1001) (some sample_transfer)).get
        (by decide)) (Option.some_get _).symm).imp (fun t1 ht1 => ⟨by
          rw [← ht1.1]
          decide, ht1.2⟩),
    h.2.2.2.1 sample_recv_env sample_receiving.fs (some [1, 2, 3, 4, 5]) 0,
    h.2.2.2.2 sample_receiving.fs⟩

/-- C23 (counterexample). Three state changes outside the arrows of the claim:
the completed transfer of `sample_completed` is taken to `TRANSFER_CANCELLED`
by `cancel_file_transfer`, and to `TRANSFER_ERROR` by a `process_file_transfer`
call made 39 seconds after its last activity; the transfer of
`sample_oversized`, in `TRANSFER_ERROR` after a rejected chunk, is taken to
`TRANSFER_COMPLETE` by the next `receive_file_chunk` call. -/
theorem terminal_states_change :
    sample_completed.transfer.map (fun t => t.state) = some TRANSFER_COMPLETE ∧
    (cancel_file_transfer sample_completed.fs sample_completed.transfer).transfer.map
      (fun t => t.state) = some TRANSFER_CANCELLED ∧
    (process_file_transfer (sample_process_env 1040) sample_completed.transfer).map
      (fun r => (r.code, r.transfer.map (fun t => t.state))) =
      some (FILE_TRANSFER_ERROR_TIMEOUT, some TRANSFER_ERROR) ∧
    sample_oversized.transfer.map (fun t => t.state) = some TRANSFER_ERROR ∧
    sample_recovered.code = FILE_TRANSFER_SUCCESS ∧
    sample_recovered.transfer.map (fun t => t.state) = some TRANSFER_COMPLETE := by
  decide

/-! ## Error handler -/

theorem error_code_t_ge : ∀ c ∈ error_code_t, ERROR_CRITICAL ≤ c := by decide

/-- C34 (code defect). For every enumerator of `error_code_t`, `ERROR_SUCCESS`
and the other non-critical codes included, `error_handler_is_fatal` returns 1:
its test `error_code >= ERROR_CRITICAL` holds for each of them, `ERROR_CRITICAL`
being the least value of the enumeration. -/
theorem error_handler_is_fatal_every_code (error_code : Int)
    (h : error_code ∈ error_code_t) : error_handler_is_fatal error_code = 1 := by
  have hge : error_code ≥ ERROR_CRITICAL := error_code_t_ge error_code h
  unfold error_handler_is_fatal
  rw [if_pos hge]

/-- `error_handler_is_fatal(ERROR_SUCCESS)` is 1, where the unit test expects
0. -/
theorem error_handler_is_fatal_every_code_witness :
    ERROR_SUCCESS ∈ error_code_t ∧ error_handler_is_fatal ERROR_SUCCESS = 1 :=
  ⟨by decide, error_handler_is_fatal_every_code ERROR_SUCCESS (by decide)⟩

/-! ## `secure_memcmp` -/

theorem and_or_self_left (r d : Nat) : r &&& (r ||| d) = r := by
  apply Nat.eq_of_testBit_eq
  intro i
  simp only [Nat.testBit_and, Nat.testBit_or]
  cases r.testBit i <;> cases d.testBit i <;> rfl

theorem and_or_self_right (r d : Nat) : d &&& (r ||| d) = d := by
  apply Nat.eq_of_testBit_eq
  intro i
  simp only [Nat.testBit_and, Nat.testBit_or]
  cases r.testBit i <;> cases d.testBit i <;> rfl

theorem and_trans (d r1 r2 : Nat) (h1 : d &&& r1 = d) (h2 : r1 &&& r2 = r1) :
    d &&& r2 = d := by
  calc d &&& r2 = (d &&& r1) &&& r2 := by rw [h1]
    _ = d &&& (r1 &&& r2) := Nat.and_assoc _ _ _
    _ = d := by rw [h2, h1]

theorem or_eq_zero (r d : Nat) : r ||| d = 0 ↔ r = 0 ∧ d = 0 := by
  constructor
  · intro h
    have h1 := and_or_self_left r d
    have h2 := and_or_self_right r d
    rw [h] at h1 h2
    simp only [Nat.and_zero] at h1 h2
    exact ⟨h1.symm, h2.symm⟩
  · rintro ⟨rfl, rfl⟩
    rfl

theorem xor_eq_zero (x y : Nat) : x ^^^ y = 0 ↔ x = y := by
  constructor
  · intro h
    apply Nat.eq_of_testBit_eq
    intro i
    have hi := congrArg (fun n => n.testBit i) h
    simp only [Nat.testBit_xor, Nat.zero_testBit] at hi
    revert hi
    cases x.testBit i <;> cases y.testBit i <;> simp
  · rintro rfl
    exact Nat.xor_self x

theorem secure_memcmp_loop_spec : ∀ (a b : Bytes) (n r : Nat),
    n ≤ a.length → n ≤ b.length → (∀ x ∈ a, x < 256) → (∀ y ∈ b, y < 256) → r < 256 →
    ∃ r1, secure_memcmp_loop a b n r = some r1 ∧
      (r1 = 0 ↔ r = 0 ∧ a.take n = b.take n) ∧
      r &&& r1 = r ∧
      ∀ i, i < n → (a.getD i 0 ^^^ b.getD i 0) &&& r1 = a.getD i 0 ^^^ b.getD i 0 := by
  intro a b n
  induction n generalizing a b with
  | zero =>
    intro r _ _ _ _ _
    refine ⟨r, ?_, ?_, Nat.and_self r, fun i hi => absurd hi (Nat.not_lt_zero i)⟩
    · cases a <;> cases b <;> rfl
    · simp
  | succ n ih =>
    intro r ha hb hxa hyb hr
    rcases a with _ | ⟨x, a⟩
    · simp at ha
    rcases b with _ | ⟨y, b⟩
    · simp at hb
    have hx : x < 256 := hxa x (List.mem_cons_self _ _)
    have hy : y < 256 := hyb y (List.mem_cons_self _ _)
    have hd : x ^^^ y < 2^8 := Nat.xor_lt_two_pow hx hy
    have hor : r ||| (x ^^^ y) < 2^8 := Nat.or_lt_two_pow hr hd
    have hmod : (r ||| (x ^^^ y)) % 256 = r ||| (x ^^^ y) := Nat.mod_eq_of_lt hor
    obtain ⟨r1, hrun, hzero, hsub, hall⟩ := ih a b (r ||| (x ^^^ y))
      (Nat.le_of_succ_le_succ ha) (Nat.le_of_succ_le_succ hb)
      (fun z hz => hxa z (List.mem_cons_of_mem _ hz))
      (fun z hz => hyb z (List.mem_cons_of_mem _ hz)) hor
    refine ⟨r1, ?_, ?_, ?_, ?_⟩
    · simp only [secure_memcmp_loop, hmod]
      exact hrun
    · rw [hzero, or_eq_zero, xor_eq_zero]
      simp only [List.take_succ_cons, List.cons.injEq]
      tauto
    · exact and_trans r _ r1 (and_or_self_left r _) hsub
    · intro i hi
      rcases i with _ | i
      · simp only [List.getD_cons_zero]
        exact and_trans _ _ r1 (and_or_self_right r _) hsub
      · simp only [List.getD_cons_succ]
        exact hall i (Nat.lt_of_succ_lt_succ hi)

/-- C35. For buffers `a` and `b` of at least `len` bytes, `secure_memcmp`
returns a value, which is 0 if and only if the first `len` bytes of `a` and `b`
are equal; and the value holds every bit in which any of the `len` byte pairs
differ, so no pair is skipped. -/
theorem secure_memcmp_spec (a b : Bytes) (len : Nat)
    (ha : len ≤ a.length) (hb : len ≤ b.length)
    (hxa : ∀ x ∈ a, x < 256) (hyb : ∀ y ∈ b, y < 256) :
    ∃ result, secure_memcmp a b len = some result ∧
      (result = 0 ↔ a.take len = b.take len) ∧
      ∀ i, i < len →
        (a.getD i 0 ^^^ b.getD i 0) &&& result = a.getD i 0 ^^^ b.getD i 0 := by
  obtain ⟨r1, hrun, hzero, _, hall⟩ :=
    secure_memcmp_loop_spec a b len 0 ha hb hxa hyb (by decide)
  refine ⟨r1, hrun, ?_, hall⟩
  rw [hzero]
  simp

/-- The buffers of the unit test: `\x7b1,2,3,4,5\x7d` against itself and against
`\x7b1,2,3,4,6\x7d`. -/
theorem secure_memcmp_spec_witness :
    secure_memcmp [1, 2, 3, 4, 5] [1, 2, 3, 4, 5] 5 = some 0 ∧
    (∃ result, secure_memcmp [1, 2, 3, 4, 5] [1, 2, 3, 4, 6] 5 = some result ∧
      (result = 0 ↔ [1, 2, 3, 4, 5].take 5 = [1, 2, 3, 4, 6].take 5) ∧
      ∀ i, i < 5 → (([1, 2, 3, 4, 5] : Bytes).getD i 0 ^^^ ([1, 2, 3, 4, 6] : Bytes).getD i 0)
          &&& result = ([1, 2, 3, 4, 5] : Bytes).getD i 0 ^^^ ([1, 2, 3, 4, 6] : Bytes).getD i 0) :=
  ⟨by decide,
    secure_memcmp_spec [1, 2, 3, 4, 5] [1, 2, 3, 4, 6] 5 (by decide) (by decide)
      (by decide) (by decide)⟩
/-! ## Transfer information -/

theorem start_file_receive_size (env : recv_start_env_t) (fs : fs_t)
    (conn : Option (connection_t Ctx)) (file_info : Option Bytes) (t : file_transfer_t)
    (h : (start_file_receive env fs conn file_info).transfer = some t) :
    0 < t.file_size ∧ t.bytes_transferred = 0 := by
  unfold start_file_receive at h
  split at h
  · split at h
    · cases h
    split at h
    · cases h
    simp only at h
    split at h
    · cases h
    split at h
    · cases h
    split at h
    · cases h
    split at h
    · cases h
    rename_i hsize
    split at h
    · cases h
    split at h
    · cases h
    split at h
    · cases h
    simp only [Option.some.injEq] at h
    subst h
    exact ⟨Nat.pos_of_ne_zero hsize, rfl⟩
  · cases h

/-- No sequence of `receive_file_chunk` calls takes `bytes_transferred` past
`file_size` or changes `file_size`. -/
theorem receive_calls_within (sha256 : Bytes → Bytes) (calls : List recv_call_t) :
    ∀ (t0 : file_transfer_t) (fs0 : fs_t), t0.bytes_transferred ≤ t0.file_size →
      ∃ t, (receive_calls sha256 calls (some t0) fs0).1 = some t ∧
        t.file_size = t0.file_size ∧ t.bytes_transferred ≤ t.file_size := by
  induction calls with
  | nil =>
    intro t0 fs0 hinv
    exact ⟨t0, rfl, rfl, hinv⟩
  | cons c cs ih =>
    intro t0 fs0 hinv
    obtain ⟨t1, ht1, hsize1, hstep⟩ :=
      receive_file_chunk_step sha256 c.env fs0 t0 c.chunk_data c.chunk_num
    have h1 : t1.bytes_transferred ≤ t1.file_size := by
      rcases hstep with ⟨_, hbt⟩ | ⟨_, hbt, hfit⟩
      · rw [hbt, hsize1]
        exact hinv
      · rw [hbt, hsize1]
        exact hfit
    obtain ⟨t, ht, hs, hle⟩ := ih t1
      (receive_file_chunk sha256 c.env fs0 (some t0) c.chunk_data c.chunk_num).fs h1
    refine ⟨t, ?_, hs.trans hsize1, hle⟩
    simp only [receive_calls, ht1]
    exact ht

/-- C39. A transfer created by `start_file_receive` and taken through any
sequence of `receive_file_chunk` calls, with `file_size` below 2^64 / 100:
`get_file_transfer_info` reports `progress_percent` equal to the integer
quotient of `100 * bytes_transferred` by `file_size`; the quotient is at most
100 and so is stored in the 8-bit field unchanged; and it is 100 exactly when
`bytes_transferred` has reached `file_size`. -/
theorem get_file_transfer_info_progress (sha256 : Bytes → Bytes) (env0 : recv_start_env_t)
    (fs0 : fs_t) (conn : Option (connection_t Ctx)) (file_info : Option Bytes)
    (calls : List recv_call_t) (now : Int) (t0 t : file_transfer_t)
    (hstart : (start_file_receive env0 fs0 conn file_info).transfer = some t0)
    (hrun : (receive_calls sha256 calls (some t0)
      (start_file_receive env0 fs0 conn file_info).fs).1 = some t)
    (hsize : t.file_size < 2^64 / 100) :
    (get_file_transfer_info now (some t)).progress_percent =
      100 * t.bytes_transferred / t.file_size ∧
    (get_file_transfer_info now (some t)).progress_percent ≤ 100 ∧
    100 * t.bytes_transferred / t.file_size < 2^8 ∧
    ((get_file_transfer_info now (some t)).progress_percent = 100 ↔
      t.bytes_transferred = t.file_size) := by
  obtain ⟨hpos0, hzero⟩ := start_file_receive_size env0 fs0 conn file_info t0 hstart
  obtain ⟨t1, ht1, hfs, hle⟩ := receive_calls_within sha256 calls t0
    (start_file_receive env0 fs0 conn file_info).fs (by rw [hzero]; exact Nat.zero_le _)
  rw [hrun] at ht1
  cases ht1
  have hpos : 0 < t.file_size := by rw [hfs]; exact hpos0
  have hwrap : (t.bytes_transferred * 100) % 2^64 = 100 * t.bytes_transferred :=
    (Nat.mod_eq_of_lt (by omega)).trans (Nat.mul_comm _ _)
  have hq : 100 * t.bytes_transferred / t.file_size ≤ 100 := by
    apply Nat.div_le_of_le_mul
    rw [Nat.mul_comm t.file_size 100]
    exact Nat.mul_le_mul_left 100 hle
  have hfield : (get_file_transfer_info now (some t)).progress_percent =
      100 * t.bytes_transferred / t.file_size := by
    simp only [get_file_transfer_info, if_pos hpos, hwrap]
    exact Nat.mod_eq_of_lt (by omega)
  refine ⟨hfield, by rw [hfield]; exact hq, by omega, ?_⟩
  rw [hfield]
  constructor
  · intro h100
    by_contra hne
    have hlt : t.bytes_transferred < t.file_size := lt_of_le_of_ne hle hne
    have : 100 * t.bytes_transferred / t.file_size < 100 := by
      rw [Nat.div_lt_iff_lt_mul hpos]
      omega
    omega
  · intro heq
    rw [heq]
    exact Nat.mul_div_cancel 100 hpos

/-- After chunks of three bytes and one byte of the five announced, the
progress reported is 80. -/
theorem get_file_transfer_info_progress_witness :
    (get_file_transfer_info 7 (some sample_after_calls)).progress_percent = 80 ∧
    (get_file_transfer_info 7 (some sample_after_calls)).progress_percent =
      100 * sample_after_calls.bytes_transferred / sample_after_calls.file_size ∧
    (get_file_transfer_info 7 (some sample_after_calls)).progress_percent ≤ 100 ∧
    100 * sample_after_calls.bytes_transferred / sample_after_calls.file_size < 2^8 ∧
    ((get_file_transfer_info 7 (some sample_after_calls)).progress_percent = 100 ↔
      sample_after_calls.bytes_transferred = sample_after_calls.file_size) :=
  ⟨by decide,
    get_file_transfer_info_progress sample_sha256 sample_recv_start_env empty_fs
      (some sample_listener) (some sample_file_info) sample_calls 7 sample_transfer
      sample_after_calls (Option.some_get _).symm (Option.some_get _).symm (by decide)⟩
/-! ## `base64_to_bin` on padded texts -/

theorem or_store_eq (d : Bytes) (i v : Nat) (h : i < d.length) :
    or_store d i v = some (d.set i (d.getD i 0 ||| v)) := by
  simp only [or_store, h, if_true]

theorem store_set (d : Bytes) (i v : Nat) (h : i < d.length) :
    store d i v = some (d.set i v) := by
  simp only [store, h, if_true]

theorem store_out (d : Bytes) (i v : Nat) (h : d.length ≤ i) : store d i v = none := by
  simp only [store, Nat.not_lt.mpr h, if_false]

theorem base64_char_index (ch : Nat) (h : base64_char ch = true) :
    base64_index.getD (ch % 256) (-1) ≠ -1 := by
  simpa [base64_char] using h

theorem base64_char_ne (ch : Nat) (h : base64_char ch = true) : ch ≠ 0 ∧ ch ≠ 61 := by
  constructor
  · rintro rfl
    revert h
    decide
  · rintro rfl
    revert h
    decide

/-- One pass of the loop of `base64_to_bin` over an alphabet character, with
room for the group of three bytes that the character belongs to. -/
theorem base64_to_bin_loop_step (ch : Nat) (rest : Bytes) (i j : Nat) (bin : Bytes)
    (hv : base64_char ch = true) (hj : j = 3 * (i / 4) + (i % 4 - 1))
    (hlen : 3 * (i / 4) + 3 ≤ bin.length) :
    ∃ b1, base64_to_bin_loop (ch :: rest) i j bin =
        base64_to_bin_loop rest (i + 1) (3 * ((i + 1) / 4) + ((i + 1) % 4 - 1)) b1 ∧
      b1.length = bin.length := by
  have hc := base64_char_index ch hv
  rw [base64_to_bin_loop]
  simp only [hc, if_false]
  have h4 : i % 4 = 0 ∨ i % 4 = 1 ∨ i % 4 = 2 ∨ i % 4 = 3 := by omega
  rcases h4 with h | h | h | h
  · have hj0 : j < bin.length := by omega
    have hnext : 3 * ((i + 1) / 4) + ((i + 1) % 4 - 1) = j := by omega
    simp only [h, if_true, store_set _ _ _ hj0, hnext]
    exact ⟨_, rfl, List.length_set _ _ _⟩
  · have hj0 : j < bin.length := by omega
    have hj1 : j + 1 < (bin.set j (bin.getD j 0 |||
        (base64_index.getD (ch % 256) (-1)).toNat >>> 4 % 256)).length := by
      rw [List.length_set]
      omega
    have hnext : 3 * ((i + 1) / 4) + ((i + 1) % 4 - 1) = j + 1 := by omega
    simp only [h, if_true, if_neg (by decide : ¬ ((1 : Nat) = 0)),
      if_neg (by decide : ¬ ((2 : Nat) = 0)), if_neg (by decide : ¬ ((2 : Nat) = 1)),
      or_store_eq _ _ _ hj0, store_set _ _ _ hj1, hnext]
    exact ⟨_, rfl, by simp only [List.length_set]⟩
  · have hj0 : j < bin.length := by omega
    have hj1 : j + 1 < (bin.set j (bin.getD j 0 |||
        (base64_index.getD (ch % 256) (-1)).toNat >>> 2 % 256)).length := by
      rw [List.length_set]
      omega
    have hnext : 3 * ((i + 1) / 4) + ((i + 1) % 4 - 1) = j + 1 := by omega
    simp only [h, if_true, if_neg (by decide : ¬ ((1 : Nat) = 0)),
      if_neg (by decide : ¬ ((2 : Nat) = 0)), if_neg (by decide : ¬ ((2 : Nat) = 1)),
      or_store_eq _ _ _ hj0, store_set _ _ _ hj1, hnext]
    exact ⟨_, rfl, by simp only [List.length_set]⟩
  · have hj0 : j < bin.length := by omega
    have hnext : 3 * ((i + 1) / 4) + ((i + 1) % 4 - 1) = j + 1 := by omega
    simp only [h, if_neg (by decide : ¬ ((3 : Nat) = 0)),
      if_neg (by decide : ¬ ((3 : Nat) = 1)), if_neg (by decide : ¬ ((3 : Nat) = 2)),
      or_store_eq _ _ _ hj0, hnext]
    exact ⟨_, rfl, by simp only [List.length_set]⟩

/-- The loop of `base64_to_bin` over alphabet characters, with room for every
group of three bytes they belong to: it reaches the end of them with `j` at
`3 * (i / 4) + (i % 4 - 1)` and the block as long as before. -/
theorem base64_to_bin_loop_prefix : ∀ (body rest : Bytes) (i : Nat) (bin : Bytes),
    (∀ ch ∈ body, base64_char ch = true) →
    3 * ((i + body.length + 3) / 4) ≤ bin.length →
    ∃ b1, base64_to_bin_loop (body ++ rest) i (3 * (i / 4) + (i % 4 - 1)) bin =
        base64_to_bin_loop rest (i + body.length)
          (3 * ((i + body.length) / 4) + ((i + body.length) % 4 - 1)) b1 ∧
      b1.length = bin.length := by
  intro body
  induction body with
  | nil =>
    intro rest i bin _ _
    exact ⟨bin, rfl, rfl⟩
  | cons ch body ih =>
    intro rest i bin hbody hlen
    simp only [List.length_cons] at hlen
    obtain ⟨b1, hstep, hl1⟩ := base64_to_bin_loop_step ch (body ++ rest) i _ bin
      (hbody ch (List.mem_cons_self _ _)) rfl (by omega)
    obtain ⟨b2, hrun, hl2⟩ := ih rest (i + 1) b1
      (fun x hx => hbody x (List.mem_cons_of_mem _ hx)) (by rw [hl1]; omega)
    refine ⟨b2, ?_, hl2.trans hl1⟩
    rw [List.cons_append, hstep, hrun, List.length_cons]
    have he : i + 1 + body.length = i + (body.length + 1) := by omega
    rw [he]

theorem base64_index_pad : base64_index.getD (61 % 256) (-1) = -1 := by decide

/-- At the start of a group, with one byte of the block left: the second
character of the group stores past the end. -/
theorem base64_to_bin_loop_two_pads (a b : Nat) (rest : Bytes) (i : Nat) (bin : Bytes)
    (ha : base64_char a = true) (hb : base64_char b = true) (hi : i % 4 = 0)
    (hlen : bin.length = 3 * (i / 4) + 1) :
    base64_to_bin_loop (a :: b :: rest) i (3 * (i / 4)) bin = none := by
  have hca := base64_char_index a ha
  have hcb := base64_char_index b hb
  have hj0 : 3 * (i / 4) < bin.length := by omega
  have hi1 : (i + 1) % 4 = 1 := by omega
  rw [base64_to_bin_loop]
  simp only [hca, if_false, hi, if_true, store_set _ _ _ hj0]
  rw [base64_to_bin_loop]
  have hj1 : 3 * (i / 4) < (bin.set (3 * (i / 4))
      ((base64_index.getD (a % 256) (-1)).toNat <<< 2 % 256)).length := by
    rw [List.length_set]
    exact hj0
  simp only [hcb, if_false, hi1, if_neg (by decide : ¬ ((1 : Nat) = 0)), if_true,
    or_store_eq _ _ _ hj1]
  rw [store_out]
  simp only [List.length_set]
  omega

/-- At the start of a group, with two bytes of the block left: the third
character of the group stores past the end. -/
theorem base64_to_bin_loop_one_pad (a b c : Nat) (rest : Bytes) (i : Nat) (bin : Bytes)
    (ha : base64_char a = true) (hb : base64_char b = true) (hc : base64_char c = true)
    (hi : i % 4 = 0) (hlen : bin.length = 3 * (i / 4) + 2) :
    base64_to_bin_loop (a :: b :: c :: rest) i (3 * (i / 4)) bin = none := by
  have hca := base64_char_index a ha
  have hcb := base64_char_index b hb
  have hcc := base64_char_index c hc
  have hj0 : 3 * (i / 4) < bin.length := by omega
  have hj1 : 3 * (i / 4) + 1 < bin.length := by omega
  have hj2 : ¬ (3 * (i / 4) + 1 + 1 < bin.length) := by omega
  have hi1 : (i + 1) % 4 = 1 := by omega
  have hi2 : (i + 1 + 1) % 4 = 2 := by omega
  rw [base64_to_bin_loop]
  simp only [hca, if_false, hi, if_true, store, hj0]
  rw [base64_to_bin_loop]
  simp only [hcb, if_false, hi1, if_neg (by decide : ¬ ((1 : Nat) = 0)), if_true, store,
    or_store, List.length_set, hj0, hj1]
  rw [base64_to_bin_loop]
  simp only [hcc, if_false, hi2, if_neg (by decide : ¬ ((2 : Nat) = 0)),
    if_neg (by decide : ¬ ((2 : Nat) = 1)), if_true, store, or_store, List.length_set,
    hj1, hj2]

theorem getD_append_four (body : Bytes) (x y z w : Nat) :
    (body ++ [x, y, z, w]).getD (body.length + 3) 0 = w ∧
    (body ++ [x, y, z, w]).getD (body.length + 2) 0 = z := by
  induction body with
  | nil => exact ⟨rfl, rfl⟩
  | cons h t ih =>
    simp only [List.cons_append, List.length_cons]
    exact ih

/-- The call `base64_to_bin` on a text of which `str` is the part before the
NUL, a multiple of four characters long, with `malloc` succeeding. -/
theorem base64_to_bin_run (heap : heap_t) (s str : Bytes) (len0 : Nat)
    (hheap : heap.malloc_ok = true) (hs : cstr s = str) (h4 : str.length % 4 = 0)
    (padding : Nat)
    (hpad : (if str.length > 0 ∧ str.getD (str.length - 1) 0 = 61 then
        if str.length > 1 ∧ str.getD (str.length - 2) 0 = 61 then 2 else 1
      else 0) = padding) :
    base64_to_bin heap (some s) (some len0) =
      match base64_to_bin_loop str 0 0
        ((List.range ((str.length / 4) * 3 - padding)).map heap.junk) with
      | none => none
      | some b1 => some (some b1, some ((str.length / 4) * 3 - padding)) := by
  simp only [base64_to_bin, hs, h4, ne_eq, not_true_eq_false, if_false, hpad, malloc, hheap,
    if_true]

/-- C36 (code defect). With `malloc` succeeding, on every text made of groups
of four alphabet characters followed by a final group that ends in one or two
`=`, the form that the padded Base64 encoding of a byte string whose length is
no multiple of 3 has, `base64_to_bin` stores outside the block of
`(n / 4) * 3 - padding` bytes it allocated: the last alphabet character of the
final group writes `bin[j]` with `j` equal to the allocated length. -/
theorem base64_to_bin_padded_overflow (heap : heap_t) (body : Bytes) (a b c len0 : Nat)
    (hheap : heap.malloc_ok = true)
    (hbody : ∀ ch ∈ body, base64_char ch = true) (hlen : body.length % 4 = 0)
    (ha : base64_char a = true) (hb : base64_char b = true) (hc : base64_char c = true) :
    base64_to_bin heap (some (body ++ [a, b, 61, 61, 0])) (some len0) = none ∧
    base64_to_bin heap (some (body ++ [a, b, c, 61, 0])) (some len0) = none := by
  have hnz : ∀ ch ∈ body, ch ≠ 0 := fun ch h => (base64_char_ne ch (hbody ch h)).1
  have h0 : (3 * (0 / 4) + (0 % 4 - 1)) = 0 := rfl
  have hj : 3 * ((0 + body.length) / 4) + ((0 + body.length) % 4 - 1) =
      3 * (body.length / 4) := by omega
  constructor
  · have hs : cstr (body ++ [a, b, 61, 61, 0]) = body ++ [a, b, 61, 61] := by
      have he : body ++ [a, b, 61, 61, 0] = (body ++ [a, b, 61, 61]) ++ 0 :: [] := by simp
      rw [he]
      apply cstr_append_zero
      intro ch hch
      simp only [List.mem_append, List.mem_cons, List.mem_singleton, List.not_mem_nil,
        or_false] at hch
      rcases hch with h | rfl | rfl | rfl | rfl
      · exact hnz ch h
      · exact (base64_char_ne _ ha).1
      · exact (base64_char_ne _ hb).1
      · decide
      · decide
    have hl : (body ++ [a, b, 61, 61]).length = body.length + 4 := by simp
    obtain ⟨g3, g2⟩ := getD_append_four body a b 61 61
    rw [base64_to_bin_run heap _ _ len0 hheap hs (by rw [hl]; omega) 2
      (by simp only [hl, Nat.add_sub_cancel, show body.length + 4 - 1 = body.length + 3 by omega,
            show body.length + 4 - 2 = body.length + 2 by omega, g3, g2]; simp)]
    obtain ⟨b1, hrun, hl1⟩ := base64_to_bin_loop_prefix body [a, b, 61, 61] 0
      ((List.range (((body ++ [a, b, 61, 61]).length / 4) * 3 - 2)).map heap.junk) hbody
      (by simp only [List.length_map, List.length_range, hl]; omega)
    rw [h0, hj] at hrun
    rw [hrun, Nat.zero_add, base64_to_bin_loop_two_pads a b _ _ b1 ha hb hlen
      (by rw [hl1]; simp only [List.length_map, List.length_range, hl]; omega)]
  · have hs : cstr (body ++ [a, b, c, 61, 0]) = body ++ [a, b, c, 61] := by
      have he : body ++ [a, b, c, 61, 0] = (body ++ [a, b, c, 61]) ++ 0 :: [] := by simp
      rw [he]
      apply cstr_append_zero
      intro ch hch
      simp only [List.mem_append, List.mem_cons, List.mem_singleton, List.not_mem_nil,
        or_false] at hch
      rcases hch with h | rfl | rfl | rfl | rfl
      · exact hnz ch h
      · exact (base64_char_ne _ ha).1
      · exact (base64_char_ne _ hb).1
      · exact (base64_char_ne _ hc).1
      · decide
    have hl : (body ++ [a, b, c, 61]).length = body.length + 4 := by simp
    obtain ⟨g3, g2⟩ := getD_append_four body a b c 61
    have hc61 : c ≠ 61 := (base64_char_ne _ hc).2
    rw [base64_to_bin_run heap _ _ len0 hheap hs (by rw [hl]; omega) 1
      (by simp only [hl, Nat.add_sub_cancel, show body.length + 4 - 1 = body.length + 3 by omega,
            show body.length + 4 - 2 = body.length + 2 by omega, g3, g2, hc61]; simp)]
    obtain ⟨b1, hrun, hl1⟩ := base64_to_bin_loop_prefix body [a, b, c, 61] 0
      ((List.range (((body ++ [a, b, c, 61]).length / 4) * 3 - 1)).map heap.junk) hbody
      (by simp only [List.length_map, List.length_range, hl]; omega)
    rw [h0, hj] at hrun
    rw [hrun, Nat.zero_add, base64_to_bin_loop_one_pad a b c _ _ b1 ha hb hc hlen
      (by rw [hl1]; simp only [List.length_map, List.length_range, hl]; omega)]

/-- The texts `QQ==` and `SGk=`, the padded encodings of `A` and of `Hi`. -/
theorem base64_to_bin_padded_overflow_witness :
    base64_to_bin sample_heap (some ([] ++ [81, 81, 61, 61, 0])) (some 0) = none ∧
    base64_to_bin sample_heap (some ([] ++ [83, 71, 107, 61, 0])) (some 0) = none :=
  base64_to_bin_padded_overflow sample_heap [] 81 71 107 0 rfl (by decide) (by decide)
    (by decide) (by decide) (by decide)
/-! ## CRC-32 -/

set_option maxRecDepth 1000000 in
theorem crc_table_bits : ∀ b, b < 256 → crc32_bit_step^[8] b = crc_table.getD b 0 := by
  decide

theorem crc32_bit_step_testBit (x i : Nat) :
    (crc32_bit_step x).testBit i =
      xor (x.testBit (i + 1)) (x.testBit 0 && (0xEDB88320 : Nat).testBit i) := by
  unfold crc32_bit_step
  by_cases h : x % 2 = 1
  · simp only [h, if_true, Nat.testBit_xor, Nat.testBit_shiftRight, Nat.testBit_zero,
      decide_True, Bool.true_and, Nat.add_comm 1 i]
  · simp only [h, if_false, Nat.testBit_shiftRight, Nat.testBit_zero, decide_False,
      Bool.false_and, Bool.xor_false, Nat.add_comm 1 i]

theorem crc32_bit_step_xor (a b : Nat) :
    crc32_bit_step (a ^^^ b) = crc32_bit_step a ^^^ crc32_bit_step b := by
  apply Nat.eq_of_testBit_eq
  intro i
  simp only [crc32_bit_step_testBit, Nat.testBit_xor]
  cases a.testBit (i + 1) <;> cases b.testBit (i + 1) <;> cases a.testBit 0 <;>
    cases b.testBit 0 <;> cases (0xEDB88320 : Nat).testBit i <;> rfl

theorem crc32_bit_steps_xor (n : Nat) : ∀ a b : Nat,
    crc32_bit_step^[n] (a ^^^ b) = crc32_bit_step^[n] a ^^^ crc32_bit_step^[n] b := by
  induction n with
  | zero =>
    intro a b
    rfl
  | succ n ih =>
    intro a b
    rw [Function.iterate_succ_apply, Function.iterate_succ_apply, Function.iterate_succ_apply,
      crc32_bit_step_xor, ih]

theorem crc32_bit_step_shift (y k : Nat) : crc32_bit_step (y <<< (k + 1)) = y <<< k := by
  apply Nat.eq_of_testBit_eq
  intro i
  simp only [crc32_bit_step_testBit, Nat.testBit_shiftLeft]
  simp

theorem crc32_bit_steps_shift (k : Nat) : ∀ y : Nat, crc32_bit_step^[k] (y <<< k) = y := by
  induction k with
  | zero =>
    intro y
    rfl
  | succ k ih =>
    intro y
    rw [Function.iterate_succ_apply, crc32_bit_step_shift, ih]

theorem low_byte_split (x : Nat) : x = (x % 2^8) ^^^ ((x >>> 8) <<< 8) := by
  apply Nat.eq_of_testBit_eq
  intro i
  simp only [Nat.testBit_xor, Nat.testBit_mod_two_pow, Nat.testBit_shiftLeft,
    Nat.testBit_shiftRight]
  by_cases h : i < 8
  · have h2 : ¬ (i ≥ 8) := by omega
    simp [h, h2]
  · have h2 : i ≥ 8 := by omega
    have h3 : 8 + (i - 8) = i := by omega
    simp [h, h2, h3]

/-- Eight bit steps are one table look-up on the low byte. -/
theorem crc32_byte_step (x : Nat) :
    crc32_bit_step^[8] x = (x >>> 8) ^^^ crc_table.getD (x &&& 0xFF) 0 := by
  have hmask : x &&& 0xFF = x % 2^8 := Nat.and_pow_two_sub_one_eq_mod x 8
  have hlt : x % 2^8 < 256 := Nat.mod_lt _ (by decide)
  rw [hmask, ← crc_table_bits _ hlt]
  conv => lhs; rw [low_byte_split x]
  rw [crc32_bit_steps_xor, crc32_bit_steps_shift, Nat.xor_comm]

theorem shiftRight_xor_byte (crc d : Nat) : (crc ^^^ (d % 256)) >>> 8 = crc >>> 8 := by
  apply Nat.eq_of_testBit_eq
  intro i
  have hd : (d % 256).testBit (8 + i) = false := by
    apply Nat.testBit_lt_two_pow
    calc d % 256 < 256 := Nat.mod_lt _ (by decide)
      _ = 2^8 := rfl
      _ ≤ 2^(8 + i) := Nat.pow_le_pow_right (by decide) (Nat.le_add_right 8 i)
  simp only [Nat.testBit_shiftRight, Nat.testBit_xor, hd, Bool.xor_false]

theorem crc32_loop_reference : ∀ (data : Bytes) (crc : Nat),
    crc32_loop data crc = crc32_reference_loop data crc := by
  intro data
  induction data with
  | nil =>
    intro crc
    rfl
  | cons d data ih =>
    intro crc
    rw [crc32_loop, crc32_reference_loop, crc32_byte_step, shiftRight_xor_byte, ih]

set_option maxRecDepth 1000000 in
theorem crc32_check : crc32 [] = 0 ∧ crc32 check_digits = 0xCBF43926 := by
  decide

/-- C37. For every byte string the table-driven `crc32` equals the bit-by-bit
reference CRC-32 with the reflected polynomial `0xEDB88320`, initial value
`0xFFFFFFFF` and final complement; `crc32` of the empty string is 0 and `crc32`
of the ASCII bytes `123456789` is `0xCBF43926`. -/
theorem crc32_refines_reference :
    (∀ data : Bytes, crc32 data = crc32_reference data) ∧
    crc32 [] = 0 ∧ crc32 check_digits = 0xCBF43926 := by
  refine ⟨fun data => ?_, crc32_check⟩
  unfold crc32 crc32_reference
  rw [crc32_loop_reference]
/-! ## Memory pool -/

theorem pool_allocate_loop_spec (pool : memory_pool_t) (memory : memory_t) : ∀ k i : Nat,
    ((∀ j, i ≤ j → j < i + k → pool.in_use.getD j 0 ≠ 0) ∧
      pool_allocate_loop pool memory k i = ⟨none, pool, memory⟩) ∨
    ∃ j, i ≤ j ∧ j < i + k ∧ pool.in_use.getD j 0 = 0 ∧
      (∀ j1, i ≤ j1 → j1 < j → pool.in_use.getD j1 0 ≠ 0) ∧
      pool_allocate_loop pool memory k i =
        ⟨some (pool.blocks.getD j 0), { pool with in_use := pool.in_use.set j 1 },
          Function.update memory (pool.blocks.getD j 0)
            (zero_fill (memory (pool.blocks.getD j 0)) pool.block_size)⟩ := by
  intro k
  induction k with
  | zero =>
    intro i
    exact Or.inl ⟨fun j h1 h2 => absurd h2 (by omega), rfl⟩
  | succ k ih =>
    intro i
    by_cases h : pool.in_use.getD i 0 = 0
    · refine Or.inr ⟨i, Nat.le_refl i, by omega, h, fun j1 h1 h2 => absurd h2 (by omega), ?_⟩
      simp only [pool_allocate_loop, h, if_true]
    · have hrun : pool_allocate_loop pool memory (k + 1) i =
          pool_allocate_loop pool memory k (i + 1) := by
        simp only [pool_allocate_loop, h, if_false]
      rcases ih (i + 1) with ⟨hall, hres⟩ | ⟨j, hj1, hj2, hj0, hbefore, hres⟩
      · refine Or.inl ⟨fun j h1 h2 => ?_, hrun.trans hres⟩
        rcases Nat.eq_or_lt_of_le h1 with rfl | hlt
        · exact h
        · exact hall j hlt (by omega)
      · refine Or.inr ⟨j, by omega, by omega, hj0, fun j1 h1 h2 => ?_, hrun.trans hres⟩
        rcases Nat.eq_or_lt_of_le h1 with rfl | hlt
        · exact h
        · exact hbefore j1 hlt h2

theorem pool_free_loop_spec (pool : memory_pool_t) (memory : memory_t) (ptr : Nat) :
    ∀ k i : Nat,
    ((∀ j, i ≤ j → j < i + k → ¬ (pool.blocks.getD j 0 = ptr ∧ pool.in_use.getD j 0 ≠ 0)) ∧
      pool_free_loop pool memory ptr k i = ⟨none, pool, memory⟩) ∨
    ∃ j, i ≤ j ∧ j < i + k ∧ pool.blocks.getD j 0 = ptr ∧ pool.in_use.getD j 0 ≠ 0 ∧
      pool_free_loop pool memory ptr k i =
        ⟨none, { pool with in_use := pool.in_use.set j 0 },
          Function.update memory ptr (zero_fill (memory ptr) pool.block_size)⟩ := by
  intro k
  induction k with
  | zero =>
    intro i
    exact Or.inl ⟨fun j h1 h2 => absurd h2 (by omega), rfl⟩
  | succ k ih =>
    intro i
    by_cases h : pool.blocks.getD i 0 = ptr ∧ pool.in_use.getD i 0 ≠ 0
    · refine Or.inr ⟨i, Nat.le_refl i, by omega, h.1, h.2, ?_⟩
      simp only [pool_free_loop, h, ne_eq, not_false_eq_true, and_self, if_true]
    · have hrun : pool_free_loop pool memory ptr (k + 1) i =
          pool_free_loop pool memory ptr k (i + 1) := by
        simp only [pool_free_loop, h, if_false]
      rcases ih (i + 1) with ⟨hall, hres⟩ | ⟨j, hj1, hj2, hjb, hju, hres⟩
      · refine Or.inl ⟨fun j h1 h2 => ?_, hrun.trans hres⟩
        rcases Nat.eq_or_lt_of_le h1 with rfl | hlt
        · exact h
        · exact hall j hlt (by omega)
      · exact Or.inr ⟨j, by omega, by omega, hjb, hju, hrun.trans hres⟩

theorem pool_allocate_wf (pool : memory_pool_t) (memory : memory_t) (h : pool_wf pool) :
    pool_wf (pool_allocate pool memory).pool ∧
    (pool_allocate pool memory).pool.blocks = pool.blocks ∧
    (pool_allocate pool memory).pool.num_blocks = pool.num_blocks ∧
    (pool_allocate pool memory).pool.block_size = pool.block_size := by
  unfold pool_allocate
  rcases pool_allocate_loop_spec pool memory pool.num_blocks 0 with
    ⟨_, hres⟩ | ⟨j, _, _, _, _, hres⟩
  · rw [hres]
    exact ⟨h, rfl, rfl, rfl⟩
  · rw [hres]
    exact ⟨⟨h.1, by simp only [List.length_set]; exact h.2.1, h.2.2⟩, rfl, rfl, rfl⟩

theorem pool_free_wf (pool : memory_pool_t) (memory : memory_t) (ptr : Option Nat)
    (h : pool_wf pool) :
    pool_wf (pool_free pool memory ptr).pool ∧
    (pool_free pool memory ptr).pool.blocks = pool.blocks ∧
    (pool_free pool memory ptr).pool.num_blocks = pool.num_blocks ∧
    (pool_free pool memory ptr).pool.block_size = pool.block_size := by
  rcases ptr with _ | p
  · exact ⟨h, rfl, rfl, rfl⟩
  have hf : pool_free pool memory (some p) = pool_free_loop pool memory p pool.num_blocks 0 :=
    rfl
  rcases pool_free_loop_spec pool memory p pool.num_blocks 0 with
    ⟨_, hres⟩ | ⟨j, _, _, _, _, hres⟩
  · rw [hf, hres]
    exact ⟨h, rfl, rfl, rfl⟩
  · rw [hf, hres]
    exact ⟨⟨h.1, by simp only [List.length_set]; exact h.2.1, h.2.2⟩, rfl, rfl, rfl⟩

theorem pool_calls_wf (calls : List pool_call_t) : ∀ (pool : memory_pool_t) (memory : memory_t),
    pool_wf pool →
    pool_wf (pool_calls calls pool memory).1 ∧
    (pool_calls calls pool memory).1.blocks = pool.blocks ∧
    (pool_calls calls pool memory).1.num_blocks = pool.num_blocks ∧
    (pool_calls calls pool memory).1.block_size = pool.block_size := by
  induction calls with
  | nil =>
    intro pool memory h
    exact ⟨h, rfl, rfl, rfl⟩
  | cons c cs ih =>
    intro pool memory h
    rcases c with _ | ptr
    · obtain ⟨h1, hb, hn, hs⟩ := pool_allocate_wf pool memory h
      obtain ⟨g1, gb, gn, gs⟩ := ih _ (pool_allocate pool memory).memory h1
      exact ⟨g1, gb.trans hb, gn.trans hn, gs.trans hs⟩
    · obtain ⟨h1, hb, hn, hs⟩ := pool_free_wf pool memory ptr h
      obtain ⟨g1, gb, gn, gs⟩ := ih _ (pool_free pool memory ptr).memory h1
      exact ⟨g1, gb.trans hb, gn.trans hn, gs.trans hs⟩

/-- In a pool whose block addresses are distinct, two indices with the same
address are the same index. -/
theorem pool_index_unique (pool : memory_pool_t) (h : pool_wf pool) (i j : Nat)
    (hi : i < pool.num_blocks) (hj : j < pool.num_blocks)
    (he : pool.blocks.getD i 0 = pool.blocks.getD j 0) : i = j := by
  obtain ⟨hl, _, hnd⟩ := h
  have hi1 : i < pool.blocks.length := by rw [hl]; exact hi
  have hj1 : j < pool.blocks.length := by rw [hl]; exact hj
  rw [List.getD_eq_getElem _ _ hi1, List.getD_eq_getElem _ _ hj1] at he
  exact (List.Nodup.getElem_inj_iff hnd).mp he

theorem zero_fill_take (block : Bytes) (len : Nat) :
    (zero_fill block len).take len = List.replicate len 0 := by
  unfold zero_fill
  rw [List.take_append_of_le_length (by rw [List.length_replicate])]
  rw [List.take_of_length_le (by rw [List.length_replicate])]

/-- C40. Take a pool as `create_memory_pool` leaves it (both arrays of
`num_blocks` entries, distinct block addresses) through any sequence of
`pool_allocate` and `pool_free` calls. On the pool reached: `pool_allocate`
returns `NULL` exactly when every block is in use; a block it returns is one of
the pool that was not in use, is marked in use by the call and nothing else
changes in the pool, and its `block_size` bytes are 0; `pool_free` of a block
in use clears the mark of that block and of no other; and `pool_free` of `NULL`,
of an address that is not a block of the pool or of a block not in use changes
neither the pool nor the memory. -/
theorem pool_calls_contract (pool0 : memory_pool_t) (memory0 : memory_t)
    (calls : List pool_call_t) (pool : memory_pool_t) (memory : memory_t)
    (h : pool_wf pool0) (hrun : pool_calls calls pool0 memory0 = (pool, memory)) :
    ((pool_allocate pool memory).ptr = none ↔
      ∀ i, i < pool.num_blocks → pool.in_use.getD i 0 ≠ 0) ∧
    (∀ p, (pool_allocate pool memory).ptr = some p →
      ∃ i, i < pool.num_blocks ∧ pool.blocks.getD i 0 = p ∧
        (∀ j, j < pool.num_blocks → pool.blocks.getD j 0 = p → pool.in_use.getD j 0 = 0) ∧
        (pool_allocate pool memory).pool = { pool with in_use := pool.in_use.set i 1 } ∧
        ((pool_allocate pool memory).memory p).take pool.block_size =
          List.replicate pool.block_size 0) ∧
    (∀ i, i < pool.num_blocks → pool.in_use.getD i 0 ≠ 0 →
      (pool_free pool memory (some (pool.blocks.getD i 0))).pool =
        { pool with in_use := pool.in_use.set i 0 }) ∧
    (∀ ptr : Option Nat,
      (∀ p, ptr = some p → ∀ j, j < pool.num_blocks → pool.blocks.getD j 0 = p →
        pool.in_use.getD j 0 = 0) →
      (pool_free pool memory ptr).pool = pool ∧ (pool_free pool memory ptr).memory = memory) := by
  have hwf : pool_wf pool := by
    have := (pool_calls_wf calls pool0 memory0 h).1
    rw [hrun] at this
    exact this
  refine ⟨?_, ?_, ?_, ?_⟩
  · unfold pool_allocate
    rcases pool_allocate_loop_spec pool memory pool.num_blocks 0 with
      ⟨hall, hres⟩ | ⟨j, _, hj, hj0, _, hres⟩
    · rw [hres]
      exact ⟨fun _ i hi => hall i (Nat.zero_le i) (by omega), fun _ => rfl⟩
    · rw [hres]
      constructor
      · intro hn
        cases hn
      · intro hall
        exact absurd hj0 (hall j (by omega))
  · intro p hp
    unfold pool_allocate at hp ⊢
    rcases pool_allocate_loop_spec pool memory pool.num_blocks 0 with
      ⟨_, hres⟩ | ⟨j, _, hj, hj0, _, hres⟩
    · rw [hres] at hp
      cases hp
    · rw [hres] at hp ⊢
      simp only [Option.some.injEq] at hp
      have hjn : j < pool.num_blocks := by omega
      refine ⟨j, hjn, hp, fun j1 hj1 he => ?_, rfl, ?_⟩
      · have : j1 = j := pool_index_unique pool hwf j1 j hj1 hjn (he.trans hp.symm)
        rw [this]
        exact hj0
      · subst hp
        simp only [Function.update_same]
        exact zero_fill_take _ _
  · intro i hi hu
    have hf : pool_free pool memory (some (pool.blocks.getD i 0)) =
        pool_free_loop pool memory (pool.blocks.getD i 0) pool.num_blocks 0 := rfl
    rw [hf]
    rcases pool_free_loop_spec pool memory (pool.blocks.getD i 0) pool.num_blocks 0 with
      ⟨hall, _⟩ | ⟨j, _, hj, hjb, _, hres⟩
    · exact absurd ⟨rfl, hu⟩ (hall i (Nat.zero_le i) (by omega))
    · have : j = i := pool_index_unique pool hwf j i (by omega) hi hjb
      rw [hres, this]
  · intro ptr hnot
    rcases ptr with _ | p
    · exact ⟨rfl, rfl⟩
    have hf : pool_free pool memory (some p) =
        pool_free_loop pool memory p pool.num_blocks 0 := rfl
    rw [hf]
    rcases pool_free_loop_spec pool memory p pool.num_blocks 0 with
      ⟨_, hres⟩ | ⟨j, _, hj, hjb, hju, _⟩
    · rw [hres]
      exact ⟨rfl, rfl⟩
    · exact absurd (hnot p rfl j (by omega) hjb) hju

/-- On `sample_pool` after two allocations and the release of the first block:
the next allocation does not return `NULL`, since block 0 is free again, and
releasing the block at 2000 clears its mark. -/
theorem pool_calls_contract_witness :
    pool_wf sample_pool ∧
    (pool_calls sample_pool_calls sample_pool sample_memory).1.in_use = [0, 1, 0] ∧
    ((pool_allocate (pool_calls sample_pool_calls sample_pool sample_memory).1
        (pool_calls sample_pool_calls sample_pool sample_memory).2).ptr = none ↔
      ∀ i, i < (pool_calls sample_pool_calls sample_pool sample_memory).1.num_blocks →
        (pool_calls sample_pool_calls sample_pool sample_memory).1.in_use.getD i 0 ≠ 0) ∧
    (pool_free (pool_calls sample_pool_calls sample_pool sample_memory).1
        (pool_calls sample_pool_calls sample_pool sample_memory).2
        (some ((pool_calls sample_pool_calls sample_pool sample_memory).1.blocks.getD 1 0))).pool =
      { (pool_calls sample_pool_calls sample_pool sample_memory).1 with
        in_use := (pool_calls sample_pool_calls sample_pool sample_memory).1.in_use.set 1 0 } :=
  have h := pool_calls_contract sample_pool sample_memory sample_pool_calls
    (pool_calls sample_pool_calls sample_pool sample_memory).1
    (pool_calls sample_pool_calls sample_pool sample_memory).2 (by decide) rfl
  ⟨by decide, by decide, h.1, h.2.2.1 1 (by decide) (by decide)⟩

/-! ## `str_replace` -/

theorem strstr_empty (s : Bytes) : strstr s [] = some 0 := by
  cases s with
  | nil => rfl
  | cons c s => simp [strstr]

/-- With an empty `old` the counting loop of `str_replace` never ends: `strstr`
finds the empty string where `tmp` points and `tmp += old_len` does not move. -/
theorem str_replace_count_empty : ∀ (fuel : Nat) (tmp : Bytes) (count : Nat),
    str_replace_count [] fuel tmp count = none := by
  intro fuel
  induction fuel with
  | zero =>
    intro tmp count
    rfl
  | succ fuel ih =>
    intro tmp count
    rw [str_replace_count, strstr_empty]
    simp only [List.length_nil, Nat.add_zero, List.drop_zero]
    split_ifs
    · rfl
    · exact ih tmp (count + 1)

/-! ## `str_split` after `str_join` -/

theorem strtok_all_token (delim : Bytes) : ∀ (t s acc : Bytes), (∀ x ∈ t, x ∉ delim) →
    strtok_all delim (t ++ s) acc = strtok_all delim s (acc ++ t) := by
  intro t
  induction t with
  | nil =>
    intro s acc _
    simp
  | cons x t ih =>
    intro s acc h
    have hx : x ∉ delim := h x (List.mem_cons_self _ _)
    rw [List.cons_append, strtok_all, if_neg hx,
      ih s (acc ++ [x]) (fun y hy => h y (List.mem_cons_of_mem _ hy))]
    simp

/-- The text that `str_join` builds from tokens without NUL, and its length. -/
theorem str_join_loop_tokens (c : Nat) : ∀ tokens : List Bytes,
    (∀ t ∈ tokens, t ≠ [] ∧ c ∉ t ∧ 0 ∉ t) → tokens ≠ [] → c ≠ 0 →
    strtok_all [c] (str_join_loop [c] (tokens.map some)) [] = tokens ∧
    (∀ x ∈ str_join_loop [c] (tokens.map some), x ≠ 0) ∧
    (str_join_loop [c] (tokens.map some)).length + 1 =
      (tokens.map List.length).sum + tokens.length := by
  intro tokens
  induction tokens with
  | nil =>
    intro _ h _
    exact absurd rfl h
  | cons t rest ih =>
    intro htok _ hc
    obtain ⟨htne, htc, ht0⟩ := htok t (List.mem_cons_self _ _)
    have hcs : cstr t = t := cstr_of_nonzero t (fun x hx h0 => ht0 (h0 ▸ hx))
    have hnd : ∀ x ∈ t, x ∉ [c] := by
      intro x hx hmem
      rw [List.mem_singleton] at hmem
      exact htc (hmem ▸ hx)
    rcases rest with _ | ⟨t2, rest⟩
    · simp only [List.map_cons, List.map_nil, str_join_loop, Option.getD_some, hcs]
      refine ⟨?_, fun x hx h0 => ht0 (h0 ▸ hx), ?_⟩
      · have := strtok_all_token [c] t [] [] hnd
        rw [List.append_nil] at this
        rw [this, strtok_all, List.nil_append, if_neg htne]
      · simp
    · obtain ⟨ih1, ih2, ih3⟩ := ih (fun x hx => htok x (List.mem_cons_of_mem _ hx))
        (List.cons_ne_nil _ _) hc
      simp only [List.map_cons] at ih1 ih2 ih3 ⊢
      simp only [str_join_loop, Option.getD_some, hcs]
      refine ⟨?_, ?_, ?_⟩
      · rw [List.append_assoc, strtok_all_token [c] t _ [] hnd, List.nil_append,
          List.singleton_append, strtok_all, if_pos (List.mem_singleton_self c), if_neg htne,
          ih1]
      · intro x hx
        simp only [List.mem_append, List.mem_singleton] at hx
        rcases hx with (hx | rfl) | hx
        · exact fun h0 => ht0 (h0 ▸ hx)
        · exact hc
        · exact ih2 x hx
      · simp only [List.length_append, List.length_singleton, List.sum_cons, List.length_cons,
          List.length_nil] at ih3 ⊢
        omega

/-- C31. For every non-empty list of non-empty tokens, none holding the
delimiter character `c` (a character other than NUL), with every allocation
succeeding and the sizes within `int` and `size_t`: `str_join` returns the
tokens joined by `c`, and `str_split` of that string with the same delimiter
returns exactly those tokens in the same order, with `count` equal to their
number. -/
theorem str_split_join (env : str_split_env_t) (tokens : List Bytes) (c : Nat)
    (hne : tokens ≠ []) (htok : ∀ t ∈ tokens, t ≠ [] ∧ c ∉ t ∧ 0 ∉ t) (hc : c ≠ 0)
    (henv : env.malloc_split_ok = true ∧ env.strdup_copy_ok = true ∧
      env.malloc_tokens_ok = true ∧ ∀ i, env.strdup_token_ok i = true)
    (hcount : tokens.length < 2^31)
    (hsize : (tokens.map List.length).sum + tokens.length < 2^64) :
    ∃ joined,
      str_join true (some (tokens.map some)) tokens.length (some [c, 0]) = some (some joined) ∧
      str_split env (some joined) (some [c, 0]) = some (some ⟨tokens, tokens.length⟩) := by
  obtain ⟨hsplit, hnz, hlen⟩ := str_join_loop_tokens c tokens htok hne hc
  have hd : cstr [c, 0] = [c] := cstr_append_zero [c] [] (fun x hx => by
    rw [List.mem_singleton] at hx
    rw [hx]
    exact hc)
  have hpos : 0 < tokens.length := List.length_pos.mpr hne
  refine ⟨str_join_loop [c] (tokens.map some), ?_, ?_⟩
  · have hstr : (tokens.map some).map (fun s => strlen (s.getD [])) = tokens.map List.length := by
      rw [List.map_map]
      apply List.map_congr_left
      intro t ht
      have h0 := (htok t ht).2.2
      simp only [Function.comp, Option.getD_some, strlen,
        cstr_of_nonzero t (fun x hx h => h0 (h ▸ hx))]
    have hdl : strlen [c, 0] = 1 := by
      simp only [strlen, hd, List.length_singleton]
    have hcnt : ¬ ((tokens.length : Int) ≤ 0) := by omega
    have htake : (tokens.map some).take tokens.length = tokens.map some := by
      apply List.take_of_length_le
      rw [List.length_map]
    simp only [str_join, hcnt, if_false, Int.toNat_ofNat, List.length_map, Nat.lt_irrefl,
      htake, hstr, hdl, hd, Bool.not_true, Bool.false_eq_true, Nat.mul_one]
    rw [if_pos]
    have h1 : (tokens.map List.length).sum % 2^64 = (tokens.map List.length).sum :=
      Nat.mod_eq_of_lt (by omega)
    have h2 : (tokens.length - 1) % 2^64 = tokens.length - 1 := Nat.mod_eq_of_lt (by omega)
    rw [h1, h2, Nat.mod_eq_of_lt (by omega)]
    omega
  · have hcs : cstr (str_join_loop [c] (tokens.map some)) = str_join_loop [c] (tokens.map some) :=
      cstr_of_nonzero _ hnz
    have hall : (List.range tokens.length).all env.strdup_token_ok = true := by
      rw [List.all_eq_true]
      intro i _
      exact henv.2.2.2 i
    have hnot : ¬ (tokens.length ≥ 2^31) := by omega
    simp only [str_split, henv.1, henv.2.1, henv.2.2.1, Bool.not_true, Bool.false_eq_true,
      if_false, hd, hcs, hsplit, hnot, hall, if_true]

/-- The unit test: `one`, `two`, `three` joined by a comma and split again. -/
theorem str_split_join_witness :
    ∃ joined,
      str_join true (some (one_two_three.map some)) one_two_three.length (some [44, 0]) =
        some (some joined) ∧
      str_split split_env (some joined) (some [44, 0]) =
        some (some ⟨one_two_three, one_two_three.length⟩) :=
  str_split_join split_env one_two_three 44 (by decide) (by decide) (by decide)
    ⟨rfl, rfl, rfl, fun _ => rfl⟩ (by decide) (by decide)
/-! ## Configuration store -/

theorem config_get_string_lookup (c : config_t) (s k : Bytes) (d : Option Bytes) :
    config_get_string (some c) (some s) (some k) d =
      match config_lookup c.sections s k with
      | some v => some v
      | none => d := by
  cases hfs : find_section c.sections s with
  | none => simp [config_get_string, config_lookup, hfs]
  | some sect =>
    cases hfe : find_entry sect.entries k with
    | none => simp [config_get_string, config_lookup, hfs, hfe]
    | some e => simp [config_get_string, config_lookup, hfs, hfe]

theorem find_entry_none (es : List config_entry_t) (k : Bytes) :
    find_entry es k = none ↔ cstr k ∉ es.map (fun e => e.key) := by
  induction es with
  | nil => simp [find_entry]
  | cons e es ih =>
    by_cases h : e.key = cstr k
    · simp [find_entry, h]
    · have h2 : ¬ (cstr k = e.key) := fun h3 => h h3.symm
      simp [find_entry, h, h2, ih]

theorem find_entry_key (es : List config_entry_t) (k : Bytes) (e : config_entry_t)
    (h : find_entry es k = some e) : e.key = cstr k ∧ e ∈ es := by
  induction es with
  | nil => simp [find_entry] at h
  | cons x es ih =>
    by_cases hx : x.key = cstr k
    · simp only [find_entry, hx, if_true, Option.some.injEq] at h
      subst h
      exact ⟨hx, List.mem_cons_self _ _⟩
    · simp only [find_entry, hx, if_false] at h
      exact ⟨(ih h).1, List.mem_cons_of_mem _ (ih h).2⟩

theorem set_entry_value_keys (k v : Bytes) (es : List config_entry_t) :
    (set_entry_value k v es).map (fun e => e.key) = es.map (fun e => e.key) := by
  induction es with
  | nil => rfl
  | cons e es ih =>
    by_cases h : e.key = cstr k
    · simp [set_entry_value, h]
    · simp [set_entry_value, h, ih]

theorem find_entry_set (k v : Bytes) (es : List config_entry_t) (k1 : Bytes) :
    (find_entry (set_entry_value k v es) k1).map (fun e => e.value) =
      if cstr k1 = cstr k then
        (find_entry es k).map (fun _ => (cstr v).take (CONFIG_MAX_VALUE_LEN - 1))
      else (find_entry es k1).map (fun e => e.value) := by
  induction es with
  | nil => simp [set_entry_value, find_entry]
  | cons e es ih =>
    by_cases h : e.key = cstr k
    · by_cases h1 : cstr k1 = cstr k
      · simp [set_entry_value, find_entry, h, h1]
      · have h3 : ¬ (cstr k = cstr k1) := fun h3 => h1 h3.symm
        simp [set_entry_value, find_entry, h, h1, h3]
    · by_cases h1 : cstr k1 = cstr k
      · have h2 : ¬ (e.key = cstr k1) := fun h3 => h (h3.trans h1)
        simp only [set_entry_value, find_entry, h, if_false, h2, h1, if_true] at ih ⊢
        exact ih
      · simp only [set_entry_value, find_entry, h, if_false, h1] at ih ⊢
        by_cases h2 : e.key = cstr k1
        · simp [h2]
        · simp only [h2, if_false]
          exact ih

theorem remove_entry_subset (k : Bytes) : ∀ (es r : List config_entry_t),
    remove_entry k es = some r → ∀ x ∈ r, x ∈ es := by
  intro es
  induction es with
  | nil =>
    intro r h
    simp [remove_entry] at h
  | cons e es ih =>
    intro r h x hx
    by_cases hk : e.key = cstr k
    · simp only [remove_entry, hk, if_true, Option.some.injEq] at h
      subst h
      exact List.mem_cons_of_mem _ hx
    · simp only [remove_entry, hk, if_false, Option.map_eq_some'] at h
      obtain ⟨r1, hr1, rfl⟩ := h
      rcases List.mem_cons.mp hx with rfl | hx1
      · exact List.mem_cons_self _ _
      · exact List.mem_cons_of_mem _ (ih r1 hr1 x hx1)

theorem remove_entry_spec (k : Bytes) : ∀ (es r : List config_entry_t),
    remove_entry k es = some r → (es.map (fun e => e.key)).Nodup →
    (r.map (fun e => e.key)).Nodup ∧
    ∀ k1, (find_entry r k1).map (fun e => e.value) =
      if cstr k1 = cstr k then none else (find_entry es k1).map (fun e => e.value) := by
  intro es
  induction es with
  | nil =>
    intro r h _
    simp [remove_entry] at h
  | cons e es ih =>
    intro r h hnd
    rw [List.map_cons, List.nodup_cons] at hnd
    by_cases hk : e.key = cstr k
    · simp only [remove_entry, hk, if_true, Option.some.injEq] at h
      subst h
      refine ⟨hnd.2, fun k1 => ?_⟩
      by_cases h1 : cstr k1 = cstr k
      · have hnone : find_entry es k1 = none := by
          rw [find_entry_none, h1, ← hk]
          exact hnd.1
        simp [h1, hnone]
      · have h2 : ¬ (e.key = cstr k1) := fun h3 => h1 (h3.symm.trans hk)
        simp [find_entry, h1, h2]
    · have hrem := h
      simp only [remove_entry, hk, if_false, Option.map_eq_some'] at h
      obtain ⟨r1, hr1, rfl⟩ := h
      obtain ⟨ihnd, ihf⟩ := ih r1 hr1 hnd.2
      refine ⟨?_, fun k1 => ?_⟩
      · rw [List.map_cons, List.nodup_cons]
        refine ⟨fun hmem => hnd.1 ?_, ihnd⟩
        obtain ⟨x, hx, hxe⟩ := List.mem_map.mp hmem
        exact List.mem_map.mpr ⟨x, remove_entry_subset k es r1 hr1 x hx, hxe⟩
      · by_cases h2 : e.key = cstr k1
        · have h1 : ¬ (cstr k1 = cstr k) := fun h3 => hk (h2.trans h3)
          simp [find_entry, h2, h1]
        · simp only [find_entry, h2, if_false]
          exact ihf k1

theorem remove_entry_none (k : Bytes) (es : List config_entry_t) :
    remove_entry k es = none ↔ find_entry es k = none := by
  induction es with
  | nil => simp [remove_entry, find_entry]
  | cons e es ih =>
    by_cases hk : e.key = cstr k
    · simp [remove_entry, find_entry, hk]
    · simp [remove_entry, find_entry, hk, ih]

theorem find_section_congr (secs : List config_section_t) (s s1 : Bytes)
    (h : cstr s1 = cstr s) : find_section secs s1 = find_section secs s := by
  induction secs with
  | nil => rfl
  | cons x secs ih => simp only [find_section, h, ih]

theorem find_entry_congr (es : List config_entry_t) (k k1 : Bytes)
    (h : cstr k1 = cstr k) : find_entry es k1 = find_entry es k := by
  induction es with
  | nil => rfl
  | cons x es ih => simp only [find_entry, h, ih]

theorem find_section_none (secs : List config_section_t) (s : Bytes) :
    find_section secs s = none ↔ cstr s ∉ secs.map (fun x => x.name) := by
  induction secs with
  | nil => simp [find_section]
  | cons x secs ih =>
    by_cases h : x.name = cstr s
    · simp [find_section, h]
    · have h2 : ¬ (cstr s = x.name) := fun h3 => h h3.symm
      simp [find_section, h, h2, ih]

theorem find_section_name (secs : List config_section_t) (s : Bytes) (x : config_section_t)
    (h : find_section secs s = some x) : x.name = cstr s ∧ x ∈ secs := by
  induction secs with
  | nil => simp [find_section] at h
  | cons y secs ih =>
    by_cases hy : y.name = cstr s
    · simp only [find_section, hy, if_true, Option.some.injEq] at h
      subst h
      exact ⟨hy, List.mem_cons_self _ _⟩
    · simp only [find_section, hy, if_false] at h
      exact ⟨(ih h).1, List.mem_cons_of_mem _ (ih h).2⟩

theorem set_section_entries_names (s : Bytes) (en : List config_entry_t)
    (secs : List config_section_t) :
    (set_section_entries s en secs).map (fun x => x.name) = secs.map (fun x => x.name) := by
  induction secs with
  | nil => rfl
  | cons x secs ih =>
    by_cases h : x.name = cstr s
    · simp [set_section_entries, h]
    · simp [set_section_entries, h, ih]

theorem set_section_entries_mem (s : Bytes) (en : List config_entry_t)
    (secs : List config_section_t) (x : config_section_t)
    (h : x ∈ set_section_entries s en secs) : x ∈ secs ∨ x.entries = en := by
  induction secs with
  | nil => simp [set_section_entries] at h
  | cons y secs ih =>
    by_cases hy : y.name = cstr s
    · simp only [set_section_entries, hy, if_true, List.mem_cons] at h
      rcases h with rfl | h
      · exact Or.inr rfl
      · exact Or.inl (List.mem_cons_of_mem _ h)
    · simp only [set_section_entries, hy, if_false, List.mem_cons] at h
      rcases h with rfl | h
      · exact Or.inl (List.mem_cons_self _ _)
      · rcases ih h with h1 | h1
        · exact Or.inl (List.mem_cons_of_mem _ h1)
        · exact Or.inr h1

theorem find_section_set (s : Bytes) (en : List config_entry_t)
    (secs : List config_section_t) (s1 : Bytes) :
    (find_section (set_section_entries s en secs) s1).map (fun x => x.entries) =
      if cstr s1 = cstr s then (find_section secs s).map (fun _ => en)
      else (find_section secs s1).map (fun x => x.entries) := by
  induction secs with
  | nil => simp [set_section_entries, find_section]
  | cons e es ih =>
    by_cases h : e.name = cstr s
    · by_cases h1 : cstr s1 = cstr s
      · simp [set_section_entries, find_section, h, h1]
      · have h3 : ¬ (cstr s = cstr s1) := fun h3 => h1 h3.symm
        simp [set_section_entries, find_section, h, h1, h3]
    · by_cases h1 : cstr s1 = cstr s
      · have h2 : ¬ (e.name = cstr s1) := fun h3 => h (h3.trans h1)
        simp only [set_section_entries, find_section, h, if_false, h2, h1, if_true] at ih ⊢
        exact ih
      · simp only [set_section_entries, find_section, h, if_false, h1] at ih ⊢
        by_cases h2 : e.name = cstr s1
        · simp [h2]
        · simp only [h2, if_false]
          exact ih

/-- The lookups after the section that `find_section` finds for `s` has been
given the entries `en`. -/
theorem config_lookup_set (s : Bytes) (en : List config_entry_t)
    (secs : List config_section_t) (x : config_section_t)
    (hx : find_section secs s = some x) (s1 k1 : Bytes) :
    config_lookup (set_section_entries s en secs) s1 k1 =
      if cstr s1 = cstr s then (find_entry en k1).map (fun e => e.value)
      else config_lookup secs s1 k1 := by
  have h := find_section_set s en secs s1
  rw [hx] at h
  unfold config_lookup
  by_cases h1 : cstr s1 = cstr s
  · simp only [h1, if_true, Option.map_some'] at h ⊢
    rcases hf : find_section (set_section_entries s en secs) s1 with _ | y
    · rw [hf] at h
      cases h
    · rw [hf] at h
      simp only [Option.map_some', Option.some.injEq] at h
      simp only [Option.some_bind, h]
  · simp only [h1, if_false] at h ⊢
    rcases hf : find_section (set_section_entries s en secs) s1 with _ | y
    · rw [hf] at h
      rcases hg : find_section secs s1 with _ | z
      · rfl
      · rw [hg] at h
        cases h
    · rw [hf] at h
      rcases hg : find_section secs s1 with _ | z
      · rw [hg] at h
        cases h
      · rw [hg] at h
        simp only [Option.map_some', Option.some.injEq] at h
        simp only [Option.some_bind, h]

theorem config_wf_set (s : Bytes) (en : List config_entry_t) (secs : List config_section_t)
    (hwf : config_wf secs) (hen : (en.map (fun e => e.key)).Nodup) :
    config_wf (set_section_entries s en secs) := by
  refine ⟨by rw [set_section_entries_names]; exact hwf.1, fun x hx => ?_⟩
  rcases set_section_entries_mem s en secs x hx with h | h
  · exact hwf.2 x h
  · rw [h]
    exact hen

theorem remove_section_subset (s : Bytes) : ∀ (secs r : List config_section_t),
    remove_section s secs = some r → ∀ x ∈ r, x ∈ secs := by
  intro secs
  induction secs with
  | nil =>
    intro r h
    simp [remove_section] at h
  | cons e es ih =>
    intro r h x hx
    by_cases hk : e.name = cstr s
    · simp only [remove_section, hk, if_true, Option.some.injEq] at h
      subst h
      exact List.mem_cons_of_mem _ hx
    · simp only [remove_section, hk, if_false, Option.map_eq_some'] at h
      obtain ⟨r1, hr1, rfl⟩ := h
      rcases List.mem_cons.mp hx with rfl | hx1
      · exact List.mem_cons_self _ _
      · exact List.mem_cons_of_mem _ (ih r1 hr1 x hx1)

theorem remove_section_spec (s : Bytes) : ∀ (secs r : List config_section_t),
    remove_section s secs = some r → (secs.map (fun x => x.name)).Nodup →
    (r.map (fun x => x.name)).Nodup ∧
    ∀ s1, find_section r s1 = if cstr s1 = cstr s then none else find_section secs s1 := by
  intro secs
  induction secs with
  | nil =>
    intro r h _
    simp [remove_section] at h
  | cons e es ih =>
    intro r h hnd
    rw [List.map_cons, List.nodup_cons] at hnd
    by_cases hk : e.name = cstr s
    · simp only [remove_section, hk, if_true, Option.some.injEq] at h
      subst h
      refine ⟨hnd.2, fun s1 => ?_⟩
      by_cases h1 : cstr s1 = cstr s
      · have hnone : find_section es s1 = none := by
          rw [find_section_none, h1, ← hk]
          exact hnd.1
        simp [h1, hnone]
      · have h2 : ¬ (e.name = cstr s1) := fun h3 => h1 (h3.symm.trans hk)
        simp [find_section, h1, h2]
    · simp only [remove_section, hk, if_false, Option.map_eq_some'] at h
      obtain ⟨r1, hr1, rfl⟩ := h
      obtain ⟨ihnd, ihf⟩ := ih r1 hr1 hnd.2
      refine ⟨?_, fun s1 => ?_⟩
      · rw [List.map_cons, List.nodup_cons]
        refine ⟨fun hmem => hnd.1 ?_, ihnd⟩
        obtain ⟨x, hx, hxe⟩ := List.mem_map.mp hmem
        exact List.mem_map.mpr ⟨x, remove_section_subset s es r1 hr1 x hx, hxe⟩
      · by_cases h2 : e.name = cstr s1
        · have h1 : ¬ (cstr s1 = cstr s) := fun h3 => hk (h2.trans h3)
          simp [find_section, h2, h1]
        · simp only [find_section, h2, if_false]
          exact ihf s1

theorem remove_section_none (s : Bytes) (secs : List config_section_t) :
    remove_section s secs = none ↔ find_section secs s = none := by
  induction secs with
  | nil => simp [remove_section, find_section]
  | cons e es ih =>
    by_cases hk : e.name = cstr s
    · simp [remove_section, find_section, hk]
    · simp [remove_section, find_section, hk, ih]

/-- The ways through `config_set_string` when no argument is `NULL`. -/
theorem config_set_string_cases (env : config_env_t) (fs : fs_t) (config : config_t)
    (s k v : Bytes) :
    (find_section config.sections s = none ∧
      (config_set_string env fs config (some s) (some k) (some v)).code = CONFIG_ERROR_MEMORY ∧
      (config_set_string env fs config (some s) (some k) (some v)).config = config) ∨
    (find_section config.sections s = none ∧
      (config_set_string env fs config (some s) (some k) (some v)).code = CONFIG_ERROR_MEMORY ∧
      (config_set_string env fs config (some s) (some k) (some v)).config =
        { config with sections :=
            ⟨(cstr s).take (CONFIG_MAX_SECTION_LEN - 1), []⟩ :: config.sections }) ∨
    (find_section config.sections s = none ∧
      (config_set_string env fs config (some s) (some k) (some v)).code = CONFIG_SUCCESS ∧
      (config_set_string env fs config (some s) (some k) (some v)).config =
        { config with sections :=
            ⟨(cstr s).take (CONFIG_MAX_SECTION_LEN - 1),
              [⟨(cstr k).take (CONFIG_MAX_KEY_LEN - 1),
                (cstr v).take (CONFIG_MAX_VALUE_LEN - 1)⟩]⟩ :: config.sections }) ∨
    (∃ x, find_section config.sections s = some x ∧
      (config_set_string env fs config (some s) (some k) (some v)).code = CONFIG_ERROR_MEMORY ∧
      (config_set_string env fs config (some s) (some k) (some v)).config = config) ∨
    (∃ x, find_section config.sections s = some x ∧ find_entry x.entries k = none ∧
      (config_set_string env fs config (some s) (some k) (some v)).code = CONFIG_SUCCESS ∧
      (config_set_string env fs config (some s) (some k) (some v)).config =
        { config with sections := set_section_entries s
                        (⟨(cstr k).take (CONFIG_MAX_KEY_LEN - 1),
                          (cstr v).take (CONFIG_MAX_VALUE_LEN - 1)⟩ :: x.entries)
                        config.sections }) ∨
    (∃ x e, find_section config.sections s = some x ∧ find_entry x.entries k = some e ∧
      (config_set_string env fs config (some s) (some k) (some v)).code = CONFIG_SUCCESS ∧
      (config_set_string env fs config (some s) (some k) (some v)).config =
        { config with sections := set_section_entries s (set_entry_value k v x.entries)
                        config.sections }) := by
  rcases hf : find_section config.sections s with _ | x
  · rcases hs : env.malloc_section_ok with _ | _
    · left
      simp [config_set_string, hf, hs]
    · rcases he : env.malloc_entry_ok with _ | _
      · right; left
        simp [config_set_string, hf, hs, he, find_entry]
      · right; right; left
        simp [config_set_string, hf, hs, he, find_entry]
  · rcases hfe : find_entry x.entries k with _ | e
    · rcases he : env.malloc_entry_ok with _ | _
      · right; right; right; left
        exact ⟨x, rfl, by simp [config_set_string, hf, hfe, he],
          by simp [config_set_string, hf, hfe, he]⟩
      · right; right; right; right; left
        exact ⟨x, rfl, hfe, by simp [config_set_string, hf, hfe, he],
          by simp [config_set_string, hf, hfe, he]⟩
    · right; right; right; right; right
      exact ⟨x, e, rfl, hfe, by simp [config_set_string, hf, hfe],
        by simp [config_set_string, hf, hfe]⟩

theorem config_lookup_found (secs : List config_section_t) (s s1 k1 : Bytes)
    (x : config_section_t) (hx : find_section secs s = some x) (h : cstr s1 = cstr s) :
    config_lookup secs s1 k1 = (find_entry x.entries k1).map (fun e => e.value) := by
  unfold config_lookup
  rw [find_section_congr secs s s1 h, hx, Option.some_bind]

theorem config_lookup_missing (secs : List config_section_t) (s s1 k1 : Bytes)
    (hx : find_section secs s = none) (h : cstr s1 = cstr s) :
    config_lookup secs s1 k1 = none := by
  unfold config_lookup
  rw [find_section_congr secs s s1 h, hx, Option.none_bind]

theorem config_lookup_cons (x : config_section_t) (secs : List config_section_t)
    (s1 k1 : Bytes) :
    config_lookup (x :: secs) s1 k1 =
      if x.name = cstr s1 then (find_entry x.entries k1).map (fun e => e.value)
      else config_lookup secs s1 k1 := by
  unfold config_lookup
  by_cases h : x.name = cstr s1
  · simp only [find_section, h, if_true, Option.some_bind]
  · simp only [find_section, h, if_false]

theorem config_codes : CONFIG_ERROR_MEMORY ≠ CONFIG_SUCCESS ∧
    CONFIG_ERROR_NOTFOUND ≠ CONFIG_SUCCESS ∧ CONFIG_ERROR_PARAM ≠ CONFIG_SUCCESS := by
  decide

/-- One `config_set_string` call with a section name and a key that fit their
arrays: the lists stay free of duplicates, a call that returns
`CONFIG_SUCCESS` changes the value found for its section and key and for no
other, and a call that fails changes no value. -/
theorem config_set_string_step (env : config_env_t) (fs : fs_t) (config : config_t)
    (s k v : Bytes) (hwf : config_wf config.sections)
    (hs : strlen s < CONFIG_MAX_SECTION_LEN) (hk : strlen k < CONFIG_MAX_KEY_LEN) :
    config_wf (config_set_string env fs config (some s) (some k) (some v)).config.sections ∧
    ((config_set_string env fs config (some s) (some k) (some v)).code = CONFIG_SUCCESS →
      ∀ s1 k1,
        config_lookup (config_set_string env fs config (some s) (some k) (some v)).config.sections
            s1 k1 =
          if cstr s1 = cstr s ∧ cstr k1 = cstr k then
            some ((cstr v).take (CONFIG_MAX_VALUE_LEN - 1))
          else config_lookup config.sections s1 k1) ∧
    ((config_set_string env fs config (some s) (some k) (some v)).code ≠ CONFIG_SUCCESS →
      ∀ s1 k1,
        config_lookup (config_set_string env fs config (some s) (some k) (some v)).config.sections
            s1 k1 = config_lookup config.sections s1 k1) := by
  have hts : (cstr s).take (CONFIG_MAX_SECTION_LEN - 1) = cstr s :=
    List.take_of_length_le (by unfold strlen at hs; omega)
  have htk : (cstr k).take (CONFIG_MAX_KEY_LEN - 1) = cstr k :=
    List.take_of_length_le (by unfold strlen at hk; omega)
  rcases config_set_string_cases env fs config s k v with
    ⟨_, hc, hr⟩ | ⟨hf, hc, hr⟩ | ⟨hf, hc, hr⟩ | ⟨x, _, hc, hr⟩ | ⟨x, hf, hfe, hc, hr⟩ |
    ⟨x, e, hf, hfe, hc, hr⟩
  · rw [hc, hr]
    exact ⟨hwf, fun h => absurd h config_codes.1, fun _ _ _ => rfl⟩
  · rw [hc, hr, hts]
    refine ⟨⟨?_, ?_⟩, fun h => absurd h config_codes.1, fun _ s1 k1 => ?_⟩
    · rw [List.map_cons, List.nodup_cons]
      exact ⟨(find_section_none _ _).mp hf, hwf.1⟩
    · intro y hy
      rcases List.mem_cons.mp hy with rfl | hy1
      · exact List.nodup_nil
      · exact hwf.2 y hy1
    · rw [config_lookup_cons]
      by_cases h1 : cstr s = cstr s1
      · simp only [h1, if_true, find_entry, Option.map_none']
        exact (config_lookup_missing _ s s1 k1 hf h1.symm).symm
      · simp only [h1, if_false]
  · rw [hc, hr, hts, htk]
    refine ⟨⟨?_, ?_⟩, fun _ s1 k1 => ?_, fun h => absurd rfl h⟩
    · rw [List.map_cons, List.nodup_cons]
      exact ⟨(find_section_none _ _).mp hf, hwf.1⟩
    · intro y hy
      rcases List.mem_cons.mp hy with rfl | hy1
      · exact List.nodup_singleton _
      · exact hwf.2 y hy1
    · rw [config_lookup_cons]
      by_cases h1 : cstr s = cstr s1
      · have h2 : cstr s1 = cstr s := h1.symm
        by_cases h3 : cstr k = cstr k1
        · have h4 : cstr k1 = cstr k := h3.symm
          simp only [h1, if_true, find_entry, h3, Option.map_some', and_self]
        · have h4 : ¬ (cstr k1 = cstr k) := fun h => h3 h.symm
          simp only [h1, if_true, find_entry, h3, h4, if_false, Option.map_none', and_false]
          exact (config_lookup_missing _ s s1 k1 hf h2).symm
      · have h2 : ¬ (cstr s1 = cstr s) := fun h => h1 h.symm
        simp only [h1, h2, if_false, false_and]
  · rw [hc, hr]
    exact ⟨hwf, fun h => absurd h config_codes.1, fun _ _ _ => rfl⟩
  · rw [hc, hr, htk]
    obtain ⟨_, hxmem⟩ := find_section_name _ _ _ hf
    refine ⟨config_wf_set s _ _ hwf ?_, fun _ s1 k1 => ?_, fun h => absurd rfl h⟩
    · rw [List.map_cons, List.nodup_cons]
      exact ⟨(find_entry_none _ _).mp hfe, hwf.2 x hxmem⟩
    · rw [config_lookup_set s _ _ x hf]
      by_cases h1 : cstr s1 = cstr s
      · by_cases h3 : cstr k = cstr k1
        · have h4 : cstr k1 = cstr k := h3.symm
          simp only [h1, if_true, find_entry, h3, Option.map_some', and_self]
        · have h4 : ¬ (cstr k1 = cstr k) := fun h => h3 h.symm
          simp only [h1, if_true, find_entry, h3, h4, if_false, and_false]
          exact (config_lookup_found _ s s1 k1 x hf h1).symm
      · simp only [h1, if_false, false_and]
  · rw [hc, hr]
    obtain ⟨_, hxmem⟩ := find_section_name _ _ _ hf
    refine ⟨config_wf_set s _ _ hwf ?_, fun _ s1 k1 => ?_, fun h => absurd rfl h⟩
    · rw [set_entry_value_keys]
      exact hwf.2 x hxmem
    · rw [config_lookup_set s _ _ x hf, find_entry_set, hfe]
      by_cases h1 : cstr s1 = cstr s
      · by_cases h4 : cstr k1 = cstr k
        · simp only [h1, h4, if_true, Option.map_some', and_self]
        · simp only [h1, h4, if_true, if_false, and_false]
          exact (config_lookup_found _ s s1 k1 x hf h1).symm
      · simp only [h1, if_false, false_and]

/-- One `config_delete_key` call: the lists stay free of duplicates, no value
is found any more for its section and key, and every other value is found as
before. -/
theorem config_delete_key_step (env : config_env_t) (fs : fs_t) (config : config_t)
    (s k : Bytes) (hwf : config_wf config.sections) :
    config_wf (config_delete_key env fs config (some s) (some k)).config.sections ∧
    ∀ s1 k1,
      config_lookup (config_delete_key env fs config (some s) (some k)).config.sections s1 k1 =
        if cstr s1 = cstr s ∧ cstr k1 = cstr k then none
        else config_lookup config.sections s1 k1 := by
  rcases hf : find_section config.sections s with _ | x
  · have hr : (config_delete_key env fs config (some s) (some k)).config = config := by
      simp only [config_delete_key, hf]
    rw [hr]
    refine ⟨hwf, fun s1 k1 => ?_⟩
    by_cases h : cstr s1 = cstr s ∧ cstr k1 = cstr k
    · rw [if_pos h]
      exact config_lookup_missing _ s s1 k1 hf h.1
    · rw [if_neg h]
  · obtain ⟨_, hxmem⟩ := find_section_name _ _ _ hf
    rcases hre : remove_entry k x.entries with _ | en
    · have hr : (config_delete_key env fs config (some s) (some k)).config = config := by
        simp only [config_delete_key, hf, hre]
      rw [hr]
      refine ⟨hwf, fun s1 k1 => ?_⟩
      by_cases h : cstr s1 = cstr s ∧ cstr k1 = cstr k
      · rw [if_pos h, config_lookup_found _ s s1 k1 x hf h.1, find_entry_congr _ k k1 h.2,
          (remove_entry_none k x.entries).mp hre]
        rfl
      · rw [if_neg h]
    · have hr : (config_delete_key env fs config (some s) (some k)).config =
          { config with sections := set_section_entries s en config.sections } := by
        simp only [config_delete_key, hf, hre]
      obtain ⟨hnd, hfind⟩ := remove_entry_spec k x.entries en hre (hwf.2 x hxmem)
      rw [hr]
      refine ⟨config_wf_set s en _ hwf hnd, fun s1 k1 => ?_⟩
      rw [config_lookup_set s en _ x hf, hfind]
      by_cases h1 : cstr s1 = cstr s
      · by_cases h2 : cstr k1 = cstr k
        · simp only [h1, h2, if_true, and_self]
        · simp only [h1, h2, if_true, if_false, and_false]
          exact (config_lookup_found _ s s1 k1 x hf h1).symm
      · simp only [h1, if_false, false_and]

/-- One `config_delete_section` call: the lists stay free of duplicates, no
value is found any more under its section, and the values of every other
section are found as before. -/
theorem config_delete_section_step (env : config_env_t) (fs : fs_t) (config : config_t)
    (s : Bytes) (hwf : config_wf config.sections) :
    config_wf (config_delete_section env fs config (some s)).config.sections ∧
    ∀ s1 k1,
      config_lookup (config_delete_section env fs config (some s)).config.sections s1 k1 =
        if cstr s1 = cstr s then none else config_lookup config.sections s1 k1 := by
  rcases hre : remove_section s config.sections with _ | r
  · have hr : (config_delete_section env fs config (some s)).config = config := by
      simp only [config_delete_section, hre]
    rw [hr]
    refine ⟨hwf, fun s1 k1 => ?_⟩
    by_cases h : cstr s1 = cstr s
    · rw [if_pos h]
      exact config_lookup_missing _ s s1 k1 ((remove_section_none s _).mp hre) h
    · rw [if_neg h]
  · have hr : (config_delete_section env fs config (some s)).config =
        { config with sections := r } := by
      simp only [config_delete_section, hre]
    obtain ⟨hnd, hfind⟩ := remove_section_spec s _ r hre hwf.1
    rw [hr]
    refine ⟨⟨hnd, fun y hy => hwf.2 y (remove_section_subset s _ r hre y hy)⟩,
      fun s1 k1 => ?_⟩
    simp only [config_lookup, hfind]
    by_cases h : cstr s1 = cstr s
    · simp only [h, if_true, Option.none_bind]
    · simp only [h, if_false]

/-- No sequence of calls with names that fit creates a duplicate section or
key. -/
theorem config_calls_wf (calls : List config_call_t) : ∀ (config : config_t) (fs : fs_t),
    config_wf config.sections → (∀ c ∈ calls, short_names c) →
    config_wf (config_calls calls config fs).1.sections := by
  induction calls with
  | nil =>
    intro config fs h _
    exact h
  | cons c cs ih =>
    intro config fs h hshort
    have hc := hshort c (List.mem_cons_self _ _)
    have hcs : ∀ c1 ∈ cs, short_names c1 := fun c1 h1 => hshort c1 (List.mem_cons_of_mem _ h1)
    rw [config_calls]
    apply ih _ _ _ hcs
    rcases c with ⟨env, s, k, v⟩ | ⟨env, s, k⟩ | ⟨env, s⟩
    · exact (config_set_string_step env fs config s k v h hc.1 hc.2).1
    · exact (config_delete_key_step env fs config s k h).1
    · exact (config_delete_section_step env fs config s h).1

theorem config_get_string_none (c : config_t) (s k : Bytes) (d : Option Bytes)
    (h : config_lookup c.sections s k = none) :
    config_get_string (some c) (some s) (some k) d = d := by
  rw [config_get_string_lookup, h]

theorem config_get_string_same (c1 c2 : config_t) (s k : Bytes) (d : Option Bytes)
    (h : config_lookup c1.sections s k = config_lookup c2.sections s k) :
    config_get_string (some c1) (some s) (some k) d =
      config_get_string (some c2) (some s) (some k) d := by
  rw [config_get_string_lookup, config_get_string_lookup, h]

/-- C33 (amended). Take the configuration that `config_create` returns through
any sequence of `config_set_string`, `config_delete_key` and
`config_delete_section` calls whose section names and keys are shorter than 256
characters. Before any call `config_get_string` returns the default. On the
configuration reached, for a section name `s` and a key `k` shorter than 256
characters and a value `v` shorter than 1024: after a `config_set_string` of
`(s, k, v)` that returns `CONFIG_SUCCESS`, `config_get_string` returns `v` for
`(s, k)`; after `config_delete_key` of `(s, k)` it returns the default for
`(s, k)`; after `config_delete_section` of `s` it returns the default for every
key of `s`; and each of the three calls leaves the result for every other
section and key as it was. -/
theorem config_store_map (filename : Option Bytes) (calls : List config_call_t) (fs0 : fs_t)
    (config : config_t) (fs : fs_t) (env : config_env_t) (s k v : Bytes) (d : Option Bytes)
    (hshort : ∀ c ∈ calls, short_names c)
    (hrun : config_calls calls (config_create filename) fs0 = (config, fs))
    (hs : strlen s < CONFIG_MAX_SECTION_LEN) (hk : strlen k < CONFIG_MAX_KEY_LEN)
    (hv : strlen v < CONFIG_MAX_VALUE_LEN) :
    (∀ s1 k1, config_get_string (some (config_create filename)) (some s1) (some k1) d = d) ∧
    ((config_set_string env fs config (some s) (some k) (some v)).code = CONFIG_SUCCESS →
      config_get_string (some (config_set_string env fs config (some s) (some k) (some v)).config)
        (some s) (some k) d = some (cstr v)) ∧
    (∀ s1 k1, ¬ (cstr s1 = cstr s ∧ cstr k1 = cstr k) →
      config_get_string (some (config_set_string env fs config (some s) (some k) (some v)).config)
        (some s1) (some k1) d = config_get_string (some config) (some s1) (some k1) d) ∧
    config_get_string (some (config_delete_key env fs config (some s) (some k)).config)
      (some s) (some k) d = d ∧
    (∀ s1 k1, ¬ (cstr s1 = cstr s ∧ cstr k1 = cstr k) →
      config_get_string (some (config_delete_key env fs config (some s) (some k)).config)
        (some s1) (some k1) d = config_get_string (some config) (some s1) (some k1) d) ∧
    (∀ k1, config_get_string (some (config_delete_section env fs config (some s)).config)
      (some s) (some k1) d = d) ∧
    (∀ s1 k1, cstr s1 ≠ cstr s →
      config_get_string (some (config_delete_section env fs config (some s)).config)
        (some s1) (some k1) d = config_get_string (some config) (some s1) (some k1) d) := by
  have hwf0 : config_wf (config_create filename).sections :=
    ⟨List.nodup_nil, fun _ h => absurd h (List.not_mem_nil _)⟩
  have hwf : config_wf config.sections := by
    have := config_calls_wf calls (config_create filename) fs0 hwf0 hshort
    rw [hrun] at this
    exact this
  obtain ⟨_, hset, hfail⟩ := config_set_string_step env fs config s k v hwf hs hk
  obtain ⟨_, hdel⟩ := config_delete_key_step env fs config s k hwf
  obtain ⟨_, hsec⟩ := config_delete_section_step env fs config s hwf
  have htv : (cstr v).take (CONFIG_MAX_VALUE_LEN - 1) = cstr v :=
    List.take_of_length_le (by unfold strlen at hv; omega)
  refine ⟨fun s1 k1 => rfl, fun hcode => ?_, fun s1 k1 hne => ?_, ?_, fun s1 k1 hne => ?_,
    fun k1 => ?_, fun s1 k1 hne => ?_⟩
  · rw [config_get_string_lookup, hset hcode s k, if_pos ⟨rfl, rfl⟩, htv]
  · apply config_get_string_same
    by_cases hcode : (config_set_string env fs config (some s) (some k) (some v)).code =
        CONFIG_SUCCESS
    · rw [hset hcode s1 k1, if_neg hne]
    · exact hfail hcode s1 k1
  · apply config_get_string_none
    rw [hdel s k, if_pos ⟨rfl, rfl⟩]
  · apply config_get_string_same
    rw [hdel s1 k1, if_neg hne]
  · apply config_get_string_none
    rw [hsec s k1, if_pos rfl]
  · apply config_get_string_same
    rw [hsec s1 k1, if_neg hne]

set_option maxRecDepth 100000 in
/-- C33 (counterexample). On a fresh configuration,
`config_set_string(config, "network", key, "v")` with a key of 256 characters
`a` returns `CONFIG_SUCCESS`, the value being shorter than 1024 characters; yet
`config_get_string` for that section and key still returns the default `d`,
and the result for another key, the one of 255 characters `a`, has changed
from the default to `v`. -/
theorem config_long_key_lost :
    (config_set_string config_env empty_fs (config_create none) (some network_text)
      (some long_key) (some [118])).code = CONFIG_SUCCESS ∧
    config_get_string (some (config_set_string config_env empty_fs (config_create none)
        (some network_text) (some long_key) (some [118])).config)
      (some network_text) (some long_key) (some [100]) = some [100] ∧
    config_get_string (some (config_create none))
      (some network_text) (some (List.replicate 255 97)) (some [100]) = some [100] ∧
    config_get_string (some (config_set_string config_env empty_fs (config_create none)
        (some network_text) (some long_key) (some [118])).config)
      (some network_text) (some (List.replicate 255 97)) (some [100]) = some [118] := by
  decide

/-- The unit test: after `host` and `port` have been set under `network`, a new
value for `host` is returned for `host` and leaves `port` as it was, and
deleting `host` brings its default back. -/
theorem config_store_map_witness :
    config_get_string (some (config_set_string config_env
        (config_calls sample_config_calls (config_create (some config_file_name)) empty_fs).2
        sample_config (some network_text) (some host_text) (some port_value_text)).config)
      (some network_text) (some host_text) (some []) = some (cstr port_value_text) ∧
    config_get_string (some (config_set_string config_env
        (config_calls sample_config_calls (config_create (some config_file_name)) empty_fs).2
        sample_config (some network_text) (some host_text) (some port_value_text)).config)
      (some network_text) (some port_text) (some []) =
      config_get_string (some sample_config) (some network_text) (some port_text) (some []) ∧
    config_get_string (some (config_delete_key config_env
        (config_calls sample_config_calls (config_create (some config_file_name)) empty_fs).2
        sample_config (some network_text) (some host_text)).config)
      (some network_text) (some host_text) (some []) = some [] :=
  have h := config_store_map (some config_file_name) sample_config_calls empty_fs sample_config
    (config_calls sample_config_calls (config_create (some config_file_name)) empty_fs).2
    config_env network_text host_text port_value_text (some [])
    (by decide) rfl (by decide) (by decide) (by decide)
  ⟨h.2.1 (by decide), h.2.2.1 network_text port_text (by decide), h.2.2.2.1⟩
/-! ## Loading what `save_config_to_file` wrote -/

theorem plain_text_mem (l : Bytes) (h : plain_text l = true) :
    l ≠ [] ∧ ∀ x ∈ l, isspace x = false ∧ x ≠ 0 ∧ x ≠ 34 ∧ x ≠ 61 ∧ x ≠ 91 ∧ x ≠ 93 ∧
      x ≠ 59 ∧ x ≠ 35 := by
  simp only [plain_text, Bool.and_eq_true, bne_iff_ne, ne_eq, List.all_eq_true,
    Bool.not_eq_true'] at h
  exact ⟨h.1, fun x hx => by
    obtain ⟨⟨⟨⟨⟨⟨⟨h1, h2⟩, h3⟩, h4⟩, h5⟩, h6⟩, h7⟩, h8⟩ := h.2 x hx
    exact ⟨h1, h2, h3, h4, h5, h6, h7, h8⟩⟩

/-- A string that neither starts nor ends with white space is left as it is by
`trim_string`. -/
theorem trim_string_ends (l : Bytes)
    (hh : ∀ c, l.head? = some c → isspace c = false)
    (hl : ∀ z, l.getLast? = some z → isspace z = false) : trim_string l = l := by
  rcases l with _ | ⟨c, t⟩
  · rfl
  have hc : isspace c = false := hh c rfl
  have hrev : ((c :: t).reverse.dropWhile isspace) = (c :: t).reverse := by
    rcases hr : (c :: t).reverse with _ | ⟨z, r⟩
    · rfl
    · have hz : (c :: t).getLast? = some z := by
        rw [List.getLast?_eq_head?_reverse, hr]
        rfl
      simp only [List.dropWhile, hl z hz]
  simp only [trim_string, List.takeWhile, List.dropWhile, hc, hrev, List.reverse_reverse,
    List.nil_append]

/-- On white space, then characters none of which is white space, then white
space again, `trim_string` cuts off the trailing white space only. -/
theorem trim_string_plain (lead l trail : Bytes) (hlead : ∀ c ∈ lead, isspace c = true)
    (htrail : ∀ c ∈ trail, isspace c = true) (hne : l ≠ [])
    (hl : ∀ c ∈ l, isspace c = false) : trim_string (lead ++ l ++ trail) = lead ++ l := by
  rcases l with _ | ⟨c, t⟩
  · exact absurd rfl hne
  have hc : isspace c = false := hl c (List.mem_cons_self _ _)
  have he : lead ++ c :: t ++ trail = lead ++ c :: (t ++ trail) := by simp
  obtain ⟨h1, h2⟩ := takeWhile_append_stop isspace lead (t ++ trail) c hlead hc
  rcases hr : (c :: t).reverse with _ | ⟨z, r⟩
  · simp at hr
  have hz : isspace z = false := by
    apply hl z
    rw [← List.mem_reverse, hr]
    exact List.mem_cons_self _ _
  obtain ⟨_, h4⟩ := takeWhile_append_stop isspace trail.reverse r z
    (fun x hx => htrail x (List.mem_reverse.mp hx)) hz
  have hrev : (c :: (t ++ trail)).reverse = trail.reverse ++ z :: r := by
    rw [← hr]
    simp
  rw [trim_string, he, h1, h2, hrev, h4, ← hr, List.reverse_reverse]

/-- The line `key = value` that `save_config_to_file` writes for an entry is
taken apart by `parse_line` into the key and the value with the blank that
follows the `=` still in front of it. -/
theorem parse_line_entry (k v : Bytes) (hk : plain_text k = true) (hv : plain_text v = true)
    (hkl : k.length < CONFIG_MAX_KEY_LEN) (hvl : v.length + 1 < CONFIG_MAX_VALUE_LEN) :
    parse_line (k ++ [32, 61, 32] ++ v) = some ([], k, 32 :: v) := by
  obtain ⟨hkne, hkm⟩ := plain_text_mem k hk
  obtain ⟨hvne, hvm⟩ := plain_text_mem v hv
  rcases k with _ | ⟨c, t⟩
  · exact absurd rfl hkne
  have hc := hkm c (List.mem_cons_self _ _)
  have hptr : (c :: t ++ [32, 61, 32] ++ v).dropWhile isspace = c :: (t ++ [32, 61, 32] ++ v) := by
    simp only [List.cons_append, List.dropWhile, hc.1]
    rfl
  have hsplit : c :: (t ++ [32, 61, 32] ++ v) = (c :: t ++ [32]) ++ 61 :: (32 :: v) := by simp
  obtain ⟨h1, h2⟩ := takeWhile_append_stop (fun x => x != 61) (c :: t ++ [32]) (32 :: v) 61
    (fun x hx => by
      rcases List.mem_append.mp hx with h | h
      · simpa using (hkm x h).2.2.2.1
      · rw [List.mem_singleton] at h
        subst h
        decide)
    (by decide)
  have hkey : trim_string (c :: t ++ [32]) = c :: t := by
    have := trim_string_plain [] (c :: t) [32] (fun _ h => absurd h (List.not_mem_nil _))
      (fun x hx => by rw [List.mem_singleton] at hx; subst hx; decide) hkne
      (fun x hx => (hkm x hx).1)
    simpa using this
  have hval : trim_string (32 :: v) = 32 :: v := by
    have := trim_string_plain [32] v [] (fun x hx => by
        rw [List.mem_singleton] at hx; subst hx; decide)
      (fun _ h => absurd h (List.not_mem_nil _)) hvne (fun x hx => (hvm x hx).1)
    simpa using this
  have hmem : 61 ∈ (c :: t ++ [32]) ++ 61 :: (32 :: v) := by simp
  unfold parse_line
  simp only [hptr]
  rw [if_neg hc.2.2.2.2.1, hsplit, if_pos hmem]
  simp only [h1, h2, hkey, hval, List.drop_one, List.tail_cons, List.head?_cons,
    Option.some.injEq, show ¬ ((32 : Nat) = 34) by decide, false_and, if_false]
  rw [List.take_of_length_le (by unfold CONFIG_MAX_KEY_LEN at *; omega),
    List.take_of_length_le (by
      unfold CONFIG_MAX_VALUE_LEN at *; simp only [List.length_cons]; omega)]

/-- The pass of the loop of `config_load` over the line `key = value` of a
saved file, under a section: `config_set` is called with the value that still
has the blank in front. -/
theorem config_load_line_entry (config_set : config_t → Bytes → Bytes → Bytes → config_t)
    (state : Bytes × config_t) (k v : Bytes)
    (hk : plain_text k = true) (hv : plain_text v = true)
    (hkl : k.length < CONFIG_MAX_KEY_LEN) (hvl : v.length + 1 < CONFIG_MAX_VALUE_LEN)
    (hsec : state.1 ≠ []) :
    config_load_line config_set state (k ++ [32, 61, 32] ++ v ++ [10]) =
      (state.1, config_set state.2 state.1 k (32 :: v)) := by
  obtain ⟨hkne, hkm⟩ := plain_text_mem k hk
  obtain ⟨hvne, hvm⟩ := plain_text_mem v hv
  have hbody : ∀ x ∈ k ++ [32, 61, 32] ++ v, x ≠ 0 ∧ x ≠ 10 ∧ x ≠ 13 := by
    intro x hx
    simp only [List.mem_append, List.mem_cons, List.mem_singleton, List.not_mem_nil,
      or_false] at hx
    rcases hx with (h | h | h | h) | h
    · obtain ⟨h1, h2, _⟩ := hkm x h
      refine ⟨h2, ?_, ?_⟩ <;>
      · rintro rfl
        revert h1
        decide
    · subst h
      decide
    · subst h
      decide
    · subst h
      decide
    · obtain ⟨h1, h2, _⟩ := hvm x h
      refine ⟨h2, ?_, ?_⟩ <;>
      · rintro rfl
        revert h1
        decide
  have h0 : cstr (k ++ [32, 61, 32] ++ v ++ [10]) = k ++ [32, 61, 32] ++ v ++ [10] := by
    apply cstr_of_nonzero
    intro x hx
    rcases List.mem_append.mp hx with h | h
    · exact (hbody x h).1
    · rw [List.mem_singleton] at h
      subst h
      decide
  have h10 : (k ++ [32, 61, 32] ++ v ++ [10]).takeWhile (fun x => x != 10) =
      k ++ [32, 61, 32] ++ v :=
    (takeWhile_append_stop (fun x => x != 10) (k ++ [32, 61, 32] ++ v) [] 10
      (fun x hx => by simpa using (hbody x hx).2.1) (by decide)).1
  have h13 : (k ++ [32, 61, 32] ++ v).takeWhile (fun x => x != 13) = k ++ [32, 61, 32] ++ v := by
    rw [List.takeWhile_eq_self_iff]
    intro x hx
    simpa using (hbody x hx).2.2
  rcases k with _ | ⟨c, t⟩
  · exact absurd rfl hkne
  have hc := hkm c (List.mem_cons_self _ _)
  have htrim : trim_string (c :: t ++ [32, 61, 32] ++ v) = c :: t ++ [32, 61, 32] ++ v := by
    apply trim_string_ends
    · intro x hx
      simp only [List.cons_append, List.head?_cons, Option.some.injEq] at hx
      subst hx
      exact hc.1
    · intro z hz
      rw [List.getLast?_append_of_ne_nil _ hvne] at hz
      exact (hvm z (List.mem_of_getLast?_eq_some hz)).1
  have hhead : (c :: t ++ [32, 61, 32] ++ v).head? = some c := rfl
  have hparse := parse_line_entry (c :: t) v hk hv hkl hvl
  unfold config_load_line
  simp only [h0, h10, h13, htrim, hhead, hparse, Option.some.injEq, hc.2.2.2.2.2.2.1,
    hc.2.2.2.2.2.2.2, or_self, if_false, ne_eq, not_true_eq_false, hsec,
    not_false_eq_true, if_true, reduceCtorEq]

set_option maxRecDepth 100000 in
theorem config_reload_sample :
    saved_fs saved_file_name = some (config_text config_env.date sample_config.sections) ∧
    (config_load storing_config_set (some 5) saved_fs (config_clear sample_config)
      (some saved_file_name)).1 = CONFIG_SUCCESS ∧
    config_get_string (some (config_load storing_config_set (some 5) saved_fs
        (config_clear sample_config) (some saved_file_name)).2)
      (some network_text) (some host_text) (some []) = some (32 :: localhost_text) := by
  decide

/-- C32 (code defect). For every key and value of the kind the round trip asks
for, the line `key = value` that `save_config_to_file` writes is read back by
`config_load` with the blank after the `=` kept in the value: `parse_line`
returns the value ` value`, and the loop passes that to `config_set`, whatever
`config_set` is. On the configuration of the unit test, saved to
`test_config_saved.ini`, cleared and loaded again with a `config_set` that
stores what it is given, `config_get_string` for `network`, `host` returns
` 127.0.0.1` where `127.0.0.1` was saved. -/
theorem config_load_keeps_blank (config_set : config_t → Bytes → Bytes → Bytes → config_t)
    (state : Bytes × config_t) (k v : Bytes)
    (hk : plain_text k = true) (hv : plain_text v = true)
    (hkl : k.length < CONFIG_MAX_KEY_LEN) (hvl : v.length + 1 < CONFIG_MAX_VALUE_LEN)
    (hsec : state.1 ≠ []) :
    parse_line (k ++ [32, 61, 32] ++ v) = some ([], k, 32 :: v) ∧
    config_load_line config_set state (k ++ [32, 61, 32] ++ v ++ [10]) =
      (state.1, config_set state.2 state.1 k (32 :: v)) ∧
    (config_load storing_config_set (some 5) saved_fs (config_clear sample_config)
      (some saved_file_name)).1 = CONFIG_SUCCESS ∧
    config_get_string (some (config_load storing_config_set (some 5) saved_fs
        (config_clear sample_config) (some saved_file_name)).2)
      (some network_text) (some host_text) (some []) = some (32 :: localhost_text) :=
  ⟨parse_line_entry k v hk hv hkl hvl,
    config_load_line_entry config_set state k v hk hv hkl hvl hsec,
    config_reload_sample.2⟩

/-- The line `host = 127.0.0.1` under the section `network`. -/
theorem config_load_keeps_blank_witness :
    parse_line (host_text ++ [32, 61, 32] ++ localhost_text) =
      some ([], host_text, 32 :: localhost_text) ∧
    config_load_line storing_config_set (network_text, config_clear sample_config)
        (host_text ++ [32, 61, 32] ++ localhost_text ++ [10]) =
      (network_text, storing_config_set (config_clear sample_config) network_text host_text
        (32 :: localhost_text)) :=
  have h := config_load_keeps_blank storing_config_set
    (network_text, config_clear sample_config) host_text localhost_text
    (by decide) (by decide) (by decide) (by decide) (by decide)
  ⟨h.1, h.2.1⟩

/-! ## `str_replace` with a non-empty `old` -/

theorem replace_all_skip (old new : Bytes) : ∀ (s : Bytes) (n : Nat),
    replace_all old new s n = replace_all old new (s.drop n) 0 := by
  intro s
  induction s with
  | nil =>
    intro n
    cases n <;> simp [replace_all]
  | cons c s ih =>
    intro n
    cases n with
    | zero => rfl
    | succ n =>
      rw [replace_all, List.drop_succ_cons]
      exact ih n

theorem strstr_none (old new : Bytes) : ∀ s : Bytes, strstr s old = none →
    replace_all old new s 0 = s := by
  intro s
  induction s with
  | nil =>
    intro _
    rfl
  | cons c s ih =>
    intro h
    rw [strstr] at h
    split_ifs at h with hp
    rw [Option.map_eq_none'] at h
    rw [replace_all, if_neg (fun hc => hp hc.2), ih h]

theorem strstr_some (old new : Bytes) (hold : old ≠ []) : ∀ (s : Bytes) (k : Nat),
    strstr s old = some k →
    k + old.length ≤ s.length ∧
    replace_all old new s 0 =
      s.take k ++ new ++ replace_all old new (s.drop (k + old.length)) 0 := by
  intro s
  induction s with
  | nil =>
    intro k h
    rw [strstr, if_neg hold] at h
    cases h
  | cons c s ih =>
    intro k h
    rw [strstr] at h
    split_ifs at h with hp
    · simp only [Option.some.injEq] at h
      subst h
      have hlen : old.length ≤ (c :: s).length := by
        have := congrArg List.length hp
        rw [List.length_take] at this
        omega
      have hpos : 0 < old.length := List.length_pos.mpr hold
      refine ⟨by omega, ?_⟩
      rw [replace_all, if_pos ⟨hold, hp⟩, replace_all_skip]
      have hd : (c :: s).drop (0 + old.length) = s.drop (old.length - 1) := by
        obtain ⟨n, hn⟩ : ∃ n, old.length = n + 1 := ⟨old.length - 1, by omega⟩
        rw [hn, Nat.zero_add, List.drop_succ_cons, Nat.add_sub_cancel]
      rw [hd]
      simp
    · rw [Option.map_eq_some'] at h
      obtain ⟨k1, hk1, rfl⟩ := h
      obtain ⟨hle, hrep⟩ := ih k1 hk1
      refine ⟨by simp only [List.length_cons]; omega, ?_⟩
      rw [replace_all, if_neg (fun hc => hp hc.2), hrep]
      have hd : (c :: s).drop (k1 + 1 + old.length) = s.drop (k1 + old.length) := by
        have : k1 + 1 + old.length = (k1 + old.length) + 1 := by omega
        rw [this, List.drop_succ_cons]
      rw [hd]
      simp

/-- The two loops of `str_replace` on a non-empty `old`: the counting loop ends
within `tmp.length + 1` passes with the number `m` of occurrences found, and the
copying loop run `m` times builds the reference text. -/
theorem str_replace_loops (old new : Bytes) (hold : old ≠ []) : ∀ (n : Nat) (tmp : Bytes),
    tmp.length ≤ n →
    ∃ m, m ≤ tmp.length ∧
      (∀ fuel count, tmp.length < fuel → count + m < 2^31 →
        str_replace_count old fuel tmp count = some (count + m)) ∧
      (∀ current, str_replace_build old new m tmp current =
        some (current ++ replace_all old new tmp 0)) ∧
      (replace_all old new tmp 0).length + m * old.length = tmp.length + m * new.length := by
  intro n
  induction n with
  | zero =>
    intro tmp hlen
    have ht : tmp = [] := List.length_eq_zero.mp (Nat.le_zero.mp hlen)
    subst ht
    refine ⟨0, Nat.le_refl 0, fun fuel count hf _ => ?_, fun current => ?_, ?_⟩
    · obtain ⟨f, rfl⟩ : ∃ f, fuel = f + 1 := ⟨fuel - 1, by simp at hf; omega⟩
      simp only [str_replace_count, strstr, if_neg hold, Nat.add_zero]
    · simp only [str_replace_build, replace_all]
    · simp [replace_all]
  | succ n ih =>
    intro tmp hlen
    rcases hs : strstr tmp old with _ | k
    · refine ⟨0, Nat.zero_le _, fun fuel count hf _ => ?_, fun current => ?_, ?_⟩
      · obtain ⟨f, rfl⟩ : ∃ f, fuel = f + 1 := ⟨fuel - 1, by omega⟩
        simp only [str_replace_count, hs, Nat.add_zero]
      · simp only [str_replace_build, strstr_none old new tmp hs]
      · simp [strstr_none old new tmp hs]
    · obtain ⟨hk, hrep⟩ := strstr_some old new hold tmp k hs
      have hpos : 0 < old.length := List.length_pos.mpr hold
      have hdrop : (tmp.drop (k + old.length)).length = tmp.length - (k + old.length) :=
        List.length_drop _ _
      obtain ⟨m, hm, hcount, hbuild, hsize⟩ := ih (tmp.drop (k + old.length))
        (by rw [hdrop]; omega)
      refine ⟨m + 1, by rw [hdrop] at hm; omega, fun fuel count hf hc => ?_,
        fun current => ?_, ?_⟩
      · obtain ⟨f, rfl⟩ : ∃ f, fuel = f + 1 := ⟨fuel - 1, by omega⟩
        have hnot : ¬ (count + 1 ≥ 2^31) := by omega
        simp only [str_replace_count, hs, hnot, if_false]
        rw [hcount f (count + 1) (by rw [hdrop]; omega) (by omega)]
        congr 1
        omega
      · simp only [str_replace_build, hs]
        rw [hbuild, hrep]
        simp
      · rw [hrep]
        simp only [List.length_append, List.length_take, Nat.min_eq_left (by omega : k ≤ tmp.length)]
        rw [hdrop] at hsize
        rw [Nat.add_mul, Nat.add_mul, Nat.one_mul, Nat.one_mul]
        omega

/-- The block size that `str_replace` computes in `size_t`, with the wrapped
difference `new_len - old_len`, is the length of the result plus one. -/
theorem str_replace_new_size (str_len old_len new_len m r : Nat)
    (hsize : r + m * old_len = str_len + m * new_len)
    (hold : old_len < 2^64) (hr : r + 1 < 2^64) :
    (str_len + m * ((new_len + 2^64 - old_len) % 2^64) + 1) % 2^64 = r + 1 := by
  have h1 : m * ((new_len + 2^64 - old_len) % 2^64) % 2^64 =
      m * (new_len + 2^64 - old_len) % 2^64 := Nat.mul_mod_mod _ _ _
  have h2 : m * (new_len + 2^64 - old_len) + m * old_len = m * new_len + m * 2^64 := by
    rw [← Nat.mul_add, ← Nat.mul_add]
    congr 1
    omega
  have h3 : str_len + m * (new_len + 2^64 - old_len) + 1 = r + 1 + m * 2^64 := by omega
  calc (str_len + m * ((new_len + 2^64 - old_len) % 2^64) + 1) % 2^64
      = (str_len + 1 + m * ((new_len + 2^64 - old_len) % 2^64)) % 2^64 := by
        congr 1
        omega
    _ = (str_len + 1 + m * (new_len + 2^64 - old_len)) % 2^64 := by
        rw [Nat.add_mod, h1, ← Nat.add_mod]
    _ = (r + 1 + m * 2^64) % 2^64 := by
        congr 1
        omega
    _ = r + 1 := by
        rw [Nat.add_mul_mod_self_right]
        exact Nat.mod_eq_of_lt hr

/-- C38 (code defect). When `old` is the empty string, `str_replace` does not
return, whatever `str` and `new` are and however many passes its counting loop
is given: each pass finds the empty string at `tmp`, adds one to `count` and
leaves `tmp` where it is, until `count` overflows. When `old` is not empty
(and `str` is shorter than 2^31 characters, the result fitting `size_t`, and
`malloc` succeeds) the call returns once its counting loop has been given more
passes than `str` has characters, and the result is `str` with every
occurrence of `old`, found scanning left to right and not overlapping an
earlier one, replaced by `new`. -/
theorem str_replace_spec (str old new : Bytes) :
    (cstr old = [] → ∀ malloc_ok fuel,
      str_replace malloc_ok fuel (some str) (some old) (some new) = none) ∧
    (cstr old ≠ [] → strlen str < 2^31 → strlen old < 2^64 →
      (replace_all (cstr old) (cstr new) (cstr str) 0).length + 1 < 2^64 →
      ∀ fuel, strlen str < fuel →
        str_replace true fuel (some str) (some old) (some new) =
          some (some (replace_all (cstr old) (cstr new) (cstr str) 0))) := by
  constructor
  · intro h malloc_ok fuel
    unfold str_replace
    simp only [h]
    rw [str_replace_count_empty]
  · intro hold hlen holen hres fuel hfuel
    obtain ⟨m, hm, hcount, hbuild, hsize⟩ :=
      str_replace_loops (cstr old) (cstr new) hold (cstr str).length (cstr str) (Nat.le_refl _)
    have hc := hcount fuel 0 hfuel (by unfold strlen at hlen; omega)
    rw [Nat.zero_add] at hc
    have hb := hbuild []
    rw [List.nil_append] at hb
    have hns := str_replace_new_size (strlen str) (strlen old) (strlen new) m _ hsize holen hres
    unfold str_replace
    simp only [hc, hb, hns, Bool.not_true, Bool.false_eq_true, if_false, Nat.le_refl, if_true]

/-- The calls `str_replace("Hello World", "", "Universe")`, which does not
return, and `str_replace("Hello World", "World", "Universe")` of the unit test,
which returns `Hello Universe`. -/
theorem str_replace_spec_witness :
    (∀ malloc_ok fuel, str_replace malloc_ok fuel (some hello_world_text) (some [0])
      (some universe_text) = none) ∧
    str_replace true 12 (some hello_world_text) (some world_text) (some universe_text) =
      some (some ([72, 101, 108, 108, 111, 32] ++ universe_text)) :=
  ⟨(str_replace_spec hello_world_text [0] universe_text).1 (by decide),
    (str_replace_spec hello_world_text world_text universe_text).2 (by decide) (by decide)
      (by decide) (by decide) 12 (by decide)⟩

end Cryptcat
